import Mathlib

/-!
# ElysiumOS kernel: VM region manager, interrupt table, scheduler, ELF loader

A shallow embedding of `kernel/src/memory/vm.c`, `kernel/src/cpu/interrupt.c`,
`kernel/src/arch/x86_64/sched.c` and the page loop of `kernel/src/lib/elf.c`.

* `uintptr_t` / `size_t` values are natural numbers; every C addition and
  subtraction is taken modulo `2^64` (`uadd`, `usub`).
* A pointer to an address space is a natural-number handle into
  `vm_state.address_spaces`; the region list of an address space is the Lean
  list of its descriptors in `LIST_FOREACH` order, and a pointer to a linked
  descriptor is its position in that list.
* Code that can stop without returning (an `ASSERT`, the dereference of a
  missing `pmm_page_t`) returns `Except.error`; loops are bounded by a fuel
  argument and running out of it is an error of its own.
* Spinlocks appear only as the traces of acquisitions and releases of the
  functions of `vm.c` (`*_locks`); logging is not modelled.
-/

namespace Elysium

/-! ## Machine integers -/

/-- Number of values of a `uintptr_t` / `size_t`: `2^64`. -/
def UINTPTR_SIZE : Nat := 18446744073709551616

/-- C addition on `uintptr_t`. -/
def uadd (a b : Nat) : Nat := (a + b) % UINTPTR_SIZE

/-- C subtraction on `uintptr_t` (for operands below `2^64`). -/
def usub (a b : Nat) : Nat := (a + UINTPTR_SIZE - b) % UINTPTR_SIZE

/-- Modelled from the spec: `arch/page.h` is not part of the sources; the page
size of x86_64, the `0x1000` of the spec's scenarios. -/
def ARCH_PAGE_GRANULARITY : Nat := 4096

/-- Modelled from the spec: `lib/math.h` is not part of the sources;
`MATH_FLOOR(value, granularity)` floors `value` to a multiple of `granularity`. -/
def MATH_FLOOR (value granularity : Nat) : Nat := value - value % granularity

/-! ## The macros of `vm.c` -/

/-- The macro `ADDRESS_IN_BOUNDS(ADDRESS, START, END)`. -/
def ADDRESS_IN_BOUNDS (ADDRESS START END : Nat) : Prop :=
  ADDRESS ≥ START ∧ ADDRESS < END

/-- The macro `SEGMENT_IN_BOUNDS(BASE, LENGTH, START, END)`. -/
def SEGMENT_IN_BOUNDS (BASE LENGTH START END : Nat) : Prop :=
  ADDRESS_IN_BOUNDS BASE START END ∧ usub END BASE ≥ LENGTH

/-- The macro `ADDRESS_IN_SEGMENT(ADDRESS, BASE, LENGTH)`. -/
def ADDRESS_IN_SEGMENT (ADDRESS BASE LENGTH : Nat) : Prop :=
  ADDRESS ≥ BASE ∧ ADDRESS < uadd BASE LENGTH

/-- The macro `SEGMENT_INTERSECTS(BASE1, LENGTH1, BASE2, LENGTH2)`. -/
def SEGMENT_INTERSECTS (BASE1 LENGTH1 BASE2 LENGTH2 : Nat) : Prop :=
  BASE1 < uadd BASE2 LENGTH2 ∧ BASE2 < uadd BASE1 LENGTH1

instance (a s e : Nat) : Decidable (ADDRESS_IN_BOUNDS a s e) := by
  unfold ADDRESS_IN_BOUNDS; infer_instance

instance (b l s e : Nat) : Decidable (SEGMENT_IN_BOUNDS b l s e) := by
  unfold SEGMENT_IN_BOUNDS; infer_instance

instance (a b l : Nat) : Decidable (ADDRESS_IN_SEGMENT a b l) := by
  unfold ADDRESS_IN_SEGMENT; infer_instance

instance (b1 l1 b2 l2 : Nat) : Decidable (SEGMENT_INTERSECTS b1 l1 b2 l2) := by
  unfold SEGMENT_INTERSECTS; infer_instance

/-! ## Data model (`vm.h`, `pmm.h`, `arch/ptm.h`) -/

/-- The enum `vm_region_type_t`. -/
inductive vm_region_type_t where
  | VM_REGION_TYPE_ANON
  | VM_REGION_TYPE_DIRECT
  deriving DecidableEq, Repr

/-- The struct `vm_protection_t` (`.read`, `.write`, `.exec`). -/
structure vm_protection_t where
  read : Bool
  write : Bool
  exec : Bool
  deriving DecidableEq, Repr

/-- The enum `vm_privilege_t`. -/
inductive vm_privilege_t where
  | VM_PRIVILEGE_KERNEL
  | VM_PRIVILEGE_USER
  deriving DecidableEq, Repr

/-- The fault kinds of `vm_fault_t`: `VM_FAULT_NOT_PRESENT` and the others. -/
inductive vm_fault_t where
  | VM_FAULT_UNKNOWN
  | VM_FAULT_NOT_PRESENT
  deriving DecidableEq, Repr

/-- Modelled from the spec: `vm.h` is not part of the sources; `vm_flags_t` is
a set drawn from `{FIXED, ZERO, NO_DEMAND}`, one boolean per flag
(`(flags & VM_FLAG_FIXED) != 0` is `flags.fixed`). -/
structure vm_flags_t where
  fixed : Bool
  zero : Bool
  no_demand : Bool
  deriving DecidableEq, Repr

/-- The constant `VM_FLAG_NONE`. -/
def VM_FLAG_NONE : vm_flags_t := { fixed := false, zero := false, no_demand := false }

/-- The cache behaviour `VM_CACHE_STANDARD` (cache behaviours are numbered). -/
def VM_CACHE_STANDARD : Nat := 0

/-- Modelled from the spec: `vm.h` is not part of the sources.  The
type-specific data `type_data` of a region descriptor, with the members
`anon.back_zeroed` and `direct.physical_address` that `vm.c` names.  The two
members are kept side by side.  Where `vm.h` overlays them in a union, a
descriptor that held a DIRECT region and becomes the successor of an ANON split
(whose arm of the switch in `vm_unmap` assigns nothing) reads `back_zeroed` from
the low byte of the physical address it held; the side-by-side members give it
the `back_zeroed` it last held instead.  Every other read finds the member
last written, or a descriptor still zeroed. -/
structure vm_type_data_t where
  anon_back_zeroed : Bool
  direct_physical_address : Nat
  deriving DecidableEq, Repr

/-- The struct `vm_region_t` (without its list linkage). -/
structure vm_region_t where
  address_space : Nat
  type : vm_region_type_t
  base : Nat
  length : Nat
  protection : vm_protection_t
  cache_behavior : Nat
  type_data : vm_type_data_t
  deriving DecidableEq, Repr

/-- The struct `vm_address_space_t`: the region list in `LIST_FOREACH` order
and the bounds `[start, end)`. -/
structure vm_address_space_t where
  regions : List vm_region_t
  start : Nat
  end_ : Nat
  deriving DecidableEq, Repr

/-- The zone index `PMM_ZONE_NORMAL` (`pmm.h`). -/
def PMM_ZONE_NORMAL : Nat := 0

/-- The flag set `pmm_flags_t`: `PMM_FLAG_NONE` is `zero := false`,
`PMM_FLAG_ZERO` sets `zero`. -/
structure pmm_flags_t where
  zero : Bool
  deriving DecidableEq, Repr

/-- The struct `pmm_page_t`, reduced to the field `vm.c` reads. -/
structure pmm_page_t where
  paddr : Nat
  deriving DecidableEq, Repr

/-- One frame handed out by the PMM: the zone and flags of the request and the
frame's physical address. -/
structure pmm_taken_t where
  zone : Nat
  flags : pmm_flags_t
  paddr : Nat
  deriving DecidableEq, Repr

/-- Modelled from the spec: `pmm.c` is not part of the sources.  The state of
the physical memory manager as `vm.c` sees it: for each zone the order-0
frames it will hand out, in order, and the record of the frames taken. -/
structure pmm_t where
  free : Nat → List Nat
  taken : List pmm_taken_t

/-- Modelled from the spec: `pmm.c` is not part of the sources.
`alloc_page(flags)` is `alloc(0, flags)`; it fails (no page, the NULL of the
C interface) when the requested zone has no free frame, and otherwise hands out
a frame of that zone and marks it non-free. -/
def pmm_alloc_page (pmm : pmm_t) (zone : Nat) (flags : pmm_flags_t) :
    Option (pmm_page_t × pmm_t) :=
  match pmm.free zone with
  | [] => none
  | paddr :: rest =>
    some ({ paddr := paddr },
          { free := fun z => if z = zone then rest else pmm.free z,
            taken := { zone := zone, flags := flags, paddr := paddr } :: pmm.taken })

/-- A leaf mapping of the hardware page tables, as installed by `arch_ptm_map`. -/
structure ptm_leaf_t where
  physical_address : Nat
  protection : vm_protection_t
  cache : Nat
  privilege : vm_privilege_t
  global : Bool
  deriving DecidableEq, Repr

/-- The ways a call can stop without returning. -/
inductive vm_abort_t where
  | null_dereference
  | assertion_failed
  | out_of_fuel
  deriving DecidableEq, Repr

/-- The state `vm.c` works on: the global address-space pointer, the address
spaces by handle, the free list of region descriptors (with whatever contents
they were freed with), the leaf mappings of every address space by virtual
address, the PMM, and the address space of the current thread's process
(`none` for a kernel thread). -/
structure vm_state where
  g_vm_global_address_space : Nat
  address_spaces : Nat → vm_address_space_t
  g_free_regions : List vm_region_t
  page_tables : Nat → Nat → Option ptm_leaf_t
  pmm : pmm_t
  current_thread_process : Option Nat

/-- Modelled from the spec: `arch/ptm.h` is not part of the sources.
`map(vaddr, paddr, protection, cache, privilege, global)` installs a leaf
mapping for `vaddr` in one address space (intermediate tables are not
modelled). -/
def arch_ptm_map (s : vm_state) (address_space vaddr paddr : Nat) (prot : vm_protection_t)
    (cache : Nat) (privilege : vm_privilege_t) (global : Bool) : vm_state :=
  { s with page_tables := fun a v =>
      if a = address_space ∧ v = vaddr then
        some { physical_address := paddr, protection := prot, cache := cache,
               privilege := privilege, global := global }
      else s.page_tables a v }

/-- Modelled from the spec: `arch/ptm.h` is not part of the sources.
`unmap(vaddr)` removes the leaf mapping of `vaddr` in one address space. -/
def arch_ptm_unmap (s : vm_state) (address_space vaddr : Nat) : vm_state :=
  { s with page_tables := fun a v =>
      if a = address_space ∧ v = vaddr then none else s.page_tables a v }

/-- Modelled from the spec: `vm.h` is not part of the sources.  The size of a
region descriptor in bytes; the code only relies on
`static_assert(ARCH_PAGE_GRANULARITY > sizeof(vm_region_t) * 2)`. -/
def SIZEOF_VM_REGION : Nat := 64

/-- The contents of a descriptor slot in a freshly zeroed page. -/
def zeroed_region : vm_region_t :=
  { address_space := 0, type := .VM_REGION_TYPE_ANON, base := 0, length := 0,
    protection := { read := false, write := false, exec := false },
    cache_behavior := 0,
    type_data := { anon_back_zeroed := false, direct_physical_address := 0 } }

/-! ## List linkage (`lib/list.h`)

`list_append(position, element)` links `element` directly behind `position`.
`vm.c` calls it with a list head as position (the element becomes the first
one `LIST_FOREACH` visits) and with a linked descriptor as position. -/

/-- Modelled from the spec: `lib/list.h` is not part of the sources.
`list_append(&list, element)`: link behind the list head. -/
def list_append_head {α : Type} (list : List α) (element : α) : List α :=
  element :: list

/-- Modelled from the spec: `lib/list.h` is not part of the sources.
`list_append(position, element)` with a linked element as position. -/
def list_append_after {α : Type} (list : List α) (position : Nat) (element : α) : List α :=
  list.take (position + 1) ++ element :: list.drop (position + 1)

/-- Modelled from the spec: `lib/list.h` is not part of the sources.
`list_delete(element)` unlinks the element at a position. -/
def list_delete {α : Type} (list : List α) (position : Nat) : List α :=
  list.eraseIdx position

/-- Replace the region list of one address space. -/
def set_regions (s : vm_state) (address_space : Nat) (regions : List vm_region_t) : vm_state :=
  { s with address_spaces := fun a =>
      if a = address_space then { s.address_spaces a with regions := regions }
      else s.address_spaces a }

/-! ## `find_space` -/

/-- The `while(true)` loop of `find_space`; `none` when the fuel runs out. -/
def find_space_loop : Nat → vm_address_space_t → Nat → Nat → Option Nat
  | 0, _, _, _ => none
  | fuel + 1, address_space, address, length =>
    if ¬ SEGMENT_IN_BOUNDS address length address_space.start address_space.end_ then some 0
    else
      match address_space.regions.find?
          (fun region => decide (SEGMENT_INTERSECTS address length region.base region.length)) with
      | some region => find_space_loop fuel address_space (uadd region.base region.length) length
      | none => some address

/-- The function `find_space`: the loop runs with one unit of fuel per region
plus one. -/
def find_space (address_space : vm_address_space_t) (address length : Nat) : Option Nat :=
  find_space_loop (address_space.regions.length + 1) address_space
    (if ¬ SEGMENT_IN_BOUNDS address length address_space.start address_space.end_
      then address_space.start else address) length

/-! ## `region_map`, `region_unmap` -/

/-- The `for` loop of `region_map`, from offset `i`. -/
def region_map_loop : Nat → vm_state → vm_region_t → Nat → Nat → Nat → Except vm_abort_t vm_state
  | 0, s, _, _, length, i => if i < length then .error .out_of_fuel else .ok s
  | fuel + 1, s, region, address, length, i =>
    if i < length then
      let virtual_address := uadd address i
      let is_global := decide (region.address_space = s.g_vm_global_address_space)
      let privilege :=
        if is_global then vm_privilege_t.VM_PRIVILEGE_KERNEL else vm_privilege_t.VM_PRIVILEGE_USER
      match region.type with
      | .VM_REGION_TYPE_ANON =>
        match pmm_alloc_page s.pmm PMM_ZONE_NORMAL { zero := region.type_data.anon_back_zeroed } with
        | none => .error .null_dereference
        | some (page, pmm) =>
          region_map_loop fuel
            (arch_ptm_map { s with pmm := pmm } region.address_space virtual_address page.paddr
              region.protection region.cache_behavior privilege is_global)
            region address length (uadd i ARCH_PAGE_GRANULARITY)
      | .VM_REGION_TYPE_DIRECT =>
        region_map_loop fuel
          (arch_ptm_map s region.address_space virtual_address
            (uadd region.type_data.direct_physical_address (usub virtual_address region.base))
            region.protection region.cache_behavior privilege is_global)
          region address length (uadd i ARCH_PAGE_GRANULARITY)
    else .ok s

/-- The function `region_map`. -/
def region_map (s : vm_state) (region : vm_region_t) (address length : Nat) :
    Except vm_abort_t vm_state :=
  if ¬ (address % ARCH_PAGE_GRANULARITY = 0 ∧ length % ARCH_PAGE_GRANULARITY = 0) then
    .error .assertion_failed
  else if ¬ (address < region.base ∨ uadd address length ≥ region.base) then
    .error .assertion_failed
  else region_map_loop (length / ARCH_PAGE_GRANULARITY + 1) s region address length 0

/-- The `for` loop of `region_unmap`, from offset `i`. -/
def region_unmap_loop : Nat → vm_state → vm_region_t → Nat → Nat → Nat → Except vm_abort_t vm_state
  | 0, s, _, _, length, i => if i < length then .error .out_of_fuel else .ok s
  | fuel + 1, s, region, address, length, i =>
    if i < length then
      region_unmap_loop fuel (arch_ptm_unmap s region.address_space (uadd address i))
        region address length (uadd i ARCH_PAGE_GRANULARITY)
    else .ok s

/-- The function `region_unmap`. -/
def region_unmap (s : vm_state) (region : vm_region_t) (address length : Nat) :
    Except vm_abort_t vm_state :=
  if ¬ (address % ARCH_PAGE_GRANULARITY = 0 ∧ length % ARCH_PAGE_GRANULARITY = 0) then
    .error .assertion_failed
  else if ¬ (address < region.base ∨ uadd address length ≥ region.base) then
    .error .assertion_failed
  else region_unmap_loop (length / ARCH_PAGE_GRANULARITY + 1) s region address length 0

/-! ## `region_alloc`, `region_free`, `addr_to_region` -/

/-- The descriptor `region[0]` that the refill branch of `region_alloc` writes
into the first slot of the zeroed descriptor page mapped at `address`. -/
def descriptor_page_region (g address : Nat) : vm_region_t :=
  { zeroed_region with
    address_space := g, type := .VM_REGION_TYPE_ANON, base := address,
    length := ARCH_PAGE_GRANULARITY,
    protection := { read := true, write := true, exec := false },
    cache_behavior := VM_CACHE_STANDARD }

/-- The refill branch of `region_alloc`, taken when `g_free_regions` is empty:
one zeroed page is taken from the PMM, mapped where `find_space` says in the
global address space, its first slot becomes the region describing the page
and the other slots go to the free list. -/
def region_alloc_refill (s : vm_state) : Except vm_abort_t vm_state :=
  match pmm_alloc_page s.pmm PMM_ZONE_NORMAL { zero := true } with
  | none => .error .null_dereference
  | some (page, pmm) =>
    let g := s.g_vm_global_address_space
    match find_space (s.address_spaces g) 0 ARCH_PAGE_GRANULARITY with
    | none => .error .out_of_fuel
    | some address =>
      let rw : vm_protection_t := { read := true, write := true, exec := false }
      let s1 := arch_ptm_map { s with pmm := pmm } g address page.paddr rw VM_CACHE_STANDARD
        .VM_PRIVILEGE_KERNEL true
      let s2 := set_regions s1 g
        (list_append_head (s1.address_spaces g).regions (descriptor_page_region g address))
      .ok { s2 with g_free_regions :=
              List.replicate (ARCH_PAGE_GRANULARITY / SIZEOF_VM_REGION - 1) zeroed_region }

/-- The function `region_alloc`: the descriptor taken from the free list (with
the contents it was freed with) and the new state. -/
def region_alloc (s : vm_state) (_global_lock_acquired : Bool) :
    Except vm_abort_t (vm_region_t × vm_state) :=
  match (if s.g_free_regions.isEmpty then region_alloc_refill s else .ok s) with
  | .error e => .error e
  | .ok s1 =>
    match s1.g_free_regions with
    | [] => .error .assertion_failed
    | elem :: rest => .ok (elem, { s1 with g_free_regions := rest })

/-- The function `region_free`. -/
def region_free (s : vm_state) (region : vm_region_t) : vm_state :=
  { s with g_free_regions := list_append_head s.g_free_regions region }

/-- The `LIST_FOREACH` of `addr_to_region`: position and contents of the first
region containing `address`. -/
def addr_to_region_scan (address : Nat) : List vm_region_t → Option (Nat × vm_region_t)
  | [] => none
  | region :: rest =>
    if ADDRESS_IN_SEGMENT address region.base region.length then some (0, region)
    else (addr_to_region_scan address rest).map (fun p => (p.1 + 1, p.2))

/-- The function `addr_to_region`; `none` is the NULL pointer. -/
def addr_to_region (address_space : vm_address_space_t) (address : Nat) :
    Option (Nat × vm_region_t) :=
  if ¬ ADDRESS_IN_BOUNDS address address_space.start address_space.end_ then none
  else addr_to_region_scan address address_space.regions

/-! ## `map_common`, `vm_map_anon`, `vm_map_direct` -/

/-- Lines 142-147 of `map_common` for a hint that is not rejected: the hint,
rounded up to the next page when it is not page-aligned. -/
def rounded_hint (hint : Nat) : Nat :=
  if hint % ARCH_PAGE_GRANULARITY ≠ 0 then
    uadd hint (ARCH_PAGE_GRANULARITY - hint % ARCH_PAGE_GRANULARITY)
  else hint

/-- Lines 161-171 of `map_common`: the descriptor as it is filled in.  Every
field is assigned, and of `type_data` the member that belongs to `type`. -/
def map_common_region (region : vm_region_t) (address_space : Nat) (type : vm_region_type_t)
    (address length : Nat) (prot : vm_protection_t) (cache : Nat) (flags : vm_flags_t)
    (direct_physical_address : Nat) : vm_region_t :=
  { region with
    address_space := address_space, type := type, base := address, length := length,
    protection := prot, cache_behavior := cache,
    type_data :=
      match type with
      | .VM_REGION_TYPE_ANON => { region.type_data with anon_back_zeroed := flags.zero }
      | .VM_REGION_TYPE_DIRECT =>
        { region.type_data with direct_physical_address := direct_physical_address } }

/-- The function `map_common`; the returned address `0` is NULL. -/
def map_common (s : vm_state) (address_space hint length : Nat) (prot : vm_protection_t)
    (cache : Nat) (flags : vm_flags_t) (type : vm_region_type_t)
    (direct_physical_address : Nat) : Except vm_abort_t (Nat × vm_state) :=
  if length = 0 ∨ length % ARCH_PAGE_GRANULARITY ≠ 0 then .ok (0, s)
  else if hint % ARCH_PAGE_GRANULARITY ≠ 0 ∧ flags.fixed then .ok (0, s)
  else
    match region_alloc s false with
    | .error e => .error e
    | .ok (region, s1) =>
      match find_space (s1.address_spaces address_space) (rounded_hint hint) length with
      | none => .error .out_of_fuel
      | some address =>
        if address = 0 ∨ (hint ≠ address ∧ flags.fixed) then .ok (0, region_free s1 region)
        else if ¬ SEGMENT_IN_BOUNDS address length (s1.address_spaces address_space).start
            (s1.address_spaces address_space).end_ then .error .assertion_failed
        else if ¬ (address % ARCH_PAGE_GRANULARITY = 0 ∧ length % ARCH_PAGE_GRANULARITY = 0) then
          .error .assertion_failed
        else
          let region := map_common_region region address_space type address length prot cache
            flags direct_physical_address
          match (if flags.no_demand then region_map s1 region region.base region.length
                 else .ok s1) with
          | .error e => .error e
          | .ok s2 =>
            .ok (region.base,
              set_regions s2 address_space
                (list_append_head (s2.address_spaces address_space).regions region))

/-- The function `vm_map_anon`. -/
def vm_map_anon (s : vm_state) (address_space hint length : Nat) (prot : vm_protection_t)
    (cache : Nat) (flags : vm_flags_t) : Except vm_abort_t (Nat × vm_state) :=
  map_common s address_space hint length prot cache flags .VM_REGION_TYPE_ANON 0

/-- The function `vm_map_direct`. -/
def vm_map_direct (s : vm_state) (address_space hint length : Nat) (prot : vm_protection_t)
    (cache : Nat) (physical_address : Nat) (flags : vm_flags_t) :
    Except vm_abort_t (Nat × vm_state) :=
  map_common s address_space hint length prot cache flags .VM_REGION_TYPE_DIRECT physical_address

/-! ## `vm_unmap` -/

/-- The inner `while` loop of `vm_unmap`, growing `split_length` page by page;
`none` when the fuel runs out. -/
def vm_unmap_extend : Nat → vm_region_t → Nat → Nat → Nat → Nat → Option Nat
  | 0, _, _, _, _, _ => none
  | fuel + 1, split_region, address, length, split_base, split_length =>
    if ADDRESS_IN_SEGMENT (uadd split_base split_length) split_region.base split_region.length ∧
        ADDRESS_IN_SEGMENT (uadd split_base split_length) address length then
      vm_unmap_extend fuel split_region address length split_base
        (uadd split_length ARCH_PAGE_GRANULARITY)
    else some split_length

/-- Lines 214-222 of `vm_unmap`: the successor descriptor as it is filled in.
The cache behaviour is not assigned, and `type_data` only for a DIRECT region:
those keep what the recycled descriptor held. -/
def successor_region (region split_region : vm_region_t) (address_space split_base
    split_length : Nat) : vm_region_t :=
  { region with
    address_space := address_space,
    base := uadd split_base split_length,
    length := usub (uadd split_region.base split_region.length) (uadd split_base split_length),
    protection := split_region.protection,
    type := split_region.type,
    type_data :=
      match split_region.type with
      | .VM_REGION_TYPE_ANON => region.type_data
      | .VM_REGION_TYPE_DIRECT => split_region.type_data }

/-- The successor part of one `vm_unmap` iteration: when the region extends
past the split range a descriptor is allocated, filled in and linked behind
`split_region`.  Returns the position of `split_region` afterwards (it moves
when `region_alloc` links a descriptor page in front of it) and the state. -/
def vm_unmap_successor (s : vm_state) (address_space position : Nat) (split_region : vm_region_t)
    (split_base split_length : Nat) : Except vm_abort_t (Nat × vm_state) :=
  if uadd split_region.base split_region.length > uadd split_base split_length then
    match region_alloc s (decide (address_space = s.g_vm_global_address_space)) with
    | .error e => .error e
    | .ok (region, s1) =>
      let position1 := position +
        ((s1.address_spaces address_space).regions.length -
          (s.address_spaces address_space).regions.length)
      .ok (position1,
        set_regions s1 address_space
          (list_append_after (s1.address_spaces address_space).regions position1
            (successor_region region split_region address_space split_base split_length)))
  else .ok (position, s)

/-- The last part of one `vm_unmap` iteration: truncate `split_region` at the
back when it starts before the split range, unlink and free it otherwise. -/
def vm_unmap_truncate (s : vm_state) (address_space position : Nat) (split_region : vm_region_t)
    (split_base : Nat) : vm_state :=
  if split_region.base < split_base then
    set_regions s address_space
      ((s.address_spaces address_space).regions.set position
        { split_region with length := usub split_base split_region.base })
  else
    region_free
      (set_regions s address_space (list_delete (s.address_spaces address_space).regions position))
      split_region

/-- The outer `for` loop of `vm_unmap`, from `split_base`. -/
def vm_unmap_loop : Nat → vm_state → Nat → Nat → Nat → Nat → Except vm_abort_t vm_state
  | 0, _, _, _, _, _ => .error .out_of_fuel
  | fuel + 1, s, address_space, address, length, split_base =>
    if ¬ (split_base < uadd address length) then .ok s
    else
      match addr_to_region (s.address_spaces address_space) split_base with
      | none =>
        vm_unmap_loop fuel s address_space address length (uadd split_base ARCH_PAGE_GRANULARITY)
      | some (position, split_region) =>
        match vm_unmap_extend (length / ARCH_PAGE_GRANULARITY + 1) split_region address length
            split_base ARCH_PAGE_GRANULARITY with
        | none => .error .out_of_fuel
        | some split_length =>
          if ¬ SEGMENT_IN_BOUNDS split_base split_length (s.address_spaces address_space).start
              (s.address_spaces address_space).end_ then .error .assertion_failed
          else if ¬ (split_base % ARCH_PAGE_GRANULARITY = 0 ∧
              split_length % ARCH_PAGE_GRANULARITY = 0) then .error .assertion_failed
          else
            match region_unmap s split_region split_base split_length with
            | .error e => .error e
            | .ok s1 =>
              match vm_unmap_successor s1 address_space position split_region split_base
                  split_length with
              | .error e => .error e
              | .ok (position1, s2) =>
                vm_unmap_loop fuel
                  (vm_unmap_truncate s2 address_space position1 split_region split_base)
                  address_space address length (uadd split_base split_length)

/-- The function `vm_unmap`. -/
def vm_unmap (s : vm_state) (address_space address length : Nat) : Except vm_abort_t vm_state :=
  if length = 0 then .ok s
  else if ¬ (address % ARCH_PAGE_GRANULARITY = 0 ∧ length % ARCH_PAGE_GRANULARITY = 0) then
    .error .assertion_failed
  else if ¬ SEGMENT_IN_BOUNDS address length (s.address_spaces address_space).start
      (s.address_spaces address_space).end_ then .error .assertion_failed
  else vm_unmap_loop (length / ARCH_PAGE_GRANULARITY + 1) s address_space address length address

/-! ## `vm_fault` -/

/-- The function `vm_fault`.  The address space is always the global one: the
lookup of the current thread's process is commented out in the source. -/
def vm_fault (s : vm_state) (address : Nat) (fault : vm_fault_t) :
    Except vm_abort_t (Bool × vm_state) :=
  if fault ≠ .VM_FAULT_NOT_PRESENT then .ok (false, s)
  else
    let as := s.g_vm_global_address_space
    match addr_to_region (s.address_spaces as) address with
    | none => .ok (false, s)
    | some (_, region) =>
      match region_map s region (MATH_FLOOR address ARCH_PAGE_GRANULARITY)
          ARCH_PAGE_GRANULARITY with
      | .error e => .error e
      | .ok s1 => .ok (true, s1)

/-! # The interrupt table (`kernel/src/cpu/interrupt.c`) -/

/-- The constant `IDT_SIZE`. -/
def IDT_SIZE : Nat := 256

/-- Modelled from the spec: `interrupt.h` is not part of the sources.  The struct
`interrupt_entry_t`, `{free, handler, priority}`; a handler is the address of
its function, and a priority is a small unsigned number (`priority << 4` stays
within `int`). -/
structure interrupt_entry_t where
  free : Bool
  handler : Nat
  priority : Nat
  deriving DecidableEq, Repr

/-- The function `interrupt_set`, on the table `g_entries`; the vector is a
`uint8_t`. -/
def interrupt_set (g_entries : Nat → interrupt_entry_t) (vector priority handler : Nat) :
    Nat → interrupt_entry_t :=
  fun v =>
    if v = vector % 256 then { free := false, handler := handler, priority := priority }
    else g_entries v

/-- The `for` loop of `interrupt_request`, from vector `i`; `none` when the fuel
runs out. -/
def interrupt_request_loop :
    Nat → (Nat → interrupt_entry_t) → Nat → Nat → Nat → Option (Int × (Nat → interrupt_entry_t))
  | 0, _, _, _, _ => none
  | fuel + 1, g_entries, priority, handler, i =>
    if i < IDT_SIZE then
      if ¬ (g_entries i).free then interrupt_request_loop fuel g_entries priority handler (i + 1)
      else some ((i : Int), interrupt_set g_entries i priority handler)
    else some (-1, g_entries)

/-- The function `interrupt_request`: the loop starts at `priority << 4` and
runs with one unit of fuel per vector plus one. -/
def interrupt_request (g_entries : Nat → interrupt_entry_t) (priority handler : Nat) :
    Option (Int × (Nat → interrupt_entry_t)) :=
  interrupt_request_loop (IDT_SIZE + 1) g_entries priority handler (priority <<< 4)

/-! # The scheduler (`kernel/src/arch/x86_64/sched.c`)

The model follows one CPU.  Pointers to threads, processes and CPUs are
natural numbers, `0` being `NULL`; `X86_64_THREAD` and `X86_64_CPU`
(`CONTAINER_OF`) are the identity on these handles.  What a saved kernel stack
returns into is kept as a `stack_frame_t` at the saved stack pointer. -/

/-- The constant `INTERVAL`. -/
def INTERVAL : Nat := 100000

/-- The constant `KERNEL_STACK_SIZE_PG`. -/
def KERNEL_STACK_SIZE_PG : Nat := 16

/-- The constant `USER_STACK_SIZE`. -/
def USER_STACK_SIZE : Nat := 8 * ARCH_PAGE_GRANULARITY

/-- The struct `stack_t`. -/
structure stack_t where
  base : Nat
  size : Nat
  deriving DecidableEq, Repr

/-- Modelled from the spec: `sched/thread.h` is not part of the sources.  The
thread states `{READY, RUNNING, BLOCKED, DESTROY}`. -/
inductive thread_state_t where
  | THREAD_STATE_READY
  | THREAD_STATE_RUNNING
  | THREAD_STATE_BLOCKED
  | THREAD_STATE_DESTROY
  deriving DecidableEq, Repr

/-- Modelled from the spec: `sched/thread.h` is not part of the sources.  The
struct `thread_t` (the field `common` of `x86_64_thread_t`), without its list
links: identity, owning process (`0` for a kernel thread), CPU assignment (`0`
when not running). -/
structure thread_t where
  id : Int
  state : thread_state_t
  proc : Nat
  cpu : Nat
  deriving DecidableEq, Repr

/-- The anonymous struct `state` of `x86_64_thread_t`. -/
structure x86_64_thread_state_t where
  fpu_area : Nat
  fs : Nat
  gs : Nat
  deriving DecidableEq, Repr

/-- The struct `x86_64_thread_t`. -/
structure x86_64_thread_t where
  this : Nat
  rsp : Nat
  syscall_rsp : Nat
  kernel_stack : stack_t
  state : x86_64_thread_state_t
  common : thread_t
  deriving DecidableEq, Repr

/-- A thread descriptor after `memset(thread, 0, sizeof(x86_64_thread_t))` (the
state with value 0 is taken to be the first one, READY). -/
def zeroed_thread : x86_64_thread_t :=
  { this := 0, rsp := 0, syscall_rsp := 0, kernel_stack := { base := 0, size := 0 },
    state := { fpu_area := 0, fs := 0, gs := 0 },
    common := { id := 0, state := .THREAD_STATE_READY, proc := 0, cpu := 0 } }

/-- Modelled from the spec: `sched/process.h` is not part of the sources.  A
process: its address space and its thread list (in `LIST_FOREACH` order). -/
structure process_t where
  address_space : Nat
  threads : List Nat
  deriving DecidableEq, Repr

/-- Modelled from the spec: `arch/x86_64/cpu.h` of this version is not part of
the sources.  A CPU descriptor as `sched.c` uses it: `common.idle_thread` and
the `rsp0` field of its TSS. -/
structure x86_64_cpu_t where
  idle_thread : Nat
  tss_rsp0 : Nat
  deriving DecidableEq, Repr

/-- What a saved kernel stack returns into: the frame `init_stack_kernel_t` or
`init_stack_user_t` a creator seeded (with `thread_init = common_thread_init`
and the entry stub of its kind), or the frame `x86_64_sched_context_switch`
left inside `sched_switch`. -/
inductive stack_frame_t where
  | init_stack_kernel (entry : Nat)
  | init_stack_user (entry user_stack : Nat)
  | sched_switch_frame
  deriving DecidableEq, Repr

/-- The size of the packed struct `init_stack_kernel_t`: eleven quadwords. -/
def SIZEOF_INIT_STACK_KERNEL : Nat := 88

/-- The size of the packed struct `init_stack_user_t`: ten quadwords. -/
def SIZEOF_INIT_STACK_USER : Nat := 80

/-- Modelled from the spec: `sched/thread.h` is not part of the sources.  The
size of `x86_64_thread_t`: 64 bytes of architecture fields and the common
`thread_t`, taken as 64 bytes; the value plays no role. -/
def SIZEOF_X86_64_THREAD : Nat := 128

/-- The FPU state `g_x86_64_fpu_save` / `g_x86_64_fpu_restore` move: the x87
control word, `MXCSR` and the registers. -/
structure fpu_state_t where
  x87cw : Nat
  mxcsr : Nat
  registers : Nat
  deriving DecidableEq, Repr

/-- One live block of the kernel heap. -/
structure heap_block_t where
  address : Nat
  size : Nat
  deriving DecidableEq, Repr

/-- Modelled from the spec: `memory/heap.c` is not part of the sources.  The
kernel heap as its callers see it: the addresses the coming allocations
return, in order, and the live blocks. -/
structure heap_t where
  free : List Nat
  live : List heap_block_t
  deriving DecidableEq, Repr

/-- Modelled from the spec: `memory/heap.c` is not part of the sources.
`alloc(size)`: the next address, now a live block; no address is `NULL`. -/
def heap_alloc (heap : heap_t) (size : Nat) : Option (Nat × heap_t) :=
  match heap.free with
  | [] => none
  | address :: rest =>
    some (address, { free := rest, live := { address := address, size := size } :: heap.live })

/-- Modelled from the spec: `memory/heap.c` is not part of the sources.
`alloc_align(size, alignment)`: the next address that is a multiple of
`alignment`. -/
def heap_alloc_align (heap : heap_t) (size alignment : Nat) : Option (Nat × heap_t) :=
  match heap.free.find? (fun address => address % alignment = 0) with
  | none => none
  | some address =>
    some (address, { free := heap.free.erase address,
                     live := { address := address, size := size } :: heap.live })

/-- Modelled from the spec: `memory/heap.c` is not part of the sources.
`free(ptr)`: the block at `ptr` is no longer live. -/
def heap_free (heap : heap_t) (address : Nat) : heap_t :=
  { heap with live := heap.live.filter (fun block => block.address ≠ address) }

/-- The constant `PMM_MAX_ORDER` (`pmm.h`). -/
def PMM_MAX_ORDER : Nat := 7

/-- The order `⌈log2 n⌉` of `alloc_pages`, at most `PMM_MAX_ORDER`. -/
def pmm_pages_order (page_count : Nat) : Option Nat :=
  (List.range (PMM_MAX_ORDER + 1)).find? (fun order => page_count ≤ 2 ^ order)

/-- Modelled from the spec: `pmm.c` is not part of the sources.
`alloc_pages(n, flags)` computes `order = ⌈log2 n⌉` and allocates a block of
that order: the next `2^order` frames of the zone, the first of which is the
page returned; it fails when the zone has no such block. -/
def pmm_alloc_pages (pmm : pmm_t) (zone page_count : Nat) (flags : pmm_flags_t) :
    Option (pmm_page_t × pmm_t) :=
  match pmm_pages_order page_count with
  | none => none
  | some order =>
    if (pmm.free zone).length < 2 ^ order then none
    else
      match pmm.free zone with
      | [] => none
      | paddr :: _ =>
        some ({ paddr := paddr },
          { free := fun z => if z = zone then (pmm.free zone).drop (2 ^ order) else pmm.free z,
            taken := (((pmm.free zone).take (2 ^ order)).map
              (fun p => { zone := zone, flags := flags, paddr := p })).reverse ++ pmm.taken })

/-- The MSR `X86_64_MSR_FS_BASE`. -/
def X86_64_MSR_FS_BASE : Nat := 0xC0000100

/-- The MSR `X86_64_MSR_GS_BASE`. -/
def X86_64_MSR_GS_BASE : Nat := 0xC0000101

/-- The MSR `X86_64_MSR_KERNEL_GS_BASE`. -/
def X86_64_MSR_KERNEL_GS_BASE : Nat := 0xC0000102

/-- The state `sched.c` works on.

* `vm`, `memory`: the VM state and the bytes of every address space by virtual
  address.
* `heap`, `g_hhdm_offset`, `g_x86_64_fpu_area_size`, `g_x86_64_init_flag_sched`,
  `g_next_tid`, `g_sched_vector`: the kernel heap and the globals.
* `threads`, `processes`, `cpus`, `kernel_stacks`, `fpu_areas`: the thread,
  process and CPU descriptors, the saved frames of the kernel stacks and the
  FPU save areas, by address.
* `rsp`, `fpu`, `msr`, `loaded_address_space`, `lapic_timer_oneshots`: the
  executing CPU: its stack pointer at a context switch, FPU, MSRs, loaded
  address space and the one-shot timer programmings, oldest first.
* `run_queue`, `dropped`, `destroyed_processes`: the run queue of the global
  scheduler, the threads passed to `sched_thread_drop` and the processes passed
  to `sched_process_destroy`, oldest first. -/
structure sched_state where
  vm : vm_state
  memory : Nat → Nat → Nat
  heap : heap_t
  g_hhdm_offset : Nat
  g_x86_64_fpu_area_size : Nat
  g_x86_64_init_flag_sched : Bool
  g_next_tid : Int
  g_sched_vector : Int
  threads : Nat → x86_64_thread_t
  processes : Nat → process_t
  cpus : Nat → x86_64_cpu_t
  kernel_stacks : Nat → stack_frame_t
  fpu_areas : Nat → fpu_state_t
  rsp : Nat
  fpu : fpu_state_t
  msr : Nat → Nat
  loaded_address_space : Nat
  lapic_timer_oneshots : List (Int × Nat)
  run_queue : List Nat
  dropped : List Nat
  destroyed_processes : List Nat

/-- Modelled from the spec: `memory/hhdm.h` is not part of the sources.
`HHDM(x)` is `x` at the fixed offset of the higher-half direct map. -/
def HHDM (s : sched_state) (x : Nat) : Nat := uadd x s.g_hhdm_offset

/-- The eight bytes of a `uint64_t` in memory, least significant first. -/
def qword_bytes (value : Nat) : List Nat :=
  (List.range 8).map (fun i => value / 256 ^ i % 256)

/-- The address of the function `common_thread_init`. -/
def COMMON_THREAD_INIT : Nat := 0xFFFFFFFF80002000

/-- The address of the function `kernel_thread_init`. -/
def KERNEL_THREAD_INIT : Nat := 0xFFFFFFFF80003000

/-- The address of the routine `x86_64_sched_userspace_init` (`sched.S`). -/
def X86_64_SCHED_USERSPACE_INIT : Nat := 0xFFFFFFFF80004000

/-- The offset of the field `thread_init` in the packed structs
`init_stack_kernel_t` and `init_stack_user_t`: it follows the six quadwords
`r12, r13, r14, r15, rbp, rbx`. -/
def OFFSETOF_THREAD_INIT : Nat := 48

/-- The offset of the field `thread_init_kernel` of `init_stack_kernel_t`, and
of `thread_init_user` of `init_stack_user_t`. -/
def OFFSETOF_THREAD_INIT_KIND : Nat := 56

/-- The offset of the field `entry` in both structs. -/
def OFFSETOF_ENTRY : Nat := 64

/-- The offset of the field `user_stack` of `init_stack_user_t`. -/
def OFFSETOF_USER_STACK : Nat := 72

/-- Modelled from the spec: `pmm.c` is not part of the sources.  With `ZERO`
set, `alloc` zeroes the frames of the block before returning: the bytes of
`page_count` pages from `paddr`, seen through the higher-half direct map.  The
direct map is kernel memory; its bytes are kept with the global address
space. -/
def pmm_zero_block (s : sched_state) (paddr page_count : Nat) : sched_state :=
  { s with memory := fun a v =>
      if a = s.vm.g_vm_global_address_space ∧ HHDM s paddr ≤ v ∧
          v < HHDM s paddr + page_count * ARCH_PAGE_GRANULARITY then 0
      else s.memory a v }

/-- A store of a `uint64_t` through a kernel pointer (`init_stack->entry =
func`): the eight bytes at `address`, least significant first. -/
def store_qword (s : sched_state) (address value : Nat) : sched_state :=
  { s with memory := fun a v =>
      if a = s.vm.g_vm_global_address_space ∧ address ≤ v ∧ v < address + 8 then
        (qword_bytes (value % UINTPTR_SIZE)).getD (v - address) 0
      else s.memory a v }

/-- A value stored in a `long` (`g_next_tid`): `__atomic_fetch_add` wraps. -/
def long_wrap (x : Int) : Int := (x + 2 ^ 63) % 2 ^ 64 - 2 ^ 63

/-- Write one thread descriptor. -/
def set_thread (s : sched_state) (thread : Nat) (t : x86_64_thread_t) : sched_state :=
  { s with threads := fun a => if a = thread then t else s.threads a }

/-- Modelled from the spec: `arch/x86_64/cpu/msr.h` is not part of the sources.
`x86_64_msr_write(msr, value)`. -/
def x86_64_msr_write (s : sched_state) (msr value : Nat) : sched_state :=
  { s with msr := fun m => if m = msr then value else s.msr m }

/-- Modelled from the spec: `arch/x86_64/cpu/msr.h` is not part of the sources.
`x86_64_msr_read(msr)`. -/
def x86_64_msr_read (s : sched_state) (msr : Nat) : Nat := s.msr msr

/-- Modelled from the spec: `arch/ptm.h` is not part of the sources.
`load_address_space(as)` switches the current CPU to the given address space. -/
def arch_ptm_load_address_space (s : sched_state) (address_space : Nat) : sched_state :=
  { s with loaded_address_space := address_space }

/-- Modelled from the spec: the TSS interface is not part of the sources.
`x86_64_tss_set_rsp0(X86_64_CPU(cpu)->tss, value)`. -/
def x86_64_tss_set_rsp0 (s : sched_state) (cpu value : Nat) : sched_state :=
  { s with cpus := fun c => if c = cpu then { s.cpus c with tss_rsp0 := value } else s.cpus c }

/-- Modelled from the spec: `arch/x86_64/cpu/fpu.h` is not part of the sources.
`g_x86_64_fpu_save(area)` stores the FPU state in the area. -/
def g_x86_64_fpu_save (s : sched_state) (area : Nat) : sched_state :=
  { s with fpu_areas := fun a => if a = area then s.fpu else s.fpu_areas a }

/-- Modelled from the spec: `arch/x86_64/cpu/fpu.h` is not part of the sources.
`g_x86_64_fpu_restore(area)` loads the FPU state from the area. -/
def g_x86_64_fpu_restore (s : sched_state) (area : Nat) : sched_state :=
  { s with fpu := s.fpu_areas area }

/-- Modelled from the spec: the LAPIC timer is not part of the sources.
`timer_oneshot(vector, ticks)` arms the preemption tick. -/
def x86_64_lapic_timer_oneshot (s : sched_state) (vector : Int) (ticks : Nat) : sched_state :=
  { s with lapic_timer_oneshots := s.lapic_timer_oneshots ++ [(vector, ticks)] }

/-- Modelled from the spec: `sched/sched.c` is not part of the sources.
`sched_process_destroy(proc)` destroys the process; the model records the
call. -/
def sched_process_destroy (s : sched_state) (proc : Nat) : sched_state :=
  { s with destroyed_processes := s.destroyed_processes ++ [proc] }

/-- The function `arch_sched_thread_destroy`.  `list_delete(&thread->list_proc)`
unlinks the thread from the thread list of its process. -/
def arch_sched_thread_destroy (s : sched_state) (thread : Nat) : Except vm_abort_t sched_state :=
  if thread = 0 then .error .null_dereference
  else
    let proc := (s.threads thread).common.proc
    let s1 :=
      if proc ≠ 0 then
        let s' := { s with processes := fun p =>
            if p = proc then
              { s.processes p with threads := (s.processes p).threads.erase thread }
            else s.processes p }
        if (s'.processes proc).threads.isEmpty then sched_process_destroy s' proc else s'
      else s
    .ok { s1 with heap := heap_free s1.heap thread }

/-- Modelled from the spec: `sched/sched.c` is not part of the sources.
`thread_drop(thread)` finalizes the previously running thread: if its state is
READY it is enqueued again; if DESTROY it is destroyed
(`arch_sched_thread_destroy`). -/
def sched_thread_drop (s : sched_state) (thread : Nat) : Except vm_abort_t sched_state :=
  if thread = 0 then .error .null_dereference
  else
    let s1 := { s with dropped := s.dropped ++ [thread] }
    match (s1.threads thread).common.state with
    | .THREAD_STATE_READY => .ok { s1 with run_queue := s1.run_queue ++ [thread] }
    | .THREAD_STATE_DESTROY => arch_sched_thread_destroy s1 thread
    | _ => .ok s1

/-- The function `common_thread_init`. -/
def common_thread_init (s : sched_state) (prev : Nat) : Except vm_abort_t sched_state :=
  match sched_thread_drop s prev with
  | .error e => .error e
  | .ok s1 => .ok (x86_64_lapic_timer_oneshot s1 s1.g_sched_vector INTERVAL)

/-- Modelled from the spec: `sched.S` is not part of the sources.
`x86_64_sched_context_switch(this, next)` leaves a frame on the stack of
`this`, saves the stack pointer in `this->rsp`, swaps to the saved stack pointer
of `next` and returns into `next`, to which it hands the old thread as `prev`.
The result is the frame `next` returns through, `prev`, and the state. -/
def x86_64_sched_context_switch (s : sched_state) (this next : Nat) :
    stack_frame_t × Nat × sched_state :=
  let s1 := { s with kernel_stacks := fun a =>
    if a = s.rsp then .sched_switch_frame else s.kernel_stacks a }
  let s2 := set_thread s1 this { s1.threads this with rsp := s.rsp }
  let next_rsp := (s2.threads next).rsp
  (s2.kernel_stacks next_rsp, this, { s2 with rsp := next_rsp })

/-- The function `sched_switch`, followed on the CPU into `next` up to the
drop of the previous thread: a thread that was switched out resumes inside its
own `sched_switch` and calls `sched_thread_drop(prev)`; a fresh thread enters
the trampoline, which calls `common_thread_init(prev)`.  The result carries
the frame `next` returned through. -/
def sched_switch (s : sched_state) (this next : Nat) :
    Except vm_abort_t (stack_frame_t × sched_state) :=
  if next = 0 ∨ this = 0 then .error .null_dereference
  else
    let proc := (s.threads next).common.proc
    let s1 :=
      if proc ≠ 0 then arch_ptm_load_address_space s (s.processes proc).address_space
      else arch_ptm_load_address_space s s.vm.g_vm_global_address_space
    let s2 := set_thread s1 next
      { s1.threads next with
        common := { (s1.threads next).common with cpu := (s1.threads this).common.cpu } }
    let s3 := x86_64_msr_write s2 X86_64_MSR_GS_BASE next
    let s4 := set_thread s3 this
      { s3.threads this with common := { (s3.threads this).common with cpu := 0 } }
    let cpu := (s4.threads next).common.cpu
    if cpu = 0 then .error .null_dereference
    else
      let s5 := x86_64_tss_set_rsp0 s4 cpu (s4.threads next).kernel_stack.base
      let s6 := set_thread s5 this
        { s5.threads this with
          state := { (s5.threads this).state with
                     gs := x86_64_msr_read s5 X86_64_MSR_KERNEL_GS_BASE } }
      let s7 := set_thread s6 this
        { s6.threads this with
          state := { (s6.threads this).state with fs := x86_64_msr_read s6 X86_64_MSR_FS_BASE } }
      let s8 := x86_64_msr_write s7 X86_64_MSR_KERNEL_GS_BASE (s7.threads next).state.gs
      let s9 := x86_64_msr_write s8 X86_64_MSR_FS_BASE (s8.threads next).state.fs
      let s10 :=
        if (s9.threads this).state.fpu_area ≠ 0 then
          g_x86_64_fpu_save s9 (s9.threads this).state.fpu_area
        else s9
      if (s10.threads next).state.fpu_area = 0 then .error .null_dereference
      else
        let s11 := g_x86_64_fpu_restore s10 (s10.threads next).state.fpu_area
        match x86_64_sched_context_switch s11 this next with
        | (.sched_switch_frame, prev, s12) =>
          match sched_thread_drop s12 prev with
          | .error e => .error e
          | .ok s13 => .ok (.sched_switch_frame, s13)
        | (frame, prev, s12) =>
          match common_thread_init s12 prev with
          | .error e => .error e
          | .ok s13 => .ok (frame, s13)

/-- The function `create_thread`. -/
def create_thread (s : sched_state) (proc : Nat) (kernel_stack : stack_t) (rsp : Nat) :
    Except vm_abort_t (Nat × sched_state) :=
  match heap_alloc s.heap SIZEOF_X86_64_THREAD with
  | none => .error .null_dereference
  | some (thread, heap1) =>
    if thread = 0 then .error .null_dereference
    else
      let s1 := { s with heap := heap1 }
      let id := s1.g_next_tid
      let s2 := { s1 with g_next_tid := long_wrap (s1.g_next_tid + 1) }
      match heap_alloc_align s2.heap s2.g_x86_64_fpu_area_size 64 with
      | none => .error .null_dereference
      | some (fpu_area, heap2) =>
        if fpu_area = 0 then .error .null_dereference
        else
          let s3 := set_thread { s2 with heap := heap2 } thread
            { zeroed_thread with
              this := thread, rsp := rsp, kernel_stack := kernel_stack,
              state := { fpu_area := fpu_area, fs := 0, gs := 0 },
              common := { zeroed_thread.common with
                          id := id, state := .THREAD_STATE_READY, proc := proc } }
          let s4 := { s3 with fpu_areas := fun a =>
            if a = fpu_area then { x87cw := 0, mxcsr := 0, registers := 0 } else s3.fpu_areas a }
          let s5 := g_x86_64_fpu_restore s4 fpu_area
          let s6 := { s5 with fpu := { s5.fpu with x87cw := 0x33F } }
          let s7 := { s6 with fpu := { s6.fpu with mxcsr := 0x1F80 } }
          .ok (thread, g_x86_64_fpu_save s7 fpu_area)

/-- The function `arch_sched_thread_create_kernel`. -/
def arch_sched_thread_create_kernel (s : sched_state) (func : Nat) :
    Except vm_abort_t (Nat × sched_state) :=
  match pmm_alloc_pages s.vm.pmm PMM_ZONE_NORMAL KERNEL_STACK_SIZE_PG { zero := true } with
  | none => .error .null_dereference
  | some (kernel_stack_page, pmm) =>
    let s1 := pmm_zero_block { s with vm := { s.vm with pmm := pmm } } kernel_stack_page.paddr
      KERNEL_STACK_SIZE_PG
    let kernel_stack : stack_t :=
      { base := HHDM s1 (uadd kernel_stack_page.paddr
          (KERNEL_STACK_SIZE_PG * ARCH_PAGE_GRANULARITY)),
        size := KERNEL_STACK_SIZE_PG * ARCH_PAGE_GRANULARITY }
    let init_stack := usub kernel_stack.base SIZEOF_INIT_STACK_KERNEL
    let s2 := store_qword s1 (uadd init_stack OFFSETOF_ENTRY) func
    let s3 := store_qword s2 (uadd init_stack OFFSETOF_THREAD_INIT) COMMON_THREAD_INIT
    let s4 := store_qword s3 (uadd init_stack OFFSETOF_THREAD_INIT_KIND) KERNEL_THREAD_INIT
    let s5 := { s4 with kernel_stacks := fun a =>
      if a = init_stack then .init_stack_kernel func else s4.kernel_stacks a }
    create_thread s5 0 kernel_stack init_stack

/-- The function `arch_sched_thread_create_user`. -/
def arch_sched_thread_create_user (s : sched_state) (proc ip sp : Nat) :
    Except vm_abort_t (Nat × sched_state) :=
  match pmm_alloc_pages s.vm.pmm PMM_ZONE_NORMAL KERNEL_STACK_SIZE_PG { zero := true } with
  | none => .error .null_dereference
  | some (kernel_stack_page, pmm) =>
    let s1 := pmm_zero_block { s with vm := { s.vm with pmm := pmm } } kernel_stack_page.paddr
      KERNEL_STACK_SIZE_PG
    let kernel_stack : stack_t :=
      { base := HHDM s1 (uadd kernel_stack_page.paddr
          (KERNEL_STACK_SIZE_PG * ARCH_PAGE_GRANULARITY)),
        size := KERNEL_STACK_SIZE_PG * ARCH_PAGE_GRANULARITY }
    let init_stack := usub kernel_stack.base SIZEOF_INIT_STACK_USER
    let s2 := store_qword s1 (uadd init_stack OFFSETOF_ENTRY) ip
    let s3 := store_qword s2 (uadd init_stack OFFSETOF_THREAD_INIT) COMMON_THREAD_INIT
    let s4 := store_qword s3 (uadd init_stack OFFSETOF_THREAD_INIT_KIND)
      X86_64_SCHED_USERSPACE_INIT
    let s5 := store_qword s4 (uadd init_stack OFFSETOF_USER_STACK) sp
    let s6 := { s5 with kernel_stacks := fun a =>
      if a = init_stack then .init_stack_user ip sp else s5.kernel_stacks a }
    match create_thread s6 proc kernel_stack init_stack with
    | .error e => .error e
    | .ok (thread, s7) =>
      if proc = 0 then .error .null_dereference
      else
        let threads := list_append_head (s7.processes proc).threads thread
        .ok (thread, { s7 with processes := fun p =>
                         if p = proc then { s7.processes p with threads := threads }
                         else s7.processes p })

/-- The function `arch_sched_thread_current`: the quadword at `gs:0` is the
field `this` of the descriptor the GS base points to. -/
def arch_sched_thread_current (s : sched_state) : Except vm_abort_t Nat :=
  if x86_64_msr_read s X86_64_MSR_GS_BASE = 0 then .error .null_dereference
  else
    let thread := (s.threads (x86_64_msr_read s X86_64_MSR_GS_BASE)).this
    if thread = 0 then .error .assertion_failed else .ok thread

/-- The address of the function `sched_idle`. -/
def SCHED_IDLE : Nat := 0xFFFFFFFF80001000

/-- The function `x86_64_sched_init_cpu`, up to and including its
`sched_switch`.  The wait for the flag another CPU latches does not return in
the model of one CPU. -/
def x86_64_sched_init_cpu (s : sched_state) (cpu : Nat) (release : Bool) :
    Except vm_abort_t (stack_frame_t × sched_state) :=
  match arch_sched_thread_create_kernel s SCHED_IDLE with
  | .error e => .error e
  | .ok (idle_thread, s1) =>
    let s2 := set_thread s1 idle_thread
      { s1.threads idle_thread with common := { (s1.threads idle_thread).common with id := 0 } }
    if cpu = 0 then .error .null_dereference
    else
      let s3 := { s2 with cpus := fun c =>
        if c = cpu then { s2.cpus c with idle_thread := idle_thread } else s2.cpus c }
      match heap_alloc s3.heap SIZEOF_X86_64_THREAD with
      | none => .error .null_dereference
      | some (bootstrap_thread, heap1) =>
        if bootstrap_thread = 0 then .error .null_dereference
        else
          let s4 := set_thread { s3 with heap := heap1 } bootstrap_thread
            { zeroed_thread with
              this := bootstrap_thread,
              common := { zeroed_thread.common with
                          state := .THREAD_STATE_DESTROY, cpu := cpu } }
          if release then
            sched_switch { s4 with g_x86_64_init_flag_sched := true } bootstrap_thread idle_thread
          else if s4.g_x86_64_init_flag_sched then sched_switch s4 bootstrap_thread idle_thread
          else .error .out_of_fuel

/-! ## `arch_sched_stack_setup` -/

/-- Modelled from the spec: `common/auxv.h` is not part of the sources.  The
struct `auxv_t`: the values of `AUXV_ENTRY`, `AUXV_PHDR`, `AUXV_PHENT` and
`AUXV_PHNUM`. -/
structure auxv_t where
  entry : Nat
  phdr : Nat
  phent : Nat
  phnum : Nat
  deriving DecidableEq, Repr

/-- Modelled from the spec: `common/auxv.h` is not part of the sources; the tag
values are those of the host ABI (`AT_SECURE`). -/
def AUXV_SECURE : Nat := 23

/-- Modelled from the spec: the tag `AUXV_ENTRY` (`AT_ENTRY`). -/
def AUXV_ENTRY : Nat := 9

/-- Modelled from the spec: the tag `AUXV_PHDR` (`AT_PHDR`). -/
def AUXV_PHDR : Nat := 3

/-- Modelled from the spec: the tag `AUXV_PHENT` (`AT_PHENT`). -/
def AUXV_PHENT : Nat := 4

/-- Modelled from the spec: the tag `AUXV_PHNUM` (`AT_PHNUM`). -/
def AUXV_PHNUM : Nat := 5

/-- Modelled from the spec: `lib/string.h` is not part of the sources.  A
string is given by the bytes at its address; `string_length` counts the bytes
before the first NUL. -/
def string_length (str : List Nat) : Nat := (str.takeWhile (fun b => b ≠ 0)).length

/-- The bytes of a string up to and including its NUL. -/
def string_bytes (str : List Nat) : List Nat := str.takeWhile (fun b => b ≠ 0) ++ [0]

/-- Modelled from the spec: `vm_copy_to` is not part of the sources.
`vm_copy_to(as, dest, src, count)` copies `count` bytes to the virtual address
`dest` of the address space and returns the number of bytes copied: `count`
when every byte of the destination lies in a region of the address space, and
0, with nothing copied, otherwise. -/
def vm_copy_to (s : sched_state) (address_space dest : Nat) (src : List Nat) (count : Nat) :
    Nat × sched_state :=
  if (List.range count).all (fun i =>
      (addr_to_region (s.vm.address_spaces address_space) (uadd dest i)).isSome) then
    let memory := fun a v =>
      if a = address_space ∧ dest ≤ v ∧ v < dest + count then src.getD (v - dest) 0
      else s.memory a v
    (count, { s with memory := memory })
  else (0, s)

/-- The macro `WRITE_QWORD(VALUE)` of `arch_sched_stack_setup`: the result is
the new value of `stack`. -/
def WRITE_QWORD (s : sched_state) (address_space stack VALUE : Nat) :
    Except vm_abort_t (Nat × sched_state) :=
  let stack1 := usub stack 8
  let tmp := VALUE % UINTPTR_SIZE
  match vm_copy_to s address_space stack1 (qword_bytes tmp) 4 with
  | (copied, s1) => if copied = 4 then .ok (stack1, s1) else .error .assertion_failed

/-- The macro `WRITE_AUX(ID, VALUE)` of `arch_sched_stack_setup`. -/
def WRITE_AUX (s : sched_state) (address_space stack ID VALUE : Nat) :
    Except vm_abort_t (Nat × sched_state) :=
  match WRITE_QWORD s address_space stack VALUE with
  | .error e => .error e
  | .ok (stack1, s1) => WRITE_QWORD s1 address_space stack1 ID

/-- The loops `for(; argv[argc]; argc++) stack -= string_length(argv[argc]) + 1`
and its twin over `envp`: the new value of `stack`. -/
def reserve_strings (strings : List (List Nat)) (stack : Nat) : Nat :=
  strings.foldl (fun stack str => usub stack (string_length str + 1)) stack

/-- The loops of `arch_sched_stack_setup` that write one pointer and copy one
string per entry of `envp` or `argv`: the new values of `stack` and of the data
pointer. -/
def write_strings :
    List (List Nat) → sched_state → Nat → Nat → Nat → Except vm_abort_t (Nat × Nat × sched_state)
  | [], s, _, stack, data => .ok (stack, data, s)
  | str :: rest, s, address_space, stack, data =>
    match WRITE_QWORD s address_space stack data with
    | .error e => .error e
    | .ok (stack1, s1) =>
      let str_sz := string_length str + 1
      match vm_copy_to s1 address_space data (string_bytes str) str_sz with
      | (copied, s2) =>
        if copied = str_sz then write_strings rest s2 address_space stack1 (uadd data str_sz)
        else .error .assertion_failed

/-- The six `WRITE_AUX` calls of `arch_sched_stack_setup` and the
`WRITE_QWORD(0)` after them. -/
def write_auxv (s : sched_state) (address_space stack : Nat) (auxv : auxv_t) :
    Except vm_abort_t (Nat × sched_state) :=
  match WRITE_AUX s address_space stack 0 0 with
  | .error e => .error e
  | .ok (stack1, s1) =>
  match WRITE_AUX s1 address_space stack1 AUXV_SECURE 0 with
  | .error e => .error e
  | .ok (stack2, s2) =>
  match WRITE_AUX s2 address_space stack2 AUXV_ENTRY auxv.entry with
  | .error e => .error e
  | .ok (stack3, s3) =>
  match WRITE_AUX s3 address_space stack3 AUXV_PHDR auxv.phdr with
  | .error e => .error e
  | .ok (stack4, s4) =>
  match WRITE_AUX s4 address_space stack4 AUXV_PHENT auxv.phent with
  | .error e => .error e
  | .ok (stack5, s5) =>
  match WRITE_AUX s5 address_space stack5 AUXV_PHNUM auxv.phnum with
  | .error e => .error e
  | .ok (stack6, s6) => WRITE_QWORD s6 address_space stack6 0

/-- The function `arch_sched_stack_setup`; `argv` and `envp` are the strings
before the terminating NULL of each array. -/
def arch_sched_stack_setup (s : sched_state) (proc : Nat) (argv envp : List (List Nat))
    (auxv : auxv_t) : Except vm_abort_t (Nat × sched_state) :=
  if proc = 0 then .error .null_dereference
  else
    let address_space := (s.processes proc).address_space
    match vm_map_anon s.vm address_space 0 USER_STACK_SIZE
        { read := true, write := true, exec := false } VM_CACHE_STANDARD VM_FLAG_NONE with
    | .error e => .error e
    | .ok (stack_ptr, vm1) =>
      if stack_ptr = 0 then .error .assertion_failed
      else
        let s1 := { s with vm := vm1 }
        let stack0 := usub (uadd stack_ptr USER_STACK_SIZE) 1
        let stack1 := stack0 - stack0 % 16
        let argc := argv.length
        let arg_data := reserve_strings argv stack1
        let envc := envp.length
        let env_data := reserve_strings envp arg_data
        let stack2 := usub env_data
          (usub env_data ((12 + 1 + envc + 1 + argc + 1) * 8 % UINTPTR_SIZE) % 16)
        match write_auxv s1 address_space stack2 auxv with
        | .error e => .error e
        | .ok (stack3, s2) =>
          match write_strings envp s2 address_space stack3 env_data with
          | .error e => .error e
          | .ok (stack4, _, s3) =>
            match WRITE_QWORD s3 address_space stack4 0 with
            | .error e => .error e
            | .ok (stack5, s4) =>
              match write_strings argv s4 address_space stack5 arg_data with
              | .error e => .error e
              | .ok (stack6, _, s5) => WRITE_QWORD s5 address_space stack6 argc

/-! # Lock acquisitions of `vm.c`

The spinlock operations each function of `vm.c` performs, in program order,
along the path it takes from a given state.  A call that stops (at a failed
assertion or at the dereference of a missing page) performs the operations up
to that point. -/

/-- The spinlocks `vm.c` takes, itself or through `pmm_alloc_page`:
`g_free_regions_lock`, the field `lock` of an address space, and the mutex of a
PMM zone. -/
inductive lock_t where
  | g_free_regions_lock
  | address_space_lock (address_space : Nat)
  | pmm_zone_lock (zone : Nat)
  deriving DecidableEq, Repr

/-- A call of `spinlock_acquire` or `spinlock_release`. -/
inductive lock_event_t where
  | spinlock_acquire (lock : lock_t)
  | spinlock_release (lock : lock_t)
  deriving DecidableEq, Repr

/-- Modelled from the spec: `pmm.c` is not part of the sources.  `alloc(order,
flags)` runs under the mutex of the zone, whether or not it finds a block. -/
def pmm_alloc_page_locks (zone : Nat) : List lock_event_t :=
  [.spinlock_acquire (.pmm_zone_lock zone), .spinlock_release (.pmm_zone_lock zone)]

/-- The lock operations of the `for` loop of `region_map`, from offset `i`: one
`pmm_alloc_page` per ANON page, until a page is missing. -/
def region_map_loop_locks :
    Nat → vm_state → vm_region_t → Nat → Nat → Nat → List lock_event_t
  | 0, _, _, _, _, _ => []
  | fuel + 1, s, region, address, length, i =>
    if i < length then
      match region.type with
      | .VM_REGION_TYPE_ANON =>
        pmm_alloc_page_locks PMM_ZONE_NORMAL ++
          match pmm_alloc_page s.pmm PMM_ZONE_NORMAL
              { zero := region.type_data.anon_back_zeroed } with
          | none => []
          | some (_, pmm) =>
            region_map_loop_locks fuel { s with pmm := pmm } region address length
              (uadd i ARCH_PAGE_GRANULARITY)
      | .VM_REGION_TYPE_DIRECT =>
        region_map_loop_locks fuel s region address length (uadd i ARCH_PAGE_GRANULARITY)
    else []

/-- The lock operations of `region_map`. -/
def region_map_locks (s : vm_state) (region : vm_region_t) (address length : Nat) :
    List lock_event_t :=
  if ¬ (address % ARCH_PAGE_GRANULARITY = 0 ∧ length % ARCH_PAGE_GRANULARITY = 0) then []
  else if ¬ (address < region.base ∨ uadd address length ≥ region.base) then []
  else region_map_loop_locks (length / ARCH_PAGE_GRANULARITY + 1) s region address length 0

/-- The lock operations of `region_alloc`: `g_free_regions_lock` from entry to
return; in between, when the free list is empty, `pmm_alloc_page` and, unless
`global_lock_acquired`, the lock of the global address space around
`find_space`, `arch_ptm_map` and `list_append`. -/
def region_alloc_locks (s : vm_state) (global_lock_acquired : Bool) : List lock_event_t :=
  [.spinlock_acquire .g_free_regions_lock] ++
  (if s.g_free_regions.isEmpty then
    pmm_alloc_page_locks PMM_ZONE_NORMAL ++
    (if ¬ global_lock_acquired then
      [.spinlock_acquire (.address_space_lock s.g_vm_global_address_space)] else []) ++
    (match region_alloc_refill s with
     | .error _ => []
     | .ok _ =>
       if ¬ global_lock_acquired then
         [.spinlock_release (.address_space_lock s.g_vm_global_address_space)] else [])
   else []) ++
  (match region_alloc s global_lock_acquired with
   | .error _ => []
   | .ok _ => [.spinlock_release .g_free_regions_lock])

/-- The lock operations of `region_free`. -/
def region_free_locks : List lock_event_t :=
  [.spinlock_acquire .g_free_regions_lock, .spinlock_release .g_free_regions_lock]

/-- The lock operations of `map_common`. -/
def map_common_locks (s : vm_state) (address_space hint length : Nat) (prot : vm_protection_t)
    (cache : Nat) (flags : vm_flags_t) (type : vm_region_type_t)
    (direct_physical_address : Nat) : List lock_event_t :=
  if length = 0 ∨ length % ARCH_PAGE_GRANULARITY ≠ 0 then []
  else if hint % ARCH_PAGE_GRANULARITY ≠ 0 ∧ flags.fixed then []
  else
    region_alloc_locks s false ++
    match region_alloc s false with
    | .error _ => []
    | .ok (region, s1) =>
      [.spinlock_acquire (.address_space_lock address_space)] ++
      match find_space (s1.address_spaces address_space) (rounded_hint hint) length with
      | none => []
      | some address =>
        if address = 0 ∨ (hint ≠ address ∧ flags.fixed) then
          region_free_locks ++ [.spinlock_release (.address_space_lock address_space)]
        else if ¬ SEGMENT_IN_BOUNDS address length (s1.address_spaces address_space).start
            (s1.address_spaces address_space).end_ then []
        else if ¬ (address % ARCH_PAGE_GRANULARITY = 0 ∧ length % ARCH_PAGE_GRANULARITY = 0) then
          []
        else
          let region := map_common_region region address_space type address length prot cache
            flags direct_physical_address
          if flags.no_demand then
            region_map_locks s1 region region.base region.length ++
            match region_map s1 region region.base region.length with
            | .error _ => []
            | .ok _ => [.spinlock_release (.address_space_lock address_space)]
          else [.spinlock_release (.address_space_lock address_space)]

/-- The lock operations of the successor part of one `vm_unmap` iteration. -/
def vm_unmap_successor_locks (s : vm_state) (address_space : Nat) (split_region : vm_region_t)
    (split_base split_length : Nat) : List lock_event_t :=
  if uadd split_region.base split_region.length > uadd split_base split_length then
    region_alloc_locks s (decide (address_space = s.g_vm_global_address_space))
  else []

/-- The lock operations of the last part of one `vm_unmap` iteration. -/
def vm_unmap_truncate_locks (split_region : vm_region_t) (split_base : Nat) :
    List lock_event_t :=
  if split_region.base < split_base then [] else region_free_locks

/-- The lock operations of the outer `for` loop of `vm_unmap`, from
`split_base`. -/
def vm_unmap_loop_locks : Nat → vm_state → Nat → Nat → Nat → Nat → List lock_event_t
  | 0, _, _, _, _, _ => []
  | fuel + 1, s, address_space, address, length, split_base =>
    if ¬ (split_base < uadd address length) then []
    else
      match addr_to_region (s.address_spaces address_space) split_base with
      | none =>
        vm_unmap_loop_locks fuel s address_space address length
          (uadd split_base ARCH_PAGE_GRANULARITY)
      | some (position, split_region) =>
        match vm_unmap_extend (length / ARCH_PAGE_GRANULARITY + 1) split_region address length
            split_base ARCH_PAGE_GRANULARITY with
        | none => []
        | some split_length =>
          if ¬ SEGMENT_IN_BOUNDS split_base split_length (s.address_spaces address_space).start
              (s.address_spaces address_space).end_ then []
          else if ¬ (split_base % ARCH_PAGE_GRANULARITY = 0 ∧
              split_length % ARCH_PAGE_GRANULARITY = 0) then []
          else
            match region_unmap s split_region split_base split_length with
            | .error _ => []
            | .ok s1 =>
              vm_unmap_successor_locks s1 address_space split_region split_base split_length ++
              match vm_unmap_successor s1 address_space position split_region split_base
                  split_length with
              | .error _ => []
              | .ok (position1, s2) =>
                vm_unmap_truncate_locks split_region split_base ++
                vm_unmap_loop_locks fuel
                  (vm_unmap_truncate s2 address_space position1 split_region split_base)
                  address_space address length (uadd split_base split_length)

/-- The lock operations of `vm_unmap`. -/
def vm_unmap_locks (s : vm_state) (address_space address length : Nat) : List lock_event_t :=
  if length = 0 then []
  else if ¬ (address % ARCH_PAGE_GRANULARITY = 0 ∧ length % ARCH_PAGE_GRANULARITY = 0) then []
  else if ¬ SEGMENT_IN_BOUNDS address length (s.address_spaces address_space).start
      (s.address_spaces address_space).end_ then []
  else
    [.spinlock_acquire (.address_space_lock address_space)] ++
    vm_unmap_loop_locks (length / ARCH_PAGE_GRANULARITY + 1) s address_space address length
      address ++
    match vm_unmap_loop (length / ARCH_PAGE_GRANULARITY + 1) s address_space address length
        address with
    | .error _ => []
    | .ok _ => [.spinlock_release (.address_space_lock address_space)]

/-! # The ELF loader (`kernel/src/lib/elf.c`)

The page loop of `case PT_LOAD` in `elf_load` (lines 126-148).  `elf.c` talks
to the PMM through `pmm_alloc_page(flags)` of `memory/pmm.h` and to the page
tables through `arch_vmm_map`; the file comes from a VFS node. -/

/-- Modelled from the spec: the architecture header that defines
`ARCH_PAGE_SIZE` is not part of the sources; pages are 4 KiB. -/
def ARCH_PAGE_SIZE : Nat := 4096

/-- The segment flag `PF_X`. -/
def PF_X : Nat := 0x1

/-- The segment flag `PF_W`. -/
def PF_W : Nat := 0x2

/-- The segment flag `PF_R`. -/
def PF_R : Nat := 0x4

/-- The protection bit `VMM_PROT_WRITE` (`memory/vmm.h`). -/
def VMM_PROT_WRITE : Nat := 1 <<< 0

/-- The protection bit `VMM_PROT_EXEC` (`memory/vmm.h`). -/
def VMM_PROT_EXEC : Nat := 1 <<< 1

/-- The protection bit `VMM_PROT_USER` (`memory/vmm.h`). -/
def VMM_PROT_USER : Nat := 1 <<< 2

/-- The mask `PMM_ZONE_AF_MASK` of the zone bits of the allocator flags
(`memory/pmm.h`). -/
def PMM_ZONE_AF_MASK : Nat := 0b111

/-- The allocator flag `PMM_AF_ZERO` (`memory/pmm.h`). -/
def PMM_AF_ZERO : Nat := 1 <<< 3

/-- Modelled from the spec: `PMM_GENERAL` is not defined in `memory/pmm.h`; it
names the zone of ordinary memory, zone `0` like `PMM_STANDARD`. -/
def PMM_GENERAL : Nat := PMM_ZONE_NORMAL

/-- The struct `elf_phdr_t`. -/
structure elf_phdr_t where
  type : Nat
  flags : Nat
  offset : Nat
  vaddr : Nat
  paddr : Nat
  filesz : Nat
  memsz : Nat
  align : Nat
  deriving DecidableEq, Repr

/-- One call of `arch_vmm_map`. -/
structure vmm_map_call_t where
  vaddr : Nat
  paddr : Nat
  prot : Nat
  deriving DecidableEq, Repr

/-- What the page loop of `elf_load` works on: the PMM, the bytes of physical
memory (the kernel reaches the byte at physical address `p` through the
pointer `HHDM(p)`, and the model keeps the bytes by physical address), the page
table of the address space `as` (virtual page address to frame and
protection), and the calls of `arch_vmm_map` in the order they were made. -/
structure elf_state where
  pmm : pmm_t
  memory : Nat → Nat
  page_table : Nat → Option (Nat × Nat)
  map_calls : List vmm_map_call_t

/-- The ways the page loop stops without finishing: `FAIL(...)` makes
`elf_load` give up and return `true`, `page->paddr` on the NULL that
`pmm_alloc_page` returns when the zone is empty, and an exhausted fuel. -/
inductive elf_stop_t where
  | fail
  | null_dereference
  | out_of_fuel
  deriving DecidableEq, Repr

/-- Modelled from the spec: `pmm.c` is not part of the sources.
`pmm_alloc_page(flags)` takes a frame of the zone named by the zone bits of
`flags`; with `PMM_AF_ZERO` set the frame is zeroed before it is returned. -/
def elf_pmm_alloc_page (s : elf_state) (flags : Nat) : Option (pmm_page_t × elf_state) :=
  match pmm_alloc_page s.pmm (flags &&& PMM_ZONE_AF_MASK)
      { zero := decide (flags &&& PMM_AF_ZERO ≠ 0) } with
  | none => none
  | some (page, pmm) =>
    some (page,
      { s with
        pmm := pmm,
        memory := fun p =>
          if flags &&& PMM_AF_ZERO ≠ 0 ∧ page.paddr ≤ p ∧ p < page.paddr + ARCH_PAGE_SIZE then 0
          else s.memory p })

/-- Modelled from the spec: the VFS is not part of the sources.  `rw` with
`VFS_RW_READ` on a regular file copies the bytes of the file from `offset` on
into the buffer and reports their number in `read_count`: `size` bytes, fewer
when the file ends before.  The buffer is given by its physical address. -/
def vfs_rw_read (file : List Nat) (memory : Nat → Nat) (size offset buffer : Nat) :
    Nat × (Nat → Nat) :=
  let read_count := min size (file.length - offset)
  (read_count,
    fun p =>
      if buffer ≤ p ∧ p < buffer + read_count then file.getD (offset + (p - buffer)) 0
      else memory p)

/-- Modelled from the spec: `arch/vmm.h` is not part of the sources.
`arch_vmm_map(as, vaddr, paddr, prot)` makes the page at `vaddr` of `as` point
to the frame at `paddr` with protection `prot`. -/
def arch_vmm_map (s : elf_state) (vaddr paddr prot : Nat) : elf_state :=
  { s with
    page_table := fun v => if v = vaddr then some (paddr, prot) else s.page_table v,
    map_calls := s.map_calls ++ [{ vaddr := vaddr, paddr := paddr, prot := prot }] }

/-- Lines 128-130 of `elf_load`: the protection of a `PT_LOAD` segment. -/
def elf_load_prot (flags : Nat) : Nat :=
  let prot := VMM_PROT_USER
  let prot := if flags &&& PF_W ≠ 0 then prot ||| VMM_PROT_WRITE else prot
  let prot := if flags &&& PF_X ≠ 0 then prot ||| VMM_PROT_EXEC else prot
  prot

/-- Lines 132-147 of `elf_load`: the page loop, from `count`. -/
def elf_load_page_loop : Nat → elf_state → List Nat → elf_phdr_t → Nat → Nat →
    Except elf_stop_t elf_state
  | 0, _, _, _, _, _ => .error .out_of_fuel
  | fuel + 1, s, file, phdr, prot, count =>
    if ¬ (count < phdr.memsz) then .ok s
    else
      let alignment_offset := (uadd phdr.vaddr count) &&& (ARCH_PAGE_SIZE - 1)
      match elf_pmm_alloc_page s (PMM_GENERAL ||| PMM_AF_ZERO) with
      | none => .error .null_dereference
      | some (page, s1) =>
        let loaded : Except elf_stop_t elf_state :=
          if phdr.filesz > count then
            let read_sz := usub phdr.filesz count
            let read_sz :=
              if read_sz > ARCH_PAGE_SIZE - alignment_offset then ARCH_PAGE_SIZE - alignment_offset
              else read_sz
            let (read_count, memory) :=
              vfs_rw_read file s1.memory read_sz (uadd phdr.offset count)
                (uadd page.paddr alignment_offset)
            if read_count ≠ read_sz then .error .fail
            else .ok { s1 with memory := memory }
          else .ok s1
        match loaded with
        | .error e => .error e
        | .ok s2 =>
          elf_load_page_loop fuel
            (arch_vmm_map s2 (usub (uadd phdr.vaddr count) alignment_offset) page.paddr prot)
            file phdr prot (uadd count (ARCH_PAGE_SIZE - alignment_offset))

/-- Lines 126-148 of `elf_load`: `case PT_LOAD`.  The loop maps at least one
page per iteration, so `memsz / ARCH_PAGE_SIZE + 2` iterations and the final
test are within the fuel. -/
def elf_load_pt_load (s : elf_state) (file : List Nat) (phdr : elf_phdr_t) :
    Except elf_stop_t elf_state :=
  if phdr.filesz > phdr.memsz then .error .fail
  else
    elf_load_page_loop (phdr.memsz / ARCH_PAGE_SIZE + 3) s file phdr (elf_load_prot phdr.flags) 0

/-! # Vocabulary of the properties

Predicates over the model in which the theorems below are stated. -/

/-- The test `find_space` applies to a candidate address: the range is in
bounds and `SEGMENT_INTERSECTS` fails for every region. -/
def passes_find_space (as : vm_address_space_t) (a len : Nat) : Prop :=
  SEGMENT_IN_BOUNDS a len as.start as.end_ ∧
    ∀ r ∈ as.regions, ¬ SEGMENT_INTERSECTS a len r.base r.length

/-- Number of regions whose (machine) end lies above `a`: the measure that
bounds the iterations of `find_space`. -/
def regions_above (as : vm_address_space_t) (a : Nat) : Nat :=
  (as.regions.filter (fun r => decide (a < uadd r.base r.length))).length

/-- The leaf `region_map` installs for a page of `region` backed by `paddr`. -/
def region_leaf (s : vm_state) (region : vm_region_t) (paddr : Nat) : ptm_leaf_t :=
  { physical_address := paddr, protection := region.protection, cache := region.cache_behavior,
    privilege :=
      if region.address_space = s.g_vm_global_address_space then .VM_PRIVILEGE_KERNEL
      else .VM_PRIVILEGE_USER,
    global := decide (region.address_space = s.g_vm_global_address_space) }

/-- The PMM record of a frame taken from zone NORMAL for an ANON region. -/
def anon_taken (region : vm_region_t) (paddr : Nat) : pmm_taken_t :=
  { zone := PMM_ZONE_NORMAL, flags := { zero := region.type_data.anon_back_zeroed },
    paddr := paddr }

/-- The address `x` lies in the range `[base, base + length)` of the region. -/
def region_contains (r : vm_region_t) (x : Nat) : Prop :=
  r.base ≤ x ∧ x < r.base + r.length

/-- The address `x` is covered by (reserved in) some region of the address space. -/
def covered (as : vm_address_space_t) (x : Nat) : Prop :=
  ∃ r ∈ as.regions, region_contains r x

/-- The range `[a, a + len)` is a gap of the address space: it lies within the
bounds and, for every region, one of the two ranges ends where the other has
not begun. -/
def range_free (as : vm_address_space_t) (a len : Nat) : Prop :=
  as.start ≤ a ∧ a + len ≤ as.end_ ∧
    ∀ r ∈ as.regions, a + len ≤ r.base ∨ r.base + r.length ≤ a

/-- The address at which the search of `find_space` starts: the given address
when its range is in bounds, the base of the address space otherwise. -/
def find_space_start (as : vm_address_space_t) (a len : Nat) : Nat :=
  if ¬ SEGMENT_IN_BOUNDS a len as.start as.end_ then as.start else a

instance (r : vm_region_t) (x : Nat) : Decidable (region_contains r x) := by
  unfold region_contains; infer_instance

instance (as : vm_address_space_t) (x : Nat) : Decidable (covered as x) := by
  unfold covered; infer_instance

instance (as : vm_address_space_t) (a len : Nat) : Decidable (range_free as a len) := by
  unfold range_free; infer_instance

/-- Every region of the address space has a page-aligned base and length. -/
def regions_aligned (as : vm_address_space_t) : Prop :=
  ∀ r ∈ as.regions, r.base % ARCH_PAGE_GRANULARITY = 0 ∧ r.length % ARCH_PAGE_GRANULARITY = 0

/-- Every region of the address space lies within its bounds. -/
def regions_in_bounds (as : vm_address_space_t) : Prop :=
  ∀ r ∈ as.regions, as.start ≤ r.base ∧ r.base + r.length ≤ as.end_

/-- Two regions are disjoint: one ends where the other has not begun. -/
def region_disjoint (r1 r2 : vm_region_t) : Prop :=
  r1.base + r1.length ≤ r2.base ∨ r2.base + r2.length ≤ r1.base

/-- The regions of the address space are pairwise disjoint. -/
def regions_disjoint (as : vm_address_space_t) : Prop :=
  as.regions.Pairwise region_disjoint

instance (as : vm_address_space_t) : Decidable (regions_aligned as) := by
  unfold regions_aligned; infer_instance

instance (as : vm_address_space_t) : Decidable (regions_in_bounds as) := by
  unfold regions_in_bounds; infer_instance

instance (r1 r2 : vm_region_t) : Decidable (region_disjoint r1 r2) := by
  unfold region_disjoint; infer_instance

instance (as : vm_address_space_t) : Decidable (regions_disjoint as) := by
  unfold regions_disjoint; infer_instance

/-- The address space of the current thread: that of its process, or the
global one for a kernel thread. -/
def current_address_space (s : vm_state) : Nat :=
  match s.current_thread_process with
  | some as => as
  | none => s.g_vm_global_address_space

/-- The leaf `region_map` installs for a page of a region of address space
`as` created with protection `prot` and cache behaviour `cache`, backed by
`paddr`: kernel privilege and the global bit exactly on the global address
space. -/
def installed_leaf (s : vm_state) (as : Nat) (prot : vm_protection_t) (cache paddr : Nat) :
    ptm_leaf_t :=
  { physical_address := paddr, protection := prot, cache := cache,
    privilege :=
      if as = s.g_vm_global_address_space then .VM_PRIVILEGE_KERNEL else .VM_PRIVILEGE_USER,
    global := decide (as = s.g_vm_global_address_space) }

/-- Some region of the address space contains `x` and carries type `t` and
protection `p`. -/
def reserved_as (as : vm_address_space_t) (x : Nat) (t : vm_region_type_t)
    (p : vm_protection_t) : Prop :=
  ∃ r ∈ as.regions, region_contains r x ∧ r.type = t ∧ r.protection = p

/-- What one iteration of `vm_unmap` leaves of `split_region` when
`[split_base, split_base + split_length)` is cut out of it: the region
truncated at the back when it starts before the range, then the successor when
it extends past the range. -/
def split_pieces (split_region successor : vm_region_t) (split_base split_length : Nat) :
    List vm_region_t :=
  (if split_region.base < split_base then
      [{ split_region with length := split_base - split_region.base }] else []) ++
  (if split_region.base + split_region.length > split_base + split_length then
      [successor] else [])

instance (as : vm_address_space_t) (x : Nat) (t : vm_region_type_t) (p : vm_protection_t) :
    Decidable (reserved_as as x t p) := by
  unfold reserved_as; infer_instance

/-! ## Outcome of a call -/

/-- The value a call returned, if it returned. -/
def returned {α : Type} (r : Except vm_abort_t (α × vm_state)) : Option α :=
  match r with
  | .ok (v, _) => some v
  | .error _ => none

/-- The way a call stopped, if it did not return. -/
def aborted {α : Type} (r : Except vm_abort_t α) : Option vm_abort_t :=
  match r with
  | .ok _ => none
  | .error e => some e

/-- The state a call left behind, or `s` when it did not return. -/
def state_after {α : Type} (r : Except vm_abort_t (α × vm_state)) (s : vm_state) : vm_state :=
  match r with
  | .ok (_, s') => s'
  | .error _ => s

/-- The state a call without a return value left behind, or `s` when it did
not return. -/
def state_of (r : Except vm_abort_t vm_state) (s : vm_state) : vm_state :=
  match r with
  | .ok s' => s'
  | .error _ => s

/-! # Example states -/

/-- An address space with the bounds `[0x1000, 0x100000)` of the spec's
scenario 2 and no region. -/
def fresh_space : vm_address_space_t := { regions := [], start := 0x1000, end_ := 0x100000 }

/-- The protection `{.read = true, .write = true}`. -/
def prot_rw : vm_protection_t := { read := true, write := true, exec := false }

/-- A state right after boot: the global address space has handle `0`, every
address space is fresh, the descriptor free list is empty, nothing is mapped,
zone NORMAL holds four frames, and the current thread belongs to the process
with address space `1`. -/
def boot_state : vm_state :=
  { g_vm_global_address_space := 0
    address_spaces := fun _ => fresh_space
    g_free_regions := []
    page_tables := fun _ _ => none
    pmm := { free := fun _ => [0x200000, 0x201000, 0x202000, 0x203000], taken := [] }
    current_thread_process := some 1 }

/-- The boot state with one descriptor on the free list. -/
def seeded_state : vm_state := { boot_state with g_free_regions := [zeroed_region] }

/-- The seeded state with no frame left in the PMM. -/
def starved_state : vm_state :=
  { seeded_state with pmm := { free := fun _ => [], taken := [] } }

/-- An ANON region `[base, base + length)` of address space `as` with
protection read/write. -/
def anon_region (as base length : Nat) : vm_region_t :=
  { zeroed_region with address_space := as, base := base, length := length,
                       protection := prot_rw }

/-- An address space `[0x1000, 0x4000)` whose upper two pages are reserved. -/
def crowded_space : vm_address_space_t :=
  { regions := [anon_region 1 0x2000 0x2000], start := 0x1000, end_ := 0x4000 }

/-- The seeded state in which address space `1` is the crowded one. -/
def crowded_state : vm_state :=
  { seeded_state with address_spaces := fun a => if a = 1 then crowded_space else fresh_space }

/-- The seeded state in which address space `1`, the one of the current
thread's process, has the page at `0x10000` reserved; the global address space
has the bounds `[0x100000, 0x200000)` and no region. -/
def user_mapped_state : vm_state :=
  { seeded_state with
    address_spaces := fun a =>
      if a = 1 then { fresh_space with regions := [anon_region 1 0x10000 0x1000] }
      else { regions := [], start := 0x100000, end_ := 0x200000 } }

/-- The seeded state in which the global address space has the ANON page at
`0x10000` reserved. -/
def kernel_anon_state : vm_state :=
  { seeded_state with
    address_spaces := fun a =>
      if a = 0 then { fresh_space with regions := [anon_region 0 0x10000 0x1000] }
      else fresh_space }

/-- The state `kernel_anon_state` with a kernel thread (one without a process)
as the current thread. -/
def kernel_thread_state : vm_state := { kernel_anon_state with current_thread_process := none }

/-- The state `kernel_thread_state` with no frame left in the PMM. -/
def kernel_thread_starved_state : vm_state :=
  { kernel_thread_state with pmm := { free := fun _ => [], taken := [] } }

/-- The seeded state in which the global address space has a DIRECT page at
`0x10000` reserved, backed by physical address `0x300000`. -/
def kernel_direct_state : vm_state :=
  { seeded_state with
    address_spaces := fun a =>
      if a = 0 then
        { fresh_space with regions :=
            [{ anon_region 0 0x10000 0x1000 with
               type := .VM_REGION_TYPE_DIRECT,
               type_data := { anon_back_zeroed := false, direct_physical_address := 0x300000 } }] }
      else fresh_space }

/-- The seeded state in which address space `1` has the four pages at `0x10000`
reserved as one ANON read/write region (scenario 4 of the spec). -/
def four_page_state : vm_state :=
  { seeded_state with
    address_spaces := fun a =>
      if a = 1 then { fresh_space with regions := [anon_region 1 0x10000 0x4000] }
      else fresh_space }

/-- The boot state (empty descriptor free list) in which the global address
space `0` has the three pages at `0x2000` reserved. -/
def kernel_three_page_state : vm_state :=
  { boot_state with
    address_spaces := fun a =>
      if a = 0 then { fresh_space with regions := [anon_region 0 0x2000 0x3000] }
      else fresh_space }

/-- The vector a call of `interrupt_request` returned (`none` when the fuel ran
out). -/
def request_vector (r : Option (Int × (Nat → interrupt_entry_t))) : Option Int :=
  r.map Prod.fst

/-- The table a call of `interrupt_request` left behind, or `g` when the fuel
ran out. -/
def request_entries (r : Option (Int × (Nat → interrupt_entry_t))) (g : Nat → interrupt_entry_t) :
    Nat → interrupt_entry_t :=
  match r with
  | some (_, g') => g'
  | none => g

/-- The table after `interrupt_initialize`: every entry free. -/
def initial_entries : Nat → interrupt_entry_t :=
  fun _ => { free := true, handler := 0, priority := 0 }

/-- A table in which the sixteen vectors of priority class 1 are taken by the
handler `0x1000` and every other vector is free. -/
def class_one_full : Nat → interrupt_entry_t :=
  fun v => if 16 ≤ v ∧ v < 32 then { free := false, handler := 0x1000, priority := 1 }
    else { free := true, handler := 0, priority := 0 }

/-- A table with no free entry. -/
def full_entries : Nat → interrupt_entry_t :=
  fun _ => { free := false, handler := 0x1000, priority := 0 }

/-! ## Sequences of thread creations -/

/-- One call that creates a thread: `arch_sched_thread_create_kernel(func)`,
`arch_sched_thread_create_user(proc, ip, sp)`, or `x86_64_sched_init_cpu(cpu,
release)`, which creates the idle thread of the CPU. -/
inductive thread_creation_t where
  | kernel (func : Nat)
  | user (proc ip sp : Nat)
  | init_cpu (cpu : Nat) (release : Bool)
  deriving DecidableEq, Repr

/-- Run one creation; the result carries the id of the thread a creator
returned (`x86_64_sched_init_cpu` returns none). -/
def create_step (s : sched_state) :
    thread_creation_t → Except vm_abort_t (Option Int × sched_state)
  | .kernel func =>
    match arch_sched_thread_create_kernel s func with
    | .error e => .error e
    | .ok (thread, s1) => .ok (some (s1.threads thread).common.id, s1)
  | .user proc ip sp =>
    match arch_sched_thread_create_user s proc ip sp with
    | .error e => .error e
    | .ok (thread, s1) => .ok (some (s1.threads thread).common.id, s1)
  | .init_cpu cpu release =>
    match x86_64_sched_init_cpu s cpu release with
    | .error e => .error e
    | .ok (_, s1) => .ok (none, s1)

/-- Run a sequence of creations; the result carries the ids of the threads the
creators returned, in the order of creation. -/
def issued_ids : List thread_creation_t → sched_state → Except vm_abort_t (List Int × sched_state)
  | [], s => .ok ([], s)
  | op :: rest, s =>
    match create_step s op with
    | .error e => .error e
    | .ok (id, s1) =>
      match issued_ids rest s1 with
      | .error e => .error e
      | .ok (ids, s2) => .ok (id.toList ++ ids, s2)

/-- The threads the bring-ups of a sequence of creations set up: for each
`x86_64_sched_init_cpu` of the sequence, the idle thread it stored in the CPU
and the bootstrap thread it switched away from (the thread its `sched_switch`
handed to `sched_thread_drop`). -/
def init_cpu_threads : List thread_creation_t → sched_state → List Nat
  | [], _ => []
  | op :: rest, s =>
    match create_step s op with
    | .error _ => []
    | .ok (_, s1) =>
      (match op with
        | .init_cpu cpu _ => (s1.cpus cpu).idle_thread :: s1.dropped.drop s.dropped.length
        | _ => []) ++ init_cpu_threads rest s1

/-- The value a call returned, if it returned. -/
def outcome_value {α σ : Type} (r : Except vm_abort_t (α × σ)) : Option α :=
  match r with
  | .ok (v, _) => some v
  | .error _ => none

/-- The state a call with a return value left behind, or `s` when it did not
return. -/
def outcome_state {α σ : Type} (r : Except vm_abort_t (α × σ)) (s : σ) : σ :=
  match r with
  | .ok (_, s') => s'
  | .error _ => s

/-- The state a call without a return value left behind, or `s` when it did
not return. -/
def outcome_of {σ : Type} (r : Except vm_abort_t σ) (s : σ) : σ :=
  match r with
  | .ok s' => s'
  | .error _ => s

/-! ## Scheduler states -/

/-- The frames of zone NORMAL in the scheduler examples: 64 frames from
`0x400000`. -/
def sched_frames : List Nat := (List.range 64).map (fun i => 0x400000 + i * 0x1000)

/-- A scheduler state after boot: the VM state `seeded_state` with 64 free
frames in every zone, a heap that will hand out `0xA000`, `0xA400`, ... and no
thread yet; the next thread id is 1 and the scheduler vector is `0x30`. -/
def sched_boot_state : sched_state :=
  { vm := { seeded_state with pmm := { free := fun _ => sched_frames, taken := [] } }
    memory := fun _ _ => 0
    heap := { free := [0xA000, 0xA400, 0xA800, 0xAC00, 0xB000, 0xB400, 0xB800, 0xBC00],
              live := [] }
    g_hhdm_offset := 0xFFFF800000000000
    g_x86_64_fpu_area_size := 512
    g_x86_64_init_flag_sched := false
    g_next_tid := 1
    g_sched_vector := 0x30
    threads := fun _ => zeroed_thread
    processes := fun _ => { address_space := 1, threads := [] }
    cpus := fun _ => { idle_thread := 0, tss_rsp0 := 0 }
    kernel_stacks := fun _ => .sched_switch_frame
    fpu_areas := fun _ => { x87cw := 0, mxcsr := 0, registers := 0 }
    rsp := 0xFFFF800000200000
    fpu := { x87cw := 0, mxcsr := 0, registers := 0 }
    msr := fun _ => 0
    loaded_address_space := 0
    lapic_timer_oneshots := []
    run_queue := []
    dropped := []
    destroyed_processes := [] }

/-- A descriptor of a READY thread at `thread` with the given id, process,
CPU, saved stack pointer, kernel-stack top and FPU area. -/
def ready_thread (thread : Nat) (id : Int) (proc cpu rsp stack_top fpu_area : Nat) :
    x86_64_thread_t :=
  { this := thread, rsp := rsp, syscall_rsp := 0,
    kernel_stack := { base := stack_top, size := 0x10000 },
    state := { fpu_area := fpu_area, fs := 0, gs := 0 },
    common := { id := id, state := .THREAD_STATE_READY, proc := proc, cpu := cpu } }

/-- A state of one CPU, `0xC000`, with three threads: the kernel thread
`0xA000` is running on it; the user thread `0xA400` of process `0x5000`
(address space 1) is fresh and on the run queue; `0xA800` is the idle thread of
the CPU, switched out earlier. -/
def three_thread_state : sched_state :=
  { sched_boot_state with
    heap := { free := [0xAC00, 0xB000, 0xB400, 0xB800, 0xBC00],
              live := [{ address := 0xA000, size := 128 }, { address := 0xA400, size := 128 },
                       { address := 0xA800, size := 128 }] }
    g_next_tid := 4
    threads := fun a =>
      if a = 0xA000 then ready_thread 0xA000 2 0 0xC000 0xFFFF80000040FFA8 0xFFFF800000410000 0xD000
      else if a = 0xA400 then
        ready_thread 0xA400 3 0x5000 0 0xFFFF80000042FFB0 0xFFFF800000430000 0xD400
      else if a = 0xA800 then
        ready_thread 0xA800 0 0 0 0xFFFF80000041FF00 0xFFFF800000420000 0xD800
      else zeroed_thread
    processes := fun p =>
      if p = 0x5000 then { address_space := 1, threads := [0xA400] }
      else { address_space := 0, threads := [] }
    cpus := fun c =>
      if c = 0xC000 then { idle_thread := 0xA800, tss_rsp0 := 0xFFFF800000410000 }
      else { idle_thread := 0, tss_rsp0 := 0 }
    kernel_stacks := fun a =>
      if a = 0xFFFF80000042FFB0 then .init_stack_user 0x400000 0x7FFFFFF0
      else .sched_switch_frame
    rsp := 0xFFFF80000040FF00
    msr := fun m => if m = X86_64_MSR_GS_BASE then 0xA000 else 0
    run_queue := [0xA400] }

/-- The state `three_thread_state` with a second thread, `0xAC00`, in process
`0x5000`. -/
def shared_process_state : sched_state :=
  { three_thread_state with
    threads := fun a =>
      if a = 0xAC00 then
        ready_thread 0xAC00 4 0x5000 0 0xFFFF80000043FFB0 0xFFFF800000440000 0xDC00
      else three_thread_state.threads a
    processes := fun p =>
      if p = 0x5000 then { address_space := 1, threads := [0xAC00, 0xA400] }
      else { address_space := 0, threads := [] } }

/-! ## The user stack -/

/-- The bytes the strings of `argv` or `envp` take in the string area: each
string and its NUL. -/
def strings_size (strings : List (List Nat)) : Nat :=
  (strings.map (fun str => string_length str + 1)).sum

/-- The user stack `[B, B + USER_STACK_SIZE)` is reserved in the address space:
every address of it lies in a region, and it ends below `2^64`. -/
def stack_mapped (s : sched_state) (address_space B : Nat) : Prop :=
  B + USER_STACK_SIZE < UINTPTR_SIZE ∧
  ∀ x, B ≤ x → x < B + USER_STACK_SIZE →
    (addr_to_region (s.vm.address_spaces address_space) x).isSome = true

/-- The eight bytes at a virtual address of an address space. -/
def read_bytes (s : sched_state) (address_space address : Nat) : List Nat :=
  (List.range 8).map (fun i => s.memory address_space (address + i))

/-- The 64-bit value of eight bytes in memory, least significant first. -/
def qword_of_bytes (bytes : List Nat) : Nat :=
  bytes.foldr (fun b acc => b + 256 * acc) 0

/-- The region list of the address space is sorted by ascending base: no
region has a base above that of a region behind it. -/
def regions_sorted (as : vm_address_space_t) : Prop :=
  as.regions.Pairwise (fun a b => a.base ≤ b.base)

/-- Every region of the address space has a positive length. -/
def regions_nonempty (as : vm_address_space_t) : Prop :=
  ∀ r ∈ as.regions, 0 < r.length

instance (as : vm_address_space_t) : Decidable (regions_sorted as) := by
  unfold regions_sorted; infer_instance

instance (as : vm_address_space_t) : Decidable (regions_nonempty as) := by
  unfold regions_nonempty; infer_instance

/-- The seeded state in which address space `1` has the page at `0x10000` and
the two pages at `0x30000` reserved, in this order. -/
def two_region_state : vm_state :=
  { seeded_state with
    address_spaces := fun a =>
      if a = 1 then
        { fresh_space with regions := [anon_region 1 0x10000 0x1000, anon_region 1 0x30000 0x2000] }
      else fresh_space }

instance (as : vm_address_space_t) (a len : Nat) : Decidable (passes_find_space as a len) := by
  unfold passes_find_space; infer_instance

/-- An address space `[0, 0x2000)` that starts at address 0 and has its upper
page reserved: the page at address 0 is its only gap. -/
def zero_start_space : vm_address_space_t :=
  { regions := [anon_region 1 0x1000 0x1000], start := 0, end_ := 0x2000 }

/-- The physical address to which the region covering `V` translates `V`, as
`region_map` computes it for a DIRECT region:
`type_data.direct.physical_address + (V - base)`; `none` when no DIRECT region
covers `V`. -/
def direct_translation (as : vm_address_space_t) (V : Nat) : Option Nat :=
  match addr_to_region as V with
  | some (_, region) =>
    match region.type with
    | .VM_REGION_TYPE_DIRECT =>
      some (uadd region.type_data.direct_physical_address (usub V region.base))
    | .VM_REGION_TYPE_ANON => none
  | none => none

/-- The boot state after `vm_map_anon(as 1, 0x10000, 2 pages, RW, FIXED | ZERO)`:
address space `1` holds one ANON region backed by zeroed frames. -/
def zero_backed_state : vm_state :=
  state_after (vm_map_anon boot_state 1 0x10000 0x2000 prot_rw VM_CACHE_STANDARD
    { fixed := true, zero := true, no_demand := false }) boot_state

/-- The boot state after `vm_map_direct(global, 0x10000, 3 pages, RW, physical
0x300000, FIXED)`: the global address space holds one DIRECT region (and the
descriptor page of `region_alloc`). -/
def direct_mapped_state : vm_state :=
  state_after (vm_map_direct boot_state 0 0x10000 0x3000 prot_rw VM_CACHE_STANDARD 0x300000
    { fixed := true, zero := false, no_demand := false }) boot_state

/-- Whether `lock` is held after the operations of a trace, `held` telling
whether it was held before. -/
def held_after (lock : lock_t) : Bool → List lock_event_t → Bool
  | held, [] => held
  | held, .spinlock_acquire l :: rest =>
    held_after lock (if l = lock then true else held) rest
  | held, .spinlock_release l :: rest =>
    held_after lock (if l = lock then false else held) rest

/-- The lock `lock` is a leaf on a trace: no other lock is acquired while it is
held (`held` tells whether it is held before the first operation). -/
def lock_is_leaf (lock : lock_t) : Bool → List lock_event_t → Bool
  | _, [] => true
  | held, .spinlock_acquire l :: rest =>
    if l = lock then lock_is_leaf lock true rest
    else !held && lock_is_leaf lock held rest
  | held, .spinlock_release l :: rest =>
    lock_is_leaf lock (if l = lock then false else held) rest

/-- The regions of the address space are page-aligned and in bounds, and its
end is a machine address: what the loop of `vm_unmap` relies on. -/
def unmap_well_formed (s : vm_state) (as : Nat) : Prop :=
  regions_aligned (s.address_spaces as) ∧ regions_in_bounds (s.address_spaces as) ∧
    (s.address_spaces as).end_ < UINTPTR_SIZE

instance (s : vm_state) (as : Nat) : Decidable (unmap_well_formed s as) := by
  unfold unmap_well_formed; infer_instance

/-! ## Leaf mappings and sequences of calls -/

/-- A call of one of the four entry points of `vm.c`. -/
inductive vm_call_t where
  | vm_map_anon (address_space hint length : Nat) (prot : vm_protection_t) (cache : Nat)
      (flags : vm_flags_t)
  | vm_map_direct (address_space hint length : Nat) (prot : vm_protection_t) (cache : Nat)
      (physical_address : Nat) (flags : vm_flags_t)
  | vm_unmap (address_space address length : Nat)
  | vm_fault (address : Nat) (fault : vm_fault_t)

/-- The state one call leaves behind. -/
def vm_call (s : vm_state) : vm_call_t → Except vm_abort_t vm_state
  | .vm_map_anon address_space hint length prot cache flags =>
    match vm_map_anon s address_space hint length prot cache flags with
    | .error e => .error e
    | .ok (_, s1) => .ok s1
  | .vm_map_direct address_space hint length prot cache physical_address flags =>
    match vm_map_direct s address_space hint length prot cache physical_address flags with
    | .error e => .error e
    | .ok (_, s1) => .ok s1
  | .vm_unmap address_space address length => vm_unmap s address_space address length
  | .vm_fault address fault =>
    match vm_fault s address fault with
    | .error e => .error e
    | .ok (_, s1) => .ok s1

/-- The state a sequence of calls leaves behind. -/
def vm_calls : List vm_call_t → vm_state → Except vm_abort_t vm_state
  | [], s => .ok s
  | call :: rest, s =>
    match vm_call s call with
    | .error e => .error e
    | .ok s1 => vm_calls rest s1

/-- A sequence of calls on the boot state: three pages of the global address
space are reserved, page faults back the first two of them, and the middle page
is unmapped again. -/
def boot_calls : List vm_call_t :=
  [.vm_map_anon 0 0 0x3000 prot_rw VM_CACHE_STANDARD
      { fixed := false, zero := true, no_demand := false },
    .vm_fault 0x2000 .VM_FAULT_NOT_PRESENT,
    .vm_fault 0x3008 .VM_FAULT_NOT_PRESENT,
    .vm_unmap 0 0x3000 0x1000]

/-! ## A segment to load -/

/-- A file of 64 bytes, byte `i` holding `i + 1`. -/
def elf_example_file : List Nat := (List.range 64).map (fun i => i + 1)

/-- A writable `PT_LOAD` segment that starts 16 bytes below a page boundary:
32 bytes of the file from offset `0x10`, `0x1030` bytes of memory at
`0x400FF0`, so that it touches the pages at `0x400000`, `0x401000` and
`0x402000`. -/
def elf_example_phdr : elf_phdr_t :=
  { type := 1, flags := PF_R ||| PF_W, offset := 0x10, vaddr := 0x400FF0, paddr := 0,
    filesz := 0x20, memsz := 0x1030, align := 0x1000 }

/-- A state with three free frames whose memory holds `0xAA` everywhere, an
empty page table and no call of `arch_vmm_map` yet. -/
def elf_example_state : elf_state :=
  { pmm := { free := fun _ => [0x200000, 0x201000, 0x202000], taken := [] }
    memory := fun _ => 0xAA
    page_table := fun _ => none
    map_calls := [] }

/-- The state a returning page loop left, `s` when it did not return. -/
def elf_state_of (r : Except elf_stop_t elf_state) (s : elf_state) : elf_state :=
  match r with
  | .ok s' => s'
  | .error _ => s

/-! ## A full global address space -/

theorem uadd_eq {a b : Nat} (h : a + b < UINTPTR_SIZE) : uadd a b = a + b := by
  unfold uadd; exact Nat.mod_eq_of_lt h

theorem usub_eq {a b : Nat} (hb : b ≤ a) (ha : a < UINTPTR_SIZE) : usub a b = a - b := by
  unfold usub
  have : a + UINTPTR_SIZE - b = (a - b) + UINTPTR_SIZE := by omega
  rw [this, Nat.add_mod_right]
  exact Nat.mod_eq_of_lt (by omega)

theorem uadd_lt (a b : Nat) : uadd a b < UINTPTR_SIZE := by
  unfold uadd; exact Nat.mod_lt _ (by unfold UINTPTR_SIZE; decide)

theorem segment_in_bounds_iff {b l s e : Nat} (he : e < UINTPTR_SIZE) :
    SEGMENT_IN_BOUNDS b l s e ↔ s ≤ b ∧ b < e ∧ b + l ≤ e := by
  unfold SEGMENT_IN_BOUNDS ADDRESS_IN_BOUNDS
  constructor
  · rintro ⟨⟨h1, h2⟩, h3⟩
    rw [usub_eq (Nat.le_of_lt h2) he] at h3
    omega
  · rintro ⟨h1, h2, h3⟩
    rw [usub_eq (Nat.le_of_lt h2) he]
    omega

/-! ## `find_space` -/

theorem filter_length_lt {α : Type} (p q : α → Bool) (l : List α)
    (hpq : ∀ x, p x = true → q x = true) (x : α) (hx : x ∈ l) (hqx : q x = true)
    (hpx : p x = false) : (l.filter p).length < (l.filter q).length := by
  induction l with
  | nil => cases hx
  | cons y ys ih =>
    have hle : (ys.filter p).length ≤ (ys.filter q).length := by
      clear ih hx
      induction ys with
      | nil => simp
      | cons z zs ihz =>
        by_cases hpz : p z = true
        · simp [List.filter_cons, hpz, hpq z hpz, ihz]
        · by_cases hqz : q z = true
          · simp [List.filter_cons, hpz, hqz]; omega
          · simp [List.filter_cons, hpz, hqz, ihz]
    rcases List.mem_cons.mp hx with rfl | hmem
    · simp [List.filter_cons, hqx, hpx]; omega
    · have := ih hmem
      by_cases hpy : p y = true
      · simp [List.filter_cons, hpy, hpq y hpy]; omega
      · by_cases hqy : q y = true
        · simp [List.filter_cons, hpy, hqy]; omega
        · simp [List.filter_cons, hpy, hqy]; omega

theorem regions_above_lt (as : vm_address_space_t) (a : Nat) (r : vm_region_t)
    (hr : r ∈ as.regions) (ha : a < uadd r.base r.length) :
    regions_above as (uadd r.base r.length) < regions_above as a := by
  unfold regions_above
  apply filter_length_lt _ _ _ _ r hr
  · simpa using ha
  · simp
  · intro x hx
    simp at hx ⊢
    omega

theorem regions_above_le (as : vm_address_space_t) (a : Nat) :
    regions_above as a ≤ as.regions.length := by
  unfold regions_above; exact List.length_filter_le _ _

/-- The loop of `find_space` returns, and what it returns is the lowest
address at or above its start that passes the test, or `0` when there is none. -/
theorem find_space_loop_spec (as : vm_address_space_t) (len : Nat)
    (he : as.end_ < UINTPTR_SIZE) :
    ∀ (fuel a : Nat), as.start ≤ a → regions_above as a < fuel →
      ∃ res, find_space_loop fuel as a len = some res ∧
        ((res = 0 ∧ ∀ a', a ≤ a' → ¬ passes_find_space as a' len) ∨
         (a ≤ res ∧ passes_find_space as res len ∧
            ∀ a', a ≤ a' → a' < res → ¬ passes_find_space as a' len)) := by
  intro fuel
  induction fuel with
  | zero => intro a _ h; omega
  | succ n ih =>
    intro a hsa hfuel
    unfold find_space_loop
    by_cases hsib : SEGMENT_IN_BOUNDS a len as.start as.end_
    · rw [if_neg (not_not.mpr hsib)]
      cases hfind : as.regions.find?
          (fun region => decide (SEGMENT_INTERSECTS a len region.base region.length)) with
      | none =>
        refine ⟨a, rfl, Or.inr ⟨Nat.le_refl _, ⟨hsib, ?_⟩, ?_⟩⟩
        · intro r hr
          have := List.find?_eq_none.mp hfind r hr
          simpa using this
        · intro a' h1 h2; omega
      | some r =>
        have hr : r ∈ as.regions := List.mem_of_find?_eq_some hfind
        have hint : SEGMENT_INTERSECTS a len r.base r.length := by
          have := List.find?_some hfind
          simpa using this
        have hlt : a < uadd r.base r.length := hint.1
        obtain ⟨res, hres, hspec⟩ := ih (uadd r.base r.length) (by omega)
          (by have := regions_above_lt as a r hr hlt; omega)
        refine ⟨res, hres, ?_⟩
        have hgap : ∀ a', a ≤ a' → a' < uadd r.base r.length →
            ¬ passes_find_space as a' len := by
          intro a' h1 h2 hp
          have hni := hp.2 r hr
          have hs' := (segment_in_bounds_iff he).mp hp.1
          have hs := (segment_in_bounds_iff he).mp hsib
          apply hni
          refine ⟨h2, ?_⟩
          have h3 := hint.2
          rw [uadd_eq (by omega)] at h3 ⊢
          omega
        rcases hspec with ⟨h0, hnone⟩ | ⟨hle, hpass, hmin⟩
        · left
          refine ⟨h0, ?_⟩
          intro a' ha'
          by_cases hc : a' < uadd r.base r.length
          · exact hgap a' ha' hc
          · exact hnone a' (by omega)
        · right
          refine ⟨by omega, hpass, ?_⟩
          intro a' ha' hlt'
          by_cases hc : a' < uadd r.base r.length
          · exact hgap a' ha' hc
          · exact hmin a' (by omega) hlt'
    · rw [if_pos hsib]
      refine ⟨0, rfl, Or.inl ⟨rfl, ?_⟩⟩
      intro a' ha' hp
      have hs' := (segment_in_bounds_iff he).mp hp.1
      apply hsib
      apply (segment_in_bounds_iff he).mpr
      omega

theorem page_pos : 0 < ARCH_PAGE_GRANULARITY := by unfold ARCH_PAGE_GRANULARITY; decide

theorem page_lt : ARCH_PAGE_GRANULARITY < UINTPTR_SIZE := by
  unfold ARCH_PAGE_GRANULARITY UINTPTR_SIZE; decide

/-- `region_map` leaves the region lists, the descriptor free list and the
global pointers alone. -/
theorem region_map_loop_frame (region : vm_region_t) (address length : Nat) :
    ∀ (fuel : Nat) (s s' : vm_state) (i : Nat),
      region_map_loop fuel s region address length i = .ok s' →
      s'.address_spaces = s.address_spaces ∧ s'.g_free_regions = s.g_free_regions ∧
      s'.g_vm_global_address_space = s.g_vm_global_address_space ∧
      s'.current_thread_process = s.current_thread_process := by
  intro fuel
  induction fuel with
  | zero =>
    intro s s' i h
    unfold region_map_loop at h
    split at h
    · cases h
    · cases h; exact ⟨rfl, rfl, rfl, rfl⟩
  | succ n ih =>
    intro s s' i h
    unfold region_map_loop at h
    split at h
    · simp only at h
      split at h
      · split at h
        · cases h
        · have := ih _ _ _ h
          simpa [arch_ptm_map] using this
      · have := ih _ _ _ h
        simpa [arch_ptm_map] using this
    · cases h; exact ⟨rfl, rfl, rfl, rfl⟩

theorem region_map_frame {s s' : vm_state} {region : vm_region_t} {address length : Nat}
    (h : region_map s region address length = .ok s') :
    s'.address_spaces = s.address_spaces ∧ s'.g_free_regions = s.g_free_regions ∧
    s'.g_vm_global_address_space = s.g_vm_global_address_space ∧
    s'.current_thread_process = s.current_thread_process := by
  unfold region_map at h
  split at h
  · cases h
  · split at h
    · cases h
    · exact region_map_loop_frame _ _ _ _ _ _ _ h

/-- `region_unmap` always returns for a page-multiple length below `2^64`, and
only the page tables change. -/
theorem region_unmap_loop_ok (region : vm_region_t) (address length : Nat)
    (hl : length % ARCH_PAGE_GRANULARITY = 0) (hlt : length < UINTPTR_SIZE) :
    ∀ (fuel : Nat) (s : vm_state) (i : Nat), i % ARCH_PAGE_GRANULARITY = 0 → i ≤ length →
      (length - i) / ARCH_PAGE_GRANULARITY < fuel →
      ∃ s', region_unmap_loop fuel s region address length i = .ok s' ∧
        s'.address_spaces = s.address_spaces ∧ s'.g_free_regions = s.g_free_regions ∧
        s'.g_vm_global_address_space = s.g_vm_global_address_space ∧
        s'.current_thread_process = s.current_thread_process ∧ s'.pmm = s.pmm := by
  intro fuel
  induction fuel with
  | zero => intro s i _ _ h; exact absurd h (Nat.not_lt_zero _)
  | succ n ih =>
    intro s i hi hle hfuel
    unfold region_unmap_loop
    by_cases hlt' : i < length
    · rw [if_pos hlt']
      have hadd : uadd i ARCH_PAGE_GRANULARITY = i + ARCH_PAGE_GRANULARITY :=
        uadd_eq (by simp only [ARCH_PAGE_GRANULARITY, UINTPTR_SIZE] at *; omega)
      rw [hadd]
      obtain ⟨s', h1, h2⟩ := ih (arch_ptm_unmap s region.address_space (uadd address i))
        (i + ARCH_PAGE_GRANULARITY)
        (by simp only [ARCH_PAGE_GRANULARITY] at *; omega)
        (by simp only [ARCH_PAGE_GRANULARITY] at *; omega)
        (by simp only [ARCH_PAGE_GRANULARITY] at *; omega)
      exact ⟨s', h1, by simpa [arch_ptm_unmap] using h2⟩
    · rw [if_neg hlt']
      exact ⟨s, rfl, rfl, rfl, rfl, rfl, rfl⟩

theorem region_unmap_ok (s : vm_state) (region : vm_region_t) (address length : Nat)
    (ha : address % ARCH_PAGE_GRANULARITY = 0) (hl : length % ARCH_PAGE_GRANULARITY = 0)
    (hb : region.base ≤ address) (hsum : address + length < UINTPTR_SIZE) :
    ∃ s', region_unmap s region address length = .ok s' ∧
      s'.address_spaces = s.address_spaces ∧ s'.g_free_regions = s.g_free_regions ∧
      s'.g_vm_global_address_space = s.g_vm_global_address_space ∧
      s'.current_thread_process = s.current_thread_process ∧ s'.pmm = s.pmm := by
  unfold region_unmap
  rw [if_neg (by simp [ha, hl])]
  rw [if_neg (by rw [uadd_eq hsum]; omega)]
  exact region_unmap_loop_ok region address length hl (by omega) _ s 0 (by simp) (by omega)
    (by simp only [ARCH_PAGE_GRANULARITY] at *; omega)

theorem pmm_alloc_page_cons {pmm : pmm_t} {zone : Nat} {flags : pmm_flags_t} {p : Nat}
    {rest : List Nat} (h : pmm.free zone = p :: rest) :
    pmm_alloc_page pmm zone flags =
      some ({ paddr := p },
            { free := fun z => if z = zone then rest else pmm.free z,
              taken := { zone := zone, flags := flags, paddr := p } :: pmm.taken }) := by
  unfold pmm_alloc_page; rw [h]

theorem pmm_alloc_page_nil {pmm : pmm_t} {zone : Nat} {flags : pmm_flags_t}
    (h : pmm.free zone = []) : pmm_alloc_page pmm zone flags = none := by
  unfold pmm_alloc_page; rw [h]

/-- Effect of the loop of `region_map` on an ANON region when zone NORMAL holds
enough frames: page `v` of the range receives the frame at its index in the
zone's hand-out order, each frame requested with the region's zero flag. -/
theorem region_map_loop_anon (region : vm_region_t) (B L : Nat)
    (hL : L % ARCH_PAGE_GRANULARITY = 0) (hsum : B + L < UINTPTR_SIZE)
    (htype : region.type = .VM_REGION_TYPE_ANON) :
    ∀ (fuel : Nat) (s : vm_state) (i : Nat), i % ARCH_PAGE_GRANULARITY = 0 → i ≤ L →
      (L - i) / ARCH_PAGE_GRANULARITY < fuel →
      (L - i) / ARCH_PAGE_GRANULARITY ≤ (s.pmm.free PMM_ZONE_NORMAL).length →
      ∃ s', region_map_loop fuel s region B L i = .ok s' ∧
        s'.pmm.free PMM_ZONE_NORMAL =
          (s.pmm.free PMM_ZONE_NORMAL).drop ((L - i) / ARCH_PAGE_GRANULARITY) ∧
        (∀ z, z ≠ PMM_ZONE_NORMAL → s'.pmm.free z = s.pmm.free z) ∧
        s'.pmm.taken =
          (((s.pmm.free PMM_ZONE_NORMAL).take ((L - i) / ARCH_PAGE_GRANULARITY)).map
            (anon_taken region)).reverse ++ s.pmm.taken ∧
        (∀ a v, s'.page_tables a v =
          if a = region.address_space ∧ B + i ≤ v ∧ v < B + L ∧
              (v - B) % ARCH_PAGE_GRANULARITY = 0 then
            some (region_leaf s region
              ((s.pmm.free PMM_ZONE_NORMAL).getD ((v - (B + i)) / ARCH_PAGE_GRANULARITY) 0))
          else s.page_tables a v) := by
  intro fuel
  induction fuel with
  | zero => intro s i _ _ h; exact absurd h (Nat.not_lt_zero _)
  | succ n ih =>
    intro s i hi hle hfuel hfree
    unfold region_map_loop
    by_cases hlt : i < L
    · rw [if_pos hlt]
      simp only [htype]
      have hk : (L - i) / ARCH_PAGE_GRANULARITY =
          (L - (i + ARCH_PAGE_GRANULARITY)) / ARCH_PAGE_GRANULARITY + 1 := by
        simp only [ARCH_PAGE_GRANULARITY] at *; omega
      cases hfl : s.pmm.free PMM_ZONE_NORMAL with
      | nil => rw [hfl, hk] at hfree; simp at hfree
      | cons p rest =>
        rw [pmm_alloc_page_cons hfl]
        simp only
        have hadd : uadd i ARCH_PAGE_GRANULARITY = i + ARCH_PAGE_GRANULARITY :=
          uadd_eq (by simp only [ARCH_PAGE_GRANULARITY, UINTPTR_SIZE] at *; omega)
        have haddr : uadd B i = B + i := uadd_eq (by omega)
        rw [hadd, haddr]
        obtain ⟨s', h1, h2, h3, h4, h5⟩ := ih
          (arch_ptm_map { s with pmm :=
              { free := fun z => if z = PMM_ZONE_NORMAL then rest else s.pmm.free z,
                taken := { zone := PMM_ZONE_NORMAL,
                           flags := { zero := region.type_data.anon_back_zeroed },
                           paddr := p } :: s.pmm.taken } }
            region.address_space (B + i) p region.protection region.cache_behavior
            (if decide (region.address_space = s.g_vm_global_address_space) = true then
              vm_privilege_t.VM_PRIVILEGE_KERNEL else vm_privilege_t.VM_PRIVILEGE_USER)
            (decide (region.address_space = s.g_vm_global_address_space)))
          (i + ARCH_PAGE_GRANULARITY)
          (by simp only [ARCH_PAGE_GRANULARITY] at *; omega)
          (by simp only [ARCH_PAGE_GRANULARITY] at *; omega)
          (by omega)
          (by
            simp only [arch_ptm_map, if_true]
            rw [hfl, hk] at hfree
            simpa using hfree)
        refine ⟨s', h1, ?_, ?_, ?_, ?_⟩
        · rw [h2, hk]; simp [arch_ptm_map]
        · intro z hz
          rw [h3 z hz]; simp [arch_ptm_map, hz]
        · rw [h4, hk]
          simp [arch_ptm_map, anon_taken]
        · intro a v
          rw [h5 a v]
          simp only [arch_ptm_map, if_true, region_leaf]
          by_cases hc1 : a = region.address_space ∧ B + (i + ARCH_PAGE_GRANULARITY) ≤ v ∧
              v < B + L ∧ (v - B) % ARCH_PAGE_GRANULARITY = 0
          · rw [if_pos hc1, if_pos (show a = region.address_space ∧ B + i ≤ v ∧ v < B + L ∧
                (v - B) % ARCH_PAGE_GRANULARITY = 0 from ⟨hc1.1, by omega, hc1.2.2.1, hc1.2.2.2⟩)]
            have hidx : (v - (B + i)) / ARCH_PAGE_GRANULARITY =
                (v - (B + (i + ARCH_PAGE_GRANULARITY))) / ARCH_PAGE_GRANULARITY + 1 := by
              simp only [ARCH_PAGE_GRANULARITY] at *; omega
            rw [hidx]
            simp
          · rw [if_neg hc1]
            by_cases hc2 : a = region.address_space ∧ v = B + i
            · rw [if_pos hc2]
              rw [if_pos (show a = region.address_space ∧ B + i ≤ v ∧ v < B + L ∧
                (v - B) % ARCH_PAGE_GRANULARITY = 0 from ⟨hc2.1, by omega, by omega, by
                  rw [hc2.2]; simp only [ARCH_PAGE_GRANULARITY] at *; omega⟩)]
              rw [hc2.2]
              simp
            · rw [if_neg hc2]
              rw [if_neg]
              rintro ⟨e1, e2, e3, e4⟩
              apply hc1
              refine ⟨e1, ?_, e3, e4⟩
              have : v ≠ B + i := fun e => hc2 ⟨e1, e⟩
              simp only [ARCH_PAGE_GRANULARITY] at *; omega
    · rw [if_neg hlt]
      have hz : (L - i) / ARCH_PAGE_GRANULARITY = 0 := by
        have : L - i = 0 := by omega
        rw [this]; simp
      refine ⟨s, rfl, ?_, ?_, ?_, ?_⟩
      · rw [hz]; simp
      · intro z _; rfl
      · rw [hz]; simp
      · intro a v
        rw [if_neg]
        rintro ⟨_, e2, e3, _⟩
        omega

/-- Effect of the loop of `region_map` on a DIRECT region: page `v` of the
range is mapped to `physical_address + (v - base)` and the PMM is untouched. -/
theorem region_map_loop_direct (region : vm_region_t) (B L : Nat)
    (hL : L % ARCH_PAGE_GRANULARITY = 0) (hsum : B + L < UINTPTR_SIZE)
    (htype : region.type = .VM_REGION_TYPE_DIRECT) :
    ∀ (fuel : Nat) (s : vm_state) (i : Nat), i % ARCH_PAGE_GRANULARITY = 0 → i ≤ L →
      (L - i) / ARCH_PAGE_GRANULARITY < fuel →
      ∃ s', region_map_loop fuel s region B L i = .ok s' ∧
        s'.pmm = s.pmm ∧
        (∀ a v, s'.page_tables a v =
          if a = region.address_space ∧ B + i ≤ v ∧ v < B + L ∧
              (v - B) % ARCH_PAGE_GRANULARITY = 0 then
            some (region_leaf s region
              (uadd region.type_data.direct_physical_address (usub v region.base)))
          else s.page_tables a v) := by
  intro fuel
  induction fuel with
  | zero => intro s i _ _ h; exact absurd h (Nat.not_lt_zero _)
  | succ n ih =>
    intro s i hi hle hfuel
    unfold region_map_loop
    by_cases hlt : i < L
    · rw [if_pos hlt]
      simp only [htype]
      have hadd : uadd i ARCH_PAGE_GRANULARITY = i + ARCH_PAGE_GRANULARITY :=
        uadd_eq (by simp only [ARCH_PAGE_GRANULARITY, UINTPTR_SIZE] at *; omega)
      have haddr : uadd B i = B + i := uadd_eq (by omega)
      rw [hadd, haddr]
      obtain ⟨s', h1, h2, h5⟩ := ih
        (arch_ptm_map s region.address_space (B + i)
          (uadd region.type_data.direct_physical_address (usub (B + i) region.base))
          region.protection region.cache_behavior
          (if decide (region.address_space = s.g_vm_global_address_space) = true then
            vm_privilege_t.VM_PRIVILEGE_KERNEL else vm_privilege_t.VM_PRIVILEGE_USER)
          (decide (region.address_space = s.g_vm_global_address_space)))
        (i + ARCH_PAGE_GRANULARITY)
        (by simp only [ARCH_PAGE_GRANULARITY] at *; omega)
        (by simp only [ARCH_PAGE_GRANULARITY] at *; omega)
        (by simp only [ARCH_PAGE_GRANULARITY] at *; omega)
      refine ⟨s', h1, ?_, ?_⟩
      · rw [h2]; simp [arch_ptm_map]
      · intro a v
        rw [h5 a v]
        simp only [arch_ptm_map, if_true, region_leaf]
        by_cases hc1 : a = region.address_space ∧ B + (i + ARCH_PAGE_GRANULARITY) ≤ v ∧
            v < B + L ∧ (v - B) % ARCH_PAGE_GRANULARITY = 0
        · rw [if_pos hc1, if_pos (show a = region.address_space ∧ B + i ≤ v ∧ v < B + L ∧
                (v - B) % ARCH_PAGE_GRANULARITY = 0 from ⟨hc1.1, by omega, hc1.2.2.1, hc1.2.2.2⟩)]
        · rw [if_neg hc1]
          by_cases hc2 : a = region.address_space ∧ v = B + i
          · rw [if_pos hc2]
            rw [if_pos (show a = region.address_space ∧ B + i ≤ v ∧ v < B + L ∧
              (v - B) % ARCH_PAGE_GRANULARITY = 0 from ⟨hc2.1, by omega, by omega, by
                rw [hc2.2]; simp only [ARCH_PAGE_GRANULARITY] at *; omega⟩)]
            rw [hc2.2]
            simp
          · rw [if_neg hc2]
            rw [if_neg]
            rintro ⟨e1, e2, e3, e4⟩
            apply hc1
            refine ⟨e1, ?_, e3, e4⟩
            have : v ≠ B + i := fun e => hc2 ⟨e1, e⟩
            simp only [ARCH_PAGE_GRANULARITY] at *; omega
    · rw [if_neg hlt]
      refine ⟨s, rfl, rfl, ?_⟩
      intro a v
      rw [if_neg]
      rintro ⟨_, e2, e3, _⟩
      omega

/-- The loop of `region_map` on an ANON region stops at the dereference of the
missing page when zone NORMAL runs out of frames before the range is done. -/
theorem region_map_loop_anon_short (region : vm_region_t) (B L : Nat)
    (hL : L % ARCH_PAGE_GRANULARITY = 0) (hlt : L < UINTPTR_SIZE)
    (htype : region.type = .VM_REGION_TYPE_ANON) :
    ∀ (fuel : Nat) (s : vm_state) (i : Nat), i % ARCH_PAGE_GRANULARITY = 0 → i ≤ L →
      (L - i) / ARCH_PAGE_GRANULARITY < fuel →
      (s.pmm.free PMM_ZONE_NORMAL).length < (L - i) / ARCH_PAGE_GRANULARITY →
      region_map_loop fuel s region B L i = .error .null_dereference := by
  intro fuel
  induction fuel with
  | zero => intro s i _ _ h; exact absurd h (Nat.not_lt_zero _)
  | succ n ih =>
    intro s i hi hle hfuel hfree
    unfold region_map_loop
    have hlt' : i < L := by
      by_contra hc
      have : L - i = 0 := by omega
      rw [this] at hfree; simp at hfree
    rw [if_pos hlt']
    simp only [htype]
    have hk : (L - i) / ARCH_PAGE_GRANULARITY =
        (L - (i + ARCH_PAGE_GRANULARITY)) / ARCH_PAGE_GRANULARITY + 1 := by
      simp only [ARCH_PAGE_GRANULARITY] at *; omega
    cases hfl : s.pmm.free PMM_ZONE_NORMAL with
    | nil => rw [pmm_alloc_page_nil hfl]
    | cons p rest =>
      rw [pmm_alloc_page_cons hfl]
      simp only
      have hadd : uadd i ARCH_PAGE_GRANULARITY = i + ARCH_PAGE_GRANULARITY :=
        uadd_eq (by simp only [ARCH_PAGE_GRANULARITY, UINTPTR_SIZE] at *; omega)
      rw [hadd]
      apply ih
      · simp only [ARCH_PAGE_GRANULARITY] at *; omega
      · simp only [ARCH_PAGE_GRANULARITY] at *; omega
      · omega
      · simp only [arch_ptm_map, if_true]
        rw [hfl, hk] at hfree
        simpa using hfree

theorem passes_find_space_iff (as : vm_address_space_t) (a len : Nat)
    (he : as.end_ < UINTPTR_SIZE) (hlen : 0 < len)
    (hwrap : ∀ r ∈ as.regions, r.base + r.length < UINTPTR_SIZE) :
    passes_find_space as a len ↔ range_free as a len := by
  unfold passes_find_space range_free SEGMENT_INTERSECTS
  rw [segment_in_bounds_iff he]
  constructor
  · rintro ⟨⟨h1, h2, h3⟩, h4⟩
    refine ⟨h1, h3, ?_⟩
    intro r hr
    have := h4 r hr
    rw [uadd_eq (hwrap r hr), uadd_eq (by omega)] at this
    omega
  · rintro ⟨h1, h2, h3⟩
    refine ⟨⟨h1, by omega, h2⟩, ?_⟩
    intro r hr
    have := h3 r hr
    rw [uadd_eq (hwrap r hr), uadd_eq (by omega)]
    omega

/-- What `find_space` computes: it always returns, and the result is the lowest
gap of `len` bytes at or above the starting address, or `0` when no gap lies at
or above the starting address. -/
theorem find_space_spec (as : vm_address_space_t) (a len : Nat)
    (he : as.end_ < UINTPTR_SIZE) (hlen : 0 < len)
    (hwrap : ∀ r ∈ as.regions, r.base + r.length < UINTPTR_SIZE) :
    ∃ res, find_space as a len = some res ∧
      ((res = 0 ∧ ∀ a', find_space_start as a len ≤ a' → ¬ range_free as a' len) ∨
       (find_space_start as a len ≤ res ∧ range_free as res len ∧
          ∀ a', find_space_start as a len ≤ a' → a' < res → ¬ range_free as a' len)) := by
  have hstart : as.start ≤ find_space_start as a len := by
    unfold find_space_start
    split
    · exact Nat.le_refl _
    · rename_i h
      exact (not_not.mp h).1.1
  obtain ⟨res, h1, h2⟩ := find_space_loop_spec as len he (as.regions.length + 1)
    (find_space_start as a len) hstart
    (by have := regions_above_le as (find_space_start as a len); omega)
  refine ⟨res, h1, ?_⟩
  simp only [passes_find_space_iff as _ len he hlen hwrap] at h2
  exact h2

/-- The result of `find_space` is page-aligned when the base of the address
space, the starting address and the end of every region are. -/
theorem find_space_loop_aligned (as : vm_address_space_t) (len : Nat)
    (hreg : ∀ r ∈ as.regions, uadd r.base r.length % ARCH_PAGE_GRANULARITY = 0) :
    ∀ (fuel a res : Nat), a % ARCH_PAGE_GRANULARITY = 0 →
      find_space_loop fuel as a len = some res → res % ARCH_PAGE_GRANULARITY = 0 := by
  intro fuel
  induction fuel with
  | zero => intro a res _ h; simp [find_space_loop] at h
  | succ n ih =>
    intro a res ha h
    unfold find_space_loop at h
    split at h
    · cases h; rfl
    · split at h
      · rename_i region hfind
        exact ih _ _ (hreg region (List.mem_of_find?_eq_some hfind)) h
      · cases h; exact ha

theorem find_space_aligned (as : vm_address_space_t) (a len res : Nat)
    (hs : as.start % ARCH_PAGE_GRANULARITY = 0) (ha : a % ARCH_PAGE_GRANULARITY = 0)
    (hreg : ∀ r ∈ as.regions, uadd r.base r.length % ARCH_PAGE_GRANULARITY = 0)
    (h : find_space as a len = some res) : res % ARCH_PAGE_GRANULARITY = 0 := by
  unfold find_space at h
  refine find_space_loop_aligned as len hreg _ _ res ?_ h
  split
  · exact hs
  · exact ha

theorem rounded_hint_aligned (hint : Nat) : rounded_hint hint % ARCH_PAGE_GRANULARITY = 0 := by
  unfold rounded_hint
  split
  · unfold uadd
    simp only [ARCH_PAGE_GRANULARITY, UINTPTR_SIZE] at *
    omega
  · rename_i h
    exact not_not.mp h

/-! ## `region_alloc` -/

theorem region_alloc_of_cons {s : vm_state} {b : Bool} {r : vm_region_t} {rest : List vm_region_t}
    (h : s.g_free_regions = r :: rest) :
    region_alloc s b = .ok (r, { s with g_free_regions := rest }) := by
  unfold region_alloc
  simp [h]

/-- What the refill branch of `region_alloc` does when it returns. -/
theorem region_alloc_refill_spec {s s1 : vm_state} (h : region_alloc_refill s = .ok s1) :
    ∃ p rest A0, s.pmm.free PMM_ZONE_NORMAL = p :: rest ∧
      find_space (s.address_spaces s.g_vm_global_address_space) 0 ARCH_PAGE_GRANULARITY =
        some A0 ∧
      s1 = { (set_regions
              (arch_ptm_map
                { s with pmm :=
                    { free := fun z => if z = PMM_ZONE_NORMAL then rest else s.pmm.free z,
                      taken := { zone := PMM_ZONE_NORMAL, flags := { zero := true }, paddr := p } ::
                        s.pmm.taken } }
                s.g_vm_global_address_space A0 p { read := true, write := true, exec := false }
                VM_CACHE_STANDARD .VM_PRIVILEGE_KERNEL true)
              s.g_vm_global_address_space
              (descriptor_page_region s.g_vm_global_address_space A0 ::
                (s.address_spaces s.g_vm_global_address_space).regions)) with
            g_free_regions :=
              List.replicate (ARCH_PAGE_GRANULARITY / SIZEOF_VM_REGION - 1) zeroed_region } := by
  unfold region_alloc_refill at h
  cases hfl : s.pmm.free PMM_ZONE_NORMAL with
  | nil => rw [pmm_alloc_page_nil hfl] at h; cases h
  | cons p rest =>
    rw [pmm_alloc_page_cons hfl] at h
    simp only at h
    cases hfs : find_space (s.address_spaces s.g_vm_global_address_space) 0
        ARCH_PAGE_GRANULARITY with
    | none => rw [hfs] at h; cases h
    | some A0 =>
      rw [hfs] at h
      simp only [Except.ok.injEq] at h
      exact ⟨p, rest, A0, rfl, rfl, h.symm⟩

/-- The cases of a returning `region_alloc`: either the free list was
non-empty and its head is handed out, or the refill branch ran first. -/
theorem region_alloc_cases {s s1 : vm_state} {b : Bool} {r : vm_region_t}
    (h : region_alloc s b = .ok (r, s1)) :
    (∃ rest, s.g_free_regions = r :: rest ∧ s1 = { s with g_free_regions := rest }) ∨
    (s.g_free_regions = [] ∧ ∃ s0 rest, region_alloc_refill s = .ok s0 ∧
      s0.g_free_regions = r :: rest ∧ s1 = { s0 with g_free_regions := rest }) := by
  unfold region_alloc at h
  cases hf : s.g_free_regions with
  | cons r0 rest =>
    left
    simp [hf] at h
    exact ⟨rest, by rw [h.1], h.2.symm⟩
  | nil =>
    right
    refine ⟨rfl, ?_⟩
    simp only [hf, List.isEmpty_nil, if_true] at h
    cases hre : region_alloc_refill s with
    | error e => rw [hre] at h; cases h
    | ok s0 =>
      rw [hre] at h
      simp only at h
      cases hf0 : s0.g_free_regions with
      | nil => rw [hf0] at h; cases h
      | cons r0 rest =>
        rw [hf0] at h
        simp only [Except.ok.injEq, Prod.mk.injEq] at h
        exact ⟨s0, rest, rfl, by rw [hf0, h.1], h.2.symm⟩

/-- The bounds of every address space and the global pointer survive
`region_alloc`; the region list of an address space other than the global one,
and of every address space when the free list is non-empty, survives too. -/
theorem region_alloc_frame {s s1 : vm_state} {b : Bool} {r : vm_region_t}
    (h : region_alloc s b = .ok (r, s1)) :
    s1.g_vm_global_address_space = s.g_vm_global_address_space ∧
    s1.current_thread_process = s.current_thread_process ∧
    (∀ a, (s1.address_spaces a).start = (s.address_spaces a).start ∧
          (s1.address_spaces a).end_ = (s.address_spaces a).end_) ∧
    (∀ a, a ≠ s.g_vm_global_address_space ∨ s.g_free_regions ≠ [] →
          s1.address_spaces a = s.address_spaces a) ∧
    (s.g_free_regions ≠ [] → s1.page_tables = s.page_tables ∧ s1.pmm = s.pmm) := by
  rcases region_alloc_cases h with ⟨rest, hf, rfl⟩ | ⟨hf, s0, rest, hre, hf0, rfl⟩
  · exact ⟨rfl, rfl, fun _ => ⟨rfl, rfl⟩, fun _ _ => rfl, fun _ => ⟨rfl, rfl⟩⟩
  · obtain ⟨p, rest', A0, _, _, rfl⟩ := region_alloc_refill_spec hre
    refine ⟨rfl, rfl, ?_, ?_, ?_⟩
    · intro a
      simp only [set_regions, arch_ptm_map]
      split <;> simp_all
    · intro a ha
      rcases ha with ha | ha
      · simp only [set_regions, arch_ptm_map]
        rw [if_neg ha]
      · exact absurd hf ha
    · intro hne; exact absurd hf hne

/-! ## `region_map` as a whole -/

theorem region_map_anon {s : vm_state} {r : vm_region_t} {B L : Nat}
    (hB : B % ARCH_PAGE_GRANULARITY = 0) (hL : L % ARCH_PAGE_GRANULARITY = 0)
    (hsum : B + L < UINTPTR_SIZE)
    (htype : r.type = .VM_REGION_TYPE_ANON)
    (hfree : L / ARCH_PAGE_GRANULARITY ≤ (s.pmm.free PMM_ZONE_NORMAL).length) :
    ∃ s', region_map s r B L = .ok s' ∧
      s'.pmm.free PMM_ZONE_NORMAL =
        (s.pmm.free PMM_ZONE_NORMAL).drop (L / ARCH_PAGE_GRANULARITY) ∧
      (∀ z, z ≠ PMM_ZONE_NORMAL → s'.pmm.free z = s.pmm.free z) ∧
      s'.pmm.taken =
        (((s.pmm.free PMM_ZONE_NORMAL).take (L / ARCH_PAGE_GRANULARITY)).map
          (anon_taken r)).reverse ++ s.pmm.taken ∧
      (∀ a v, s'.page_tables a v =
        if a = r.address_space ∧ B ≤ v ∧ v < B + L ∧
            (v - B) % ARCH_PAGE_GRANULARITY = 0 then
          some (region_leaf s r
            ((s.pmm.free PMM_ZONE_NORMAL).getD ((v - B) / ARCH_PAGE_GRANULARITY) 0))
        else s.page_tables a v) := by
  unfold region_map
  rw [if_neg (by simp [hB, hL])]
  rw [if_neg (by rw [uadd_eq hsum]; omega)]
  have := region_map_loop_anon r B L hL hsum htype (L / ARCH_PAGE_GRANULARITY + 1) s 0
    (by simp) (by omega) (by simp) (by simpa using hfree)
  simpa using this

theorem region_map_direct {s : vm_state} {r : vm_region_t} {B L : Nat}
    (hB : B % ARCH_PAGE_GRANULARITY = 0) (hL : L % ARCH_PAGE_GRANULARITY = 0)
    (hsum : B + L < UINTPTR_SIZE)
    (htype : r.type = .VM_REGION_TYPE_DIRECT) :
    ∃ s', region_map s r B L = .ok s' ∧ s'.pmm = s.pmm ∧
      (∀ a v, s'.page_tables a v =
        if a = r.address_space ∧ B ≤ v ∧ v < B + L ∧
            (v - B) % ARCH_PAGE_GRANULARITY = 0 then
          some (region_leaf s r
            (uadd r.type_data.direct_physical_address (usub v r.base)))
        else s.page_tables a v) := by
  unfold region_map
  rw [if_neg (by simp [hB, hL])]
  rw [if_neg (by rw [uadd_eq hsum]; omega)]
  have := region_map_loop_direct r B L hL hsum htype (L / ARCH_PAGE_GRANULARITY + 1) s 0
    (by simp) (by omega) (by simp)
  simpa using this

theorem region_map_anon_short {s : vm_state} {r : vm_region_t} {B L : Nat}
    (hB : B % ARCH_PAGE_GRANULARITY = 0) (hL : L % ARCH_PAGE_GRANULARITY = 0)
    (hsum : B + L < UINTPTR_SIZE)
    (htype : r.type = .VM_REGION_TYPE_ANON)
    (hfree : (s.pmm.free PMM_ZONE_NORMAL).length < L / ARCH_PAGE_GRANULARITY) :
    region_map s r B L = .error .null_dereference := by
  unfold region_map
  rw [if_neg (by simp [hB, hL])]
  rw [if_neg (by rw [uadd_eq hsum]; omega)]
  exact region_map_loop_anon_short r B L hL (by omega) htype _ s 0 (by simp) (by omega)
    (by simp) (by simpa using hfree)

/-- A `region_map` over the whole of a fresh r returns when the PMM holds
the frames an ANON r asks for. -/
theorem region_map_ok {s : vm_state} {r : vm_region_t} {B L : Nat}
    (hB : B % ARCH_PAGE_GRANULARITY = 0) (hL : L % ARCH_PAGE_GRANULARITY = 0)
    (hsum : B + L < UINTPTR_SIZE)
    (hfree : r.type = .VM_REGION_TYPE_ANON →
      L / ARCH_PAGE_GRANULARITY ≤ (s.pmm.free PMM_ZONE_NORMAL).length) :
    ∃ s', region_map s r B L = .ok s' := by
  cases htype : r.type with
  | VM_REGION_TYPE_ANON =>
    obtain ⟨s', h, _⟩ := region_map_anon hB hL hsum htype (hfree htype)
    exact ⟨s', h⟩
  | VM_REGION_TYPE_DIRECT =>
    obtain ⟨s', h, _⟩ := region_map_direct (s := s) hB hL hsum htype
    exact ⟨s', h⟩

/-! ## `map_common` -/

@[simp] theorem map_common_region_base (region : vm_region_t) (as : Nat) (type : vm_region_type_t)
    (B L : Nat) (prot : vm_protection_t) (cache : Nat) (flags : vm_flags_t) (phys : Nat) :
    (map_common_region region as type B L prot cache flags phys).base = B := rfl

@[simp] theorem map_common_region_length (region : vm_region_t) (as : Nat)
    (type : vm_region_type_t) (B L : Nat) (prot : vm_protection_t) (cache : Nat)
    (flags : vm_flags_t) (phys : Nat) :
    (map_common_region region as type B L prot cache flags phys).length = L := rfl

@[simp] theorem map_common_region_type (region : vm_region_t) (as : Nat)
    (type : vm_region_type_t) (B L : Nat) (prot : vm_protection_t) (cache : Nat)
    (flags : vm_flags_t) (phys : Nat) :
    (map_common_region region as type B L prot cache flags phys).type = type := rfl

@[simp] theorem map_common_region_address_space (region : vm_region_t) (as : Nat)
    (type : vm_region_type_t) (B L : Nat) (prot : vm_protection_t) (cache : Nat)
    (flags : vm_flags_t) (phys : Nat) :
    (map_common_region region as type B L prot cache flags phys).address_space = as := rfl

/-- The placement part of `map_common`, once the arguments are accepted,
`region_alloc` has returned and `find_space` has answered. -/
theorem map_common_placed {s s1 : vm_state} {as hint len : Nat} {prot : vm_protection_t}
    {cache : Nat} {flags : vm_flags_t} {type : vm_region_type_t} {phys : Nat}
    {region : vm_region_t} {B : Nat}
    (hlen0 : len ≠ 0) (hlen : len % ARCH_PAGE_GRANULARITY = 0)
    (hhint : ¬ (hint % ARCH_PAGE_GRANULARITY ≠ 0 ∧ flags.fixed = true))
    (halloc : region_alloc s false = .ok (region, s1))
    (hfind : find_space (s1.address_spaces as) (rounded_hint hint) len = some B) :
    map_common s as hint len prot cache flags type phys =
      if B = 0 ∨ (hint ≠ B ∧ flags.fixed = true) then .ok (0, region_free s1 region)
      else if ¬ SEGMENT_IN_BOUNDS B len (s1.address_spaces as).start
          (s1.address_spaces as).end_ then .error .assertion_failed
      else if ¬ (B % ARCH_PAGE_GRANULARITY = 0 ∧ len % ARCH_PAGE_GRANULARITY = 0) then
        .error .assertion_failed
      else
        match (if flags.no_demand = true then
                region_map s1 (map_common_region region as type B len prot cache flags phys) B len
               else .ok s1) with
        | .error e => .error e
        | .ok s2 =>
          .ok (B, set_regions s2 as
            (map_common_region region as type B len prot cache flags phys ::
              (s2.address_spaces as).regions)) := by
  unfold map_common
  rw [if_neg (by simp [hlen0, hlen]), if_neg hhint]
  simp only [halloc, hfind, map_common_region_base, map_common_region_length, list_append_head]

/-- The placement of `map_common` ends in NULL with the descriptor handed back. -/
theorem map_common_null {s s1 : vm_state} {as hint len : Nat} {prot : vm_protection_t}
    {cache : Nat} {flags : vm_flags_t} {type : vm_region_type_t} {phys : Nat}
    {region : vm_region_t} {B : Nat}
    (hlen0 : len ≠ 0) (hlen : len % ARCH_PAGE_GRANULARITY = 0)
    (hhint : ¬ (hint % ARCH_PAGE_GRANULARITY ≠ 0 ∧ flags.fixed = true))
    (halloc : region_alloc s false = .ok (region, s1))
    (hfind : find_space (s1.address_spaces as) (rounded_hint hint) len = some B)
    (hB : B = 0 ∨ (hint ≠ B ∧ flags.fixed = true)) :
    map_common s as hint len prot cache flags type phys = .ok (0, region_free s1 region) := by
  rw [map_common_placed hlen0 hlen hhint halloc hfind, if_pos hB]

/-- The placement of `map_common` succeeds at `B`: the call returns `B` when
`region_map` (run only under NO_DEMAND) returns. -/
theorem map_common_success {s s1 : vm_state} {as hint len : Nat} {prot : vm_protection_t}
    {cache : Nat} {flags : vm_flags_t} {type : vm_region_type_t} {phys : Nat}
    {region : vm_region_t} {B : Nat}
    (hlen0 : len ≠ 0) (hlen : len % ARCH_PAGE_GRANULARITY = 0)
    (hhint : ¬ (hint % ARCH_PAGE_GRANULARITY ≠ 0 ∧ flags.fixed = true))
    (halloc : region_alloc s false = .ok (region, s1))
    (hfind : find_space (s1.address_spaces as) (rounded_hint hint) len = some B)
    (hB : ¬ (B = 0 ∨ (hint ≠ B ∧ flags.fixed = true)))
    (he : (s1.address_spaces as).end_ < UINTPTR_SIZE)
    (hfree : range_free (s1.address_spaces as) B len)
    (hBal : B % ARCH_PAGE_GRANULARITY = 0)
    (hpmm : flags.no_demand = true → type = .VM_REGION_TYPE_ANON →
      len / ARCH_PAGE_GRANULARITY ≤ (s1.pmm.free PMM_ZONE_NORMAL).length) :
    ∃ s', map_common s as hint len prot cache flags type phys = .ok (B, s') := by
  rw [map_common_placed hlen0 hlen hhint halloc hfind, if_neg hB]
  have hsib : SEGMENT_IN_BOUNDS B len (s1.address_spaces as).start (s1.address_spaces as).end_ :=
    (segment_in_bounds_iff he).mpr ⟨hfree.1, by have := hfree.2.1; omega, hfree.2.1⟩
  rw [if_neg (not_not.mpr hsib), if_neg (by simp [hBal, hlen])]
  cases hnd : flags.no_demand with
  | false => exact ⟨_, rfl⟩
  | true =>
    obtain ⟨s2, h2⟩ := region_map_ok (s := s1)
      (r := map_common_region region as type B len prot cache flags phys) hBal hlen
      (by have := hfree.2.1; omega)
      (by intro ht; exact hpmm hnd (by simpa using ht))
    simp only [if_true, h2]
    exact ⟨_, rfl⟩

/-! ## Placement by `map_common` -/

theorem find_space_loop_in_bounds (as : vm_address_space_t) (len : Nat) :
    ∀ (fuel a res : Nat), find_space_loop fuel as a len = some res → res ≠ 0 →
      SEGMENT_IN_BOUNDS res len as.start as.end_ := by
  intro fuel
  induction fuel with
  | zero => intro a res h; simp [find_space_loop] at h
  | succ n ih =>
    intro a res h h0
    unfold find_space_loop at h
    split at h
    · cases h; exact absurd rfl h0
    · rename_i hsib
      split at h
      · exact ih _ _ h h0
      · cases h; exact not_not.mp hsib

theorem find_space_in_bounds {as : vm_address_space_t} {a len res : Nat}
    (h : find_space as a len = some res) (h0 : res ≠ 0) :
    SEGMENT_IN_BOUNDS res len as.start as.end_ :=
  find_space_loop_in_bounds as len _ _ res h h0

theorem rounded_hint_of_aligned {hint : Nat} (h : hint % ARCH_PAGE_GRANULARITY = 0) :
    rounded_hint hint = hint := by
  unfold rounded_hint; simp [h]

theorem range_free_in_bounds {as : vm_address_space_t} {a len : Nat}
    (he : as.end_ < UINTPTR_SIZE) (hlen : 0 < len) (h : range_free as a len) :
    SEGMENT_IN_BOUNDS a len as.start as.end_ :=
  (segment_in_bounds_iff he).mpr ⟨h.1, by have := h.2.1; omega, h.2.1⟩

/-- C9: `vm_map_anon` and `vm_map_direct` return NULL and leave the whole
state as it was (no region reserved, no descriptor taken, no mapping installed)
whenever the length is 0 or not a multiple of the page size, for every hint and
every flag set. -/
theorem vm_map_rejects_bad_length (s : vm_state) (as hint len : Nat) (prot : vm_protection_t)
    (cache : Nat) (flags : vm_flags_t) (phys : Nat)
    (h : len = 0 ∨ len % ARCH_PAGE_GRANULARITY ≠ 0) :
    vm_map_anon s as hint len prot cache flags = .ok (0, s) ∧
    vm_map_direct s as hint len prot cache phys flags = .ok (0, s) := by
  unfold vm_map_anon vm_map_direct map_common
  rw [if_pos h, if_pos h]
  exact ⟨rfl, rfl⟩

theorem vm_map_rejects_bad_length_witness :
    vm_map_anon boot_state 1 0x10000 0x1800 prot_rw VM_CACHE_STANDARD VM_FLAG_NONE =
        .ok (0, boot_state) ∧
    vm_map_direct boot_state 1 0x10000 0x1800 prot_rw VM_CACHE_STANDARD 0x5000 VM_FLAG_NONE =
        .ok (0, boot_state) :=
  vm_map_rejects_bad_length boot_state 1 0x10000 0x1800 prot_rw VM_CACHE_STANDARD VM_FLAG_NONE
    0x5000 (Or.inr (by decide))

/-- C1, as the code has it: for `vm_map_anon` / `vm_map_direct` (`map_common`
at either type) called with FIXED, a page-aligned hint and a non-zero
page-multiple length, on an address space whose start is non-zero, once
`region_alloc` has returned: the call returns exactly the hint when
`[hint, hint + length)` is a gap of the address space as `region_alloc` left it
(and the PMM holds the frames NO_DEMAND asks for), and returns NULL, handing
the descriptor back, in every other case.  `region_alloc` leaves the region
list as it was unless the address space is the global one and the descriptor
free list was empty. -/
theorem vm_map_fixed_placement (s s1 : vm_state) (region : vm_region_t) (as hint len : Nat)
    (prot : vm_protection_t) (cache : Nat) (flags : vm_flags_t) (type : vm_region_type_t)
    (phys : Nat)
    (halloc : region_alloc s false = .ok (region, s1))
    (hfixed : flags.fixed = true)
    (hhint : hint % ARCH_PAGE_GRANULARITY = 0)
    (hlen0 : len ≠ 0) (hlen : len % ARCH_PAGE_GRANULARITY = 0)
    (hstart : (s.address_spaces as).start ≠ 0)
    (hend : (s.address_spaces as).end_ < UINTPTR_SIZE)
    (hwrap : ∀ r ∈ (s1.address_spaces as).regions, r.base + r.length < UINTPTR_SIZE)
    (hpmm : flags.no_demand = true → type = .VM_REGION_TYPE_ANON →
      len / ARCH_PAGE_GRANULARITY ≤ (s1.pmm.free PMM_ZONE_NORMAL).length) :
    (range_free (s1.address_spaces as) hint len →
      ∃ s', map_common s as hint len prot cache flags type phys = .ok (hint, s')) ∧
    (¬ range_free (s1.address_spaces as) hint len →
      map_common s as hint len prot cache flags type phys = .ok (0, region_free s1 region)) ∧
    (as ≠ s.g_vm_global_address_space ∨ s.g_free_regions ≠ [] →
      s1.address_spaces as = s.address_spaces as) := by
  obtain ⟨_, _, hbounds, hsame, _⟩ := region_alloc_frame halloc
  have hend1 : (s1.address_spaces as).end_ < UINTPTR_SIZE := by rw [(hbounds as).2]; exact hend
  have hstart1 : (s1.address_spaces as).start ≠ 0 := by rw [(hbounds as).1]; exact hstart
  have hpos : 0 < len := Nat.pos_of_ne_zero hlen0
  have hnr : ¬ (hint % ARCH_PAGE_GRANULARITY ≠ 0 ∧ flags.fixed = true) := by simp [hhint]
  obtain ⟨B, hfind, hspec⟩ := find_space_spec (s1.address_spaces as) hint len hend1 hpos hwrap
  have hfind' : find_space (s1.address_spaces as) (rounded_hint hint) len = some B := by
    rw [rounded_hint_of_aligned hhint]; exact hfind
  refine ⟨?_, ?_, hsame as⟩
  · intro hfree
    have hs0 : find_space_start (s1.address_spaces as) hint len = hint := by
      unfold find_space_start
      rw [if_neg (not_not.mpr (range_free_in_bounds hend1 hpos hfree))]
    rw [hs0] at hspec
    have hB : B = hint := by
      rcases hspec with ⟨_, hnone⟩ | ⟨hle, _, hmin⟩
      · exact absurd hfree (hnone hint (Nat.le_refl _))
      · by_contra hne
        exact hmin hint (Nat.le_refl _) (by omega) hfree
    subst hB
    have hB0 : B ≠ 0 := by have := hfree.1; omega
    exact map_common_success hlen0 hlen hnr halloc hfind' (by simp [hB0]) hend1 hfree hhint hpmm
  · intro hnfree
    apply map_common_null hlen0 hlen hnr halloc hfind'
    rcases hspec with ⟨h0, _⟩ | ⟨_, hfreeB, _⟩
    · exact Or.inl h0
    · right
      refine ⟨?_, hfixed⟩
      intro he
      rw [← he] at hfreeB
      exact hnfree hfreeB

theorem vm_map_fixed_placement_witness :
    ∃ s', map_common seeded_state 1 0x10000 0x2000 prot_rw VM_CACHE_STANDARD
        { fixed := true, zero := false, no_demand := true } .VM_REGION_TYPE_ANON 0 =
      .ok (0x10000, s') :=
  (vm_map_fixed_placement seeded_state { seeded_state with g_free_regions := [] } zeroed_region
    1 0x10000 0x2000 prot_rw VM_CACHE_STANDARD { fixed := true, zero := false, no_demand := true }
    .VM_REGION_TYPE_ANON 0 rfl rfl (by decide) (by decide) (by decide) (by decide) (by decide)
    (by decide) (by decide)).1 (by decide)

/-- C1 as stated fails on the global address space when the descriptor free
list is empty: `[0x1000, 0x2000)` is within bounds and meets no existing region,
yet the FIXED call returns NULL, because `region_alloc` has put its descriptor
page there first. -/
theorem vm_map_fixed_placement_counterexample :
    range_free (boot_state.address_spaces 0) 0x1000 0x1000 ∧
    returned (vm_map_anon boot_state 0 0x1000 0x1000 prot_rw VM_CACHE_STANDARD
      { fixed := true, zero := false, no_demand := false }) = some 0 := by
  decide

/-- C2, as the code has it: for `vm_map_anon` / `vm_map_direct` (`map_common`
at either type) called without FIXED and with a non-zero page-multiple length,
on an address space whose start is non-zero and page-aligned and whose regions
are page-aligned, once `region_alloc` has returned and left the state `s1`: the
search starts at the hint rounded up to a page when that range is within bounds
and at the base of the address space otherwise, and only moves upward; gaps are
those of the address space in `s1`, which on the global address space with an
empty descriptor free list holds the descriptor page region as well.  When a
gap of `length` bytes lies at or above the starting address the call returns
the lowest such gap (given the frames NO_DEMAND asks for); it returns NULL
exactly when no gap lies at or above the starting address.  On an address space
that is not the global one or with a descriptor on the free list, `s1` has the
regions of `s`. -/
theorem vm_map_search_upward (s s1 : vm_state) (region : vm_region_t) (as hint len : Nat)
    (prot : vm_protection_t) (cache : Nat) (flags : vm_flags_t) (type : vm_region_type_t)
    (phys : Nat)
    (halloc : region_alloc s false = .ok (region, s1))
    (hfixed : flags.fixed = false)
    (hlen0 : len ≠ 0) (hlen : len % ARCH_PAGE_GRANULARITY = 0)
    (hstart : (s.address_spaces as).start ≠ 0)
    (hstartal : (s.address_spaces as).start % ARCH_PAGE_GRANULARITY = 0)
    (hend : (s.address_spaces as).end_ < UINTPTR_SIZE)
    (hwrap : ∀ r ∈ (s1.address_spaces as).regions, r.base + r.length < UINTPTR_SIZE)
    (hal : regions_aligned (s1.address_spaces as))
    (hpmm : flags.no_demand = true → type = .VM_REGION_TYPE_ANON →
      len / ARCH_PAGE_GRANULARITY ≤ (s1.pmm.free PMM_ZONE_NORMAL).length) :
    ((∃ a', find_space_start (s1.address_spaces as) (rounded_hint hint) len ≤ a' ∧
          range_free (s1.address_spaces as) a' len) →
      ∃ B s', map_common s as hint len prot cache flags type phys = .ok (B, s') ∧ B ≠ 0 ∧
        find_space_start (s1.address_spaces as) (rounded_hint hint) len ≤ B ∧
        range_free (s1.address_spaces as) B len ∧
        ∀ a', find_space_start (s1.address_spaces as) (rounded_hint hint) len ≤ a' → a' < B →
          ¬ range_free (s1.address_spaces as) a' len) ∧
    ((¬ ∃ a', find_space_start (s1.address_spaces as) (rounded_hint hint) len ≤ a' ∧
          range_free (s1.address_spaces as) a' len) →
      map_common s as hint len prot cache flags type phys = .ok (0, region_free s1 region)) ∧
    (as ≠ s.g_vm_global_address_space ∨ s.g_free_regions ≠ [] →
      s1.address_spaces as = s.address_spaces as) := by
  obtain ⟨_, _, hbounds, hsame, _⟩ := region_alloc_frame halloc
  have hend1 : (s1.address_spaces as).end_ < UINTPTR_SIZE := by rw [(hbounds as).2]; exact hend
  have hstart1 : (s1.address_spaces as).start ≠ 0 := by rw [(hbounds as).1]; exact hstart
  have hstartal1 : (s1.address_spaces as).start % ARCH_PAGE_GRANULARITY = 0 := by
    rw [(hbounds as).1]; exact hstartal
  have hpos : 0 < len := Nat.pos_of_ne_zero hlen0
  have hnr : ¬ (hint % ARCH_PAGE_GRANULARITY ≠ 0 ∧ flags.fixed = true) := by simp [hfixed]
  obtain ⟨B, hfind, hspec⟩ :=
    find_space_spec (s1.address_spaces as) (rounded_hint hint) len hend1 hpos hwrap
  have hBal : B % ARCH_PAGE_GRANULARITY = 0 := by
    refine find_space_aligned _ _ _ _ hstartal1 (rounded_hint_aligned hint) ?_ hfind
    intro r hr
    rw [uadd_eq (hwrap r hr)]
    have := hal r hr
    simp only [ARCH_PAGE_GRANULARITY] at *
    omega
  refine ⟨?_, ?_, hsame as⟩
  · rintro ⟨a', ha', hfree'⟩
    rcases hspec with ⟨_, hnone⟩ | ⟨hle, hfreeB, hmin⟩
    · exact absurd hfree' (hnone a' ha')
    · have hB0 : B ≠ 0 := by have := hfreeB.1; omega
      obtain ⟨s', hs'⟩ := @map_common_success s s1 as hint len prot cache flags type
        phys region B hlen0 hlen hnr halloc hfind (by simp [hB0, hfixed]) hend1 hfreeB hBal hpmm
      exact ⟨B, s', hs', hB0, hle, hfreeB, hmin⟩
  · intro hno
    apply map_common_null hlen0 hlen hnr halloc hfind
    rcases hspec with ⟨h0, _⟩ | ⟨hle, hfreeB, _⟩
    · exact Or.inl h0
    · exact absurd ⟨B, hle, hfreeB⟩ hno

theorem vm_map_search_upward_witness :
    ∃ B s', map_common crowded_state 1 0x800 0x1000 prot_rw VM_CACHE_STANDARD VM_FLAG_NONE
        .VM_REGION_TYPE_ANON 0 = .ok (B, s') ∧ B ≠ 0 ∧
      find_space_start (crowded_state.address_spaces 1) (rounded_hint 0x800) 0x1000 ≤ B ∧
      range_free (crowded_state.address_spaces 1) B 0x1000 ∧
      ∀ a', find_space_start (crowded_state.address_spaces 1) (rounded_hint 0x800) 0x1000 ≤ a' →
        a' < B → ¬ range_free (crowded_state.address_spaces 1) a' 0x1000 :=
  (vm_map_search_upward crowded_state { crowded_state with g_free_regions := [] } zeroed_region
    1 0x800 0x1000 prot_rw VM_CACHE_STANDARD VM_FLAG_NONE .VM_REGION_TYPE_ANON 0 rfl rfl
    (by decide) (by decide) (by decide) (by decide) (by decide) (by decide) (by decide)
    (by decide)).1 ⟨0x1000, by decide, by decide⟩

/-- C2 as stated fails: in the crowded address space `[0x1000, 0x4000)` the
page `[0x1000, 0x2000)` below the hint is a gap, yet the call with hint `0x2000`
and no FIXED returns NULL: the search never wraps back to the base. -/
theorem vm_map_search_upward_counterexample :
    range_free (crowded_state.address_spaces 1) 0x1000 0x1000 ∧
    returned (vm_map_anon crowded_state 1 0x2000 0x1000 prot_rw VM_CACHE_STANDARD VM_FLAG_NONE) =
      some 0 := by
  decide

/-- C10, as the code has it: when `vm_map_anon` with NO_DEMAND has placed the
new region (`region_alloc` returned, `find_space` answered a page-aligned
non-NULL base that FIXED accepts) and zone NORMAL holds fewer frames than the
region has pages, the call does not return NULL: it stops in `region_map` at
the dereference of the page `pmm_alloc_page` did not supply. -/
theorem vm_map_anon_frames_exhausted (s s1 : vm_state) (region : vm_region_t)
    (as hint len B : Nat) (prot : vm_protection_t) (cache : Nat) (flags : vm_flags_t)
    (halloc : region_alloc s false = .ok (region, s1))
    (hfind : find_space (s1.address_spaces as) (rounded_hint hint) len = some B)
    (hplaced : ¬ (B = 0 ∨ (hint ≠ B ∧ flags.fixed = true)))
    (hBal : B % ARCH_PAGE_GRANULARITY = 0)
    (hhint : ¬ (hint % ARCH_PAGE_GRANULARITY ≠ 0 ∧ flags.fixed = true))
    (hlen0 : len ≠ 0) (hlen : len % ARCH_PAGE_GRANULARITY = 0)
    (hend : (s.address_spaces as).end_ < UINTPTR_SIZE)
    (hnd : flags.no_demand = true)
    (hshort : (s1.pmm.free PMM_ZONE_NORMAL).length < len / ARCH_PAGE_GRANULARITY) :
    vm_map_anon s as hint len prot cache flags = .error .null_dereference := by
  obtain ⟨_, _, hbounds, _, _⟩ := region_alloc_frame halloc
  have hend1 : (s1.address_spaces as).end_ < UINTPTR_SIZE := by rw [(hbounds as).2]; exact hend
  have hsib := find_space_in_bounds hfind (by
    intro h0; exact hplaced (Or.inl h0))
  have hsib' := (segment_in_bounds_iff hend1).mp hsib
  unfold vm_map_anon
  rw [map_common_placed hlen0 hlen hhint halloc hfind, if_neg hplaced,
    if_neg (not_not.mpr hsib), if_neg (by simp [hBal, hlen])]
  simp only [hnd, if_true]
  rw [region_map_anon_short hBal hlen (by omega) (by simp) (by simpa using hshort)]

theorem vm_map_anon_frames_exhausted_witness :
    vm_map_anon starved_state 1 0x10000 0x2000 prot_rw VM_CACHE_STANDARD
      { fixed := true, zero := true, no_demand := true } = .error .null_dereference :=
  vm_map_anon_frames_exhausted starved_state { starved_state with g_free_regions := [] }
    zeroed_region 1 0x10000 0x2000 0x10000 prot_rw VM_CACHE_STANDARD
    { fixed := true, zero := true, no_demand := true } rfl (by decide) (by decide) (by decide)
    (by decide) (by decide) (by decide) (by decide) rfl (by decide)

/-- C10 as stated fails: with no frame left in zone NORMAL, `vm_map_anon` with
NO_DEMAND does not return NULL (it does not return at all). -/
theorem vm_map_anon_frames_exhausted_counterexample :
    pmm_alloc_page starved_state.pmm PMM_ZONE_NORMAL { zero := true } = none ∧
    returned (vm_map_anon starved_state 1 0x10000 0x2000 prot_rw VM_CACHE_STANDARD
      { fixed := false, zero := true, no_demand := true }) ≠ some 0 ∧
    aborted (vm_map_anon starved_state 1 0x10000 0x2000 prot_rw VM_CACHE_STANDARD
      { fixed := false, zero := true, no_demand := true }) = some .null_dereference := by
  refine ⟨rfl, by decide, by decide⟩

theorem vm_state_ext {s t : vm_state}
    (h1 : s.g_vm_global_address_space = t.g_vm_global_address_space)
    (h2 : s.address_spaces = t.address_spaces) (h3 : s.g_free_regions = t.g_free_regions)
    (h4 : s.page_tables = t.page_tables) (h5 : s.pmm = t.pmm)
    (h6 : s.current_thread_process = t.current_thread_process) : s = t := by
  cases s; cases t; simp_all

/-! ## `addr_to_region` -/

theorem addr_to_region_scan_none {address : Nat} :
    ∀ {regions : List vm_region_t}, addr_to_region_scan address regions = none →
      ∀ r ∈ regions, ¬ ADDRESS_IN_SEGMENT address r.base r.length := by
  intro regions
  induction regions with
  | nil => intro _ r hr; cases hr
  | cons x xs ih =>
    intro h r hr
    unfold addr_to_region_scan at h
    split at h
    · cases h
    · rename_i hx
      rcases List.mem_cons.mp hr with rfl | hmem
      · exact hx
      · apply ih _ r hmem
        cases hs : addr_to_region_scan address xs with
        | none => rfl
        | some p => rw [hs] at h; cases h

theorem addr_to_region_scan_some {address : Nat} :
    ∀ {regions : List vm_region_t} {i : Nat} {r : vm_region_t},
      addr_to_region_scan address regions = some (i, r) →
      regions.get? i = some r ∧ ADDRESS_IN_SEGMENT address r.base r.length ∧
      ∀ j r', j < i → regions.get? j = some r' →
        ¬ ADDRESS_IN_SEGMENT address r'.base r'.length := by
  intro regions
  induction regions with
  | nil => intro i r h; cases h
  | cons x xs ih =>
    intro i r h
    unfold addr_to_region_scan at h
    split at h
    · rename_i hx
      simp only [Option.some.injEq, Prod.mk.injEq] at h
      obtain ⟨rfl, rfl⟩ := h
      exact ⟨rfl, hx, fun j r' hj _ => absurd hj (Nat.not_lt_zero _)⟩
    · rename_i hx
      cases hs : addr_to_region_scan address xs with
      | none => rw [hs] at h; cases h
      | some p =>
        rw [hs] at h
        simp only [Option.map_some', Option.some.injEq, Prod.mk.injEq] at h
        obtain ⟨rfl, rfl⟩ := h
        obtain ⟨h1, h2, h3⟩ := ih (i := p.1) (r := p.2) (by rw [hs])
        refine ⟨by simpa using h1, h2, ?_⟩
        intro j r' hj hget
        cases j with
        | zero =>
          simp only [List.get?_cons_zero, Option.some.injEq] at hget
          rw [← hget]; exact hx
        | succ k =>
          exact h3 k r' (by omega) (by simpa using hget)

theorem address_in_segment_iff {x : Nat} {r : vm_region_t}
    (h : r.base + r.length < UINTPTR_SIZE) :
    ADDRESS_IN_SEGMENT x r.base r.length ↔ region_contains r x := by
  unfold ADDRESS_IN_SEGMENT region_contains
  rw [uadd_eq h]

/-- `addr_to_region` finds a region exactly for the covered addresses, when
the regions lie within the bounds of the address space. -/
theorem addr_to_region_none_iff {as : vm_address_space_t} {x : Nat}
    (he : as.end_ < UINTPTR_SIZE) (hin : regions_in_bounds as) :
    addr_to_region as x = none ↔ ¬ covered as x := by
  unfold addr_to_region covered
  constructor
  · intro h
    rintro ⟨r, hr, hc⟩
    have hb := hin r hr
    have hbounds : ADDRESS_IN_BOUNDS x as.start as.end_ := by
      unfold ADDRESS_IN_BOUNDS; unfold region_contains at hc; omega
    rw [if_neg (not_not.mpr hbounds)] at h
    exact addr_to_region_scan_none h r hr
      ((address_in_segment_iff (by omega)).mpr hc)
  · intro h
    split
    · rfl
    · cases hs : addr_to_region_scan x as.regions with
      | none => rfl
      | some p =>
        exfalso
        obtain ⟨h1, h2, _⟩ := addr_to_region_scan_some (i := p.1) (r := p.2) (by rw [hs])
        have hmem : p.2 ∈ as.regions := List.get?_mem h1
        have hb := hin p.2 hmem
        exact h ⟨p.2, hmem, (address_in_segment_iff (by omega)).mp h2⟩

theorem addr_to_region_some {as : vm_address_space_t} {x i : Nat} {r : vm_region_t}
    (h : addr_to_region as x = some (i, r)) :
    ADDRESS_IN_BOUNDS x as.start as.end_ ∧ as.regions.get? i = some r ∧
    ADDRESS_IN_SEGMENT x r.base r.length ∧
    ∀ j r', j < i → as.regions.get? j = some r' →
      ¬ ADDRESS_IN_SEGMENT x r'.base r'.length := by
  unfold addr_to_region at h
  split at h
  · cases h
  · rename_i hb
    exact ⟨not_not.mp hb, addr_to_region_scan_some h⟩

/-! ## `vm_fault` -/

theorem math_floor_aligned (x : Nat) :
    MATH_FLOOR x ARCH_PAGE_GRANULARITY % ARCH_PAGE_GRANULARITY = 0 := by
  unfold MATH_FLOOR; simp only [ARCH_PAGE_GRANULARITY]; omega

theorem math_floor_le (x : Nat) : MATH_FLOOR x ARCH_PAGE_GRANULARITY ≤ x := by
  unfold MATH_FLOOR; omega

/-- C6, as the code has it, for a kernel thread, whose address space is the
global one: `vm_fault` returns false and leaves the state untouched unless the
kind is NOT_PRESENT and the address is covered by a region of the current
thread's address space.  In that case it never returns false; it returns true
when zone NORMAL has a frame to hand out or the covering regions are DIRECT,
and on an ANON region with no frame left it stops at the dereference of the
page `pmm_alloc_page` did not supply. -/
theorem vm_fault_resolves_global (s : vm_state) (address : Nat) (fault : vm_fault_t)
    (hk : s.current_thread_process = none)
    (hend : (s.address_spaces (current_address_space s)).end_ + ARCH_PAGE_GRANULARITY ≤
      UINTPTR_SIZE)
    (hin : regions_in_bounds (s.address_spaces (current_address_space s))) :
    (¬ (fault = .VM_FAULT_NOT_PRESENT ∧
          covered (s.address_spaces (current_address_space s)) address) →
      vm_fault s address fault = .ok (false, s)) ∧
    (fault = .VM_FAULT_NOT_PRESENT →
      covered (s.address_spaces (current_address_space s)) address →
      (∀ b s', vm_fault s address fault = .ok (b, s') → b = true) ∧
      (s.pmm.free PMM_ZONE_NORMAL ≠ [] → ∃ s', vm_fault s address fault = .ok (true, s')) ∧
      ((∀ r ∈ (s.address_spaces (current_address_space s)).regions,
          region_contains r address → r.type = .VM_REGION_TYPE_DIRECT) →
        ∃ s', vm_fault s address fault = .ok (true, s')) ∧
      (s.pmm.free PMM_ZONE_NORMAL = [] →
        (∀ r ∈ (s.address_spaces (current_address_space s)).regions,
          region_contains r address → r.type = .VM_REGION_TYPE_ANON) →
        vm_fault s address fault = .error .null_dereference)) := by
  have hcur : current_address_space s = s.g_vm_global_address_space := by
    unfold current_address_space; rw [hk]
  rw [hcur] at hend hin ⊢
  have hp := page_pos
  have he : (s.address_spaces s.g_vm_global_address_space).end_ < UINTPTR_SIZE := by omega
  constructor
  · intro hnot
    unfold vm_fault
    by_cases hf : fault = .VM_FAULT_NOT_PRESENT
    · rw [if_neg (not_not.mpr hf)]
      have hnc : ¬ covered (s.address_spaces s.g_vm_global_address_space) address :=
        fun hc => hnot ⟨hf, hc⟩
      simp only [(addr_to_region_none_iff he hin).mpr hnc]
    · rw [if_pos hf]
  · intro hf hc
    have hsome : addr_to_region (s.address_spaces s.g_vm_global_address_space) address ≠ none :=
      fun h => (addr_to_region_none_iff he hin).mp h hc
    cases hfind : addr_to_region (s.address_spaces s.g_vm_global_address_space) address with
    | none => exact absurd hfind hsome
    | some p =>
      obtain ⟨i, region⟩ := p
      obtain ⟨hb, hget, hseg, _⟩ := addr_to_region_some hfind
      have hmem : region ∈ (s.address_spaces s.g_vm_global_address_space).regions :=
        List.get?_mem hget
      have hrb := hin region hmem
      have hcont : region_contains region address :=
        (address_in_segment_iff (by omega)).mp hseg
      have hal := math_floor_aligned address
      have hsum : MATH_FLOOR address ARCH_PAGE_GRANULARITY + ARCH_PAGE_GRANULARITY <
          UINTPTR_SIZE := by
        have := math_floor_le address
        have := hb.2
        omega
      have hrun : ∀ s', region_map s region (MATH_FLOOR address ARCH_PAGE_GRANULARITY)
          ARCH_PAGE_GRANULARITY = .ok s' → vm_fault s address fault = .ok (true, s') := by
        intro s' hs'
        unfold vm_fault
        rw [if_neg (not_not.mpr hf)]
        simp only [hfind]
        rw [hs']
      refine ⟨?_, ?_, ?_, ?_⟩
      · intro b s' h
        unfold vm_fault at h
        rw [if_neg (not_not.mpr hf)] at h
        simp only [hfind] at h
        split at h
        · cases h
        · simp only [Except.ok.injEq, Prod.mk.injEq] at h
          exact h.1.symm
      · intro hfree
        obtain ⟨s', hs'⟩ := @region_map_ok s region _ _ hal (Nat.mod_self _) hsum
          (by
            intro _
            have : 0 < (s.pmm.free PMM_ZONE_NORMAL).length := List.length_pos.mpr hfree
            simpa using this)
        exact ⟨s', hrun s' hs'⟩
      · intro hdirect
        obtain ⟨s', hs'⟩ := @region_map_ok s region _ _ hal (Nat.mod_self _) hsum
          (by
            intro ha
            rw [hdirect region hmem hcont] at ha
            cases ha)
        exact ⟨s', hrun s' hs'⟩
      · intro hfree hanon
        unfold vm_fault
        rw [if_neg (not_not.mpr hf)]
        simp only [hfind]
        rw [region_map_anon_short hal (Nat.mod_self _) hsum (hanon region hmem hcont)
          (by rw [hfree, Nat.div_self hp]; decide)]

theorem vm_fault_resolves_global_witness :
    ∃ s', vm_fault kernel_thread_state 0x10800 .VM_FAULT_NOT_PRESENT = .ok (true, s') :=
  ((vm_fault_resolves_global kernel_thread_state 0x10800 .VM_FAULT_NOT_PRESENT rfl (by decide)
    (by decide)).2 rfl (by decide)).2.1 (by decide)

/-- C6 as stated fails: the current thread is a kernel thread, the fault is
NOT_PRESENT and the address is covered by a region of the global address space,
yet `vm_fault` does not return true: zone NORMAL has no frame left and the call
stops at the dereference of the page `pmm_alloc_page` did not supply. -/
theorem vm_fault_resolves_global_counterexample :
    kernel_thread_starved_state.current_thread_process = none ∧
    covered (kernel_thread_starved_state.address_spaces
      (current_address_space kernel_thread_starved_state)) 0x10000 ∧
    returned (vm_fault kernel_thread_starved_state 0x10000 .VM_FAULT_NOT_PRESENT) ≠ some true ∧
    aborted (vm_fault kernel_thread_starved_state 0x10000 .VM_FAULT_NOT_PRESENT) =
      some .null_dereference := by
  decide

/-- A fault of a thread that belongs to a process: the process's address space
covers `0x10000`, an address outside the bounds of the global address space,
the fault is NOT_PRESENT, and `vm_fault` returns false: the lookup of the
current thread's process is a commented-out TODO in the source, so the address
is looked up in the global address space. -/
theorem vm_fault_user_thread_example :
    user_mapped_state.current_thread_process = some 1 ∧
    covered (user_mapped_state.address_spaces (current_address_space user_mapped_state))
      0x10000 ∧
    vm_fault user_mapped_state 0x10000 .VM_FAULT_NOT_PRESENT = .ok (false, user_mapped_state) := by
  refine ⟨rfl, by decide, rfl⟩

/-- C7, as the code has it: two NOT_PRESENT faults on a covered page of the
global address space.  On a DIRECT region the second call leaves the state of
the first untouched.  On an ANON region every call takes a frame: the second
call takes a further frame from zone NORMAL and installs it in place of the
first one. -/
theorem vm_fault_twice (s s1 : vm_state) (address i : Nat) (region : vm_region_t)
    (hend : (s.address_spaces s.g_vm_global_address_space).end_ + ARCH_PAGE_GRANULARITY ≤
      UINTPTR_SIZE)
    (hfind : addr_to_region (s.address_spaces s.g_vm_global_address_space) address =
      some (i, region))
    (h1 : vm_fault s address .VM_FAULT_NOT_PRESENT = .ok (true, s1)) :
    (region.type = .VM_REGION_TYPE_DIRECT →
      vm_fault s1 address .VM_FAULT_NOT_PRESENT = .ok (true, s1)) ∧
    (region.type = .VM_REGION_TYPE_ANON →
      ∀ s2, vm_fault s1 address .VM_FAULT_NOT_PRESENT = .ok (true, s2) →
        ∃ p1 p2 rest, s.pmm.free PMM_ZONE_NORMAL = p1 :: p2 :: rest ∧
          s1.page_tables region.address_space (MATH_FLOOR address ARCH_PAGE_GRANULARITY) =
            some (region_leaf s region p1) ∧
          s2.page_tables region.address_space (MATH_FLOOR address ARCH_PAGE_GRANULARITY) =
            some (region_leaf s region p2) ∧
          s1.pmm.taken = anon_taken region p1 :: s.pmm.taken ∧
          s2.pmm.taken = anon_taken region p2 :: anon_taken region p1 :: s.pmm.taken) := by
  have hp := page_pos
  obtain ⟨hb, _, _, _⟩ := addr_to_region_some hfind
  have hal := math_floor_aligned address
  have hsum : MATH_FLOOR address ARCH_PAGE_GRANULARITY + ARCH_PAGE_GRANULARITY <
      UINTPTR_SIZE := by
    have := math_floor_le address
    have := hb.2
    omega
  have hmap : region_map s region (MATH_FLOOR address ARCH_PAGE_GRANULARITY)
      ARCH_PAGE_GRANULARITY = .ok s1 := by
    unfold vm_fault at h1
    simp only [ne_eq, not_true_eq_false, if_false, hfind] at h1
    split at h1
    · cases h1
    · rename_i s1' hs1
      simp only [Except.ok.injEq, Prod.mk.injEq, true_and] at h1
      rw [← h1]; exact hs1
  obtain ⟨has, hfr, hg, hcur⟩ := region_map_frame hmap
  have hfind1 : addr_to_region (s1.address_spaces s1.g_vm_global_address_space) address =
      some (i, region) := by rw [has, hg]; exact hfind
  have hfault1 : ∀ t, region_map s1 region (MATH_FLOOR address ARCH_PAGE_GRANULARITY)
      ARCH_PAGE_GRANULARITY = .ok t → vm_fault s1 address .VM_FAULT_NOT_PRESENT = .ok (true, t) := by
    intro t ht
    unfold vm_fault
    simp only [ne_eq, not_true_eq_false, if_false, hfind1, ht]
  have hleaf : ∀ p, region_leaf s1 region p = region_leaf s region p := by
    intro p; simp only [region_leaf, hg]
  constructor
  · intro htype
    obtain ⟨t1, ht1, hpmm1, hpt1⟩ := region_map_direct (s := s) hal (Nat.mod_self _) hsum htype
    obtain ⟨t2, ht2, hpmm2, hpt2⟩ := region_map_direct (s := s1) hal (Nat.mod_self _) hsum htype
    have e1 : t1 = s1 := by rw [ht1] at hmap; exact Except.ok.inj hmap
    subst e1
    obtain ⟨has2, hfr2, hg2, hcur2⟩ := region_map_frame ht2
    have e2 : t2 = t1 := by
      apply vm_state_ext hg2 has2 hfr2 _ hpmm2 hcur2
      funext a v
      rw [hpt2 a v, hpt1 a v, hleaf]
      split <;> rfl
    rw [← e2] at ht2 ⊢
    rw [e2] at ht2
    rw [e2]
    exact hfault1 _ ht2
  · intro htype s2 h2
    have hmap2 : region_map s1 region (MATH_FLOOR address ARCH_PAGE_GRANULARITY)
        ARCH_PAGE_GRANULARITY = .ok s2 := by
      unfold vm_fault at h2
      simp only [ne_eq, not_true_eq_false, if_false, hfind1] at h2
      split at h2
      · cases h2
      · rename_i s2' hs2
        simp only [Except.ok.injEq, Prod.mk.injEq, true_and] at h2
        rw [← h2]; exact hs2
    have hone : ARCH_PAGE_GRANULARITY / ARCH_PAGE_GRANULARITY = 1 := Nat.div_self hp
    have hfree1 : 1 ≤ (s.pmm.free PMM_ZONE_NORMAL).length := by
      by_contra hc
      have := region_map_anon_short (s := s) (r := region) hal (Nat.mod_self _) hsum htype
        (by rw [hone]; omega)
      rw [this] at hmap; cases hmap
    obtain ⟨t1, ht1, hfree_t1, _, htaken1, hpt1⟩ :=
      region_map_anon (s := s) hal (Nat.mod_self _) hsum htype (by rw [hone]; exact hfree1)
    have e1 : t1 = s1 := by rw [ht1] at hmap; exact Except.ok.inj hmap
    subst e1
    have hfree2 : 1 ≤ (t1.pmm.free PMM_ZONE_NORMAL).length := by
      by_contra hc
      have := region_map_anon_short (s := t1) (r := region) hal (Nat.mod_self _) hsum htype
        (by rw [hone]; omega)
      rw [this] at hmap2; cases hmap2
    obtain ⟨t2, ht2, _, _, htaken2, hpt2⟩ :=
      region_map_anon (s := t1) hal (Nat.mod_self _) hsum htype (by rw [hone]; exact hfree2)
    have e2 : t2 = s2 := by rw [ht2] at hmap2; exact Except.ok.inj hmap2
    subst e2
    rw [hone] at hfree_t1 htaken1 htaken2
    cases hl : s.pmm.free PMM_ZONE_NORMAL with
    | nil => rw [hl] at hfree1; simp at hfree1
    | cons p1 l1 =>
      rw [hl] at hfree_t1 htaken1 hpt1
      simp only [List.drop_succ_cons, List.drop_zero] at hfree_t1
      cases hl1 : l1 with
      | nil => rw [hfree_t1, hl1] at hfree2; simp at hfree2
      | cons p2 rest =>
        refine ⟨p1, p2, rest, rfl, ?_, ?_, ?_, ?_⟩
        · rw [hpt1]
          rw [if_pos ⟨rfl, Nat.le_refl _, by omega, by simp⟩]
          simp
        · rw [hpt2]
          rw [if_pos ⟨rfl, Nat.le_refl _, by omega, by simp⟩]
          rw [hfree_t1, hl1, hleaf]
          simp
        · rw [htaken1]; simp
        · rw [htaken2, htaken1, hfree_t1, hl1]; simp

theorem vm_fault_twice_witness :
    vm_fault (state_after (vm_fault kernel_direct_state 0x10000 .VM_FAULT_NOT_PRESENT)
        kernel_direct_state) 0x10000 .VM_FAULT_NOT_PRESENT =
      .ok (true, state_after (vm_fault kernel_direct_state 0x10000 .VM_FAULT_NOT_PRESENT)
        kernel_direct_state) :=
  (vm_fault_twice kernel_direct_state
    (state_after (vm_fault kernel_direct_state 0x10000 .VM_FAULT_NOT_PRESENT) kernel_direct_state)
    0x10000 0
    { anon_region 0 0x10000 0x1000 with
      type := .VM_REGION_TYPE_DIRECT,
      type_data := { anon_back_zeroed := false, direct_physical_address := 0x300000 } }
    (by decide) rfl rfl).1 rfl

/-- C7 as stated fails on an ANON region: after the second fault on the page
at `0x10000` the installed translation and the frames taken from the PMM differ
from what the first fault left. -/
theorem vm_fault_twice_counterexample :
    returned (vm_fault kernel_anon_state 0x10000 .VM_FAULT_NOT_PRESENT) = some true ∧
    returned (vm_fault
      (state_after (vm_fault kernel_anon_state 0x10000 .VM_FAULT_NOT_PRESENT) kernel_anon_state)
      0x10000 .VM_FAULT_NOT_PRESENT) = some true ∧
    (state_after (vm_fault
      (state_after (vm_fault kernel_anon_state 0x10000 .VM_FAULT_NOT_PRESENT) kernel_anon_state)
      0x10000 .VM_FAULT_NOT_PRESENT) kernel_anon_state).page_tables 0 0x10000 ≠
    (state_after (vm_fault kernel_anon_state 0x10000 .VM_FAULT_NOT_PRESENT)
      kernel_anon_state).page_tables 0 0x10000 ∧
    (state_after (vm_fault
      (state_after (vm_fault kernel_anon_state 0x10000 .VM_FAULT_NOT_PRESENT) kernel_anon_state)
      0x10000 .VM_FAULT_NOT_PRESENT) kernel_anon_state).pmm.taken.length ≠
    (state_after (vm_fault kernel_anon_state 0x10000 .VM_FAULT_NOT_PRESENT)
      kernel_anon_state).pmm.taken.length := by
  decide

/-- What a non-NULL return of `map_common` tells about the run. -/
theorem map_common_inv {s s' : vm_state} {as hint len : Nat} {prot : vm_protection_t}
    {cache : Nat} {flags : vm_flags_t} {type : vm_region_type_t} {phys B : Nat}
    (hmap : map_common s as hint len prot cache flags type phys = .ok (B, s')) (hB : B ≠ 0) :
    len ≠ 0 ∧ len % ARCH_PAGE_GRANULARITY = 0 ∧
    ¬ (hint % ARCH_PAGE_GRANULARITY ≠ 0 ∧ flags.fixed = true) ∧
    ∃ region s1, region_alloc s false = .ok (region, s1) ∧
      find_space (s1.address_spaces as) (rounded_hint hint) len = some B ∧
      ¬ (B = 0 ∨ (hint ≠ B ∧ flags.fixed = true)) ∧
      SEGMENT_IN_BOUNDS B len (s1.address_spaces as).start (s1.address_spaces as).end_ ∧
      B % ARCH_PAGE_GRANULARITY = 0 ∧
      ∃ s2, (if flags.no_demand = true then
              region_map s1 (map_common_region region as type B len prot cache flags phys) B len
             else .ok s1) = .ok s2 ∧
        s' = set_regions s2 as
          (map_common_region region as type B len prot cache flags phys ::
            (s2.address_spaces as).regions) := by
  by_cases hl : len = 0 ∨ len % ARCH_PAGE_GRANULARITY ≠ 0
  · unfold map_common at hmap
    rw [if_pos hl] at hmap
    simp only [Except.ok.injEq, Prod.mk.injEq] at hmap
    exact absurd hmap.1.symm hB
  have hl0 : len ≠ 0 := fun h => hl (Or.inl h)
  have hlm : len % ARCH_PAGE_GRANULARITY = 0 := by
    by_contra h; exact hl (Or.inr h)
  by_cases hh : hint % ARCH_PAGE_GRANULARITY ≠ 0 ∧ flags.fixed = true
  · unfold map_common at hmap
    rw [if_neg hl, if_pos hh] at hmap
    simp only [Except.ok.injEq, Prod.mk.injEq] at hmap
    exact absurd hmap.1.symm hB
  refine ⟨hl0, hlm, hh, ?_⟩
  cases halloc : region_alloc s false with
  | error e =>
    unfold map_common at hmap
    rw [if_neg hl, if_neg hh] at hmap
    simp only [halloc] at hmap
    cases hmap
  | ok p =>
    obtain ⟨region, s1⟩ := p
    cases hfind : find_space (s1.address_spaces as) (rounded_hint hint) len with
    | none =>
      unfold map_common at hmap
      rw [if_neg hl, if_neg hh] at hmap
      simp only [halloc, hfind] at hmap
      cases hmap
    | some A =>
      rw [map_common_placed hl0 hlm hh halloc hfind] at hmap
      split at hmap
      · simp only [Except.ok.injEq, Prod.mk.injEq] at hmap
        exact absurd hmap.1.symm hB
      · rename_i hplaced
        split at hmap
        · cases hmap
        · rename_i hsib
          split at hmap
          · cases hmap
          · rename_i hal
            split at hmap
            · cases hmap
            · rename_i s2 hs2
              simp only [Except.ok.injEq, Prod.mk.injEq] at hmap
              obtain ⟨rfl, rfl⟩ := hmap
              exact ⟨region, s1, rfl, hfind, hplaced, not_not.mp hsib, (not_not.mp hal).1,
                s2, hs2, rfl⟩

theorem find_space_passes {as : vm_address_space_t} {a len res : Nat}
    (he : as.end_ < UINTPTR_SIZE) (h : find_space as a len = some res) (h0 : res ≠ 0) :
    passes_find_space as res len := by
  have hstart : as.start ≤ find_space_start as a len := by
    unfold find_space_start
    split
    · exact Nat.le_refl _
    · rename_i h
      exact (not_not.mp h).1.1
  obtain ⟨res', h1, h2⟩ := find_space_loop_spec as len he (as.regions.length + 1)
    (find_space_start as a len) hstart
    (by have := regions_above_le as (find_space_start as a len); omega)
  have e : res' = res := by
    unfold find_space at h
    unfold find_space_start at h1
    rw [h1] at h
    exact Option.some.inj h
  subst e
  rcases h2 with ⟨hz, _⟩ | ⟨_, hp, _⟩
  · exact absurd hz h0
  · exact hp

/-- C8, as the code has it: on a successful `vm_map_anon` / `vm_map_direct`
(`map_common` at either type) of a region `[B, B + len)`, compared with the
state `region_alloc` left.  With NO_DEMAND exactly the pages of `[B, B + len)`
in the address space receive a leaf mapping: an ANON page receives the frame
zone NORMAL hands out at the page's index, each frame requested zeroed iff ZERO
was given, and a DIRECT page `v` receives `phys + (v - B)`; every other
translation is the one `region_alloc` left.  Without NO_DEMAND the map call
changes no translation after `region_alloc` and none at all for a page of the
new region.  `region_alloc` itself installs nothing when the descriptor free
list is non-empty (otherwise it maps its descriptor page in the global address
space). -/
theorem vm_map_materializes (s s1 s' : vm_state) (region : vm_region_t) (as hint len B : Nat)
    (prot : vm_protection_t) (cache : Nat) (flags : vm_flags_t) (type : vm_region_type_t)
    (phys : Nat)
    (halloc : region_alloc s false = .ok (region, s1))
    (hmap : map_common s as hint len prot cache flags type phys = .ok (B, s'))
    (hB : B ≠ 0)
    (hend : (s.address_spaces as).end_ < UINTPTR_SIZE) :
    (flags.no_demand = true → type = .VM_REGION_TYPE_ANON →
      len / ARCH_PAGE_GRANULARITY ≤ (s1.pmm.free PMM_ZONE_NORMAL).length ∧
      (∀ a v, s'.page_tables a v =
        if a = as ∧ B ≤ v ∧ v < B + len ∧ (v - B) % ARCH_PAGE_GRANULARITY = 0 then
          some (installed_leaf s as prot cache
            ((s1.pmm.free PMM_ZONE_NORMAL).getD ((v - B) / ARCH_PAGE_GRANULARITY) 0))
        else s1.page_tables a v) ∧
      s'.pmm.taken =
        (((s1.pmm.free PMM_ZONE_NORMAL).take (len / ARCH_PAGE_GRANULARITY)).map
          (fun p => { zone := PMM_ZONE_NORMAL, flags := { zero := flags.zero },
                      paddr := p })).reverse ++ s1.pmm.taken ∧
      s'.pmm.free PMM_ZONE_NORMAL =
        (s1.pmm.free PMM_ZONE_NORMAL).drop (len / ARCH_PAGE_GRANULARITY)) ∧
    (flags.no_demand = true → type = .VM_REGION_TYPE_DIRECT →
      (∀ a v, s'.page_tables a v =
        if a = as ∧ B ≤ v ∧ v < B + len ∧ (v - B) % ARCH_PAGE_GRANULARITY = 0 then
          some (installed_leaf s as prot cache (uadd phys (v - B)))
        else s1.page_tables a v) ∧
      s'.pmm = s1.pmm) ∧
    (flags.no_demand = false → s'.page_tables = s1.page_tables ∧ s'.pmm = s1.pmm) ∧
    (s.g_free_regions ≠ [] → s1.page_tables = s.page_tables ∧ s1.pmm = s.pmm) ∧
    (flags.no_demand = false → ∀ v, B ≤ v → v < B + len →
      s'.page_tables as v = s.page_tables as v) := by
  obtain ⟨hg1, _, hbounds, _, hnorefill⟩ := region_alloc_frame halloc
  have hend1 : (s1.address_spaces as).end_ < UINTPTR_SIZE := by rw [(hbounds as).2]; exact hend
  obtain ⟨hl0, hlm, hh, region', s1', halloc', hfind, hplaced, hsib, hBal, s2, hs2, hs'⟩ :=
    map_common_inv hmap hB
  rw [halloc] at halloc'
  simp only [Except.ok.injEq, Prod.mk.injEq] at halloc'
  obtain ⟨rfl, rfl⟩ := halloc'
  have hsib' := (segment_in_bounds_iff hend1).mp hsib
  have hsum : B + len < UINTPTR_SIZE := by omega
  have hpt : s'.page_tables = s2.page_tables := by rw [hs']; rfl
  have hpmm : s'.pmm = s2.pmm := by rw [hs']; rfl
  refine ⟨?_, ?_, ?_, hnorefill, ?_⟩
  · intro hnd htype
    rw [if_pos hnd] at hs2
    have hrt : (map_common_region region as type B len prot cache flags phys).type =
        .VM_REGION_TYPE_ANON := by simp [htype]
    have hfree : len / ARCH_PAGE_GRANULARITY ≤ (s1.pmm.free PMM_ZONE_NORMAL).length := by
      by_contra hc
      rw [region_map_anon_short hBal hlm hsum hrt (by omega)] at hs2
      cases hs2
    obtain ⟨t, ht, hfr, _, htk, hptt⟩ := region_map_anon (s := s1) hBal hlm hsum hrt hfree
    rw [ht] at hs2
    have e : t = s2 := Except.ok.inj hs2
    subst e
    refine ⟨hfree, ?_, ?_, ?_⟩
    · intro a v
      rw [hpt, hptt a v]
      simp only [map_common_region_address_space, region_leaf, installed_leaf, hg1]
      rfl
    · rw [hpmm, htk]
      subst htype
      rfl
    · rw [hpmm, hfr]
  · intro hnd htype
    rw [if_pos hnd] at hs2
    have hrt : (map_common_region region as type B len prot cache flags phys).type =
        .VM_REGION_TYPE_DIRECT := by simp [htype]
    obtain ⟨t, ht, hpm, hptt⟩ := region_map_direct (s := s1) hBal hlm hsum hrt
    rw [ht] at hs2
    have e : t = s2 := Except.ok.inj hs2
    subst e
    refine ⟨?_, by rw [hpmm, hpm]⟩
    intro a v
    rw [hpt, hptt a v]
    subst htype
    simp only [map_common_region_address_space, region_leaf, installed_leaf, hg1,
      map_common_region_base, map_common_region]
    by_cases hc : a = as ∧ B ≤ v ∧ v < B + len ∧ (v - B) % ARCH_PAGE_GRANULARITY = 0
    · rw [if_pos hc, if_pos hc, usub_eq hc.2.1 (by omega)]
    · rw [if_neg hc, if_neg hc]
  · intro hnd
    simp only [hnd, Bool.false_eq_true, if_false, Except.ok.injEq] at hs2
    subst hs2
    exact ⟨hpt, hpmm⟩
  · intro hnd v hv1 hv2
    simp only [hnd, Bool.false_eq_true, if_false, Except.ok.injEq] at hs2
    subst hs2
    rw [hpt]
    rcases region_alloc_cases halloc with ⟨rest, hf, hs1⟩ | ⟨hf, s0, rest, hre, hf0, hs1⟩
    · rw [hs1]
    · obtain ⟨p, rest', A0, _, hfs0, hs0⟩ := region_alloc_refill_spec hre
      rw [hs1, hs0]
      simp only [set_regions, arch_ptm_map]
      rw [if_neg]
      rintro ⟨hasg, hvA⟩
      have hp := page_pos
      have hpass := find_space_passes hend1 hfind hB
      have hmem : descriptor_page_region s.g_vm_global_address_space A0 ∈
          (s1.address_spaces as).regions := by
        rw [hs1, hs0, hasg]
        simp [set_regions, arch_ptm_map]
      have hni := hpass.2 _ hmem
      apply hni
      simp only [descriptor_page_region]
      unfold SEGMENT_INTERSECTS
      rw [uadd_eq hsum]
      refine ⟨?_, by omega⟩
      by_cases hA0 : A0 = 0
      · omega
      · have hsibA := find_space_in_bounds hfs0 hA0
        rw [← hasg] at hsibA
        have := (segment_in_bounds_iff hend).mp hsibA
        rw [uadd_eq (by omega)]
        omega

theorem vm_map_materializes_witness :
    (state_after (map_common seeded_state 1 0x10000 0x2000 prot_rw VM_CACHE_STANDARD
        { fixed := true, zero := true, no_demand := true } .VM_REGION_TYPE_DIRECT 0x300000)
        seeded_state).page_tables 1 0x11000 =
      if 1 = 1 ∧ 0x10000 ≤ 0x11000 ∧ 0x11000 < 0x10000 + 0x2000 ∧
          (0x11000 - 0x10000) % ARCH_PAGE_GRANULARITY = 0 then
        some (installed_leaf seeded_state 1 prot_rw VM_CACHE_STANDARD
          (uadd 0x300000 (0x11000 - 0x10000)))
      else ({ seeded_state with g_free_regions := [] } : vm_state).page_tables 1 0x11000 :=
  ((vm_map_materializes seeded_state { seeded_state with g_free_regions := [] }
    (state_after (map_common seeded_state 1 0x10000 0x2000 prot_rw VM_CACHE_STANDARD
        { fixed := true, zero := true, no_demand := true } .VM_REGION_TYPE_DIRECT 0x300000)
        seeded_state)
    zeroed_region 1 0x10000 0x2000 0x10000 prot_rw VM_CACHE_STANDARD
    { fixed := true, zero := true, no_demand := true } .VM_REGION_TYPE_DIRECT 0x300000
    rfl rfl (by decide) (by decide)).2.1 rfl rfl).1 1 0x11000

/-- C8 as stated fails when the descriptor free list is empty: the NO_DEMAND
call that maps `[0x10000, 0x11000)` in address space `1` also installs a leaf
mapping at `0x1000` in the global address space `0`, the descriptor page of
`region_alloc`, which is no page of the new region. -/
theorem vm_map_materializes_counterexample :
    returned (vm_map_anon boot_state 1 0x10000 0x1000 prot_rw VM_CACHE_STANDARD
      { fixed := false, zero := false, no_demand := true }) = some 0x10000 ∧
    (state_after (vm_map_anon boot_state 1 0x10000 0x1000 prot_rw VM_CACHE_STANDARD
      { fixed := false, zero := false, no_demand := true }) boot_state).page_tables 0 0x1000 ≠
      boot_state.page_tables 0 0x1000 ∧
    ¬ ((0 : Nat) = 1 ∧ 0x10000 ≤ 0x1000 ∧ 0x1000 < 0x10000 + 0x1000) := by
  decide

/-! ## The inner loop of `vm_unmap` -/

/-- The inner `while` loop of `vm_unmap` stops at the end of the region or at
the end of the unmapped range, whichever comes first. -/
theorem vm_unmap_extend_spec (r : vm_region_t) (A L sb m : Nat)
    (hr : r.base + r.length < UINTPTR_SIZE) (hAL : A + L < UINTPTR_SIZE)
    (hrb : r.base % ARCH_PAGE_GRANULARITY = 0) (hrl : r.length % ARCH_PAGE_GRANULARITY = 0)
    (hA : A % ARCH_PAGE_GRANULARITY = 0) (hL : L % ARCH_PAGE_GRANULARITY = 0)
    (hsb : sb % ARCH_PAGE_GRANULARITY = 0)
    (hinr : r.base ≤ sb) (hina : A ≤ sb)
    (hm : m = min (r.base + r.length) (A + L)) :
    ∀ (fuel sl : Nat), sl % ARCH_PAGE_GRANULARITY = 0 → sb + sl ≤ m →
      (m - (sb + sl)) / ARCH_PAGE_GRANULARITY < fuel →
      vm_unmap_extend fuel r A L sb sl = some (m - sb) := by
  intro fuel
  induction fuel with
  | zero => intro sl _ _ h; exact absurd h (Nat.not_lt_zero _)
  | succ n ih =>
    intro sl hsl hle hfuel
    unfold vm_unmap_extend
    have hadd : uadd sb sl = sb + sl := uadd_eq (by omega)
    simp only [hadd, ADDRESS_IN_SEGMENT, uadd_eq hr, uadd_eq hAL]
    by_cases hc : sb + sl < m
    · rw [if_pos (by omega)]
      have hadd2 : uadd sl ARCH_PAGE_GRANULARITY = sl + ARCH_PAGE_GRANULARITY :=
        uadd_eq (by simp only [ARCH_PAGE_GRANULARITY, UINTPTR_SIZE] at *; omega)
      rw [hadd2]
      apply ih
      · simp only [ARCH_PAGE_GRANULARITY] at *; omega
      · simp only [ARCH_PAGE_GRANULARITY] at *; omega
      · simp only [ARCH_PAGE_GRANULARITY] at *; omega
    · rw [if_neg (by omega)]
      congr 1
      omega

theorem vm_unmap_extend_first (r : vm_region_t) (A L sb : Nat)
    (hr : r.base + r.length < UINTPTR_SIZE) (hAL : A + L < UINTPTR_SIZE)
    (hrb : r.base % ARCH_PAGE_GRANULARITY = 0) (hrl : r.length % ARCH_PAGE_GRANULARITY = 0)
    (hA : A % ARCH_PAGE_GRANULARITY = 0) (hL : L % ARCH_PAGE_GRANULARITY = 0)
    (hsb : sb % ARCH_PAGE_GRANULARITY = 0)
    (hinr : r.base ≤ sb ∧ sb < r.base + r.length) (hina : A ≤ sb ∧ sb < A + L) :
    vm_unmap_extend (L / ARCH_PAGE_GRANULARITY + 1) r A L sb ARCH_PAGE_GRANULARITY =
      some (min (r.base + r.length) (A + L) - sb) := by
  apply vm_unmap_extend_spec r A L sb _ hr hAL hrb hrl hA hL hsb hinr.1 hina.1 rfl
  · exact Nat.mod_self _
  · simp only [ARCH_PAGE_GRANULARITY] at *; omega
  · simp only [ARCH_PAGE_GRANULARITY] at *; omega

/-! ## Lists of regions under a split -/

theorem list_split_at {α : Type} {l : List α} {i : Nat} {x : α} (h : l.get? i = some x) :
    l = l.take i ++ x :: l.drop (i + 1) ∧ (l.take i).length = i := by
  induction l generalizing i with
  | nil => cases h
  | cons y ys ih =>
    cases i with
    | zero =>
      simp only [List.get?_cons_zero, Option.some.injEq] at h
      subst h
      simp
    | succ k =>
      simp only [List.get?_cons_succ] at h
      obtain ⟨h1, h2⟩ := ih h
      constructor
      · simp only [List.take_succ_cons, List.drop_succ_cons, List.cons_append]
        rw [← h1]
      · simp only [List.take_succ_cons, List.length_cons, h2]

theorem list_append_after_mid {α : Type} (pre post : List α) (x y : α) :
    list_append_after (pre ++ x :: post) pre.length y = pre ++ x :: y :: post := by
  unfold list_append_after
  induction pre with
  | nil => simp
  | cons p ps ih => simpa using ih

theorem list_set_mid {α : Type} (pre post : List α) (x y : α) :
    (pre ++ x :: post).set pre.length y = pre ++ y :: post := by
  induction pre with
  | nil => simp
  | cons p ps ih => simp

theorem list_delete_mid {α : Type} (pre post : List α) (x : α) :
    list_delete (pre ++ x :: post) pre.length = pre ++ post := by
  unfold list_delete
  induction pre with
  | nil => simp
  | cons p ps ih => simpa using ih

/-! ## Regions cut out of a region list -/

theorem region_disjoint_symm {a b : vm_region_t} (h : region_disjoint a b) :
    region_disjoint b a := by
  unfold region_disjoint at *; omega

theorem region_disjoint_sub {a r q : vm_region_t} (h : region_disjoint a r)
    (hq : r.base ≤ q.base ∧ q.base + q.length ≤ r.base + r.length) : region_disjoint a q := by
  unfold region_disjoint at *; omega

/-- Replacing a region of a pairwise disjoint list by pairwise disjoint
sub-ranges of it keeps the list pairwise disjoint. -/
theorem pairwise_replace {l1 l2 ps : List vm_region_t} {r : vm_region_t}
    (h : (l1 ++ r :: l2).Pairwise region_disjoint)
    (hsub : ∀ q ∈ ps, r.base ≤ q.base ∧ q.base + q.length ≤ r.base + r.length)
    (hps : ps.Pairwise region_disjoint) :
    (l1 ++ ps ++ l2).Pairwise region_disjoint := by
  rw [List.pairwise_append] at h
  obtain ⟨h1, h2, h3⟩ := h
  rw [List.pairwise_cons] at h2
  obtain ⟨h21, h22⟩ := h2
  rw [List.append_assoc, List.pairwise_append]
  refine ⟨h1, ?_, ?_⟩
  · rw [List.pairwise_append]
    refine ⟨hps, h22, ?_⟩
    intro q hq b hb
    exact region_disjoint_symm (region_disjoint_sub (region_disjoint_symm (h21 b hb)) (hsub q hq))
  · intro a ha b hb
    rcases List.mem_append.mp hb with hb | hb
    · exact region_disjoint_sub (h3 a ha r (List.mem_cons_self _ _)) (hsub b hb)
    · exact h3 a ha b (List.mem_cons_of_mem _ hb)

/-- The pieces left of a region are sub-ranges of it, page-aligned, pairwise
disjoint, and carry its type and protection. -/
theorem split_pieces_props {r succ : vm_region_t} {sb sl : Nat}
    (hrb : r.base ≤ sb) (hle : sb + sl ≤ r.base + r.length)
    (hsb : succ.base = sb + sl) (hsl : succ.length = r.base + r.length - (sb + sl)) :
    (∀ q ∈ split_pieces r succ sb sl,
        r.base ≤ q.base ∧ q.base + q.length ≤ r.base + r.length) ∧
    (split_pieces r succ sb sl).Pairwise region_disjoint := by
  unfold split_pieces
  constructor
  · intro q hq
    rcases List.mem_append.mp hq with hq | hq
    · split at hq
      · simp only [List.mem_singleton] at hq
        subst hq
        simp only
        omega
      · cases hq
    · split at hq
      · simp only [List.mem_singleton] at hq
        subst hq
        omega
      · cases hq
  · split <;> split <;> simp [region_disjoint]
    omega

theorem split_pieces_aligned {r succ : vm_region_t} {sb sl : Nat}
    (hsb : succ.base = sb + sl) (hsl : succ.length = r.base + r.length - (sb + sl))
    (hr : r.base % ARCH_PAGE_GRANULARITY = 0 ∧ r.length % ARCH_PAGE_GRANULARITY = 0)
    (hsba : sb % ARCH_PAGE_GRANULARITY = 0) (hsla : sl % ARCH_PAGE_GRANULARITY = 0) :
    ∀ q ∈ split_pieces r succ sb sl,
      q.base % ARCH_PAGE_GRANULARITY = 0 ∧ q.length % ARCH_PAGE_GRANULARITY = 0 := by
  unfold split_pieces
  intro q hq
  rcases List.mem_append.mp hq with hq | hq
  · split at hq
    · simp only [List.mem_singleton] at hq
      subst hq
      simp only [ARCH_PAGE_GRANULARITY] at *
      omega
    · cases hq
  · split at hq
    · simp only [List.mem_singleton] at hq
      subst hq
      simp only [ARCH_PAGE_GRANULARITY] at *
      omega
    · cases hq

/-- The pieces left of a region cover exactly the addresses of the region
outside the split range, with the region's type and protection. -/
theorem split_pieces_cover {r succ : vm_region_t} {sb sl : Nat}
    (hrb : r.base ≤ sb) (hle : sb + sl ≤ r.base + r.length)
    (hsb : succ.base = sb + sl) (hsl : succ.length = r.base + r.length - (sb + sl))
    (hst : succ.type = r.type) (hsp : succ.protection = r.protection)
    (x : Nat) (t : vm_region_type_t) (p : vm_protection_t) :
    (∃ q ∈ split_pieces r succ sb sl, region_contains q x ∧ q.type = t ∧ q.protection = p) ↔
      (region_contains r x ∧ r.type = t ∧ r.protection = p) ∧ ¬ (sb ≤ x ∧ x < sb + sl) := by
  unfold split_pieces region_contains
  constructor
  · rintro ⟨q, hq, hc, ht, hp⟩
    rcases List.mem_append.mp hq with hq | hq
    · split at hq
      · simp only [List.mem_singleton] at hq
        subst hq
        simp only at hc ht hp
        exact ⟨⟨by omega, ht, hp⟩, by omega⟩
      · cases hq
    · split at hq
      · simp only [List.mem_singleton] at hq
        subst hq
        exact ⟨⟨by omega, hst ▸ ht, hsp ▸ hp⟩, by omega⟩
      · cases hq
  · rintro ⟨⟨hc, ht, hp⟩, hout⟩
    by_cases hx : x < sb
    · refine ⟨{ r with length := sb - r.base }, ?_, ?_, ht, hp⟩
      · apply List.mem_append_left
        rw [if_pos (by omega)]
        exact List.mem_singleton_self _
      · simp only
        omega
    · refine ⟨succ, ?_, by omega, hst.trans ht, hsp.trans hp⟩
      apply List.mem_append_right
      rw [if_pos (by omega)]
      exact List.mem_singleton_self _

/-- Cutting a range out of one region of a pairwise disjoint list removes
exactly the addresses of that range from what the list reserves. -/
theorem reserved_replace {l1 l2 : List vm_region_t} {r succ : vm_region_t} {sb sl : Nat}
    (hdis : (l1 ++ r :: l2).Pairwise region_disjoint)
    (hrb : r.base ≤ sb) (hle : sb + sl ≤ r.base + r.length)
    (hsb : succ.base = sb + sl) (hsl : succ.length = r.base + r.length - (sb + sl))
    (hst : succ.type = r.type) (hsp : succ.protection = r.protection)
    (x : Nat) (t : vm_region_type_t) (p : vm_protection_t) :
    (∃ q ∈ l1 ++ split_pieces r succ sb sl ++ l2,
        region_contains q x ∧ q.type = t ∧ q.protection = p) ↔
      (∃ q ∈ l1 ++ r :: l2, region_contains q x ∧ q.type = t ∧ q.protection = p) ∧
        ¬ (sb ≤ x ∧ x < sb + sl) := by
  have hcov := split_pieces_cover hrb hle hsb hsl hst hsp x t p
  rw [List.pairwise_append] at hdis
  obtain ⟨_, h2, h3⟩ := hdis
  rw [List.pairwise_cons] at h2
  have hother : ∀ q, q ∈ l1 ∨ q ∈ l2 → region_contains q x → ¬ (sb ≤ x ∧ x < sb + sl) := by
    intro q hq hc hx
    have hd : region_disjoint q r := by
      rcases hq with hq | hq
      · exact h3 q hq r (List.mem_cons_self _ _)
      · exact region_disjoint_symm (h2.1 q hq)
    unfold region_disjoint at hd
    unfold region_contains at hc
    omega
  constructor
  · rintro ⟨q, hq, hc, ht, hp⟩
    rcases List.mem_append.mp hq with hq | hq
    · rcases List.mem_append.mp hq with hq | hq
      · exact ⟨⟨q, List.mem_append_left _ hq, hc, ht, hp⟩, hother q (Or.inl hq) hc⟩
      · obtain ⟨hr, hout⟩ := hcov.mp ⟨q, hq, hc, ht, hp⟩
        exact ⟨⟨r, List.mem_append_right _ (List.mem_cons_self _ _), hr⟩, hout⟩
    · exact ⟨⟨q, List.mem_append_right _ (List.mem_cons_of_mem _ hq), hc, ht, hp⟩,
        hother q (Or.inr hq) hc⟩
  · rintro ⟨⟨q, hq, hc, ht, hp⟩, hout⟩
    rcases List.mem_append.mp hq with hq | hq
    · exact ⟨q, List.mem_append_left _ (List.mem_append_left _ hq), hc, ht, hp⟩
    · rcases List.mem_cons.mp hq with rfl | hq
      · obtain ⟨q', hq', h'⟩ := hcov.mpr ⟨⟨hc, ht, hp⟩, hout⟩
        exact ⟨q', List.mem_append_left _ (List.mem_append_right _ hq'), h'⟩
      · exact ⟨q, List.mem_append_right _ hq, hc, ht, hp⟩

/-! ## `region_alloc` and the region lists -/

/-- The descriptor regions a returning `region_alloc` has added: none, or, when
the free list was empty, the descriptor page placed by `find_space` in the
global address space, linked in front of its region list. -/
theorem region_alloc_regions {s s1 : vm_state} {b : Bool} {rc : vm_region_t}
    (h : region_alloc s b = .ok (rc, s1)) :
    ∃ D : List vm_region_t,
      (D = [] ∨ (s.g_free_regions = [] ∧ ∃ A0,
        find_space (s.address_spaces s.g_vm_global_address_space) 0 ARCH_PAGE_GRANULARITY =
          some A0 ∧
        D = [descriptor_page_region s.g_vm_global_address_space A0])) ∧
      (s.g_free_regions ≠ [] → D = []) ∧
      ∀ X, (s1.address_spaces X).regions =
        (if X = s.g_vm_global_address_space then D else []) ++ (s.address_spaces X).regions := by
  rcases region_alloc_cases h with ⟨rest, hf, rfl⟩ | ⟨hf, s0, rest, hre, hf0, rfl⟩
  · refine ⟨[], Or.inl rfl, fun _ => rfl, ?_⟩
    intro X
    split <;> rfl
  · obtain ⟨p, rest', A0, _, hfs, rfl⟩ := region_alloc_refill_spec hre
    refine ⟨[descriptor_page_region s.g_vm_global_address_space A0],
      Or.inr ⟨hf, A0, hfs, rfl⟩, fun hne => absurd hf hne, ?_⟩
    intro X
    simp only [set_regions, arch_ptm_map]
    by_cases hX : X = s.g_vm_global_address_space
    · rw [if_pos hX, if_pos hX, hX]
      rfl
    · rw [if_neg hX, if_neg hX]
      rfl

/-- The descriptor page that `region_alloc` places in the global address space
is disjoint from every region already there, when those are page-aligned and
in bounds and the address space does not start at 0. -/
theorem descriptor_page_disjoint {as : vm_address_space_t} {g A0 : Nat}
    (hfs : find_space as 0 ARCH_PAGE_GRANULARITY = some A0)
    (hal : regions_aligned as) (hin : regions_in_bounds as)
    (he : as.end_ < UINTPTR_SIZE) (hs : as.start ≠ 0) :
    ∀ q ∈ as.regions, region_disjoint (descriptor_page_region g A0) q := by
  have hp := page_pos
  obtain ⟨res, h1, h2⟩ := find_space_spec as 0 ARCH_PAGE_GRANULARITY he hp
    (fun r hr => by have := hin r hr; omega)
  rw [hfs] at h1
  have e : res = A0 := (Option.some.inj h1).symm
  subst e
  intro q hq
  unfold region_disjoint
  simp only [descriptor_page_region]
  rcases h2 with ⟨h0, _⟩ | ⟨_, hfree, _⟩
  · left
    have := hal q hq
    have := hin q hq
    rw [h0]
    simp only [ARCH_PAGE_GRANULARITY] at *
    omega
  · have := hfree.2.2 q hq
    omega

/-! ## One iteration of `vm_unmap` on the region lists -/

theorem set_regions_same (s : vm_state) (as : Nat) (l : List vm_region_t) :
    ((set_regions s as l).address_spaces as).regions = l := by
  simp [set_regions]

theorem set_regions_other (s : vm_state) (as X : Nat) (l : List vm_region_t) (h : X ≠ as) :
    (set_regions s as l).address_spaces X = s.address_spaces X := by
  simp [set_regions, h]

theorem set_regions_bounds (s : vm_state) (as X : Nat) (l : List vm_region_t) :
    ((set_regions s as l).address_spaces X).start = (s.address_spaces X).start ∧
    ((set_regions s as l).address_spaces X).end_ = (s.address_spaces X).end_ := by
  simp only [set_regions]
  split <;> simp

/-- The region lists after the successor and truncation parts of one iteration
of `vm_unmap` that cuts `[sb, sb + sl)` out of the region `r` at position `i`:
`r` is replaced by its pieces, in front of the list of the global address space
comes the descriptor page when `region_alloc` had to refill, and nothing else
changes. -/
theorem vm_unmap_hit {s s2 : vm_state} {as i i1 sb sl : Nat} {r : vm_region_t}
    (hget : (s.address_spaces as).regions.get? i = some r)
    (hrw : r.base + r.length < UINTPTR_SIZE) (hsum : sb + sl < UINTPTR_SIZE)
    (hrb : r.base ≤ sb)
    (hsucc : vm_unmap_successor s as i r sb sl = .ok (i1, s2)) :
    ∃ (D : List vm_region_t) (rc : vm_region_t),
      (D = [] ∨ (s.g_free_regions = [] ∧ r.base + r.length > sb + sl ∧ ∃ A0,
        find_space (s.address_spaces s.g_vm_global_address_space) 0 ARCH_PAGE_GRANULARITY =
          some A0 ∧
        D = [descriptor_page_region s.g_vm_global_address_space A0])) ∧
      (s.g_free_regions ≠ [] → D = []) ∧
      ((vm_unmap_truncate s2 as i1 r sb).address_spaces as).regions =
        ((if as = s.g_vm_global_address_space then D else []) ++
          (s.address_spaces as).regions.take i) ++
        split_pieces r (successor_region rc r as sb sl) sb sl ++
        (s.address_spaces as).regions.drop (i + 1) ∧
      (∀ X, X ≠ as → ((vm_unmap_truncate s2 as i1 r sb).address_spaces X).regions =
        (if X = s.g_vm_global_address_space then D else []) ++ (s.address_spaces X).regions) ∧
      (∀ X, ((vm_unmap_truncate s2 as i1 r sb).address_spaces X).start =
          (s.address_spaces X).start ∧
        ((vm_unmap_truncate s2 as i1 r sb).address_spaces X).end_ = (s.address_spaces X).end_) ∧
      (vm_unmap_truncate s2 as i1 r sb).g_vm_global_address_space =
        s.g_vm_global_address_space ∧
      (¬ (r.base + r.length > sb + sl) → D = [] ∧
        (s.g_free_regions ≠ [] → (vm_unmap_truncate s2 as i1 r sb).g_free_regions ≠ []) ∧
        ∀ X, X ≠ as → (vm_unmap_truncate s2 as i1 r sb).address_spaces X =
          s.address_spaces X) := by
  obtain ⟨hsplit, hlen⟩ := list_split_at hget
  have hu1 : uadd r.base r.length = r.base + r.length := uadd_eq hrw
  have hu2 : uadd sb sl = sb + sl := uadd_eq hsum
  have hu3 : usub sb r.base = sb - r.base := usub_eq hrb (by omega)
  generalize hpre : (s.address_spaces as).regions.take i = pre at hsplit hlen ⊢
  generalize hpost : (s.address_spaces as).regions.drop (i + 1) = post at hsplit ⊢
  subst hlen
  unfold vm_unmap_successor at hsucc
  rw [hu1, hu2] at hsucc
  by_cases hc : r.base + r.length > sb + sl
  · rw [if_pos hc] at hsucc
    cases halloc : region_alloc s (decide (as = s.g_vm_global_address_space)) with
    | error e => rw [halloc] at hsucc; cases hsucc
    | ok pr =>
      obtain ⟨rc, s1⟩ := pr
      rw [halloc] at hsucc
      simp only [Except.ok.injEq, Prod.mk.injEq] at hsucc
      obtain ⟨hi1, hs2⟩ := hsucc
      rw [hi1] at hs2
      obtain ⟨D, hD, hDf, hreg⟩ := region_alloc_regions halloc
      obtain ⟨hg1, _, hb1, _, _⟩ := region_alloc_frame halloc
      have hregas := hreg as
      have hl1 : (s1.address_spaces as).regions =
          ((if as = s.g_vm_global_address_space then D else []) ++ pre) ++ r :: post := by
        rw [hregas, List.append_assoc, ← hsplit]
      have hpos : i1 = ((if as = s.g_vm_global_address_space then D else []) ++ pre).length := by
        rw [← hi1, hregas, List.length_append, List.length_append]
        omega
      clear hi1
      refine ⟨D, rc, ?_, hDf, ?_, ?_, ?_, ?_, fun h => absurd hc h⟩
      · rcases hD with hD | ⟨hf, A0, hA0, hD⟩
        · exact Or.inl hD
        · exact Or.inr ⟨hf, hc, A0, hA0, hD⟩
      · rw [← hs2]
        unfold vm_unmap_truncate
        simp only [set_regions_same]
        rw [hl1, hpos, list_append_after_mid]
        unfold split_pieces
        rw [if_pos hc]
        by_cases hlt' : r.base < sb
        · rw [if_pos hlt', if_pos hlt', set_regions_same, list_set_mid, hu3]
          simp
        · rw [if_neg hlt', if_neg hlt']
          simp only [region_free, set_regions_same]
          rw [list_delete_mid]
          simp
      · intro X hX
        rw [← hs2]
        unfold vm_unmap_truncate
        split
        · rw [set_regions_other _ _ _ _ hX, set_regions_other _ _ _ _ hX]
          exact hreg X
        · simp only [region_free]
          rw [set_regions_other _ _ _ _ hX, set_regions_other _ _ _ _ hX]
          exact hreg X
      · intro X
        rw [← hs2]
        unfold vm_unmap_truncate
        split
        · rw [(set_regions_bounds _ _ _ _).1, (set_regions_bounds _ _ _ _).2,
            (set_regions_bounds _ _ _ _).1, (set_regions_bounds _ _ _ _).2]
          exact hb1 X
        · simp only [region_free]
          rw [(set_regions_bounds _ _ _ _).1, (set_regions_bounds _ _ _ _).2,
            (set_regions_bounds _ _ _ _).1, (set_regions_bounds _ _ _ _).2]
          exact hb1 X
      · rw [← hs2]
        unfold vm_unmap_truncate
        split
        · exact hg1
        · exact hg1
  · rw [if_neg hc] at hsucc
    simp only [Except.ok.injEq, Prod.mk.injEq] at hsucc
    obtain ⟨hi1, hs2⟩ := hsucc
    subst hi1 hs2
    refine ⟨[], zeroed_region, Or.inl rfl, fun _ => rfl, ?_, ?_, ?_, ?_, fun _ => ⟨rfl, ?_, ?_⟩⟩
    · unfold vm_unmap_truncate split_pieces
      rw [if_neg hc]
      by_cases hlt : r.base < sb
      · rw [if_pos hlt, if_pos hlt, set_regions_same, hsplit, list_set_mid, hu3]
        simp
      · rw [if_neg hlt, if_neg hlt]
        simp only [region_free, set_regions_same]
        rw [hsplit, list_delete_mid]
        simp
    · intro X hX
      unfold vm_unmap_truncate
      split
      · rw [set_regions_other _ _ _ _ hX]; simp
      · simp only [region_free]
        rw [set_regions_other _ _ _ _ hX]; simp
    · intro X
      unfold vm_unmap_truncate
      split
      · exact set_regions_bounds _ _ _ _
      · simp only [region_free]
        exact set_regions_bounds _ _ _ _
    · unfold vm_unmap_truncate
      split <;> rfl
    · intro hne
      unfold vm_unmap_truncate
      split
      · exact hne
      · simp [region_free, list_append_head, set_regions]
    · intro X hX
      unfold vm_unmap_truncate
      split
      · exact set_regions_other _ _ _ _ hX
      · simp only [region_free]
        exact set_regions_other _ _ _ _ hX

/-! ## Unfolding the outer loop of `vm_unmap` -/

theorem vm_unmap_loop_exit (fuel : Nat) (s : vm_state) (as A L sb : Nat)
    (hAL : A + L < UINTPTR_SIZE) (h : A + L ≤ sb) :
    vm_unmap_loop (fuel + 1) s as A L sb = .ok s := by
  unfold vm_unmap_loop
  rw [uadd_eq hAL, if_pos (by omega)]

theorem vm_unmap_loop_gap (fuel : Nat) (s : vm_state) (as A L sb : Nat)
    (hAL : A + L < UINTPTR_SIZE) (h : sb < A + L)
    (hL : (A + L) % ARCH_PAGE_GRANULARITY = 0) (hsb : sb % ARCH_PAGE_GRANULARITY = 0)
    (hnone : addr_to_region (s.address_spaces as) sb = none) :
    vm_unmap_loop (fuel + 1) s as A L sb =
      vm_unmap_loop fuel s as A L (sb + ARCH_PAGE_GRANULARITY) := by
  conv_lhs => rw [vm_unmap_loop]
  rw [uadd_eq hAL, if_neg (by omega)]
  simp only [hnone]
  rw [uadd_eq (by simp only [ARCH_PAGE_GRANULARITY] at *; omega)]

/-- One iteration of the outer loop of `vm_unmap` that finds a region `r` at
`sb`: the split range runs to the end of `r` or of the unmapped range,
whichever comes first, both assertions hold, `region_unmap` returns, and the
loop goes on after the successor and truncation parts. -/
theorem vm_unmap_loop_hit (fuel : Nat) (s : vm_state) (as A L sb i : Nat) (r : vm_region_t)
    (hA : A % ARCH_PAGE_GRANULARITY = 0) (hL : L % ARCH_PAGE_GRANULARITY = 0)
    (hsb : sb % ARCH_PAGE_GRANULARITY = 0)
    (he : (s.address_spaces as).end_ < UINTPTR_SIZE)
    (hs : (s.address_spaces as).start ≤ A) (hAL : A + L ≤ (s.address_spaces as).end_)
    (hlo : A ≤ sb) (hhi : sb < A + L)
    (hrb : r.base % ARCH_PAGE_GRANULARITY = 0) (hrl : r.length % ARCH_PAGE_GRANULARITY = 0)
    (hrw : r.base + r.length < UINTPTR_SIZE)
    (hrc : r.base ≤ sb ∧ sb < r.base + r.length)
    (haddr : addr_to_region (s.address_spaces as) sb = some (i, r)) :
    ∃ s1, region_unmap s r sb (min (r.base + r.length) (A + L) - sb) = .ok s1 ∧
      s1.address_spaces = s.address_spaces ∧ s1.g_free_regions = s.g_free_regions ∧
      s1.g_vm_global_address_space = s.g_vm_global_address_space ∧
      (∀ e, vm_unmap_successor s1 as i r sb (min (r.base + r.length) (A + L) - sb) = .error e →
        vm_unmap_loop (fuel + 1) s as A L sb = .error e) ∧
      (∀ i1 s2,
        vm_unmap_successor s1 as i r sb (min (r.base + r.length) (A + L) - sb) = .ok (i1, s2) →
        vm_unmap_loop (fuel + 1) s as A L sb =
          vm_unmap_loop fuel (vm_unmap_truncate s2 as i1 r sb) as A L
            (sb + (min (r.base + r.length) (A + L) - sb))) := by
  have hext := vm_unmap_extend_first r A L sb hrw (by omega) hrb hrl hA hL hsb hrc ⟨hlo, hhi⟩
  have hslal : (min (r.base + r.length) (A + L) - sb) % ARCH_PAGE_GRANULARITY = 0 := by
    simp only [ARCH_PAGE_GRANULARITY] at *; omega
  obtain ⟨s1, hs1, h1, h2, h3, _, _⟩ := region_unmap_ok s r sb
    (min (r.base + r.length) (A + L) - sb) hsb hslal hrc.1 (by omega)
  have hsib : SEGMENT_IN_BOUNDS sb (min (r.base + r.length) (A + L) - sb)
      (s.address_spaces as).start (s.address_spaces as).end_ :=
    (segment_in_bounds_iff he).mpr (by omega)
  have hunf : ∀ res, vm_unmap_successor s1 as i r sb (min (r.base + r.length) (A + L) - sb) =
      res → vm_unmap_loop (fuel + 1) s as A L sb =
        match res with
        | .error e => .error e
        | .ok (i1, s2) =>
          vm_unmap_loop fuel (vm_unmap_truncate s2 as i1 r sb) as A L
            (sb + (min (r.base + r.length) (A + L) - sb)) := by
    intro res hres
    conv_lhs => rw [vm_unmap_loop]
    rw [uadd_eq (by omega), if_neg (by omega)]
    simp only [haddr, hext]
    rw [if_neg (not_not.mpr hsib), if_neg (by simp [hsb, hslal])]
    simp only [hs1, hres]
    rw [uadd_eq (by omega)]
  refine ⟨s1, hs1, h1, h2, h3, ?_, ?_⟩
  · intro e hres
    rw [hunf _ hres]
  · intro i1 s2 hres
    rw [hunf _ hres]

/-- A page the scan finds no region at is not reserved anywhere, when the
regions are page-aligned. -/
theorem gap_page_not_reserved {as : vm_address_space_t} {sb x : Nat}
    (hal : regions_aligned as) (hsb : sb % ARCH_PAGE_GRANULARITY = 0)
    (hgap : ¬ covered as sb) (hx : sb ≤ x ∧ x < sb + ARCH_PAGE_GRANULARITY) :
    ¬ covered as x := by
  rintro ⟨q, hq, hc⟩
  apply hgap
  refine ⟨q, hq, ?_⟩
  have := hal q hq
  unfold region_contains at *
  simp only [ARCH_PAGE_GRANULARITY] at *
  omega

theorem reserved_as_covered {as : vm_address_space_t} {x : Nat} {t : vm_region_type_t}
    {p : vm_protection_t} (h : reserved_as as x t p) : covered as x := by
  obtain ⟨q, hq, hc, _, _⟩ := h
  exact ⟨q, hq, hc⟩

theorem successor_region_props (rc r : vm_region_t) (as sb sl : Nat)
    (hrw : r.base + r.length < UINTPTR_SIZE) (hle : sb + sl ≤ r.base + r.length) :
    (successor_region rc r as sb sl).base = sb + sl ∧
    (successor_region rc r as sb sl).length = r.base + r.length - (sb + sl) ∧
    (successor_region rc r as sb sl).type = r.type ∧
    (successor_region rc r as sb sl).protection = r.protection := by
  unfold successor_region
  simp only [uadd_eq hrw, uadd_eq (show sb + sl < UINTPTR_SIZE by omega),
    usub_eq hle hrw, and_self]

/-- The outer loop of `vm_unmap`, run from `sb` on an address space whose
regions are pairwise disjoint, page-aligned and in bounds.  When it returns,
the address space reserves what it reserved before minus `[sb, A + L)`, every
remaining address with the type and protection it had, plus (on the global
address space only) the descriptor page `D` that `region_alloc` may have added;
the regions stay pairwise disjoint; the other address spaces keep their region
lists, the global one with `D` in front. -/
theorem vm_unmap_loop_spec (as A L : Nat) (hA : A % ARCH_PAGE_GRANULARITY = 0)
    (hL : L % ARCH_PAGE_GRANULARITY = 0) :
    ∀ (fuel : Nat) (s s' : vm_state) (sb : Nat),
      regions_disjoint (s.address_spaces as) → regions_aligned (s.address_spaces as) →
      regions_in_bounds (s.address_spaces as) →
      (s.address_spaces as).end_ < UINTPTR_SIZE → (s.address_spaces as).start ≤ A →
      A + L ≤ (s.address_spaces as).end_ →
      sb % ARCH_PAGE_GRANULARITY = 0 → A ≤ sb → sb ≤ A + L →
      vm_unmap_loop fuel s as A L sb = .ok s' →
      ∃ D : List vm_region_t,
        (D = [] ∨ ∃ A0, D = [descriptor_page_region s.g_vm_global_address_space A0] ∧
          (as ≠ s.g_vm_global_address_space →
            find_space (s.address_spaces s.g_vm_global_address_space) 0
              ARCH_PAGE_GRANULARITY = some A0)) ∧
        (s.g_free_regions ≠ [] → D = []) ∧
        s'.g_vm_global_address_space = s.g_vm_global_address_space ∧
        (∀ X, (s'.address_spaces X).start = (s.address_spaces X).start ∧
              (s'.address_spaces X).end_ = (s.address_spaces X).end_) ∧
        (∀ X, X ≠ as → (s'.address_spaces X).regions =
          (if X = s.g_vm_global_address_space then D else []) ++ (s.address_spaces X).regions) ∧
        (∀ x t p, reserved_as (s'.address_spaces as) x t p ↔
          (reserved_as (s.address_spaces as) x t p ∧ ¬ (sb ≤ x ∧ x < A + L)) ∨
          (as = s.g_vm_global_address_space ∧
            ∃ d ∈ D, region_contains d x ∧ d.type = t ∧ d.protection = p)) ∧
        ((as = s.g_vm_global_address_space → (s.address_spaces as).start ≠ 0) →
          regions_disjoint (s'.address_spaces as)) := by
  have hp := page_pos
  intro fuel
  induction fuel with
  | zero =>
    intro s s' sb _ _ _ _ _ _ _ _ _ hrun
    simp [vm_unmap_loop] at hrun
  | succ n ih =>
    intro s s' sb hdis hal hin he hs hAL hsb hlo hhi hrun
    by_cases hx : sb < A + L
    swap
    · rw [vm_unmap_loop_exit n s as A L sb (by omega) (by omega)] at hrun
      have e : s' = s := (Except.ok.inj hrun).symm
      subst e
      refine ⟨[], Or.inl rfl, fun _ => rfl, rfl, fun _ => ⟨rfl, rfl⟩, ?_, ?_, fun _ => hdis⟩
      · intro X _; split <;> rfl
      · intro x t p
        constructor
        · intro h; exact Or.inl ⟨h, by omega⟩
        · rintro (⟨h, _⟩ | ⟨_, d, hd, _⟩)
          · exact h
          · cases hd
    have hALal : (A + L) % ARCH_PAGE_GRANULARITY = 0 := by
      simp only [ARCH_PAGE_GRANULARITY] at *; omega
    cases haddr : addr_to_region (s.address_spaces as) sb with
    | none =>
      rw [vm_unmap_loop_gap n s as A L sb (by omega) hx hALal hsb haddr] at hrun
      have hgap : ¬ covered (s.address_spaces as) sb := (addr_to_region_none_iff he hin).mp haddr
      obtain ⟨D, hD, hDf, hg, hb, ho, hcov, hd⟩ := ih s s' (sb + ARCH_PAGE_GRANULARITY)
        hdis hal hin he hs hAL (by simp only [ARCH_PAGE_GRANULARITY] at *; omega) (by omega)
        (by simp only [ARCH_PAGE_GRANULARITY] at *; omega) hrun
      refine ⟨D, hD, hDf, hg, hb, ho, ?_, hd⟩
      intro x t p
      rw [hcov x t p]
      constructor
      · rintro (⟨h, hout⟩ | h)
        · left
          refine ⟨h, ?_⟩
          intro hxx
          by_cases hpage : x < sb + ARCH_PAGE_GRANULARITY
          · exact gap_page_not_reserved hal hsb hgap ⟨hxx.1, hpage⟩ (reserved_as_covered h)
          · exact hout ⟨by omega, hxx.2⟩
        · exact Or.inr h
      · rintro (⟨h, hout⟩ | h)
        · exact Or.inl ⟨h, fun hxx => hout ⟨by omega, hxx.2⟩⟩
        · exact Or.inr h
    | some pr =>
      obtain ⟨i, r⟩ := pr
      obtain ⟨_, hget, hseg, _⟩ := addr_to_region_some haddr
      have hmem : r ∈ (s.address_spaces as).regions := List.get?_mem hget
      have hrin := hin r hmem
      have hral := hal r hmem
      have hrw : r.base + r.length < UINTPTR_SIZE := by omega
      have hrc : region_contains r sb := (address_in_segment_iff hrw).mp hseg
      unfold region_contains at hrc
      obtain ⟨s1, hs1, has1, hfr1, hg1, herr, hok⟩ := vm_unmap_loop_hit n s as A L sb i r hA hL hsb
        he hs hAL hlo hx hral.1 hral.2 hrw hrc haddr
      generalize hsl : min (r.base + r.length) (A + L) - sb = sl at hs1 herr hok
      have hslpos : 0 < sl := by omega
      have hsle : sb + sl ≤ r.base + r.length := by omega
      have hsle' : sb + sl ≤ A + L := by omega
      have hslal : sl % ARCH_PAGE_GRANULARITY = 0 := by
        simp only [ARCH_PAGE_GRANULARITY] at *; omega
      cases hsucc : vm_unmap_successor s1 as i r sb sl with
      | error e => rw [herr e hsucc] at hrun; cases hrun
      | ok pr2 =>
        obtain ⟨i1, s2⟩ := pr2
        rw [hok i1 s2 hsucc] at hrun
        have hget1 : (s1.address_spaces as).regions.get? i = some r := by rw [has1]; exact hget
        obtain ⟨D1, rc, hD1, hD1f, hregs3, hother3, hbnd3, hg3, hcut⟩ :=
          vm_unmap_hit hget1 hrw (by omega) hrc.1 hsucc
        simp only [has1, hg1, hfr1] at hregs3 hother3 hbnd3 hg3 hD1 hD1f hcut
        obtain ⟨hsplit, _⟩ := list_split_at hget
        generalize hpre : (s.address_spaces as).regions.take i = pre at hsplit hregs3
        generalize hpost : (s.address_spaces as).regions.drop (i + 1) = post at hsplit hregs3
        obtain ⟨hsb1, hsb2, hsb3, hsb4⟩ := successor_region_props rc r as sb sl hrw hsle
        obtain ⟨hpsub, hppair⟩ := @split_pieces_props r (successor_region rc r as sb sl) sb sl
          hrc.1 hsle hsb1 hsb2
        have hpal := @split_pieces_aligned r (successor_region rc r as sb sl) sb sl
          hsb1 hsb2 hral hsb hslal
        have hdis0 : (pre ++ r :: post).Pairwise region_disjoint := by
          have := hdis; unfold regions_disjoint at this; rw [hsplit] at this; exact this
        generalize hs3 : vm_unmap_truncate s2 as i1 r sb = s3 at hrun hregs3 hother3 hbnd3 hg3 hcut
        by_cases hc : r.base + r.length > sb + sl
        · -- the region extends past the range: a successor is made and the loop ends
          have hend : sb + sl = A + L := by omega
          cases n with
          | zero => simp [vm_unmap_loop] at hrun
          | succ m =>
            rw [vm_unmap_loop_exit m s3 as A L (sb + sl) (by omega) (by omega)] at hrun
            have e : s' = s3 := (Except.ok.inj hrun).symm
            subst e
            have hD1' : D1 = [] ∨ ∃ A0,
                D1 = [descriptor_page_region s.g_vm_global_address_space A0] ∧
                find_space (s.address_spaces s.g_vm_global_address_space) 0
                  ARCH_PAGE_GRANULARITY = some A0 := by
              rcases hD1 with h | ⟨_, _, A0, hA0, h⟩
              · exact Or.inl h
              · exact Or.inr ⟨A0, h, hA0⟩
            refine ⟨D1, ?_, hD1f, hg3, hbnd3, hother3, ?_, ?_⟩
            · rcases hD1' with h | ⟨A0, h, hA0⟩
              · exact Or.inl h
              · exact Or.inr ⟨A0, h, fun _ => hA0⟩
            · intro x t p
              unfold reserved_as
              rw [hregs3, hsplit]
              have hrep := @reserved_replace pre post r (successor_region rc r as sb sl) sb sl
                hdis0 hrc.1 hsle hsb1 hsb2 hsb3 hsb4 x t p
              constructor
              · rintro ⟨q, hq, hqc⟩
                rw [List.append_assoc, List.append_assoc] at hq
                rcases List.mem_append.mp hq with hq | hq
                · right
                  by_cases hasg : as = s.g_vm_global_address_space
                  · rw [if_pos hasg] at hq
                    exact ⟨hasg, q, hq, hqc⟩
                  · rw [if_neg hasg] at hq
                    cases hq
                · left
                  rw [← List.append_assoc] at hq
                  obtain ⟨h1, h2⟩ := hrep.mp ⟨q, hq, hqc⟩
                  exact ⟨h1, fun hxx => h2 ⟨hxx.1, by omega⟩⟩
              · rintro (⟨h1, h2⟩ | ⟨hasg, d, hd, hdc⟩)
                · obtain ⟨q, hq, hqc⟩ := hrep.mpr ⟨h1, fun hxx => h2 ⟨hxx.1, by omega⟩⟩
                  refine ⟨q, ?_, hqc⟩
                  rw [List.append_assoc, List.append_assoc]
                  apply List.mem_append_right
                  rw [← List.append_assoc]
                  exact hq
                · refine ⟨d, ?_, hdc⟩
                  rw [List.append_assoc, List.append_assoc]
                  apply List.mem_append_left
                  rw [if_pos hasg]
                  exact hd
            · intro hstart
              unfold regions_disjoint
              rw [hregs3]
              apply pairwise_replace _ hpsub hppair
              by_cases hasg : as = s.g_vm_global_address_space
              · rw [if_pos hasg]
                rcases hD1' with h | ⟨A0, h, hA0⟩
                · rw [h]; exact hdis0
                · rw [h]
                  show List.Pairwise region_disjoint
                    (descriptor_page_region s.g_vm_global_address_space A0 :: (pre ++ r :: post))
                  rw [List.pairwise_cons]
                  refine ⟨?_, hdis0⟩
                  rw [← hsplit]
                  rw [← hasg] at hA0
                  exact descriptor_page_disjoint hA0 hal hin he (hstart hasg)
              · rw [if_neg hasg]; exact hdis0
        · -- the region ends within the range: it is truncated or deleted, the loop goes on
          obtain ⟨hD10, hfree3, hsame3⟩ := hcut hc
          subst hD10
          simp only [ite_self, List.nil_append] at hregs3 hother3
          have hdis3 : regions_disjoint (s3.address_spaces as) := by
            unfold regions_disjoint
            rw [hregs3]
            exact pairwise_replace hdis0 hpsub hppair
          have hmem3 : ∀ q ∈ (s3.address_spaces as).regions,
              q ∈ (s.address_spaces as).regions ∨
              q ∈ split_pieces r (successor_region rc r as sb sl) sb sl := by
            intro q hq
            rw [hregs3] at hq
            rw [hsplit]
            rcases List.mem_append.mp hq with hq | hq
            · rcases List.mem_append.mp hq with hq | hq
              · exact Or.inl (List.mem_append_left _ hq)
              · exact Or.inr hq
            · exact Or.inl (List.mem_append_right _ (List.mem_cons_of_mem _ hq))
          have hal3 : regions_aligned (s3.address_spaces as) := by
            intro q hq
            rcases hmem3 q hq with h | h
            · exact hal q h
            · exact hpal q h
          have hin3 : regions_in_bounds (s3.address_spaces as) := by
            intro q hq
            rw [(hbnd3 as).1, (hbnd3 as).2]
            rcases hmem3 q hq with h | h
            · exact hin q h
            · have := hpsub q h
              omega
          obtain ⟨D, hD, hDf, hg, hb, ho, hcov, hd⟩ := ih s3 s' (sb + sl) hdis3 hal3 hin3
            (by rw [(hbnd3 as).2]; exact he) (by rw [(hbnd3 as).1]; exact hs)
            (by rw [(hbnd3 as).2]; exact hAL)
            (by simp only [ARCH_PAGE_GRANULARITY] at *; omega) (by omega) (by omega) hrun
          rw [hg3] at hD ho hcov hg hd
          refine ⟨D, ?_, ?_, hg, ?_, ?_, ?_, ?_⟩
          · rcases hD with h | ⟨A0, h, hA0⟩
            · exact Or.inl h
            · refine Or.inr ⟨A0, h, fun hne => ?_⟩
              have := hA0 hne
              rw [hsame3 _ (Ne.symm hne)] at this
              exact this
          · intro hne
            exact hDf (hfree3 hne)
          · intro X
            rw [(hb X).1, (hb X).2]
            exact hbnd3 X
          · intro X hX
            rw [ho X hX, hsame3 X hX]
          · intro x t p
            rw [hcov x t p]
            have hrep := @reserved_replace pre post r (successor_region rc r as sb sl) sb sl
              hdis0 hrc.1 hsle hsb1 hsb2 hsb3 hsb4 x t p
            have h3 : reserved_as (s3.address_spaces as) x t p ↔
                reserved_as (s.address_spaces as) x t p ∧ ¬ (sb ≤ x ∧ x < sb + sl) := by
              unfold reserved_as
              rw [hregs3, hsplit]
              exact hrep
            rw [h3]
            constructor
            · rintro (⟨⟨h1, h2⟩, hout⟩ | h)
              · exact Or.inl ⟨h1, fun hxx => by
                  by_cases hq : x < sb + sl
                  · exact h2 ⟨hxx.1, hq⟩
                  · exact hout ⟨by omega, hxx.2⟩⟩
              · exact Or.inr h
            · rintro (⟨h1, hout⟩ | h)
              · exact Or.inl ⟨⟨h1, fun hxx => hout ⟨hxx.1, by omega⟩⟩,
                  fun hxx => hout ⟨by omega, hxx.2⟩⟩
              · exact Or.inr h
          · intro hstart
            apply hd
            intro hasg
            rw [(hbnd3 as).1]
            exact hstart hasg

/-- An iteration of `vm_unmap` whose region ends within the unmapped range
allocates nothing; the regions of the address space stay pairwise disjoint,
page-aligned and in bounds, and the descriptor free list stays non-empty. -/
theorem vm_unmap_cut_inv {s : vm_state} {as i sb sl : Nat} {r : vm_region_t}
    (hdis : regions_disjoint (s.address_spaces as)) (hal : regions_aligned (s.address_spaces as))
    (hin : regions_in_bounds (s.address_spaces as))
    (hget : (s.address_spaces as).regions.get? i = some r)
    (hrw : r.base + r.length < UINTPTR_SIZE)
    (hrb : r.base ≤ sb) (hsle : sb + sl = r.base + r.length)
    (hsb : sb % ARCH_PAGE_GRANULARITY = 0) (hslal : sl % ARCH_PAGE_GRANULARITY = 0) :
    vm_unmap_successor s as i r sb sl = .ok (i, s) ∧
    regions_disjoint ((vm_unmap_truncate s as i r sb).address_spaces as) ∧
    regions_aligned ((vm_unmap_truncate s as i r sb).address_spaces as) ∧
    regions_in_bounds ((vm_unmap_truncate s as i r sb).address_spaces as) ∧
    ((vm_unmap_truncate s as i r sb).address_spaces as).start = (s.address_spaces as).start ∧
    ((vm_unmap_truncate s as i r sb).address_spaces as).end_ = (s.address_spaces as).end_ ∧
    (s.g_free_regions ≠ [] → (vm_unmap_truncate s as i r sb).g_free_regions ≠ []) := by
  have hsucc : vm_unmap_successor s as i r sb sl = .ok (i, s) := by
    unfold vm_unmap_successor
    rw [uadd_eq hrw, uadd_eq (by omega), if_neg (by omega)]
  have hmem : r ∈ (s.address_spaces as).regions := List.get?_mem hget
  obtain ⟨D1, rc, _, _, hregs3, _, hbnd3, _, hcut⟩ := vm_unmap_hit hget hrw (by omega) hrb hsucc
  obtain ⟨hD10, hfree3, _⟩ := hcut (by omega)
  subst hD10
  simp only [ite_self, List.nil_append] at hregs3
  obtain ⟨hsplit, _⟩ := list_split_at hget
  generalize (s.address_spaces as).regions.take i = pre at hsplit hregs3
  generalize (s.address_spaces as).regions.drop (i + 1) = post at hsplit hregs3
  obtain ⟨hsb1, hsb2, _, _⟩ := successor_region_props rc r as sb sl hrw (by omega)
  obtain ⟨hpsub, hppair⟩ := @split_pieces_props r (successor_region rc r as sb sl) sb sl
    hrb (by omega) hsb1 hsb2
  have hpal := @split_pieces_aligned r (successor_region rc r as sb sl) sb sl
    hsb1 hsb2 (hal r hmem) hsb hslal
  have hmem3 : ∀ q ∈ ((vm_unmap_truncate s as i r sb).address_spaces as).regions,
      q ∈ (s.address_spaces as).regions ∨
      q ∈ split_pieces r (successor_region rc r as sb sl) sb sl := by
    intro q hq
    rw [hregs3] at hq
    rw [hsplit]
    rcases List.mem_append.mp hq with hq | hq
    · rcases List.mem_append.mp hq with hq | hq
      · exact Or.inl (List.mem_append_left _ hq)
      · exact Or.inr hq
    · exact Or.inl (List.mem_append_right _ (List.mem_cons_of_mem _ hq))
  refine ⟨hsucc, ?_, ?_, ?_, (hbnd3 as).1, (hbnd3 as).2, hfree3⟩
  · unfold regions_disjoint at hdis ⊢
    rw [hregs3]
    rw [hsplit] at hdis
    exact pairwise_replace hdis hpsub hppair
  · intro q hq
    rcases hmem3 q hq with h | h
    · exact hal q h
    · exact hpal q h
  · intro q hq
    rw [(hbnd3 as).1, (hbnd3 as).2]
    rcases hmem3 q hq with h | h
    · exact hin q h
    · have := hpsub q h
      have := hin r hmem
      omega

/-- The outer loop of `vm_unmap` returns when the regions are pairwise
disjoint, page-aligned and in bounds and a descriptor is at hand for the one
successor it may need. -/
theorem vm_unmap_loop_total (as A L : Nat) (hA : A % ARCH_PAGE_GRANULARITY = 0)
    (hL : L % ARCH_PAGE_GRANULARITY = 0) :
    ∀ (fuel : Nat) (s : vm_state) (sb : Nat),
      regions_disjoint (s.address_spaces as) → regions_aligned (s.address_spaces as) →
      regions_in_bounds (s.address_spaces as) →
      (s.address_spaces as).end_ < UINTPTR_SIZE → (s.address_spaces as).start ≤ A →
      A + L ≤ (s.address_spaces as).end_ →
      sb % ARCH_PAGE_GRANULARITY = 0 → A ≤ sb → sb ≤ A + L →
      s.g_free_regions ≠ [] →
      (A + L - sb) / ARCH_PAGE_GRANULARITY < fuel →
      ∃ s', vm_unmap_loop fuel s as A L sb = .ok s' := by
  have hp := page_pos
  intro fuel
  induction fuel with
  | zero => intro s sb _ _ _ _ _ _ _ _ _ _ h; exact absurd h (Nat.not_lt_zero _)
  | succ n ih =>
    intro s sb hdis hal hin he hs hAL hsb hlo hhi hfree hfuel
    by_cases hx : sb < A + L
    swap
    · exact ⟨s, vm_unmap_loop_exit n s as A L sb (by omega) (by omega)⟩
    have hALal : (A + L) % ARCH_PAGE_GRANULARITY = 0 := by
      simp only [ARCH_PAGE_GRANULARITY] at *; omega
    cases haddr : addr_to_region (s.address_spaces as) sb with
    | none =>
      rw [vm_unmap_loop_gap n s as A L sb (by omega) hx hALal hsb haddr]
      exact ih s (sb + ARCH_PAGE_GRANULARITY) hdis hal hin he hs hAL
        (by simp only [ARCH_PAGE_GRANULARITY] at *; omega) (by omega)
        (by simp only [ARCH_PAGE_GRANULARITY] at *; omega) hfree
        (by simp only [ARCH_PAGE_GRANULARITY] at *; omega)
    | some pr =>
      obtain ⟨i, r⟩ := pr
      obtain ⟨_, hget, hseg, _⟩ := addr_to_region_some haddr
      have hmem : r ∈ (s.address_spaces as).regions := List.get?_mem hget
      have hrin := hin r hmem
      have hral := hal r hmem
      have hrw : r.base + r.length < UINTPTR_SIZE := by omega
      have hrc : region_contains r sb := (address_in_segment_iff hrw).mp hseg
      unfold region_contains at hrc
      obtain ⟨s1, hs1, has1, hfr1, hg1, herr, hok⟩ := vm_unmap_loop_hit n s as A L sb i r hA hL hsb
        he hs hAL hlo hx hral.1 hral.2 hrw hrc haddr
      generalize hsl : min (r.base + r.length) (A + L) - sb = sl at hs1 herr hok
      have hslal : sl % ARCH_PAGE_GRANULARITY = 0 := by
        simp only [ARCH_PAGE_GRANULARITY] at *; omega
      have hslpos : ARCH_PAGE_GRANULARITY ≤ sl := by
        simp only [ARCH_PAGE_GRANULARITY] at *; omega
      have hget1 : (s1.address_spaces as).regions.get? i = some r := by rw [has1]; exact hget
      by_cases hc : r.base + r.length > sb + sl
      · -- a successor is needed: the free list supplies the descriptor, then the loop ends
        have hend : sb + sl = A + L := by omega
        cases hfl : s.g_free_regions with
        | nil => exact absurd hfl hfree
        | cons rc rest =>
          have halloc := region_alloc_of_cons (s := s1)
            (b := decide (as = s1.g_vm_global_address_space)) (r := rc) (by rw [hfr1]; exact hfl)
          have hsucc : ∃ i1 s2, vm_unmap_successor s1 as i r sb sl = .ok (i1, s2) := by
            unfold vm_unmap_successor
            rw [uadd_eq hrw, uadd_eq (by omega), if_pos hc]
            simp only [halloc]
            exact ⟨_, _, rfl⟩
          obtain ⟨i1, s2, hsucc⟩ := hsucc
          rw [hok i1 s2 hsucc]
          cases n with
          | zero =>
            exfalso
            have : 1 ≤ (A + L - sb) / ARCH_PAGE_GRANULARITY := by
              simp only [ARCH_PAGE_GRANULARITY] at *; omega
            omega
          | succ m =>
            exact ⟨_, vm_unmap_loop_exit m _ as A L (sb + sl) (by omega) (by omega)⟩
      · have hsle : sb + sl = r.base + r.length := by omega
        obtain ⟨hsucc, hdis3, hal3, hin3, hst3, hen3, hfree3⟩ := vm_unmap_cut_inv
          (by rw [has1]; exact hdis) (by rw [has1]; exact hal) (by rw [has1]; exact hin)
          hget1 hrw hrc.1 hsle hsb hslal
        rw [hok i s1 hsucc]
        rw [has1] at hst3 hen3
        exact ih _ (sb + sl) hdis3 hal3 hin3 (by rw [hen3]; exact he) (by rw [hst3]; exact hs)
          (by rw [hen3]; exact hAL) (by simp only [ARCH_PAGE_GRANULARITY] at *; omega)
          (by omega) (by omega) (hfree3 (by rw [hfr1]; exact hfree))
          (by simp only [ARCH_PAGE_GRANULARITY] at *; omega)

theorem covered_iff_reserved (as : vm_address_space_t) (x : Nat) :
    covered as x ↔ ∃ t p, reserved_as as x t p := by
  unfold covered reserved_as
  constructor
  · rintro ⟨r, hr, hc⟩
    exact ⟨r.type, r.protection, r, hr, hc, rfl, rfl⟩
  · rintro ⟨_, _, r, hr, hc, _, _⟩
    exact ⟨r, hr, hc⟩

/-- What a returning `vm_unmap` with a non-zero length tells: both assertions
held and the result is that of the outer loop. -/
theorem vm_unmap_inv {s s' : vm_state} {as A L : Nat} (h : vm_unmap s as A L = .ok s')
    (hL0 : L ≠ 0) :
    A % ARCH_PAGE_GRANULARITY = 0 ∧ L % ARCH_PAGE_GRANULARITY = 0 ∧
    SEGMENT_IN_BOUNDS A L (s.address_spaces as).start (s.address_spaces as).end_ ∧
    vm_unmap_loop (L / ARCH_PAGE_GRANULARITY + 1) s as A L A = .ok s' := by
  unfold vm_unmap at h
  rw [if_neg hL0] at h
  split at h
  · cases h
  · rename_i hal
    split at h
    · cases h
    · rename_i hsib
      have hal' := not_not.mp hal
      exact ⟨hal'.1, hal'.2, not_not.mp hsib, h⟩

theorem vm_unmap_eq_loop {s : vm_state} {as A L : Nat} (hL0 : L ≠ 0)
    (hA : A % ARCH_PAGE_GRANULARITY = 0) (hL : L % ARCH_PAGE_GRANULARITY = 0)
    (hsib : SEGMENT_IN_BOUNDS A L (s.address_spaces as).start (s.address_spaces as).end_) :
    vm_unmap s as A L = vm_unmap_loop (L / ARCH_PAGE_GRANULARITY + 1) s as A L A := by
  unfold vm_unmap
  rw [if_neg hL0, if_neg (by simp [hA, hL]), if_neg (not_not.mpr hsib)]

/-- C4, as the code has it: for every page-aligned, in-bounds range
`[A, A + L)` with `L > 0`, on an address space whose regions are pairwise
disjoint, page-aligned and in bounds, and which is not the global address space
or finds a descriptor on the free list: after `vm_unmap(as, A, L)` an address is
covered by a region of `as` iff it was covered before and lies outside
`[A, A + L)`, and every surviving address keeps the type and protection of the
region that covered it.  With a descriptor on the free list the call returns. -/
theorem vm_unmap_reserved (s : vm_state) (as A L : Nat)
    (hdis : regions_disjoint (s.address_spaces as)) (hal : regions_aligned (s.address_spaces as))
    (hin : regions_in_bounds (s.address_spaces as))
    (he : (s.address_spaces as).end_ < UINTPTR_SIZE)
    (hA : A % ARCH_PAGE_GRANULARITY = 0) (hL : L % ARCH_PAGE_GRANULARITY = 0) (hL0 : 0 < L)
    (hs : (s.address_spaces as).start ≤ A) (hAL : A + L ≤ (s.address_spaces as).end_)
    (hfree : as ≠ s.g_vm_global_address_space ∨ s.g_free_regions ≠ []) :
    (∀ s', vm_unmap s as A L = .ok s' →
      (∀ x, covered (s'.address_spaces as) x ↔
        covered (s.address_spaces as) x ∧ ¬ (A ≤ x ∧ x < A + L)) ∧
      (∀ x t p, reserved_as (s'.address_spaces as) x t p ↔
        reserved_as (s.address_spaces as) x t p ∧ ¬ (A ≤ x ∧ x < A + L))) ∧
    (s.g_free_regions ≠ [] → ∃ s', vm_unmap s as A L = .ok s') := by
  have hsib : SEGMENT_IN_BOUNDS A L (s.address_spaces as).start (s.address_spaces as).end_ :=
    (segment_in_bounds_iff he).mpr ⟨hs, by omega, hAL⟩
  rw [vm_unmap_eq_loop (by omega) hA hL hsib]
  constructor
  · intro s' hrun
    obtain ⟨D, _, hDf, _, _, _, hcov, _⟩ := vm_unmap_loop_spec as A L hA hL _ s s' A hdis hal hin
      he hs hAL hA (Nat.le_refl _) (by omega) hrun
    have hres : ∀ x t p, reserved_as (s'.address_spaces as) x t p ↔
        reserved_as (s.address_spaces as) x t p ∧ ¬ (A ≤ x ∧ x < A + L) := by
      intro x t p
      rw [hcov x t p]
      constructor
      · rintro (h | ⟨hasg, d, hd, _⟩)
        · exact h
        · rcases hfree with hne | hne
          · exact absurd hasg hne
          · rw [hDf hne] at hd; cases hd
      · intro h; exact Or.inl h
    refine ⟨?_, hres⟩
    intro x
    rw [covered_iff_reserved, covered_iff_reserved]
    constructor
    · rintro ⟨t, p, h⟩
      exact ⟨⟨t, p, ((hres x t p).mp h).1⟩, ((hres x t p).mp h).2⟩
    · rintro ⟨⟨t, p, h⟩, hout⟩
      exact ⟨t, p, (hres x t p).mpr ⟨h, hout⟩⟩
  · intro hne
    exact vm_unmap_loop_total as A L hA hL _ s A hdis hal hin he hs hAL hA (Nat.le_refl _)
      (by omega) hne (by simp only [ARCH_PAGE_GRANULARITY] at *; omega)

theorem vm_unmap_reserved_witness :
    ∃ s', vm_unmap four_page_state 1 0x11000 0x2000 = .ok s' :=
  (vm_unmap_reserved four_page_state 1 0x11000 0x2000 (by decide) (by decide) (by decide)
    (by decide) (by decide) (by decide) (by decide) (by decide) (by decide)
    (Or.inl (by decide))).2 (by decide)

/-- Scenario 4 of the spec on the model: four pages mapped at `0x10000`, the
middle two unmapped; two regions `[0x10000, 0x11000)` and `[0x13000, 0x14000)`
remain, both with the original type and protection. -/
theorem vm_unmap_middle_example :
    ((state_of (vm_unmap four_page_state 1 0x11000 0x2000)
        four_page_state).address_spaces 1).regions.map
      (fun r => (r.base, r.length, r.type, r.protection)) =
    [(0x10000, 0x1000, .VM_REGION_TYPE_ANON, prot_rw),
     (0x13000, 0x1000, .VM_REGION_TYPE_ANON, prot_rw)] := by
  decide

/-- C4 as stated fails on the global address space when the descriptor free
list is empty: `vm_unmap` of `[0x1000, 0x3000)` splits the region at `0x2000`,
`region_alloc` places its descriptor page at `0x1000`, and `0x1000`, inside the
unmapped range and not covered before, is covered afterwards. -/
theorem vm_unmap_reserved_counterexample :
    ¬ covered (kernel_three_page_state.address_spaces 0) 0x1000 ∧
    aborted (vm_unmap kernel_three_page_state 0 0x1000 0x2000) = none ∧
    covered ((state_of (vm_unmap kernel_three_page_state 0 0x1000 0x2000)
      kernel_three_page_state).address_spaces 0) 0x1000 := by
  decide

/-- The three outcomes of a returning `map_common`: an argument rejected with
the state untouched, NULL after `region_alloc` with the descriptor handed back,
or success. -/
theorem map_common_cases {s s' : vm_state} {as hint len : Nat} {prot : vm_protection_t}
    {cache : Nat} {flags : vm_flags_t} {type : vm_region_type_t} {phys B : Nat}
    (hmap : map_common s as hint len prot cache flags type phys = .ok (B, s')) :
    s' = s ∨
    (∃ region s1, region_alloc s false = .ok (region, s1) ∧ s' = region_free s1 region) ∨
    B ≠ 0 := by
  by_cases hB : B = 0
  swap
  · exact Or.inr (Or.inr hB)
  by_cases hl : len = 0 ∨ len % ARCH_PAGE_GRANULARITY ≠ 0
  · unfold map_common at hmap
    rw [if_pos hl] at hmap
    simp only [Except.ok.injEq, Prod.mk.injEq] at hmap
    exact Or.inl hmap.2.symm
  have hl0 : len ≠ 0 := fun h => hl (Or.inl h)
  have hlm : len % ARCH_PAGE_GRANULARITY = 0 := by
    by_contra h; exact hl (Or.inr h)
  by_cases hh : hint % ARCH_PAGE_GRANULARITY ≠ 0 ∧ flags.fixed = true
  · unfold map_common at hmap
    rw [if_neg hl, if_pos hh] at hmap
    simp only [Except.ok.injEq, Prod.mk.injEq] at hmap
    exact Or.inl hmap.2.symm
  right; left
  cases halloc : region_alloc s false with
  | error e =>
    unfold map_common at hmap
    rw [if_neg hl, if_neg hh] at hmap
    simp only [halloc] at hmap
    cases hmap
  | ok pr =>
    obtain ⟨region, s1⟩ := pr
    cases hfind : find_space (s1.address_spaces as) (rounded_hint hint) len with
    | none =>
      unfold map_common at hmap
      rw [if_neg hl, if_neg hh] at hmap
      simp only [halloc, hfind] at hmap
      cases hmap
    | some A =>
      rw [map_common_placed hl0 hlm hh halloc hfind] at hmap
      split at hmap
      · simp only [Except.ok.injEq, Prod.mk.injEq] at hmap
        exact ⟨region, s1, rfl, hmap.2.symm⟩
      · rename_i hplaced
        split at hmap
        · cases hmap
        · split at hmap
          · cases hmap
          · split at hmap
            · cases hmap
            · simp only [Except.ok.injEq, Prod.mk.injEq] at hmap
              exact absurd (Or.inl (hmap.1.trans hB)) hplaced

/-- After `region_alloc` the regions of every address space are still pairwise
disjoint and end below `2^64`, when they were pairwise disjoint, page-aligned
and in bounds and the global address space does not start at 0. -/
theorem region_alloc_disjoint {s s1 : vm_state} {b : Bool} {rc : vm_region_t} (X : Nat)
    (h : region_alloc s b = .ok (rc, s1))
    (hdis : regions_disjoint (s.address_spaces X)) (hal : regions_aligned (s.address_spaces X))
    (hin : regions_in_bounds (s.address_spaces X))
    (he : (s.address_spaces X).end_ < UINTPTR_SIZE)
    (hstart : X = s.g_vm_global_address_space → (s.address_spaces X).start ≠ 0) :
    regions_disjoint (s1.address_spaces X) ∧
    ∀ q ∈ (s1.address_spaces X).regions, q.base + q.length < UINTPTR_SIZE := by
  have hp := page_pos
  have hold : ∀ q ∈ (s.address_spaces X).regions, q.base + q.length < UINTPTR_SIZE := by
    intro q hq; have := hin q hq; omega
  obtain ⟨D, hD, _, hreg⟩ := region_alloc_regions h
  unfold regions_disjoint
  rw [hreg X]
  by_cases hX : X = s.g_vm_global_address_space
  · rw [if_pos hX]
    rcases hD with hD | ⟨_, A0, hA0, hD⟩
    · rw [hD]; exact ⟨hdis, hold⟩
    · rw [hD]
      rw [← hX] at hA0
      constructor
      · show List.Pairwise region_disjoint
          (descriptor_page_region s.g_vm_global_address_space A0 :: (s.address_spaces X).regions)
        rw [List.pairwise_cons]
        exact ⟨descriptor_page_disjoint hA0 hal hin he (hstart hX), hdis⟩
      · intro q hq
        rcases List.mem_append.mp hq with hq | hq
        · simp only [List.mem_singleton] at hq
          subst hq
          simp only [descriptor_page_region]
          by_cases h0 : A0 = 0
          · rw [h0]; simp only [ARCH_PAGE_GRANULARITY, UINTPTR_SIZE]; omega
          · have := (segment_in_bounds_iff he).mp (find_space_in_bounds hA0 h0)
            omega
        · exact hold q hq
  · rw [if_neg hX]
    exact ⟨hdis, hold⟩

/-- One call keeps the regions disjoint where the descriptor page of
`region_alloc` cannot land on a region: when before a call to `vm_map_anon` /
`vm_map_direct` (`map_common` at either type) or `vm_unmap` the regions of an
address space `X` are pairwise disjoint, page-aligned and within bounds, when
for `vm_unmap` the same holds of the address space being unmapped, and when `X`,
if it is the global address space, does not start at address 0, then after the
call the regions of `X` are pairwise disjoint, the descriptor page region of
`region_alloc` and the successor and truncated regions of a split included.
The regions need not be within bounds afterwards: on a full global address
space the descriptor page region is `[0, 0x1000)`. -/
theorem vm_regions_stay_disjoint (s : vm_state) (as X : Nat)
    (hdis : regions_disjoint (s.address_spaces X)) (hal : regions_aligned (s.address_spaces X))
    (hin : regions_in_bounds (s.address_spaces X))
    (he : (s.address_spaces X).end_ < UINTPTR_SIZE)
    (hstart : X = s.g_vm_global_address_space → (s.address_spaces X).start ≠ 0) :
    (∀ hint len prot cache flags type phys B s',
      map_common s as hint len prot cache flags type phys = .ok (B, s') →
      regions_disjoint (s'.address_spaces X)) ∧
    (regions_disjoint (s.address_spaces as) → regions_aligned (s.address_spaces as) →
      regions_in_bounds (s.address_spaces as) → (s.address_spaces as).end_ < UINTPTR_SIZE →
      ∀ A L s', vm_unmap s as A L = .ok s' → regions_disjoint (s'.address_spaces X)) := by
  constructor
  · intro hint len prot cache flags type phys B s' hmap
    rcases map_common_cases hmap with h | ⟨region, s1, halloc, h⟩ | hB
    · rw [h]; exact hdis
    · rw [h]
      exact (region_alloc_disjoint X halloc hdis hal hin he hstart).1
    · obtain ⟨hl0, _, _, region, s1, halloc, hfind, _, _, _, s2, hs2, hs'⟩ :=
        map_common_inv hmap hB
      obtain ⟨hdis1, hwrap1⟩ := region_alloc_disjoint X halloc hdis hal hin he hstart
      obtain ⟨_, _, hb1, _, _⟩ := region_alloc_frame halloc
      have has2 : s2.address_spaces = s1.address_spaces := by
        split at hs2
        · exact (region_map_frame hs2).1
        · rw [← Except.ok.inj hs2]
      by_cases hX : X = as
      · subst hX
        unfold regions_disjoint
        rw [hs', set_regions_same, has2, List.pairwise_cons]
        refine ⟨?_, hdis1⟩
        have hend1 : (s1.address_spaces X).end_ < UINTPTR_SIZE := by rw [(hb1 X).2]; exact he
        obtain ⟨res, hres, hspec⟩ := find_space_spec (s1.address_spaces X) (rounded_hint hint) len
          hend1 (Nat.pos_of_ne_zero hl0) hwrap1
        rw [hfind] at hres
        have e : res = B := (Option.some.inj hres).symm
        subst e
        rcases hspec with ⟨h0, _⟩ | ⟨_, hfree, _⟩
        · exact absurd h0 hB
        · intro q hq
          have := hfree.2.2 q hq
          unfold region_disjoint
          simp only [map_common_region_base, map_common_region_length]
          exact this
      · rw [hs', set_regions_other _ _ _ _ hX, has2]
        exact hdis1
  · intro hdisa hala hina hea A L s' hrun
    by_cases hL0 : L = 0
    · unfold vm_unmap at hrun
      rw [if_pos hL0] at hrun
      rw [← Except.ok.inj hrun]; exact hdis
    obtain ⟨hA, hL, hsib, hloop⟩ := vm_unmap_inv hrun hL0
    have hsib' := (segment_in_bounds_iff hea).mp hsib
    obtain ⟨D, hD, _, _, _, ho, _, hd⟩ := vm_unmap_loop_spec as A L hA hL _ s s' A hdisa hala hina
      hea hsib'.1 hsib'.2.2 hA (Nat.le_refl _) (by omega) hloop
    by_cases hX : X = as
    · subst hX
      exact hd hstart
    · unfold regions_disjoint
      rw [ho X hX]
      by_cases hXg : X = s.g_vm_global_address_space
      · rw [if_pos hXg]
        rcases hD with hD | ⟨A0, hD, hA0⟩
        · rw [hD]; exact hdis
        · rw [hD]
          show List.Pairwise region_disjoint
            (descriptor_page_region s.g_vm_global_address_space A0 ::
              (s.address_spaces X).regions)
          rw [List.pairwise_cons]
          have hne : as ≠ s.g_vm_global_address_space := fun h => hX (hXg.trans h.symm)
          have hA0' := hA0 hne
          rw [← hXg] at hA0'
          exact ⟨descriptor_page_disjoint hA0' hal hin he (hstart hXg), hdis⟩
      · rw [if_neg hXg]
        exact hdis

theorem vm_regions_stay_disjoint_witness :
    regions_disjoint ((state_after (map_common four_page_state 1 0 0x2000 prot_rw
      VM_CACHE_STANDARD VM_FLAG_NONE .VM_REGION_TYPE_ANON 0) four_page_state).address_spaces 1) ∧
    regions_disjoint ((state_of (vm_unmap four_page_state 1 0x11000 0x2000)
      four_page_state).address_spaces 1) :=
  ⟨(vm_regions_stay_disjoint four_page_state 1 1 (by decide) (by decide) (by decide) (by decide)
      (by decide)).1 0 0x2000 prot_rw VM_CACHE_STANDARD VM_FLAG_NONE .VM_REGION_TYPE_ANON 0
      0x1000
      (state_after (map_common four_page_state 1 0 0x2000 prot_rw VM_CACHE_STANDARD VM_FLAG_NONE
        .VM_REGION_TYPE_ANON 0) four_page_state) rfl,
   (vm_regions_stay_disjoint four_page_state 1 1 (by decide) (by decide) (by decide) (by decide)
      (by decide)).2 (by decide) (by decide) (by decide) (by decide) 0x11000 0x2000
      (state_of (vm_unmap four_page_state 1 0x11000 0x2000) four_page_state) rfl⟩

/-- The loop of `interrupt_request` from vector `i`, with enough fuel: it
returns the lowest free vector in `[i, 256)` with that entry set, or `-1` with
the table untouched when none is free. -/
theorem interrupt_request_loop_spec (g : Nat → interrupt_entry_t) (priority handler : Nat) :
    ∀ fuel i, IDT_SIZE ≤ fuel + i →
      (∃ v, i ≤ v ∧ v < IDT_SIZE ∧ (g v).free = true ∧
          (∀ j, i ≤ j → j < v → (g j).free = false) ∧
          interrupt_request_loop (fuel + 1) g priority handler i =
            some ((v : Int), interrupt_set g v priority handler)) ∨
      ((∀ j, i ≤ j → j < IDT_SIZE → (g j).free = false) ∧
          interrupt_request_loop (fuel + 1) g priority handler i = some (-1, g)) := by
  intro fuel
  induction fuel with
  | zero =>
    intro i h
    right
    simp only [Nat.zero_add] at h
    refine ⟨fun j h1 h2 => absurd h2 (by omega), ?_⟩
    unfold interrupt_request_loop
    rw [if_neg (by omega)]
  | succ n ih =>
    intro i h
    by_cases hi : i < IDT_SIZE
    · cases hf : (g i).free with
      | true =>
        left
        refine ⟨i, Nat.le_refl _, hi, hf, fun j h1 h2 => absurd h2 (by omega), ?_⟩
        unfold interrupt_request_loop
        rw [if_pos hi, if_neg (by simp [hf])]
      | false =>
        have hstep : interrupt_request_loop (n + 1 + 1) g priority handler i =
            interrupt_request_loop (n + 1) g priority handler (i + 1) := by
          conv_lhs => unfold interrupt_request_loop
          rw [if_pos hi, if_pos (by simp [hf])]
        rcases ih (i + 1) (by omega) with ⟨v, h1, h2, h3, h4, h5⟩ | ⟨h1, h2⟩
        · left
          refine ⟨v, by omega, h2, h3, ?_, by rw [hstep, h5]⟩
          intro j hj1 hj2
          by_cases hji : j = i
          · rw [hji]; exact hf
          · exact h4 j (by omega) hj2
        · right
          refine ⟨?_, by rw [hstep, h2]⟩
          intro j hj1 hj2
          by_cases hji : j = i
          · rw [hji]; exact hf
          · exact h1 j (by omega) hj2
    · right
      refine ⟨fun j h1 h2 => absurd h2 (by omega), ?_⟩
      unfold interrupt_request_loop
      rw [if_neg hi]

theorem interrupt_set_of_lt (g : Nat → interrupt_entry_t) (v priority handler : Nat)
    (hv : v < IDT_SIZE) :
    interrupt_set g v priority handler =
      fun w => if w = v then { free := false, handler := handler, priority := priority }
        else g w := by
  unfold interrupt_set
  rw [Nat.mod_eq_of_lt (by unfold IDT_SIZE at hv; exact hv)]

/-- C11: `interrupt_request(priority, handler)` returns the lowest vector `i`
with `priority * 16 ≤ i < 256` whose entry is free, marks that entry non-free
with the given handler and priority and leaves every other entry as it was; if
no such entry is free it returns `-1` and leaves the whole table as it was. -/
theorem interrupt_request_lowest_free (g : Nat → interrupt_entry_t) (priority handler : Nat) :
    (∀ i, priority * 16 ≤ i → i < 256 → (g i).free = true →
      (∀ j, priority * 16 ≤ j → j < i → (g j).free = false) →
      interrupt_request g priority handler =
        some ((i : Int), fun v =>
          if v = i then { free := false, handler := handler, priority := priority } else g v)) ∧
    ((∀ j, priority * 16 ≤ j → j < 256 → (g j).free = false) →
      interrupt_request g priority handler = some (-1, g)) := by
  have hshift : priority <<< 4 = priority * 16 := by
    rw [Nat.shiftLeft_eq]
  have hspec := interrupt_request_loop_spec g priority handler IDT_SIZE (priority <<< 4)
    (Nat.le_add_right _ _)
  rw [hshift] at hspec
  unfold interrupt_request
  rw [hshift]
  constructor
  · intro i h1 h2 h3 h4
    rcases hspec with ⟨v, hv1, hv2, hv3, hv4, hv5⟩ | ⟨hn, _⟩
    · have hvi : v = i := by
        rcases Nat.lt_trichotomy v i with h | h | h
        · have := h4 v hv1 h
          rw [hv3] at this
          cases this
        · exact h
        · have := hv4 i h1 h
          rw [h3] at this
          cases this
      rw [hv5, hvi, interrupt_set_of_lt g i priority handler h2]
    · have := hn i h1 h2
      rw [h3] at this
      cases this
  · intro hall
    rcases hspec with ⟨v, hv1, hv2, hv3, _, _⟩ | ⟨_, h⟩
    · have := hall v hv1 hv2
      rw [hv3] at this
      cases this
    · exact h

theorem interrupt_request_lowest_free_witness :
    interrupt_request class_one_full 1 0x2000 =
      some (32, fun v =>
        if v = 32 then { free := false, handler := 0x2000, priority := 1 }
        else class_one_full v) :=
  (interrupt_request_lowest_free class_one_full 1 0x2000).1 32 (by decide) (by decide)
    (by decide) (by
      intro j h1 h2
      unfold class_one_full
      rw [if_pos ⟨by omega, h2⟩])

/-- C12, as the code has it: for every table and every priority `p` in
`0..15`, `interrupt_request(p, handler)` returns: its result is `-1` or a vector
in `[p * 16, 256)`; the vector lies in class `p`, `[p * 16, (p + 1) * 16)`,
exactly when class `p` has a free entry; and when class `p` has no free entry
the result is the lowest free vector of the classes above `p`, taken for the
handler, or `-1` with the table unchanged when those have no free entry
either. -/
theorem interrupt_request_class (g : Nat → interrupt_entry_t) (p handler : Nat) (hp : p < 16) :
    ∃ v g', interrupt_request g p handler = some (v, g') ∧
      (v = -1 ∨ ((p : Int) * 16 ≤ v ∧ v < 256)) ∧
      ((∃ i, p * 16 ≤ i ∧ i < (p + 1) * 16 ∧ (g i).free = true) ↔
        ((p : Int) * 16 ≤ v ∧ v < ((p : Int) + 1) * 16)) ∧
      ((∀ i, p * 16 ≤ i → i < (p + 1) * 16 → (g i).free = false) →
        (v = -1 ∧ g' = g ∧ ∀ j, (p + 1) * 16 ≤ j → j < 256 → (g j).free = false) ∨
        (∃ w : Nat, v = (w : Int) ∧ (p + 1) * 16 ≤ w ∧ w < 256 ∧ (g w).free = true ∧
          (∀ j, (p + 1) * 16 ≤ j → j < w → (g j).free = false) ∧
          g' = interrupt_set g w p handler)) := by
  have hshift : p <<< 4 = p * 16 := by
    rw [Nat.shiftLeft_eq]
  have hspec := interrupt_request_loop_spec g p handler IDT_SIZE (p <<< 4)
    (Nat.le_add_right _ _)
  rw [hshift] at hspec
  unfold interrupt_request
  rw [hshift]
  unfold IDT_SIZE at hspec
  rcases hspec with ⟨v, hv1, hv2, hv3, hv4, hv5⟩ | ⟨hn, h⟩
  · refine ⟨(v : Int), _, hv5, Or.inr ⟨by omega, by omega⟩, ?_, ?_⟩
    · constructor
      · rintro ⟨i, hi1, hi2, hi3⟩
        refine ⟨by omega, ?_⟩
        by_contra hge
        have hlt : i < v := by omega
        have := hv4 i hi1 hlt
        rw [hi3] at this
        cases this
      · rintro ⟨_, h2⟩
        exact ⟨v, hv1, by omega, hv3⟩
    · intro hfull
      right
      have hvge : (p + 1) * 16 ≤ v := by
        by_contra hlt
        have := hfull v hv1 (by omega)
        rw [hv3] at this
        cases this
      exact ⟨v, rfl, hvge, hv2, hv3, fun j hj1 hj2 => hv4 j (by omega) hj2, rfl⟩
  · refine ⟨-1, g, h, Or.inl rfl, ?_, ?_⟩
    · constructor
      · rintro ⟨i, hi1, hi2, hi3⟩
        have := hn i hi1 (by omega)
        rw [hi3] at this
        cases this
      · rintro ⟨h1, _⟩
        omega
    · intro _
      left
      exact ⟨rfl, rfl, fun j hj1 hj2 => hn j (by omega) hj2⟩

theorem interrupt_request_class_witness :
    ∃ v g', interrupt_request class_one_full 1 0x2000 = some (v, g') ∧
      (v = -1 ∨ (((1 : Nat) : Int) * 16 ≤ v ∧ v < 256)) ∧
      ((∃ i, 1 * 16 ≤ i ∧ i < (1 + 1) * 16 ∧ (class_one_full i).free = true) ↔
        ((((1 : Nat) : Int)) * 16 ≤ v ∧ v < (((1 : Nat) : Int) + 1) * 16)) ∧
      ((∀ i, 1 * 16 ≤ i → i < (1 + 1) * 16 → (class_one_full i).free = false) →
        (v = -1 ∧ g' = class_one_full ∧
          ∀ j, (1 + 1) * 16 ≤ j → j < 256 → (class_one_full j).free = false) ∨
        (∃ w : Nat, v = (w : Int) ∧ (1 + 1) * 16 ≤ w ∧ w < 256 ∧
          (class_one_full w).free = true ∧
          (∀ j, (1 + 1) * 16 ≤ j → j < w → (class_one_full j).free = false) ∧
          g' = interrupt_set class_one_full w 1 0x2000)) :=
  interrupt_request_class class_one_full 1 0x2000 (by decide)

/-- C12 as stated fails: with the sixteen vectors of priority class 1 taken,
`interrupt_request(1, handler)` returns vector 32, which lies in class 2, not in
`[16, 32)`. -/
theorem interrupt_request_class_counterexample :
    request_vector (interrupt_request class_one_full 1 0x2000) = some 32 ∧
    ¬ ((1 : Int) * 16 ≤ 32 ∧ (32 : Int) < (1 + 1) * 16) := by
  decide

/-! # The scheduler: lemmas and theorems -/

/-- What `arch_sched_thread_destroy` leaves alone: everything but the thread
lists of the processes, the record of destroyed processes and the heap. -/
theorem arch_sched_thread_destroy_frame {s s' : sched_state} {thread : Nat}
    (h : arch_sched_thread_destroy s thread = .ok s') :
    s'.vm = s.vm ∧ s'.threads = s.threads ∧ s'.cpus = s.cpus ∧ s'.msr = s.msr ∧
    s'.loaded_address_space = s.loaded_address_space ∧
    s'.lapic_timer_oneshots = s.lapic_timer_oneshots ∧
    s'.g_sched_vector = s.g_sched_vector ∧ s'.g_next_tid = s.g_next_tid ∧
    s'.dropped = s.dropped ∧ s'.run_queue = s.run_queue ∧
    s'.kernel_stacks = s.kernel_stacks ∧ s'.heap = heap_free s.heap thread := by
  unfold arch_sched_thread_destroy at h
  split at h
  · cases h
  · simp only [Except.ok.injEq] at h
    subst h
    dsimp only
    split_ifs <;> simp [sched_process_destroy]

/-- What `sched_thread_drop` leaves alone, and the record of the call. -/
theorem sched_thread_drop_frame {s s' : sched_state} {thread : Nat}
    (h : sched_thread_drop s thread = .ok s') :
    s'.vm = s.vm ∧ s'.threads = s.threads ∧ s'.cpus = s.cpus ∧ s'.msr = s.msr ∧
    s'.loaded_address_space = s.loaded_address_space ∧
    s'.lapic_timer_oneshots = s.lapic_timer_oneshots ∧
    s'.g_sched_vector = s.g_sched_vector ∧ s'.g_next_tid = s.g_next_tid ∧
    s'.dropped = s.dropped ++ [thread] ∧ s'.kernel_stacks = s.kernel_stacks := by
  unfold sched_thread_drop at h
  split at h
  · cases h
  · dsimp only at h
    split at h
    · simp only [Except.ok.injEq] at h
      subst h
      simp
    · obtain ⟨h1, h2, h3, h4, h5, h6, h7, h8, h9, _, h11, _⟩ := arch_sched_thread_destroy_frame h
      exact ⟨h1, h2, h3, h4, h5, h6, h7, h8, h9, h11⟩
    · simp only [Except.ok.injEq] at h
      subst h
      simp

/-- `sched_thread_drop` returns for every thread. -/
theorem sched_thread_drop_ok (s : sched_state) {thread : Nat} (h : thread ≠ 0) :
    ∃ s', sched_thread_drop s thread = .ok s' := by
  unfold sched_thread_drop
  rw [if_neg h]
  dsimp only
  split
  · exact ⟨_, rfl⟩
  · unfold arch_sched_thread_destroy
    rw [if_neg h]
    exact ⟨_, rfl⟩
  · exact ⟨_, rfl⟩

/-- `common_thread_init` returns for every thread. -/
theorem common_thread_init_ok (s : sched_state) {prev : Nat} (h : prev ≠ 0) :
    ∃ s1, sched_thread_drop s prev = .ok s1 ∧
      common_thread_init s prev =
        .ok (x86_64_lapic_timer_oneshot s1 s1.g_sched_vector INTERVAL) := by
  obtain ⟨s1, h1⟩ := sched_thread_drop_ok s h
  refine ⟨s1, h1, ?_⟩
  unfold common_thread_init
  rw [h1]

theorem sched_switch_spec (s : sched_state) (A B c : Nat) (hAB : A ≠ B) (hA : A ≠ 0)
    (hB : B ≠ 0) (hcpu : (s.threads A).common.cpu = c) (hc : c ≠ 0)
    (hfpu : (s.threads B).state.fpu_area ≠ 0) :
    ∃ frame s', sched_switch s A B = .ok (frame, s') ∧
      s'.msr X86_64_MSR_GS_BASE = B ∧
      s'.loaded_address_space =
        (if (s.threads B).common.proc ≠ 0 then
          (s.processes (s.threads B).common.proc).address_space
         else s.vm.g_vm_global_address_space) ∧
      (s'.cpus c).tss_rsp0 = (s.threads B).kernel_stack.base ∧
      s'.dropped = s.dropped ++ [A] ∧
      s'.g_sched_vector = s.g_sched_vector ∧
      s'.lapic_timer_oneshots =
        (if frame = .sched_switch_frame then s.lapic_timer_oneshots
         else s.lapic_timer_oneshots ++ [(s.g_sched_vector, INTERVAL)]) ∧
      (∀ a, (s'.threads a).this = (s.threads a).this ∧
        (s'.threads a).common.id = (s.threads a).common.id) ∧
      s'.g_next_tid = s.g_next_tid ∧
      (∀ c', (s'.cpus c').idle_thread = (s.cpus c').idle_thread) := by
  have hBA : B ≠ A := fun h => hAB h.symm
  have hm1 : X86_64_MSR_FS_BASE ≠ X86_64_MSR_GS_BASE := by decide
  have hm2 : X86_64_MSR_KERNEL_GS_BASE ≠ X86_64_MSR_GS_BASE := by decide
  have hm3 : X86_64_MSR_GS_BASE ≠ X86_64_MSR_FS_BASE := by decide
  have hm4 : X86_64_MSR_GS_BASE ≠ X86_64_MSR_KERNEL_GS_BASE := by decide
  unfold sched_switch
  rw [if_neg (by simp [hA, hB])]
  by_cases hproc : (s.threads B).common.proc = 0 <;>
  by_cases hfA : (s.threads A).state.fpu_area = 0 <;>
  · simp only [set_thread, x86_64_msr_write, x86_64_msr_read, arch_ptm_load_address_space,
      x86_64_tss_set_rsp0, g_x86_64_fpu_save, g_x86_64_fpu_restore, x86_64_sched_context_switch,
      if_true, hAB, hBA, if_false, hcpu, hc, hfpu, hproc, hfA, ne_eq, not_true_eq_false,
      not_false_eq_true]
    split
    · rename_i fr prev s12 heq
      simp only [Prod.mk.injEq] at heq
      obtain ⟨_, hprev, hs12⟩ := heq
      subst hprev
      obtain ⟨s13, h13⟩ := sched_thread_drop_ok s12 hA
      obtain ⟨_, f2, f3, f4, f5, f6, f7, f8, f9, _⟩ := sched_thread_drop_frame h13
      refine ⟨.sched_switch_frame, s13, by rw [h13], ?_, ?_, ?_, ?_, ?_, ?_, ?_, ?_, ?_⟩
      · rw [f4, ← hs12]; simp only [hm3, hm4, if_false, if_true]
      · rw [f5, ← hs12]
      · rw [f3, ← hs12]; simp only [if_true]
      · rw [f9, ← hs12]
      · rw [f7, ← hs12]
      · rw [f6, ← hs12]; simp only [if_true]
      · intro a
        rw [f2, ← hs12]
        dsimp only
        split_ifs with h1 h2 <;> first | (subst h1; exact ⟨rfl, rfl⟩) | (subst h2; exact ⟨rfl, rfl⟩) | exact ⟨rfl, rfl⟩
      · rw [f8, ← hs12]
      · intro c'
        rw [f3, ← hs12]
        dsimp only
        split_ifs <;> rfl
    · rename_i fr prev s12 hne heq
      simp only [Prod.mk.injEq] at heq
      obtain ⟨hfr, hprev, hs12⟩ := heq
      subst hprev
      obtain ⟨s13, h13, hinit⟩ := common_thread_init_ok s12 hA
      obtain ⟨_, f2, f3, f4, f5, f6, f7, f8, f9, _⟩ := sched_thread_drop_frame h13
      have hfrne : fr ≠ .sched_switch_frame := hne
      refine ⟨fr, _, by rw [hinit], ?_, ?_, ?_, ?_, ?_, ?_, ?_, ?_, ?_⟩
      · show s13.msr _ = _
        rw [f4, ← hs12]; simp only [hm3, hm4, if_false, if_true]
      · show s13.loaded_address_space = _
        rw [f5, ← hs12]
      · show (s13.cpus c).tss_rsp0 = _
        rw [f3, ← hs12]; simp only [if_true]
      · show s13.dropped = _
        rw [f9, ← hs12]
      · show s13.g_sched_vector = _
        rw [f7, ← hs12]
      · show s13.lapic_timer_oneshots ++ [(s13.g_sched_vector, INTERVAL)] = _
        rw [f6, f7, ← hs12, if_neg hfrne]
      · intro a
        show (s13.threads a).this = _ ∧ (s13.threads a).common.id = _
        rw [f2, ← hs12]
        dsimp only
        split_ifs with h1 h2 <;> first | (subst h1; exact ⟨rfl, rfl⟩) | (subst h2; exact ⟨rfl, rfl⟩) | exact ⟨rfl, rfl⟩
      · show s13.g_next_tid = _
        rw [f8, ← hs12]
      · intro c'
        show (s13.cpus c').idle_thread = _
        rw [f3, ← hs12]
        dsimp only
        split_ifs <;> rfl

/-- A `sched_switch` that returns was called on two distinct threads, the first
on a CPU, the second with an FPU area. -/
theorem sched_switch_ok_inv {s : sched_state} {A B : Nat} {r : stack_frame_t × sched_state}
    (h : sched_switch s A B = .ok r) :
    A ≠ B ∧ A ≠ 0 ∧ B ≠ 0 ∧ (s.threads A).common.cpu ≠ 0 ∧
    (s.threads B).state.fpu_area ≠ 0 := by
  unfold sched_switch at h
  split at h
  · cases h
  · rename_i h0
    have hA : A ≠ 0 := fun e => h0 (Or.inr e)
    have hB : B ≠ 0 := fun e => h0 (Or.inl e)
    by_cases hAB : A = B
    · subst hAB
      exfalso
      by_cases hproc : (s.threads A).common.proc = 0 <;>
      · simp only [set_thread, x86_64_msr_write, x86_64_msr_read, arch_ptm_load_address_space,
          if_true, hproc, ne_eq, not_true_eq_false, not_false_eq_true, if_false] at h
        cases h
    · have hBA : B ≠ A := fun e => hAB e.symm
      refine ⟨hAB, hA, hB, ?_, ?_⟩
      · intro hcpu
        by_cases hproc : (s.threads B).common.proc = 0 <;>
        · simp only [set_thread, x86_64_msr_write, x86_64_msr_read, arch_ptm_load_address_space,
            if_true, hproc, ne_eq, not_true_eq_false, not_false_eq_true, if_false, hAB, hBA,
            hcpu] at h
          cases h
      · intro hfpu
        by_cases hproc : (s.threads B).common.proc = 0 <;>
        by_cases hfA : (s.threads A).state.fpu_area = 0 <;>
        by_cases hcpu : (s.threads A).common.cpu = 0 <;>
        · simp only [set_thread, x86_64_msr_write, x86_64_msr_read, arch_ptm_load_address_space,
            x86_64_tss_set_rsp0, g_x86_64_fpu_save, g_x86_64_fpu_restore,
            if_true, hproc, ne_eq, not_true_eq_false, not_false_eq_true, if_false, hAB, hBA,
            hcpu, hfpu, hfA] at h
          cases h

/-! ## Thread creation -/

theorem heap_alloc_some {heap heap1 : heap_t} {size a : Nat}
    (h : heap_alloc heap size = some (a, heap1)) :
    heap.free = a :: heap1.free ∧
    heap1.live = { address := a, size := size } :: heap.live := by
  unfold heap_alloc at h
  split at h
  · cases h
  · rename_i a' rest hfree
    simp only [Option.some.injEq, Prod.mk.injEq] at h
    obtain ⟨h1, h2⟩ := h
    subst h1
    subst h2
    exact ⟨hfree, rfl⟩

theorem heap_alloc_align_some {heap heap1 : heap_t} {size alignment a : Nat}
    (h : heap_alloc_align heap size alignment = some (a, heap1)) :
    a ∈ heap.free ∧ heap1.free = heap.free.erase a ∧
    heap1.live = { address := a, size := size } :: heap.live := by
  unfold heap_alloc_align at h
  split at h
  · cases h
  · rename_i a' hfind
    simp only [Option.some.injEq, Prod.mk.injEq] at h
    obtain ⟨h1, h2⟩ := h
    subst h1
    subst h2
    exact ⟨List.mem_of_find?_eq_some hfind, rfl, rfl⟩

/-- What a returning `create_thread` has done: the descriptor and the FPU area
are two new live heap blocks, the new thread has the id the counter held, and
the counter has advanced. -/
theorem create_thread_spec {s s1 : sched_state} {proc rsp thread : Nat} {kernel_stack : stack_t}
    (h : create_thread s proc kernel_stack rsp = .ok (thread, s1)) :
    thread ≠ 0 ∧ (s1.threads thread).common.id = s.g_next_tid ∧
    s1.g_next_tid = long_wrap (s.g_next_tid + 1) ∧
    s1.vm = s.vm ∧ s1.processes = s.processes ∧ s1.cpus = s.cpus ∧
    (s1.threads thread).common.proc = proc ∧
    (s1.threads thread).state.fpu_area ≠ 0 ∧
    s1.heap.live =
      { address := (s1.threads thread).state.fpu_area, size := s.g_x86_64_fpu_area_size } ::
      { address := thread, size := SIZEOF_X86_64_THREAD } :: s.heap.live ∧
    (s.heap.free.Nodup → (s1.threads thread).state.fpu_area ≠ thread) := by
  unfold create_thread at h
  split at h
  · cases h
  · rename_i t heap1 halloc
    split at h
    · cases h
    · rename_i ht
      dsimp only at h
      split at h
      · cases h
      · rename_i fpu heap2 halign
        split at h
        · cases h
        · rename_i hf
          simp only [Except.ok.injEq, Prod.mk.injEq] at h
          obtain ⟨h1, h2⟩ := h
          subst h1
          subst h2
          obtain ⟨a1, a2⟩ := heap_alloc_some halloc
          obtain ⟨b1, b2, b3⟩ := heap_alloc_align_some halign
          refine ⟨ht, ?_, rfl, rfl, rfl, rfl, ?_, ?_, ?_, ?_⟩
          · simp only [g_x86_64_fpu_save, g_x86_64_fpu_restore, set_thread, if_true]
          · simp only [g_x86_64_fpu_save, g_x86_64_fpu_restore, set_thread, if_true]
          · simp only [g_x86_64_fpu_save, g_x86_64_fpu_restore, set_thread, if_true]
            exact hf
          · simp only [g_x86_64_fpu_save, g_x86_64_fpu_restore, set_thread, if_true]
            rw [b3, a2]
          · intro hnd
            simp only [g_x86_64_fpu_save, g_x86_64_fpu_restore, set_thread, if_true]
            rw [a1] at hnd
            intro e
            rw [e] at b1
            exact (List.nodup_cons.mp hnd).1 b1

theorem pmm_pages_order_stack : pmm_pages_order KERNEL_STACK_SIZE_PG = some 4 := by decide

/-- A returning `pmm_alloc_pages` for a kernel stack took the next 16 frames of
the zone. -/
theorem pmm_alloc_pages_stack {pmm pmm1 : pmm_t} {zone : Nat} {flags : pmm_flags_t}
    {page : pmm_page_t}
    (h : pmm_alloc_pages pmm zone KERNEL_STACK_SIZE_PG flags = some (page, pmm1)) :
    16 ≤ (pmm.free zone).length ∧
    pmm1.free zone = (pmm.free zone).drop 16 ∧
    pmm1.taken = (((pmm.free zone).take 16).map
      (fun p => { zone := zone, flags := flags, paddr := p })).reverse ++ pmm.taken := by
  unfold pmm_alloc_pages at h
  rw [pmm_pages_order_stack] at h
  dsimp only at h
  split at h
  · cases h
  · rename_i hlen
    split at h
    · cases h
    · simp only [Option.some.injEq, Prod.mk.injEq] at h
      obtain ⟨_, h2⟩ := h
      subst h2
      refine ⟨by omega, ?_, rfl⟩
      simp

/-- What a returning `arch_sched_thread_create_kernel` has done. -/
theorem arch_sched_thread_create_kernel_spec {s s1 : sched_state} {func thread : Nat}
    (h : arch_sched_thread_create_kernel s func = .ok (thread, s1)) :
    thread ≠ 0 ∧ (s1.threads thread).common.id = s.g_next_tid ∧
    s1.g_next_tid = long_wrap (s.g_next_tid + 1) ∧
    s1.processes = s.processes ∧ s1.cpus = s.cpus ∧
    (s1.threads thread).common.proc = 0 ∧
    (s1.threads thread).state.fpu_area ≠ 0 ∧
    s1.heap.live =
      { address := (s1.threads thread).state.fpu_area, size := s.g_x86_64_fpu_area_size } ::
      { address := thread, size := SIZEOF_X86_64_THREAD } :: s.heap.live ∧
    (s.heap.free.Nodup → (s1.threads thread).state.fpu_area ≠ thread) ∧
    16 ≤ (s.vm.pmm.free PMM_ZONE_NORMAL).length ∧
    s1.vm.pmm.free PMM_ZONE_NORMAL = (s.vm.pmm.free PMM_ZONE_NORMAL).drop 16 ∧
    s1.vm.pmm.taken = (((s.vm.pmm.free PMM_ZONE_NORMAL).take 16).map
      (fun p => { zone := PMM_ZONE_NORMAL, flags := { zero := true }, paddr := p })).reverse ++
        s.vm.pmm.taken := by
  unfold arch_sched_thread_create_kernel at h
  split at h
  · cases h
  · rename_i page pmm hpmm
    obtain ⟨p1, p2, p3⟩ := pmm_alloc_pages_stack hpmm
    obtain ⟨c1, c2, c3, c4, c5, c6, c7, c8, c9, c10⟩ := create_thread_spec h
    refine ⟨c1, c2, c3, c5, c6, c7, c8, c9, c10, p1, ?_, ?_⟩
    · rw [c4]; exact p2
    · rw [c4]; exact p3

/-- What a returning `arch_sched_thread_create_user` has done. -/
theorem arch_sched_thread_create_user_spec {s s1 : sched_state} {proc ip sp thread : Nat}
    (h : arch_sched_thread_create_user s proc ip sp = .ok (thread, s1)) :
    thread ≠ 0 ∧ proc ≠ 0 ∧ (s1.threads thread).common.id = s.g_next_tid ∧
    s1.g_next_tid = long_wrap (s.g_next_tid + 1) ∧
    (s1.processes proc).threads = thread :: (s.processes proc).threads ∧
    (∀ p, p ≠ proc → s1.processes p = s.processes p) ∧ s1.cpus = s.cpus ∧
    (s1.threads thread).common.proc = proc ∧
    (s1.threads thread).state.fpu_area ≠ 0 ∧
    s1.heap.live =
      { address := (s1.threads thread).state.fpu_area, size := s.g_x86_64_fpu_area_size } ::
      { address := thread, size := SIZEOF_X86_64_THREAD } :: s.heap.live ∧
    (s.heap.free.Nodup → (s1.threads thread).state.fpu_area ≠ thread) ∧
    16 ≤ (s.vm.pmm.free PMM_ZONE_NORMAL).length ∧
    s1.vm.pmm.free PMM_ZONE_NORMAL = (s.vm.pmm.free PMM_ZONE_NORMAL).drop 16 ∧
    s1.vm.pmm.taken = (((s.vm.pmm.free PMM_ZONE_NORMAL).take 16).map
      (fun p => { zone := PMM_ZONE_NORMAL, flags := { zero := true }, paddr := p })).reverse ++
        s.vm.pmm.taken := by
  unfold arch_sched_thread_create_user at h
  split at h
  · cases h
  · rename_i page pmm hpmm
    obtain ⟨p1, p2, p3⟩ := pmm_alloc_pages_stack hpmm
    dsimp only at h
    split at h
    · cases h
    · rename_i t s3 hct
      obtain ⟨c1, c2, c3, c4, c5, c6, c7, c8, c9, c10⟩ := create_thread_spec hct
      split at h
      · cases h
      · rename_i hproc
        simp only [Except.ok.injEq, Prod.mk.injEq] at h
        obtain ⟨h1, h2⟩ := h
        subst h1
        subst h2
        refine ⟨c1, hproc, c2, c3, ?_, ?_, c6, c7, c8, c9, c10, p1, ?_, ?_⟩
        · simp only [if_true, list_append_head]
          rw [c5]
          rfl
        · intro p hp
          simp only [if_neg hp]
          rw [c5]
          rfl
        · show s3.vm.pmm.free PMM_ZONE_NORMAL = _
          rw [c4]; exact p2
        · show s3.vm.pmm.taken = _
          rw [c4]; exact p3

/-- What a returning `x86_64_sched_init_cpu` has done to the thread ids: the
counter has advanced by the id `create_thread` issued to the idle thread, and
the idle thread of the CPU has id 0. -/
theorem x86_64_sched_init_cpu_ids {s s' : sched_state} {cpu : Nat} {release : Bool}
    {frame : stack_frame_t}
    (h : x86_64_sched_init_cpu s cpu release = .ok (frame, s')) :
    s'.g_next_tid = long_wrap (s.g_next_tid + 1) ∧
    (s'.cpus cpu).idle_thread ≠ 0 ∧
    (s'.threads (s'.cpus cpu).idle_thread).common.id = 0 := by
  unfold x86_64_sched_init_cpu at h
  split at h
  · cases h
  · rename_i idle s1 hidle
    obtain ⟨c1, _, c3, _⟩ := arch_sched_thread_create_kernel_spec hidle
    dsimp only at h
    split at h
    · cases h
    · rename_i hcpu
      split at h
      · cases h
      · rename_i bootstrap heap1 halloc
        split at h
        · cases h
        · rename_i hb
          have key : ∀ s4 : sched_state,
              sched_switch s4 bootstrap idle = .ok (frame, s') →
              s4.g_next_tid = s1.g_next_tid →
              (s4.cpus cpu).idle_thread = idle →
              (bootstrap ≠ idle → (s4.threads idle).common.id = 0) →
              s'.g_next_tid = long_wrap (s.g_next_tid + 1) ∧
              (s'.cpus cpu).idle_thread ≠ 0 ∧
              (s'.threads (s'.cpus cpu).idle_thread).common.id = 0 := by
            intro s4 hsw e1 e2 e3
            obtain ⟨i1, i2, i3, i4, i5⟩ := sched_switch_ok_inv hsw
            obtain ⟨frame', s'', hsw', _, _, _, _, _, _, k7, k8, k9⟩ :=
              sched_switch_spec s4 bootstrap idle _ i1 i2 i3 rfl i4 i5
            rw [hsw] at hsw'
            simp only [Except.ok.injEq, Prod.mk.injEq] at hsw'
            obtain ⟨_, hs⟩ := hsw'
            subst hs
            refine ⟨by rw [k8, e1, c3], by rw [k9, e2]; exact c1, ?_⟩
            rw [k9, e2, (k7 idle).2]
            exact e3 i1
          split at h
          · refine key _ h rfl (by simp only [set_thread, if_true]) ?_
            intro hne
            simp only [set_thread, if_neg (Ne.symm hne), if_true]
          · split at h
            · refine key _ h rfl (by simp only [set_thread, if_true]) ?_
              intro hne
              simp only [set_thread, if_neg (Ne.symm hne), if_true]
            · cases h

/-! ## `sched_switch` and `x86_64_sched_next` -/

/-- C13: for distinct threads `A`, running on the CPU `c`, and `B` (which, as
every created thread, has an FPU area): `sched_switch(A, B)` switches to `B`,
and once `B` has dropped the previous thread the GS base, which
`arch_sched_thread_current` reads, is `B`, the loaded address space is that of
the process of `B` if it has one and the global one otherwise, the `rsp0` of
the TSS of `c` is the top of the kernel stack of `B`, and `A` has been passed
to `sched_thread_drop` exactly once, by the resumed `sched_switch` or by
`common_thread_init`. -/
theorem sched_switch_atomic (s : sched_state) (A B c : Nat) (hAB : A ≠ B) (hA : A ≠ 0)
    (hB : B ≠ 0) (hcpu : (s.threads A).common.cpu = c) (hc : c ≠ 0)
    (hfpu : (s.threads B).state.fpu_area ≠ 0) :
    ∃ frame s', sched_switch s A B = .ok (frame, s') ∧
      x86_64_msr_read s' X86_64_MSR_GS_BASE = B ∧
      (s'.threads B).this = (s.threads B).this ∧
      ((s.threads B).this = B → arch_sched_thread_current s' = .ok B) ∧
      s'.loaded_address_space =
        (if (s.threads B).common.proc ≠ 0 then
          (s.processes (s.threads B).common.proc).address_space
         else s.vm.g_vm_global_address_space) ∧
      (s'.cpus c).tss_rsp0 = (s.threads B).kernel_stack.base ∧
      s'.dropped = s.dropped ++ [A] ∧
      s'.dropped.count A = s.dropped.count A + 1 := by
  obtain ⟨frame, s', h, h1, h2, h3, h4, _, _, h7, _⟩ :=
    sched_switch_spec s A B c hAB hA hB hcpu hc hfpu
  refine ⟨frame, s', h, h1, (h7 B).1, ?_, h2, h3, h4, ?_⟩
  · intro hthis
    unfold arch_sched_thread_current x86_64_msr_read
    rw [h1, if_neg hB, (h7 B).1, hthis]
    simp only [hB, if_false]
  · rw [h4]
    simp

theorem sched_switch_atomic_witness :
    ∃ frame s', sched_switch three_thread_state 0xA000 0xA400 = .ok (frame, s') ∧
      x86_64_msr_read s' X86_64_MSR_GS_BASE = 0xA400 ∧
      (s'.threads 0xA400).this = (three_thread_state.threads 0xA400).this ∧
      ((three_thread_state.threads 0xA400).this = 0xA400 →
        arch_sched_thread_current s' = .ok 0xA400) ∧
      s'.loaded_address_space =
        (if (three_thread_state.threads 0xA400).common.proc ≠ 0 then
          (three_thread_state.processes
            (three_thread_state.threads 0xA400).common.proc).address_space
         else three_thread_state.vm.g_vm_global_address_space) ∧
      (s'.cpus 0xC000).tss_rsp0 = (three_thread_state.threads 0xA400).kernel_stack.base ∧
      s'.dropped = three_thread_state.dropped ++ [0xA000] ∧
      s'.dropped.count 0xA000 = three_thread_state.dropped.count 0xA000 + 1 :=
  sched_switch_atomic three_thread_state 0xA000 0xA400 0xC000 (by decide) (by decide)
    (by decide) rfl (by decide) (by decide)

theorem long_wrap_eq {x : Int} (h1 : 0 ≤ x) (h2 : x < 2 ^ 63) : long_wrap x = x := by
  unfold long_wrap
  have e1 : (2 : Int) ^ 63 = 9223372036854775808 := by norm_num
  have e2 : (2 : Int) ^ 64 = 18446744073709551616 := by norm_num
  rw [e1] at h2 ⊢
  rw [e2]
  omega

/-- One creation advances the counter by one and, when a creator returned a
thread, issued it the id the counter held. -/
theorem create_step_spec {s s1 : sched_state} {op : thread_creation_t} {id : Option Int}
    (h : create_step s op = .ok (id, s1)) :
    s1.g_next_tid = long_wrap (s.g_next_tid + 1) ∧ (id = none ∨ id = some s.g_next_tid) := by
  cases op with
  | kernel func =>
    simp only [create_step] at h
    split at h
    · cases h
    · rename_i t s2 hc
      simp only [Except.ok.injEq, Prod.mk.injEq] at h
      obtain ⟨h1, h2⟩ := h
      subst h2
      obtain ⟨_, c2, c3, _⟩ := arch_sched_thread_create_kernel_spec hc
      exact ⟨c3, Or.inr (by rw [← h1, c2])⟩
  | user proc ip sp =>
    simp only [create_step] at h
    split at h
    · cases h
    · rename_i t s2 hc
      simp only [Except.ok.injEq, Prod.mk.injEq] at h
      obtain ⟨h1, h2⟩ := h
      subst h2
      obtain ⟨_, _, c2, c3, _⟩ := arch_sched_thread_create_user_spec hc
      exact ⟨c3, Or.inr (by rw [← h1, c2])⟩
  | init_cpu cpu release =>
    simp only [create_step] at h
    split at h
    · cases h
    · rename_i fr s2 hc
      simp only [Except.ok.injEq, Prod.mk.injEq] at h
      obtain ⟨h1, h2⟩ := h
      subst h2
      exact ⟨(x86_64_sched_init_cpu_ids hc).1, Or.inl h1.symm⟩

/-- The ids issued along a sequence of creations, absent wrap-around: each lies
between the value the counter held at the start and the value it holds at the
end, and they increase strictly. -/
theorem issued_ids_spec (ops : List thread_creation_t) :
    ∀ (s s' : sched_state) (ids : List Int), 0 ≤ s.g_next_tid →
      s.g_next_tid + ops.length < 2 ^ 63 → issued_ids ops s = .ok (ids, s') →
      s'.g_next_tid = s.g_next_tid + ops.length ∧
      (∀ i ∈ ids, s.g_next_tid ≤ i ∧ i < s'.g_next_tid) ∧
      ids.Pairwise (fun a b => a < b) := by
  induction ops with
  | nil =>
    intro s s' ids _ _ h
    unfold issued_ids at h
    simp only [Except.ok.injEq, Prod.mk.injEq] at h
    obtain ⟨h1, h2⟩ := h
    subst h1
    subst h2
    simp
  | cons op rest ih =>
    intro s s' ids h0 hw h
    unfold issued_ids at h
    split at h
    · cases h
    · rename_i id s1 hstep
      split at h
      · cases h
      · rename_i ids1 s2 hrest
        simp only [Except.ok.injEq, Prod.mk.injEq] at h
        obtain ⟨h1, h2⟩ := h
        subst h1
        subst h2
        obtain ⟨c1, c2⟩ := create_step_spec hstep
        simp only [List.length_cons, Nat.cast_add, Nat.cast_one] at hw
        rw [long_wrap_eq (by omega) (by omega)] at c1
        obtain ⟨r1, r2, r3⟩ := ih s1 s2 ids1 (by omega) (by rw [c1]; omega) hrest
        refine ⟨by rw [r1, c1]; simp only [List.length_cons, Nat.cast_add, Nat.cast_one]; omega,
          ?_, ?_⟩
        · intro i hi
          rcases List.mem_append.mp hi with hi | hi
          · rcases c2 with c2 | c2
            · rw [c2] at hi; simp at hi
            · rw [c2] at hi
              simp only [Option.toList_some, List.mem_singleton] at hi
              rw [hi, r1, c1]
              constructor <;> omega
          · have := r2 i hi
            rw [c1] at this
            constructor <;> omega
        · rw [List.pairwise_append]
          refine ⟨?_, r3, ?_⟩
          · rcases c2 with c2 | c2 <;> rw [c2] <;> simp
          · intro a ha b hb
            rcases c2 with c2 | c2
            · rw [c2] at ha; simp at ha
            · rw [c2] at ha
              simp only [Option.toList_some, List.mem_singleton] at ha
              have := (r2 b hb).1
              rw [c1] at this
              omega

/-- The thread descriptors `create_thread` leaves alone: all but the one it
returns; no thread is dropped. -/
theorem create_thread_others {s s1 : sched_state} {proc rsp thread : Nat}
    {kernel_stack : stack_t}
    (h : create_thread s proc kernel_stack rsp = .ok (thread, s1)) :
    s1.dropped = s.dropped ∧ ∀ t, t ≠ thread → s1.threads t = s.threads t := by
  unfold create_thread at h
  split at h
  · cases h
  · split at h
    · cases h
    · dsimp only at h
      split at h
      · cases h
      · split at h
        · cases h
        · simp only [Except.ok.injEq, Prod.mk.injEq] at h
          obtain ⟨h1, h2⟩ := h
          subst h1
          subst h2
          refine ⟨rfl, ?_⟩
          intro t ht
          simp only [g_x86_64_fpu_save, g_x86_64_fpu_restore, set_thread, if_neg ht]

theorem arch_sched_thread_create_kernel_others {s s1 : sched_state} {func thread : Nat}
    (h : arch_sched_thread_create_kernel s func = .ok (thread, s1)) :
    s1.dropped = s.dropped ∧ ∀ t, t ≠ thread → s1.threads t = s.threads t := by
  unfold arch_sched_thread_create_kernel at h
  split at h
  · cases h
  · have h' := create_thread_others h
    exact h'

theorem arch_sched_thread_create_user_others {s s1 : sched_state} {proc ip sp thread : Nat}
    (h : arch_sched_thread_create_user s proc ip sp = .ok (thread, s1)) :
    s1.dropped = s.dropped ∧ ∀ t, t ≠ thread → s1.threads t = s.threads t := by
  unfold arch_sched_thread_create_user at h
  split at h
  · cases h
  · dsimp only at h
    split at h
    · cases h
    · rename_i t s3 hct
      obtain ⟨c1, c2⟩ := create_thread_others hct
      split at h
      · cases h
      · simp only [Except.ok.injEq, Prod.mk.injEq] at h
        obtain ⟨h1, h2⟩ := h
        subst h1
        subst h2
        exact ⟨c1, c2⟩

/-- The thread descriptors `sched_switch` leaves alone: all but the two it
switches between, and of those the scheduling state. -/
theorem sched_switch_others (s : sched_state) (A B c : Nat) (hAB : A ≠ B) (hA : A ≠ 0)
    (hB : B ≠ 0) (hcpu : (s.threads A).common.cpu = c) (hc : c ≠ 0)
    (hfpu : (s.threads B).state.fpu_area ≠ 0) :
    ∃ frame s', sched_switch s A B = .ok (frame, s') ∧
      (∀ a, a ≠ A → a ≠ B → s'.threads a = s.threads a) ∧
      (∀ a, (s'.threads a).common.state = (s.threads a).common.state) := by
  have hBA : B ≠ A := fun h => hAB h.symm
  unfold sched_switch
  rw [if_neg (by simp [hA, hB])]
  by_cases hproc : (s.threads B).common.proc = 0 <;>
  by_cases hfA : (s.threads A).state.fpu_area = 0 <;>
  · simp only [set_thread, x86_64_msr_write, x86_64_msr_read, arch_ptm_load_address_space,
      x86_64_tss_set_rsp0, g_x86_64_fpu_save, g_x86_64_fpu_restore, x86_64_sched_context_switch,
      if_true, hAB, hBA, if_false, hcpu, hc, hfpu, hproc, hfA, ne_eq, not_true_eq_false,
      not_false_eq_true]
    split
    · rename_i fr prev s12 heq
      simp only [Prod.mk.injEq] at heq
      obtain ⟨_, hprev, hs12⟩ := heq
      subst hprev
      obtain ⟨s13, h13⟩ := sched_thread_drop_ok s12 hA
      obtain ⟨_, f2, _⟩ := sched_thread_drop_frame h13
      refine ⟨.sched_switch_frame, s13, by rw [h13], ?_, ?_⟩
      · intro a ha1 ha2
        rw [f2, ← hs12]
        simp only [ha1, ha2, if_false]
      · intro a
        rw [f2, ← hs12]
        by_cases h1 : a = A
        · subst h1
          simp only [if_true]
        · by_cases h2 : a = B
          · subst h2
            simp only [h1, if_false, if_true]
          · simp only [h1, h2, if_false]
    · rename_i fr prev s12 hne heq
      simp only [Prod.mk.injEq] at heq
      obtain ⟨hfr, hprev, hs12⟩ := heq
      subst hprev
      obtain ⟨s13, h13, hinit⟩ := common_thread_init_ok s12 hA
      obtain ⟨_, f2, _⟩ := sched_thread_drop_frame h13
      refine ⟨fr, _, by rw [hinit], ?_, ?_⟩
      · intro a ha1 ha2
        show s13.threads a = _
        rw [f2, ← hs12]
        simp only [ha1, ha2, if_false]
      · intro a
        show (s13.threads a).common.state = _
        rw [f2, ← hs12]
        by_cases h1 : a = A
        · subst h1
          simp only [if_true]
        · by_cases h2 : a = B
          · subst h2
            simp only [h1, if_false, if_true]
          · simp only [h1, h2, if_false]

/-- What a returning `x86_64_sched_init_cpu` has done to the thread
descriptors: besides the idle thread it has written one more, the bootstrap
thread, which it hands to `sched_thread_drop` through its `sched_switch`; that
descriptor is zeroed but for `this`, the state DESTROY and the CPU, so its id
is 0 as well.  Every other descriptor is as it was. -/
theorem x86_64_sched_init_cpu_threads {s s' : sched_state} {cpu : Nat} {release : Bool}
    {frame : stack_frame_t}
    (h : x86_64_sched_init_cpu s cpu release = .ok (frame, s')) :
    ∃ bootstrap, s'.dropped = s.dropped ++ [bootstrap] ∧
      bootstrap ≠ (s'.cpus cpu).idle_thread ∧
      (s'.threads bootstrap).common.id = 0 ∧
      (s'.threads bootstrap).common.state = .THREAD_STATE_DESTROY ∧
      (∀ t, t ≠ (s'.cpus cpu).idle_thread → t ≠ bootstrap → s'.threads t = s.threads t) := by
  unfold x86_64_sched_init_cpu at h
  split at h
  · cases h
  · rename_i idle s1 hidle
    obtain ⟨d1, o1⟩ := arch_sched_thread_create_kernel_others hidle
    dsimp only at h
    split at h
    · cases h
    · rename_i hcpu
      split at h
      · cases h
      · rename_i bootstrap heap1 halloc
        split at h
        · cases h
        · rename_i hb
          have key : ∀ s4 : sched_state,
              sched_switch s4 bootstrap idle = .ok (frame, s') →
              s4.dropped = s.dropped →
              (s4.cpus cpu).idle_thread = idle →
              (s4.threads bootstrap).common.id = 0 →
              (s4.threads bootstrap).common.state = .THREAD_STATE_DESTROY →
              (∀ t, t ≠ idle → t ≠ bootstrap → s4.threads t = s.threads t) →
              ∃ bootstrap, s'.dropped = s.dropped ++ [bootstrap] ∧
                bootstrap ≠ (s'.cpus cpu).idle_thread ∧
                (s'.threads bootstrap).common.id = 0 ∧
                (s'.threads bootstrap).common.state = .THREAD_STATE_DESTROY ∧
                (∀ t, t ≠ (s'.cpus cpu).idle_thread → t ≠ bootstrap →
                  s'.threads t = s.threads t) := by
            intro s4 hsw e1 e2 e3 e4 e5
            obtain ⟨i1, i2, i3, i4, i5⟩ := sched_switch_ok_inv hsw
            obtain ⟨frame', s'', hsw', _, _, _, k4, _, _, k7, _, k9⟩ :=
              sched_switch_spec s4 bootstrap idle _ i1 i2 i3 rfl i4 i5
            obtain ⟨frame2, s2', hsw2, m1, m2⟩ :=
              sched_switch_others s4 bootstrap idle _ i1 i2 i3 rfl i4 i5
            rw [hsw] at hsw' hsw2
            simp only [Except.ok.injEq, Prod.mk.injEq] at hsw' hsw2
            obtain ⟨_, hs⟩ := hsw'
            obtain ⟨_, hs2⟩ := hsw2
            subst hs
            subst hs2
            have hidle' : (s'.cpus cpu).idle_thread = idle := by rw [k9, e2]
            refine ⟨bootstrap, by rw [k4, e1], by rw [hidle']; exact i1,
              by rw [(k7 bootstrap).2]; exact e3, by rw [m2]; exact e4, ?_⟩
            intro t ht1 ht2
            rw [hidle'] at ht1
            rw [m1 t ht2 ht1]
            exact e5 t ht1 ht2
          have hfacts : ∀ t, t ≠ idle → t ≠ bootstrap →
              (if t = bootstrap then
                  ({ zeroed_thread with
                      this := bootstrap,
                      common := { zeroed_thread.common with
                                  state := .THREAD_STATE_DESTROY, cpu := cpu } } : x86_64_thread_t)
                else if t = idle then
                  { s1.threads idle with common := { (s1.threads idle).common with id := 0 } }
                else s1.threads t) = s.threads t := by
            intro t ht1 ht2
            rw [if_neg ht2, if_neg ht1]
            exact o1 t ht1
          split at h
          · refine key _ h d1 (by simp only [set_thread, if_true]) ?_ ?_ ?_
            · simp only [set_thread, if_true]; rfl
            · simp only [set_thread, if_true]
            · intro t ht1 ht2
              simp only [set_thread]
              exact hfacts t ht1 ht2
          · split at h
            · refine key _ h d1 (by simp only [set_thread, if_true]) ?_ ?_ ?_
              · simp only [set_thread, if_true]; rfl
              · simp only [set_thread, if_true]
              · intro t ht1 ht2
                simp only [set_thread]
                exact hfacts t ht1 ht2
            · cases h

/-- One creation from a state whose counter is at 1 or above: a descriptor that
holds the id 0 afterwards is one the call did not write, or the idle thread or
the bootstrap thread of the bring-up. -/
theorem create_step_zero_ids {s s1 : sched_state} {op : thread_creation_t} {id : Option Int}
    (h : create_step s op = .ok (id, s1)) (hstart : 1 ≤ s.g_next_tid) :
    ∀ t, (s1.threads t).common.id = 0 →
      s1.threads t = s.threads t ∨ t ∈ init_cpu_threads [op] s := by
  intro t ht
  cases op with
  | kernel func =>
    simp only [create_step] at h
    split at h
    · cases h
    · rename_i thread s2 hc
      simp only [Except.ok.injEq, Prod.mk.injEq] at h
      obtain ⟨_, h2⟩ := h
      subst h2
      obtain ⟨_, c2, _⟩ := arch_sched_thread_create_kernel_spec hc
      by_cases htt : t = thread
      · subst htt
        rw [c2] at ht
        omega
      · exact Or.inl ((arch_sched_thread_create_kernel_others hc).2 t htt)
  | user proc ip sp =>
    simp only [create_step] at h
    split at h
    · cases h
    · rename_i thread s2 hc
      simp only [Except.ok.injEq, Prod.mk.injEq] at h
      obtain ⟨_, h2⟩ := h
      subst h2
      obtain ⟨_, _, c2, _⟩ := arch_sched_thread_create_user_spec hc
      by_cases htt : t = thread
      · subst htt
        rw [c2] at ht
        omega
      · exact Or.inl ((arch_sched_thread_create_user_others hc).2 t htt)
  | init_cpu cpu release =>
    have hstep := h
    simp only [create_step] at h
    split at h
    · cases h
    · rename_i fr s2 hc
      simp only [Except.ok.injEq, Prod.mk.injEq] at h
      obtain ⟨_, h2⟩ := h
      subst h2
      obtain ⟨bootstrap, b1, _, _, _, b5⟩ := x86_64_sched_init_cpu_threads hc
      have hlist : init_cpu_threads [.init_cpu cpu release] s =
          [(s2.cpus cpu).idle_thread, bootstrap] := by
        simp only [init_cpu_threads, hstep, b1, List.drop_left, List.append_nil]
      by_cases h1 : t = (s2.cpus cpu).idle_thread
      · right; rw [hlist, h1]; exact List.mem_cons_self _ _
      · by_cases h2 : t = bootstrap
        · right; rw [hlist, h2]; simp
        · exact Or.inl (b5 t h1 h2)

theorem init_cpu_threads_cons {s s1 : sched_state} {op : thread_creation_t} {id : Option Int}
    (rest : List thread_creation_t) (h : create_step s op = .ok (id, s1)) :
    init_cpu_threads (op :: rest) s = init_cpu_threads [op] s ++ init_cpu_threads rest s1 := by
  simp only [init_cpu_threads, h, List.append_nil]

/-- Along a sequence of creations that starts with the counter at 1 or above
and does not wrap it around: a descriptor that holds the id 0 at the end is one
the sequence did not write, or the idle thread or the bootstrap thread of one of
its bring-ups. -/
theorem issued_ids_zero (ops : List thread_creation_t) :
    ∀ (s s' : sched_state) (ids : List Int), 1 ≤ s.g_next_tid →
      s.g_next_tid + ops.length < 2 ^ 63 → issued_ids ops s = .ok (ids, s') →
      ∀ t, (s'.threads t).common.id = 0 →
        s'.threads t = s.threads t ∨ t ∈ init_cpu_threads ops s := by
  induction ops with
  | nil =>
    intro s s' ids _ _ h t _
    unfold issued_ids at h
    simp only [Except.ok.injEq, Prod.mk.injEq] at h
    rw [h.2]
    exact Or.inl rfl
  | cons op rest ih =>
    intro s s' ids h0 hw h t ht
    unfold issued_ids at h
    split at h
    · cases h
    · rename_i id s1 hstep
      split at h
      · cases h
      · rename_i ids1 s2 hrest
        simp only [Except.ok.injEq, Prod.mk.injEq] at h
        obtain ⟨_, h2⟩ := h
        subst h2
        obtain ⟨c1, _⟩ := create_step_spec hstep
        simp only [List.length_cons, Nat.cast_add, Nat.cast_one] at hw
        rw [long_wrap_eq (by omega) (by omega)] at c1
        rw [init_cpu_threads_cons rest hstep]
        rcases ih s1 s2 ids1 (by omega) (by rw [c1]; omega) hrest t ht with hsame | hmem
        · rw [hsame] at ht ⊢
          rcases create_step_zero_ids hstep h0 t ht with h1 | h1
          · exact Or.inl h1
          · exact Or.inr (List.mem_append_left _ h1)
        · exact Or.inr (List.mem_append_right _ hmem)

/-- C15, as the code has it: thread ids come from a counter that only grows,
with 0 reserved.  Each creator gives the thread it returns the id the counter
`g_next_tid` holds and advances the counter (`__atomic_fetch_add`); so along any
sequence of creations that starts with the counter at 1 or above (it starts at
1) and does not wrap it around, every id issued is strictly greater than the ids
issued before, and none is 0.  A descriptor that holds the id 0 after the
sequence is one the sequence did not write, or one of the two threads an
`x86_64_sched_init_cpu` of the sequence set up: the idle thread of the CPU, to
which it writes the id 0 over the one the counter issued, and the bootstrap
thread it switches away from, whose zeroed descriptor is never given an id. -/
theorem thread_ids_increase (ops : List thread_creation_t) (s s' : sched_state)
    (ids : List Int) (hstart : 1 ≤ s.g_next_tid)
    (hwrap : s.g_next_tid + ops.length < 2 ^ 63)
    (hrun : issued_ids ops s = .ok (ids, s')) :
    ids.Pairwise (fun a b => a < b) ∧
    (∀ i ∈ ids, i ≠ 0 ∧ s.g_next_tid ≤ i ∧ i < s'.g_next_tid) ∧
    s'.g_next_tid = s.g_next_tid + ops.length ∧
    (∀ t, (s'.threads t).common.id = 0 →
      s'.threads t = s.threads t ∨ t ∈ init_cpu_threads ops s) ∧
    (∀ func thread s1, arch_sched_thread_create_kernel s func = .ok (thread, s1) →
      (s1.threads thread).common.id = s.g_next_tid ∧
      s1.g_next_tid = long_wrap (s.g_next_tid + 1)) ∧
    (∀ proc ip sp thread s1, arch_sched_thread_create_user s proc ip sp = .ok (thread, s1) →
      (s1.threads thread).common.id = s.g_next_tid ∧
      s1.g_next_tid = long_wrap (s.g_next_tid + 1)) ∧
    (∀ cpu release frame s1, x86_64_sched_init_cpu s cpu release = .ok (frame, s1) →
      (s1.threads (s1.cpus cpu).idle_thread).common.id = 0 ∧
      s1.g_next_tid = long_wrap (s.g_next_tid + 1) ∧
      ∃ bootstrap, s1.dropped = s.dropped ++ [bootstrap] ∧
        bootstrap ≠ (s1.cpus cpu).idle_thread ∧
        (s1.threads bootstrap).common.id = 0 ∧
        (s1.threads bootstrap).common.state = .THREAD_STATE_DESTROY) := by
  obtain ⟨r1, r2, r3⟩ := issued_ids_spec ops s s' ids (by omega) hwrap hrun
  refine ⟨r3, ?_, r1, issued_ids_zero ops s s' ids hstart hwrap hrun, ?_, ?_, ?_⟩
  · intro i hi
    obtain ⟨h1, h2⟩ := r2 i hi
    exact ⟨by omega, h1, h2⟩
  · intro func thread s1 h
    obtain ⟨_, c2, c3, _⟩ := arch_sched_thread_create_kernel_spec h
    exact ⟨c2, c3⟩
  · intro proc ip sp thread s1 h
    obtain ⟨_, _, c2, c3, _⟩ := arch_sched_thread_create_user_spec h
    exact ⟨c2, c3⟩
  · intro cpu release frame s1 h
    obtain ⟨c1, _, c3⟩ := x86_64_sched_init_cpu_ids h
    obtain ⟨bootstrap, b1, b2, b3, b4, _⟩ := x86_64_sched_init_cpu_threads h
    exact ⟨c3, c1, bootstrap, b1, b2, b3, b4⟩

/-- A call whose value is known returned it, with the state `outcome_state`
names. -/
theorem outcome_eq {α σ : Type} {r : Except vm_abort_t (α × σ)} {v : α} (s : σ)
    (h : outcome_value r = some v) : r = .ok (v, outcome_state r s) := by
  cases r with
  | error e => cases h
  | ok p =>
    obtain ⟨a, b⟩ := p
    simp only [outcome_value, Option.some.injEq] at h
    subst h
    rfl

/-- The ids three creations from the boot state return. -/
theorem thread_ids_example_run :
    outcome_value (issued_ids [.kernel 0x1000, .init_cpu 0xC000 true,
      .user 0x5000 0x400000 0x7FF0] sched_boot_state) = some [1, 3] := by
  decide

theorem thread_ids_increase_witness :
    [(1 : Int), 3].Pairwise (fun a b => a < b) ∧
    (∀ i ∈ [(1 : Int), 3], i ≠ 0 ∧ sched_boot_state.g_next_tid ≤ i ∧
      i < (outcome_state (issued_ids [.kernel 0x1000, .init_cpu 0xC000 true,
        .user 0x5000 0x400000 0x7FF0] sched_boot_state) sched_boot_state).g_next_tid) ∧
    (outcome_state (issued_ids [.kernel 0x1000, .init_cpu 0xC000 true,
        .user 0x5000 0x400000 0x7FF0] sched_boot_state) sched_boot_state).g_next_tid =
      sched_boot_state.g_next_tid + ([.kernel 0x1000, .init_cpu 0xC000 true,
        .user 0x5000 0x400000 0x7FF0] : List thread_creation_t).length ∧
    (∀ t, ((outcome_state (issued_ids [.kernel 0x1000, .init_cpu 0xC000 true,
        .user 0x5000 0x400000 0x7FF0] sched_boot_state) sched_boot_state).threads t).common.id = 0 →
      (outcome_state (issued_ids [.kernel 0x1000, .init_cpu 0xC000 true,
        .user 0x5000 0x400000 0x7FF0] sched_boot_state) sched_boot_state).threads t =
        sched_boot_state.threads t ∨
      t ∈ init_cpu_threads [.kernel 0x1000, .init_cpu 0xC000 true,
        .user 0x5000 0x400000 0x7FF0] sched_boot_state) := by
  have h := thread_ids_increase [.kernel 0x1000, .init_cpu 0xC000 true,
    .user 0x5000 0x400000 0x7FF0] sched_boot_state
    (outcome_state (issued_ids [.kernel 0x1000, .init_cpu 0xC000 true,
      .user 0x5000 0x400000 0x7FF0] sched_boot_state) sched_boot_state)
    [1, 3] (by decide) (by simp [sched_boot_state]) (outcome_eq _ thread_ids_example_run)
  exact ⟨h.1, h.2.1, h.2.2.1, h.2.2.2.1⟩

/-- C15 as stated fails: `x86_64_sched_init_cpu` on the boot state returns into
the idle thread `0xA000` of CPU `0xC000`, and the thread it handed to
`sched_thread_drop` is a second descriptor, the bootstrap thread `0xA800`
(`this` set, state DESTROY), which holds the id 0 without being the idle
thread. -/
theorem thread_ids_increase_counterexample :
    outcome_value (x86_64_sched_init_cpu sched_boot_state 0xC000 true) =
      some (.init_stack_kernel SCHED_IDLE) ∧
    ((outcome_state (x86_64_sched_init_cpu sched_boot_state 0xC000 true)
      sched_boot_state).cpus 0xC000).idle_thread = 0xA000 ∧
    (outcome_state (x86_64_sched_init_cpu sched_boot_state 0xC000 true)
      sched_boot_state).dropped = [0xA800] ∧
    ((outcome_state (x86_64_sched_init_cpu sched_boot_state 0xC000 true)
      sched_boot_state).threads 0xA800).this = 0xA800 ∧
    ((outcome_state (x86_64_sched_init_cpu sched_boot_state 0xC000 true)
      sched_boot_state).threads 0xA800).common.state = .THREAD_STATE_DESTROY ∧
    ((outcome_state (x86_64_sched_init_cpu sched_boot_state 0xC000 true)
      sched_boot_state).threads 0xA800).common.id = 0 ∧
    ((outcome_state (x86_64_sched_init_cpu sched_boot_state 0xC000 true)
      sched_boot_state).threads 0xA000).common.id = 0 := by
  decide

/-- Three creations from the boot state, the second one the bring-up of CPU
`0xC000`: the creators return threads with the ids 1 and 3, the idle thread
took the id 2 from the counter and holds the id 0; the idle thread and the
bootstrap thread of the bring-up are `0xA800` and `0xB000`, and the kernel
thread `0xA000` and the user thread `0xB400` hold the ids 1 and 3. -/
theorem thread_ids_example :
    outcome_value (issued_ids [.kernel 0x1000, .init_cpu 0xC000 true,
      .user 0x5000 0x400000 0x7FF0] sched_boot_state) = some [1, 3] ∧
    ((outcome_state (x86_64_sched_init_cpu sched_boot_state 0xC000 true)
      sched_boot_state).cpus 0xC000).idle_thread = 0xA000 ∧
    ((outcome_state (x86_64_sched_init_cpu sched_boot_state 0xC000 true)
      sched_boot_state).threads 0xA000).common.id = 0 ∧
    (outcome_state (x86_64_sched_init_cpu sched_boot_state 0xC000 true)
      sched_boot_state).g_next_tid = 2 ∧
    init_cpu_threads [.kernel 0x1000, .init_cpu 0xC000 true,
      .user 0x5000 0x400000 0x7FF0] sched_boot_state = [0xA800, 0xB000] ∧
    [0xA000, 0xA800, 0xB000, 0xB400].map (fun t =>
      ((outcome_state (issued_ids [.kernel 0x1000, .init_cpu 0xC000 true,
        .user 0x5000 0x400000 0x7FF0] sched_boot_state) sched_boot_state).threads t).common.id) =
      [1, 0, 0, 3] := by
  decide

/-! ## `arch_sched_thread_destroy` -/

/-- C18: `arch_sched_thread_destroy(thread)` removes a user thread from the
thread list of its process and passes that process to `sched_process_destroy`
if and only if the list is empty after the removal; for a kernel thread (no
process) no process is touched. -/
theorem arch_sched_thread_destroy_process (s : sched_state) (thread : Nat)
    (hthread : thread ≠ 0) :
    ∃ s', arch_sched_thread_destroy s thread = .ok s' ∧
      ((s.threads thread).common.proc ≠ 0 →
        (s'.processes (s.threads thread).common.proc).threads =
          (s.processes (s.threads thread).common.proc).threads.erase thread ∧
        (∀ p, p ≠ (s.threads thread).common.proc → s'.processes p = s.processes p) ∧
        s'.destroyed_processes =
          (if (s.processes (s.threads thread).common.proc).threads.erase thread = [] then
            s.destroyed_processes ++ [(s.threads thread).common.proc]
           else s.destroyed_processes)) ∧
      ((s.threads thread).common.proc = 0 →
        s'.processes = s.processes ∧ s'.destroyed_processes = s.destroyed_processes) := by
  unfold arch_sched_thread_destroy
  rw [if_neg hthread]
  refine ⟨_, rfl, ?_, ?_⟩
  · intro hproc
    simp only [hproc, ne_eq, not_false_eq_true, if_true, List.isEmpty_iff]
    split_ifs with he
    · exact ⟨by simp [sched_process_destroy], fun p hp => by simp [sched_process_destroy, hp],
        by simp [sched_process_destroy]⟩
    · exact ⟨by simp, fun p hp => by simp [hp], rfl⟩
  · intro hproc
    simp only [hproc, ne_eq, not_true_eq_false, if_false]
    exact ⟨trivial, trivial⟩

theorem arch_sched_thread_destroy_process_witness :
    ∃ s', arch_sched_thread_destroy three_thread_state 0xA400 = .ok s' ∧
      ((three_thread_state.threads 0xA400).common.proc ≠ 0 →
        (s'.processes (three_thread_state.threads 0xA400).common.proc).threads =
          (three_thread_state.processes
            (three_thread_state.threads 0xA400).common.proc).threads.erase 0xA400 ∧
        (∀ p, p ≠ (three_thread_state.threads 0xA400).common.proc →
          s'.processes p = three_thread_state.processes p) ∧
        s'.destroyed_processes =
          (if (three_thread_state.processes
              (three_thread_state.threads 0xA400).common.proc).threads.erase 0xA400 = [] then
            three_thread_state.destroyed_processes ++
              [(three_thread_state.threads 0xA400).common.proc]
           else three_thread_state.destroyed_processes)) ∧
      ((three_thread_state.threads 0xA400).common.proc = 0 →
        s'.processes = three_thread_state.processes ∧
        s'.destroyed_processes = three_thread_state.destroyed_processes) :=
  arch_sched_thread_destroy_process three_thread_state 0xA400 (by decide)

/-- The last thread of process `0x5000` is destroyed and the process with it;
with a second thread in the process, the process stays. -/
theorem arch_sched_thread_destroy_example :
    (outcome_of (arch_sched_thread_destroy three_thread_state 0xA400)
      three_thread_state).destroyed_processes = [0x5000] ∧
    ((outcome_of (arch_sched_thread_destroy shared_process_state 0xA400)
      shared_process_state).processes 0x5000).threads = [0xAC00] ∧
    (outcome_of (arch_sched_thread_destroy shared_process_state 0xA400)
      shared_process_state).destroyed_processes = [] := by
  decide

/-- C19, as the code has it: for a thread created by
`arch_sched_thread_create_kernel` or `arch_sched_thread_create_user` (on a heap
that hands out each address once), `arch_sched_thread_destroy` returns and
frees the descriptor of the thread, and nothing else of what the creation
allocated: the FPU-state buffer is still a live heap block, and the PMM is
untouched, so the 16 kernel-stack frames the creation took are still taken. -/
theorem arch_sched_thread_destroy_storage (s s1 : sched_state) (func proc ip sp thread : Nat)
    (hnodup : s.heap.free.Nodup)
    (hcreate : arch_sched_thread_create_kernel s func = .ok (thread, s1) ∨
      arch_sched_thread_create_user s proc ip sp = .ok (thread, s1)) :
    ∃ s2, arch_sched_thread_destroy s1 thread = .ok s2 ∧
      (∀ b ∈ s2.heap.live, b.address ≠ thread) ∧
      s2.heap.live =
        { address := (s1.threads thread).state.fpu_area, size := s.g_x86_64_fpu_area_size } ::
          s.heap.live.filter (fun b => b.address ≠ thread) ∧
      s2.vm = s1.vm ∧
      s2.vm.pmm.free PMM_ZONE_NORMAL = (s.vm.pmm.free PMM_ZONE_NORMAL).drop 16 ∧
      s2.vm.pmm.taken = (((s.vm.pmm.free PMM_ZONE_NORMAL).take 16).map
        (fun p => { zone := PMM_ZONE_NORMAL, flags := { zero := true }, paddr := p })).reverse ++
          s.vm.pmm.taken := by
  have hfacts : thread ≠ 0 ∧
      s1.heap.live =
        { address := (s1.threads thread).state.fpu_area, size := s.g_x86_64_fpu_area_size } ::
        { address := thread, size := SIZEOF_X86_64_THREAD } :: s.heap.live ∧
      (s1.threads thread).state.fpu_area ≠ thread ∧
      s1.vm.pmm.free PMM_ZONE_NORMAL = (s.vm.pmm.free PMM_ZONE_NORMAL).drop 16 ∧
      s1.vm.pmm.taken = (((s.vm.pmm.free PMM_ZONE_NORMAL).take 16).map
        (fun p => { zone := PMM_ZONE_NORMAL, flags := { zero := true }, paddr := p })).reverse ++
          s.vm.pmm.taken := by
    rcases hcreate with h | h
    · obtain ⟨c1, _, _, _, _, _, _, c8, c9, _, c11, c12⟩ := arch_sched_thread_create_kernel_spec h
      exact ⟨c1, c8, c9 hnodup, c11, c12⟩
    · obtain ⟨c1, _, _, _, _, _, _, _, _, c8, c9, _, c11, c12⟩ :=
        arch_sched_thread_create_user_spec h
      exact ⟨c1, c8, c9 hnodup, c11, c12⟩
  obtain ⟨h0, hlive, hne, hfree, htaken⟩ := hfacts
  have hrun : ∃ s2, arch_sched_thread_destroy s1 thread = .ok s2 := by
    unfold arch_sched_thread_destroy
    rw [if_neg h0]
    exact ⟨_, rfl⟩
  obtain ⟨s2, h2⟩ := hrun
  obtain ⟨f1, _, _, _, _, _, _, _, _, _, _, f12⟩ := arch_sched_thread_destroy_frame h2
  have hlive2 : s2.heap.live =
      { address := (s1.threads thread).state.fpu_area, size := s.g_x86_64_fpu_area_size } ::
        s.heap.live.filter (fun b => b.address ≠ thread) := by
    rw [f12]
    unfold heap_free
    simp only [hlive]
    rw [List.filter_cons_of_pos (by simpa using hne), List.filter_cons_of_neg (by simp)]
  refine ⟨s2, h2, ?_, hlive2, f1, by rw [f1]; exact hfree, by rw [f1]; exact htaken⟩
  intro b hb
  rw [f12] at hb
  unfold heap_free at hb
  simpa using (List.mem_filter.mp hb).2

theorem arch_sched_thread_destroy_storage_witness :
    ∃ s2, arch_sched_thread_destroy
        (outcome_state (arch_sched_thread_create_kernel sched_boot_state 0x1000)
          sched_boot_state) 0xA000 = .ok s2 ∧
      (∀ b ∈ s2.heap.live, b.address ≠ 0xA000) ∧
      s2.heap.live =
        { address := ((outcome_state (arch_sched_thread_create_kernel sched_boot_state 0x1000)
            sched_boot_state).threads 0xA000).state.fpu_area,
          size := sched_boot_state.g_x86_64_fpu_area_size } ::
          sched_boot_state.heap.live.filter (fun b => b.address ≠ 0xA000) ∧
      s2.vm = (outcome_state (arch_sched_thread_create_kernel sched_boot_state 0x1000)
          sched_boot_state).vm ∧
      s2.vm.pmm.free PMM_ZONE_NORMAL = (sched_boot_state.vm.pmm.free PMM_ZONE_NORMAL).drop 16 ∧
      s2.vm.pmm.taken = (((sched_boot_state.vm.pmm.free PMM_ZONE_NORMAL).take 16).map
        (fun p => { zone := PMM_ZONE_NORMAL, flags := { zero := true }, paddr := p })).reverse ++
          sched_boot_state.vm.pmm.taken :=
  arch_sched_thread_destroy_storage sched_boot_state
    (outcome_state (arch_sched_thread_create_kernel sched_boot_state 0x1000) sched_boot_state)
    0x1000 0 0 0 0xA000 (by decide) (Or.inl rfl)

/-- C19 as stated fails: a kernel thread is created and destroyed; afterwards
its FPU-state buffer at `0xA400` is still a live heap block, the 16 frames of
its kernel stack are still taken from the PMM and none of them is back on the
free list of the zone. -/
theorem arch_sched_thread_destroy_storage_counterexample :
    outcome_value (arch_sched_thread_create_kernel sched_boot_state 0x1000) = some 0xA000 ∧
    ((outcome_state (arch_sched_thread_create_kernel sched_boot_state 0x1000)
        sched_boot_state).threads 0xA000).state.fpu_area = 0xA400 ∧
    ((outcome_state (arch_sched_thread_create_kernel sched_boot_state 0x1000)
        sched_boot_state).threads 0xA000).kernel_stack.base = 0xFFFF800000410000 ∧
    aborted (arch_sched_thread_destroy
        (outcome_state (arch_sched_thread_create_kernel sched_boot_state 0x1000)
          sched_boot_state) 0xA000) = none ∧
    (outcome_of (arch_sched_thread_destroy
        (outcome_state (arch_sched_thread_create_kernel sched_boot_state 0x1000)
          sched_boot_state) 0xA000) sched_boot_state).heap.live =
      [{ address := 0xA400, size := 512 }] ∧
    (outcome_of (arch_sched_thread_destroy
        (outcome_state (arch_sched_thread_create_kernel sched_boot_state 0x1000)
          sched_boot_state) 0xA000) sched_boot_state).vm.pmm.taken.length = 16 ∧
    (outcome_of (arch_sched_thread_destroy
        (outcome_state (arch_sched_thread_create_kernel sched_boot_state 0x1000)
          sched_boot_state) 0xA000) sched_boot_state).vm.pmm.free PMM_ZONE_NORMAL =
      sched_frames.drop 16 := by
  decide

/-! ## The user stack set up by `arch_sched_stack_setup` -/

theorem stack_mapped_of_vm {s s' : sched_state} {as B : Nat} (h : s'.vm = s.vm)
    (hm : stack_mapped s as B) : stack_mapped s' as B := by
  unfold stack_mapped at *
  rw [h]
  exact hm

/-- `vm_copy_to` into the user stack copies all the bytes. -/
theorem vm_copy_to_ok {s : sched_state} {as B dest count : Nat} (src : List Nat)
    (hm : stack_mapped s as B) (h1 : B ≤ dest) (h2 : dest + count ≤ B + USER_STACK_SIZE) :
    ∃ s', vm_copy_to s as dest src count = (count, s') ∧ s'.vm = s.vm ∧
      (∀ a x, s'.memory a x =
        if a = as ∧ dest ≤ x ∧ x < dest + count then src.getD (x - dest) 0
        else s.memory a x) := by
  unfold vm_copy_to
  rw [if_pos]
  · exact ⟨_, rfl, rfl, fun _ _ => rfl⟩
  · rw [List.all_eq_true]
    intro i hi
    have hi' := List.mem_range.mp hi
    rw [uadd_eq (by have := hm.1; omega)]
    exact hm.2 _ (by omega) (by omega)

/-- `WRITE_QWORD` on the user stack: the stack pointer moves down by 8, and the
four bytes at the new stack pointer are the low four bytes of the value; every
other byte of memory is as it was. -/
theorem WRITE_QWORD_ok {s : sched_state} {as B stack : Nat} (VALUE : Nat)
    (hm : stack_mapped s as B) (h1 : B + 8 ≤ stack) (h2 : stack ≤ B + USER_STACK_SIZE) :
    ∃ s', WRITE_QWORD s as stack VALUE = .ok (stack - 8, s') ∧ s'.vm = s.vm ∧
      (∀ a x, s'.memory a x =
        if a = as ∧ stack - 8 ≤ x ∧ x < stack - 8 + 4 then
          (qword_bytes (VALUE % UINTPTR_SIZE)).getD (x - (stack - 8)) 0
        else s.memory a x) := by
  have hs : usub stack 8 = stack - 8 := usub_eq (by omega) (by have := hm.1; omega)
  obtain ⟨s', hc, hvm, hmem⟩ := vm_copy_to_ok (qword_bytes (VALUE % UINTPTR_SIZE)) hm
    (show B ≤ stack - 8 by omega) (show stack - 8 + 4 ≤ B + USER_STACK_SIZE by omega)
  refine ⟨s', ?_, hvm, hmem⟩
  unfold WRITE_QWORD
  simp only [hs, hc, if_true]

/-- `WRITE_AUX` on the user stack: two quadwords down. -/
theorem WRITE_AUX_ok {s : sched_state} {as B stack : Nat} (ID VALUE : Nat)
    (hm : stack_mapped s as B) (h1 : B + 16 ≤ stack) (h2 : stack ≤ B + USER_STACK_SIZE) :
    ∃ s', WRITE_AUX s as stack ID VALUE = .ok (stack - 16, s') ∧ s'.vm = s.vm := by
  obtain ⟨s1, e1, v1, _⟩ := WRITE_QWORD_ok VALUE hm (show B + 8 ≤ stack by omega) h2
  obtain ⟨s2, e2, v2, _⟩ := WRITE_QWORD_ok ID (stack_mapped_of_vm v1 hm)
    (show B + 8 ≤ stack - 8 by omega) (show stack - 8 ≤ B + USER_STACK_SIZE by omega)
  refine ⟨s2, ?_, by rw [v2, v1]⟩
  unfold WRITE_AUX
  rw [e1]
  dsimp only
  rw [e2]
  have : stack - 8 - 8 = stack - 16 := by omega
  rw [this]

/-- The auxiliary vector and the NULL after it: thirteen quadwords down. -/
theorem write_auxv_ok {s : sched_state} {as B stack : Nat} (auxv : auxv_t)
    (hm : stack_mapped s as B) (h1 : B + 104 ≤ stack) (h2 : stack ≤ B + USER_STACK_SIZE) :
    ∃ s', write_auxv s as stack auxv = .ok (stack - 104, s') ∧ s'.vm = s.vm := by
  obtain ⟨s1, e1, v1⟩ := WRITE_AUX_ok 0 0 hm (show B + 16 ≤ stack by omega) h2
  have m1 := stack_mapped_of_vm v1 hm
  obtain ⟨s2, e2, v2⟩ := WRITE_AUX_ok AUXV_SECURE 0 m1
    (show B + 16 ≤ stack - 16 by omega) (show stack - 16 ≤ B + USER_STACK_SIZE by omega)
  have m2 := stack_mapped_of_vm v2 m1
  obtain ⟨s3, e3, v3⟩ := WRITE_AUX_ok AUXV_ENTRY auxv.entry m2
    (show B + 16 ≤ stack - 16 - 16 by omega)
    (show stack - 16 - 16 ≤ B + USER_STACK_SIZE by omega)
  have m3 := stack_mapped_of_vm v3 m2
  obtain ⟨s4, e4, v4⟩ := WRITE_AUX_ok AUXV_PHDR auxv.phdr m3
    (show B + 16 ≤ stack - 16 - 16 - 16 by omega)
    (show stack - 16 - 16 - 16 ≤ B + USER_STACK_SIZE by omega)
  have m4 := stack_mapped_of_vm v4 m3
  obtain ⟨s5, e5, v5⟩ := WRITE_AUX_ok AUXV_PHENT auxv.phent m4
    (show B + 16 ≤ stack - 16 - 16 - 16 - 16 by omega)
    (show stack - 16 - 16 - 16 - 16 ≤ B + USER_STACK_SIZE by omega)
  have m5 := stack_mapped_of_vm v5 m4
  obtain ⟨s6, e6, v6⟩ := WRITE_AUX_ok AUXV_PHNUM auxv.phnum m5
    (show B + 16 ≤ stack - 16 - 16 - 16 - 16 - 16 by omega)
    (show stack - 16 - 16 - 16 - 16 - 16 ≤ B + USER_STACK_SIZE by omega)
  have m6 := stack_mapped_of_vm v6 m5
  obtain ⟨s7, e7, v7, _⟩ := WRITE_QWORD_ok 0 m6
    (show B + 8 ≤ stack - 16 - 16 - 16 - 16 - 16 - 16 by omega)
    (show stack - 16 - 16 - 16 - 16 - 16 - 16 ≤ B + USER_STACK_SIZE by omega)
  refine ⟨s7, ?_, by rw [v7, v6, v5, v4, v3, v2, v1]⟩
  unfold write_auxv
  rw [e1]; dsimp only
  rw [e2]; dsimp only
  rw [e3]; dsimp only
  rw [e4]; dsimp only
  rw [e5]; dsimp only
  rw [e6]; dsimp only
  rw [e7]
  have : stack - 16 - 16 - 16 - 16 - 16 - 16 - 8 = stack - 104 := by omega
  rw [this]

theorem strings_size_cons (str : List Nat) (rest : List (List Nat)) :
    strings_size (str :: rest) = string_length str + 1 + strings_size rest := by
  simp [strings_size]

/-- The loop that reserves the string area moves the stack pointer down by the
size of the strings. -/
theorem reserve_strings_eq (strings : List (List Nat)) :
    ∀ stack, strings_size strings ≤ stack → stack < UINTPTR_SIZE →
      reserve_strings strings stack = stack - strings_size strings := by
  induction strings with
  | nil => intro stack _ _; simp [reserve_strings, strings_size]
  | cons str rest ih =>
    intro stack h1 h2
    rw [strings_size_cons] at h1
    have hstep : reserve_strings (str :: rest) stack =
        reserve_strings rest (usub stack (string_length str + 1)) := by
      simp [reserve_strings]
    rw [hstep, usub_eq (by omega) h2, ih _ (by omega) (by omega), strings_size_cons]
    omega

/-- The loop that writes the pointers and copies the strings of `envp` or
`argv`: one quadword down per string, the data pointer up by the size of the
strings. -/
theorem write_strings_ok {as B : Nat} (strings : List (List Nat)) :
    ∀ (s : sched_state) (stack data : Nat), stack_mapped s as B →
      B + 8 * strings.length ≤ stack → stack ≤ B + USER_STACK_SIZE → B ≤ data →
      data + strings_size strings ≤ B + USER_STACK_SIZE →
      ∃ s', write_strings strings s as stack data =
          .ok (stack - 8 * strings.length, data + strings_size strings, s') ∧
        s'.vm = s.vm := by
  induction strings with
  | nil =>
    intro s stack data _ _ _ _ _
    exact ⟨s, by simp [write_strings, strings_size], rfl⟩
  | cons str rest ih =>
    intro s stack data hm h1 h2 h3 h4
    rw [strings_size_cons] at h4
    simp only [List.length_cons] at h1
    obtain ⟨s1, e1, v1, _⟩ := WRITE_QWORD_ok data hm (show B + 8 ≤ stack by omega) h2
    have m1 := stack_mapped_of_vm v1 hm
    obtain ⟨s2, e2, v2, _⟩ := vm_copy_to_ok (string_bytes str) m1 h3
      (show data + (string_length str + 1) ≤ B + USER_STACK_SIZE by omega)
    have m2 := stack_mapped_of_vm v2 m1
    have hd : uadd data (string_length str + 1) = data + (string_length str + 1) :=
      uadd_eq (by have := hm.1; omega)
    obtain ⟨s3, e3, v3⟩ := ih s2 (stack - 8) (data + (string_length str + 1)) m2
      (by omega) (by omega) (by omega) (by omega)
    refine ⟨s3, ?_, by rw [v3, v2, v1]⟩
    unfold write_strings
    rw [e1]
    dsimp only
    rw [e2]
    dsimp only
    rw [if_pos rfl, hd, e3, strings_size_cons]
    simp only [List.length_cons]
    congr 2
    · omega
    · congr 1
      omega

/-- The user stack `vm_map_anon` reserved for `arch_sched_stack_setup` is
page-aligned and every address of it lies in a region of the address space. -/
theorem vm_map_anon_stack_mapped {s : sched_state} {as B : Nat} {vm1 : vm_state}
    {prot : vm_protection_t}
    (hend : (s.vm.address_spaces as).end_ < UINTPTR_SIZE)
    (hmap : vm_map_anon s.vm as 0 USER_STACK_SIZE prot VM_CACHE_STANDARD VM_FLAG_NONE =
      .ok (B, vm1))
    (hB : B ≠ 0) :
    B % ARCH_PAGE_GRANULARITY = 0 ∧ stack_mapped { s with vm := vm1 } as B := by
  unfold vm_map_anon at hmap
  obtain ⟨_, _, _, region, s1, halloc, _, _, hsib, hBal, s2, hs2, hs'⟩ := map_common_inv hmap hB
  obtain ⟨_, _, hbounds, _, _⟩ := region_alloc_frame halloc
  have hend1 : (s1.address_spaces as).end_ < UINTPTR_SIZE := by rw [(hbounds as).2]; exact hend
  have hsib' := (segment_in_bounds_iff hend1).mp hsib
  have hs21 : s2 = s1 := by
    simp only [VM_FLAG_NONE, Bool.false_eq_true, if_false, Except.ok.injEq] at hs2
    exact hs2.symm
  subst hs21
  refine ⟨hBal, by omega, ?_⟩
  intro x hx1 hx2
  show (addr_to_region (vm1.address_spaces as) x).isSome = true
  have hb := set_regions_bounds s2 as as
    (map_common_region region as .VM_REGION_TYPE_ANON B USER_STACK_SIZE prot VM_CACHE_STANDARD
      VM_FLAG_NONE 0 :: (s2.address_spaces as).regions)
  have hr := set_regions_same s2 as
    (map_common_region region as .VM_REGION_TYPE_ANON B USER_STACK_SIZE prot VM_CACHE_STANDARD
      VM_FLAG_NONE 0 :: (s2.address_spaces as).regions)
  rw [← hs'] at hb hr
  unfold addr_to_region
  rw [if_neg (by
    rw [not_not]
    unfold ADDRESS_IN_BOUNDS
    rw [hb.1, hb.2]
    omega)]
  rw [hr]
  unfold addr_to_region_scan
  rw [if_pos (by
    unfold ADDRESS_IN_SEGMENT
    show x ≥ B ∧ x < uadd B USER_STACK_SIZE
    rw [uadd_eq (by omega)]
    omega)]
  rfl

/-- C17: for every `argv` and `envp` that fit in the 8-page stack,
`arch_sched_stack_setup` returns, and the stack pointer it returns is the final
top of what it wrote.  With the string area `[env_data, top)` below the
16-byte-aligned top of the stack and the pointer area starting at
`start = env_data - (env_data - 8 * n) % 16`, where `n = 15 + envc + argc`
counts the 12 words of the auxiliary vector, the two NULLs, the `envp` and
`argv` pointers and `argc`: the result is `start - 8 * n`, it is 16-byte
aligned, the pointer area lies below the string area, and the slot at the
result is the one of `argc`, written last. -/
theorem arch_sched_stack_setup_pointer (s : sched_state) (proc B : Nat) (vm1 : vm_state)
    (argv envp : List (List Nat)) (auxv : auxv_t)
    (hproc : proc ≠ 0)
    (hend : (s.vm.address_spaces (s.processes proc).address_space).end_ < UINTPTR_SIZE)
    (hmap : vm_map_anon s.vm (s.processes proc).address_space 0 USER_STACK_SIZE
      { read := true, write := true, exec := false } VM_CACHE_STANDARD VM_FLAG_NONE =
        .ok (B, vm1))
    (hB : B ≠ 0)
    (hfit : strings_size argv + strings_size envp + 8 * (15 + envp.length + argv.length) + 32 ≤
      USER_STACK_SIZE) :
    ∃ sp s', arch_sched_stack_setup s proc argv envp auxv = .ok (sp, s') ∧
      sp = B + USER_STACK_SIZE - 16 - strings_size argv - strings_size envp -
          (B + USER_STACK_SIZE - 16 - strings_size argv - strings_size envp -
            8 * (15 + envp.length + argv.length)) % 16 -
          8 * (15 + envp.length + argv.length) ∧
      sp % 16 = 0 ∧
      sp + 8 * (15 + envp.length + argv.length) ≤
        B + USER_STACK_SIZE - 16 - strings_size argv - strings_size envp ∧
      B ≤ sp ∧
      (∀ i, i < 4 → s'.memory (s.processes proc).address_space (sp + i) =
        (qword_bytes argv.length).getD i 0) := by
  obtain ⟨hBal, hm⟩ := vm_map_anon_stack_mapped hend hmap hB
  have hU : USER_STACK_SIZE = 32768 := by decide
  have hlt := hm.1
  have hB16 : B % 16 = 0 := by
    simp only [ARCH_PAGE_GRANULARITY] at hBal
    omega
  rw [hU] at hfit hlt ⊢
  -- the top of the stack
  have htop0 : usub (uadd B 32768) 1 = B + 32767 := by
    rw [uadd_eq (by omega), usub_eq (by omega) (by omega)]
    omega
  have htop : B + 32767 - (B + 32767) % 16 = B + 32768 - 16 := by omega
  -- the string area
  have harg : reserve_strings argv (B + 32768 - 16) = B + 32768 - 16 - strings_size argv :=
    reserve_strings_eq argv _ (by omega) (by omega)
  have henv : reserve_strings envp (B + 32768 - 16 - strings_size argv) =
      B + 32768 - 16 - strings_size argv - strings_size envp :=
    reserve_strings_eq envp _ (by omega) (by omega)
  generalize hE : B + 32768 - 16 - strings_size argv - strings_size envp = E at *
  generalize hn : 15 + envp.length + argv.length = n at *
  have hnn : (12 + 1 + envp.length + 1 + argv.length + 1) * 8 % UINTPTR_SIZE = 8 * n := by
    rw [Nat.mod_eq_of_lt (by omega)]
    omega
  have hstart : usub E (usub E (8 * n) % 16) = E - (E - 8 * n) % 16 := by
    rw [usub_eq (b := 8 * n) (by omega) (by omega)]
    rw [usub_eq (by omega) (by omega)]
  generalize hS : E - (E - 8 * n) % 16 = S at *
  have hS16 : (S - 8 * n) % 16 = 0 := by omega
  -- the writes
  obtain ⟨s2, e2, v2⟩ := write_auxv_ok auxv hm (show B + 104 ≤ S by omega)
    (show S ≤ B + USER_STACK_SIZE by rw [hU]; omega)
  have m2 := stack_mapped_of_vm v2 hm
  obtain ⟨s3, e3, v3⟩ := write_strings_ok envp s2 (S - 104) E m2 (by omega)
    (by rw [hU]; omega) (by omega) (by rw [hU]; omega)
  have m3 := stack_mapped_of_vm v3 m2
  obtain ⟨s4, e4, v4, _⟩ := WRITE_QWORD_ok 0 m3
    (show B + 8 ≤ S - 104 - 8 * envp.length by omega)
    (show S - 104 - 8 * envp.length ≤ B + USER_STACK_SIZE by rw [hU]; omega)
  have m4 := stack_mapped_of_vm v4 m3
  obtain ⟨s5, e5, v5⟩ := write_strings_ok argv s4 (S - 104 - 8 * envp.length - 8)
    (B + 32768 - 16 - strings_size argv) m4 (by omega) (by rw [hU]; omega) (by omega)
    (by rw [hU]; omega)
  have m5 := stack_mapped_of_vm v5 m4
  obtain ⟨s6, e6, v6, hmem⟩ := WRITE_QWORD_ok argv.length m5
    (show B + 8 ≤ S - 104 - 8 * envp.length - 8 - 8 * argv.length by omega)
    (show S - 104 - 8 * envp.length - 8 - 8 * argv.length ≤ B + USER_STACK_SIZE by
      rw [hU]; omega)
  have hsp : S - 104 - 8 * envp.length - 8 - 8 * argv.length - 8 = S - 8 * n := by omega
  rw [hsp] at e6 hmem
  refine ⟨S - 8 * n, s6, ?_, rfl, hS16, by omega, by omega, ?_⟩
  · unfold arch_sched_stack_setup
    rw [if_neg hproc]
    dsimp only
    rw [hmap]
    dsimp only
    rw [if_neg hB, hU, htop0, htop, harg, henv, hnn, hstart, e2]
    dsimp only
    rw [e3]
    dsimp only
    rw [e4]
    dsimp only
    rw [e5]
    dsimp only
    rw [e6]
  · intro i hi
    rw [hmem, if_pos ⟨rfl, by omega, by omega⟩]
    have : S - 8 * n + i - (S - 8 * n) = i := by omega
    rw [this, Nat.mod_eq_of_lt (by omega)]

theorem arch_sched_stack_setup_pointer_witness :
    ∃ sp s', arch_sched_stack_setup sched_boot_state 0x5000 [[0x61]] []
        { entry := 0x401000, phdr := 0x400040, phent := 56, phnum := 9 } = .ok (sp, s') ∧
      sp = 0x1000 + USER_STACK_SIZE - 16 - strings_size [[0x61]] - strings_size [] -
          (0x1000 + USER_STACK_SIZE - 16 - strings_size [[0x61]] - strings_size [] -
            8 * (15 + ([] : List (List Nat)).length + [[0x61]].length)) % 16 -
          8 * (15 + ([] : List (List Nat)).length + [[0x61]].length) ∧
      sp % 16 = 0 ∧
      sp + 8 * (15 + ([] : List (List Nat)).length + [[0x61]].length) ≤
        0x1000 + USER_STACK_SIZE - 16 - strings_size [[0x61]] - strings_size [] ∧
      0x1000 ≤ sp ∧
      (∀ i, i < 4 → s'.memory (sched_boot_state.processes 0x5000).address_space (sp + i) =
        (qword_bytes [[0x61]].length).getD i 0) :=
  arch_sched_stack_setup_pointer sched_boot_state 0x5000 0x1000
    (outcome_state (vm_map_anon sched_boot_state.vm 1 0 USER_STACK_SIZE
      { read := true, write := true, exec := false } VM_CACHE_STANDARD VM_FLAG_NONE)
      sched_boot_state.vm)
    [[0x61]] [] { entry := 0x401000, phdr := 0x400040, phent := 56, phnum := 9 }
    (by decide) (by decide) rfl (by decide) (by decide)

/-- The stack of scenario `argv = {"a"}`, `envp = {}`: the result is `0x8F60`,
the slot of `argc`. -/
theorem arch_sched_stack_setup_example :
    outcome_value (arch_sched_stack_setup sched_boot_state 0x5000 [[0x61]] []
      { entry := 0x401000, phdr := 0x400040, phent := 56, phnum := 9 }) = some 0x8F60 ∧
    read_bytes (outcome_state (arch_sched_stack_setup sched_boot_state 0x5000 [[0x61]] []
      { entry := 0x401000, phdr := 0x400040, phent := 56, phnum := 9 }) sched_boot_state)
      1 0x8F60 = qword_bytes 1 := by
  decide

/-- `WRITE_QWORD` writes four bytes: the upper four bytes of the slot keep the
contents they had. -/
theorem WRITE_QWORD_upper_bytes {s : sched_state} {as B stack : Nat} (VALUE : Nat)
    (hm : stack_mapped s as B) (h1 : B + 8 ≤ stack) (h2 : stack ≤ B + USER_STACK_SIZE) :
    ∃ s', WRITE_QWORD s as stack VALUE = .ok (stack - 8, s') ∧
      ∀ i, 4 ≤ i → i < 8 → s'.memory as (stack - 8 + i) = s.memory as (stack - 8 + i) := by
  obtain ⟨s', e, _, hmem⟩ := WRITE_QWORD_ok VALUE hm h1 h2
  refine ⟨s', e, ?_⟩
  intro i hi1 hi2
  rw [hmem, if_neg (by omega)]

/-- C16 fails on the code: with `auxv->entry = 0x100000000` the slot of the
value of `AUXV_ENTRY`, at `0x8FB8`, right above its tag at `0x8FB0`, holds 0
after `arch_sched_stack_setup`: `WRITE_QWORD` copies 4 of the 8 bytes of the
value. -/
theorem arch_sched_stack_setup_dword :
    outcome_value (arch_sched_stack_setup sched_boot_state 0x5000 [[0x61]] []
      { entry := 0x100000000, phdr := 0x400040, phent := 56, phnum := 9 }) = some 0x8F60 ∧
    read_bytes (outcome_state (arch_sched_stack_setup sched_boot_state 0x5000 [[0x61]] []
      { entry := 0x100000000, phdr := 0x400040, phent := 56, phnum := 9 }) sched_boot_state)
      1 0x8FB0 = qword_bytes AUXV_ENTRY ∧
    read_bytes (outcome_state (arch_sched_stack_setup sched_boot_state 0x5000 [[0x61]] []
      { entry := 0x100000000, phdr := 0x400040, phent := 56, phnum := 9 }) sched_boot_state)
      1 0x8FB8 = qword_bytes 0 ∧
    qword_of_bytes (read_bytes (outcome_state (arch_sched_stack_setup sched_boot_state 0x5000
      [[0x61]] [] { entry := 0x100000000, phdr := 0x400040, phent := 56, phnum := 9 })
      sched_boot_state) 1 0x8FB8) ≠ 0x100000000 := by
  decide

/-! # The order of the region list -/

/-- Replacing a region of a list with strictly ascending bases and pairwise
disjoint regions by sub-ranges of it with strictly ascending bases keeps the
bases strictly ascending. -/
theorem sorted_replace {l1 l2 ps : List vm_region_t} {r : vm_region_t}
    (h : (l1 ++ r :: l2).Pairwise (fun a b => a.base < b.base))
    (hd : (l1 ++ r :: l2).Pairwise region_disjoint)
    (hsub : ∀ q ∈ ps, r.base ≤ q.base ∧ q.base < r.base + r.length)
    (hps : ps.Pairwise (fun a b => a.base < b.base)) :
    (l1 ++ ps ++ l2).Pairwise (fun a b => a.base < b.base) := by
  rw [List.pairwise_append] at h hd
  obtain ⟨h1, h2, h3⟩ := h
  obtain ⟨_, d2, _⟩ := hd
  rw [List.pairwise_cons] at h2 d2
  obtain ⟨h21, h22⟩ := h2
  obtain ⟨d21, _⟩ := d2
  rw [List.append_assoc, List.pairwise_append]
  refine ⟨h1, ?_, ?_⟩
  · rw [List.pairwise_append]
    refine ⟨hps, h22, ?_⟩
    intro q hq b hb
    have hlt := h21 b hb
    have hdj := d21 b hb
    have hq2 := hsub q hq
    unfold region_disjoint at hdj
    omega
  · intro a ha b hb
    rcases List.mem_append.mp hb with hb | hb
    · have := h3 a ha r (List.mem_cons_self _ _)
      have := hsub b hb
      omega
    · exact h3 a ha b (List.mem_cons_of_mem _ hb)

/-- The pieces left of a region start inside it and have strictly ascending
bases. -/
theorem split_pieces_sorted {r succ : vm_region_t} {sb sl : Nat}
    (hrb : r.base ≤ sb) (hlt : sb < r.base + r.length) (hsb : succ.base = sb + sl) :
    (∀ q ∈ split_pieces r succ sb sl, r.base ≤ q.base ∧ q.base < r.base + r.length) ∧
    (split_pieces r succ sb sl).Pairwise (fun a b => a.base < b.base) := by
  unfold split_pieces
  constructor
  · intro q hq
    rcases List.mem_append.mp hq with hq | hq
    · split at hq
      · simp only [List.mem_singleton] at hq
        subst hq
        simp only
        omega
      · cases hq
    · split at hq
      · simp only [List.mem_singleton] at hq
        subst hq
        omega
      · cases hq
  · split <;> split <;> simp
    omega

/-- A list sorted by ascending base whose regions are pairwise disjoint and
have positive lengths has strictly ascending bases. -/
theorem sorted_strict {l : List vm_region_t}
    (h : l.Pairwise (fun a b => a.base ≤ b.base)) (hd : l.Pairwise region_disjoint)
    (hne : ∀ r ∈ l, 0 < r.length) : l.Pairwise (fun a b => a.base < b.base) := by
  have := h.and hd
  refine this.imp_of_mem ?_
  intro a b ha hb hab
  obtain ⟨h1, h2⟩ := hab
  have := hne a ha
  have := hne b hb
  unfold region_disjoint at h2
  omega

/-- The outer loop of `vm_unmap` keeps the bases of the region list strictly
ascending: the pieces of a split region take its place, the successor directly
behind the truncated region. -/
theorem vm_unmap_loop_sorted (as A L : Nat) (hA : A % ARCH_PAGE_GRANULARITY = 0)
    (hL : L % ARCH_PAGE_GRANULARITY = 0) :
    ∀ (fuel : Nat) (s s' : vm_state) (sb : Nat),
      regions_disjoint (s.address_spaces as) → regions_aligned (s.address_spaces as) →
      regions_in_bounds (s.address_spaces as) →
      (s.address_spaces as).end_ < UINTPTR_SIZE → (s.address_spaces as).start ≤ A →
      A + L ≤ (s.address_spaces as).end_ →
      sb % ARCH_PAGE_GRANULARITY = 0 → A ≤ sb → sb ≤ A + L →
      (as ≠ s.g_vm_global_address_space ∨ s.g_free_regions ≠ []) →
      (s.address_spaces as).regions.Pairwise (fun a b => a.base < b.base) →
      vm_unmap_loop fuel s as A L sb = .ok s' →
      (s'.address_spaces as).regions.Pairwise (fun a b => a.base < b.base) := by
  have hp := page_pos
  intro fuel
  induction fuel with
  | zero =>
    intro s s' sb _ _ _ _ _ _ _ _ _ _ _ hrun
    simp [vm_unmap_loop] at hrun
  | succ n ih =>
    intro s s' sb hdis hal hin he hs hAL hsb hlo hhi hfree hsorted hrun
    by_cases hx : sb < A + L
    swap
    · rw [vm_unmap_loop_exit n s as A L sb (by omega) (by omega)] at hrun
      have e : s' = s := (Except.ok.inj hrun).symm
      subst e
      exact hsorted
    have hALal : (A + L) % ARCH_PAGE_GRANULARITY = 0 := by
      simp only [ARCH_PAGE_GRANULARITY] at *; omega
    cases haddr : addr_to_region (s.address_spaces as) sb with
    | none =>
      rw [vm_unmap_loop_gap n s as A L sb (by omega) hx hALal hsb haddr] at hrun
      exact ih s s' (sb + ARCH_PAGE_GRANULARITY)
        hdis hal hin he hs hAL (by simp only [ARCH_PAGE_GRANULARITY] at *; omega) (by omega)
        (by simp only [ARCH_PAGE_GRANULARITY] at *; omega) hfree hsorted hrun
    | some pr =>
      obtain ⟨i, r⟩ := pr
      obtain ⟨_, hget, hseg, _⟩ := addr_to_region_some haddr
      have hmem : r ∈ (s.address_spaces as).regions := List.get?_mem hget
      have hrin := hin r hmem
      have hral := hal r hmem
      have hrw : r.base + r.length < UINTPTR_SIZE := by omega
      have hrc : region_contains r sb := (address_in_segment_iff hrw).mp hseg
      unfold region_contains at hrc
      obtain ⟨s1, hs1, has1, hfr1, hg1, herr, hok⟩ := vm_unmap_loop_hit n s as A L sb i r hA hL hsb
        he hs hAL hlo hx hral.1 hral.2 hrw hrc haddr
      generalize hsl : min (r.base + r.length) (A + L) - sb = sl at hs1 herr hok
      have hslpos : 0 < sl := by omega
      have hsle : sb + sl ≤ r.base + r.length := by omega
      have hsle' : sb + sl ≤ A + L := by omega
      have hslal : sl % ARCH_PAGE_GRANULARITY = 0 := by
        simp only [ARCH_PAGE_GRANULARITY] at *; omega
      cases hsucc : vm_unmap_successor s1 as i r sb sl with
      | error e => rw [herr e hsucc] at hrun; cases hrun
      | ok pr2 =>
        obtain ⟨i1, s2⟩ := pr2
        rw [hok i1 s2 hsucc] at hrun
        have hget1 : (s1.address_spaces as).regions.get? i = some r := by rw [has1]; exact hget
        obtain ⟨D1, rc, hD1, hD1f, hregs3, hother3, hbnd3, hg3, hcut⟩ :=
          vm_unmap_hit hget1 hrw (by omega) hrc.1 hsucc
        simp only [has1, hg1, hfr1] at hregs3 hother3 hbnd3 hg3 hD1 hD1f hcut
        obtain ⟨hsplit, _⟩ := list_split_at hget
        generalize hpre : (s.address_spaces as).regions.take i = pre at hsplit hregs3
        generalize hpost : (s.address_spaces as).regions.drop (i + 1) = post at hsplit hregs3
        obtain ⟨hsb1, hsb2, hsb3, hsb4⟩ := successor_region_props rc r as sb sl hrw hsle
        obtain ⟨hpsub, hppair⟩ := @split_pieces_props r (successor_region rc r as sb sl) sb sl
          hrc.1 hsle hsb1 hsb2
        obtain ⟨hqsub, hqpair⟩ := @split_pieces_sorted r (successor_region rc r as sb sl) sb sl
          hrc.1 hrc.2 hsb1
        have hpal := @split_pieces_aligned r (successor_region rc r as sb sl) sb sl
          hsb1 hsb2 hral hsb hslal
        have hdis0 : (pre ++ r :: post).Pairwise region_disjoint := by
          have := hdis; unfold regions_disjoint at this; rw [hsplit] at this; exact this
        have hsorted0 : (pre ++ r :: post).Pairwise (fun a b => a.base < b.base) := by
          rw [← hsplit]; exact hsorted
        have hD0 : (if as = s.g_vm_global_address_space then D1 else []) = [] := by
          rcases hfree with h | h
          · rw [if_neg h]
          · rw [hD1f h]; exact ite_self _
        rw [hD0, List.nil_append] at hregs3
        generalize hs3 : vm_unmap_truncate s2 as i1 r sb = s3 at hrun hregs3 hother3 hbnd3 hg3 hcut
        have hsorted3 : (s3.address_spaces as).regions.Pairwise (fun a b => a.base < b.base) := by
          rw [hregs3]
          exact sorted_replace hsorted0 hdis0 hqsub hqpair
        by_cases hc : r.base + r.length > sb + sl
        · -- the region extends past the range: a successor is made and the loop ends
          have hend : sb + sl = A + L := by omega
          cases n with
          | zero => simp [vm_unmap_loop] at hrun
          | succ m =>
            rw [vm_unmap_loop_exit m s3 as A L (sb + sl) (by omega) (by omega)] at hrun
            have e : s' = s3 := (Except.ok.inj hrun).symm
            subst e
            exact hsorted3
        · -- the region ends within the range: it is truncated or deleted, the loop goes on
          obtain ⟨hD10, hfree3, hsame3⟩ := hcut hc
          have hdis3 : regions_disjoint (s3.address_spaces as) := by
            unfold regions_disjoint
            rw [hregs3]
            exact pairwise_replace hdis0 hpsub hppair
          have hmem3 : ∀ q ∈ (s3.address_spaces as).regions,
              q ∈ (s.address_spaces as).regions ∨
              q ∈ split_pieces r (successor_region rc r as sb sl) sb sl := by
            intro q hq
            rw [hregs3] at hq
            rw [hsplit]
            rcases List.mem_append.mp hq with hq | hq
            · rcases List.mem_append.mp hq with hq | hq
              · exact Or.inl (List.mem_append_left _ hq)
              · exact Or.inr hq
            · exact Or.inl (List.mem_append_right _ (List.mem_cons_of_mem _ hq))
          have hal3 : regions_aligned (s3.address_spaces as) := by
            intro q hq
            rcases hmem3 q hq with h | h
            · exact hal q h
            · exact hpal q h
          have hin3 : regions_in_bounds (s3.address_spaces as) := by
            intro q hq
            rw [(hbnd3 as).1, (hbnd3 as).2]
            rcases hmem3 q hq with h | h
            · exact hin q h
            · have := hpsub q h
              omega
          have hfree3' : as ≠ s3.g_vm_global_address_space ∨ s3.g_free_regions ≠ [] := by
            rw [hg3]
            rcases hfree with h | h
            · exact Or.inl h
            · exact Or.inr (hfree3 h)
          exact ih s3 s' (sb + sl) hdis3 hal3 hin3
            (by rw [(hbnd3 as).2]; exact he) (by rw [(hbnd3 as).1]; exact hs)
            (by rw [(hbnd3 as).2]; exact hAL)
            (by simp only [ARCH_PAGE_GRANULARITY] at *; omega) (by omega) (by omega)
            hfree3' hsorted3 hrun

/-- The region list after a returning `map_common` on an address space that
`region_alloc` leaves alone: unchanged on a NULL return, the new region in
front of the old list otherwise. -/
theorem map_common_regions {s s' : vm_state} {as hint len : Nat} {prot : vm_protection_t}
    {cache : Nat} {flags : vm_flags_t} {type : vm_region_type_t} {phys B : Nat}
    (hmap : map_common s as hint len prot cache flags type phys = .ok (B, s'))
    (hfree : as ≠ s.g_vm_global_address_space ∨ s.g_free_regions ≠ []) :
    (B = 0 → (s'.address_spaces as).regions = (s.address_spaces as).regions) ∧
    (B ≠ 0 → ∃ region : vm_region_t, region.base = B ∧ region.length = len ∧
      (s'.address_spaces as).regions = region :: (s.address_spaces as).regions) := by
  constructor
  · intro hB
    rcases map_common_cases hmap with h | ⟨region, s1, halloc, h⟩ | h
    · rw [h]
    · obtain ⟨_, _, _, hsame, _⟩ := region_alloc_frame halloc
      rw [h, ← hsame as hfree]
      simp [region_free]
    · exact absurd hB h
  · intro hB
    obtain ⟨_, _, _, region, s1, halloc, _, _, _, _, s2, hs2, hs'⟩ := map_common_inv hmap hB
    obtain ⟨_, _, _, hsame, _⟩ := region_alloc_frame halloc
    have h21 : s2.address_spaces = s1.address_spaces := by
      split at hs2
      · exact (region_map_frame hs2).1
      · cases hs2; rfl
    refine ⟨map_common_region region as type B len prot cache flags phys, rfl, rfl, ?_⟩
    rw [hs', set_regions_same, h21, hsame as hfree]

/-- A call that did not abort returned the state `state_of` names. -/
theorem state_of_eq {r : Except vm_abort_t vm_state} {s : vm_state}
    (h : aborted r = none) : r = .ok (state_of r s) := by
  cases r with
  | ok s' => rfl
  | error e => cases h

/-- C20, as the code has it: the region list of an address space is not kept
sorted by `vm_map_anon` / `vm_map_direct` (`map_common` at either type).  A
returning call links at the head of the list first the descriptor page region
`D` of `region_alloc`, on the global address space when the descriptor free
list is empty and on no other occasion, and then, when it does not return
NULL, the new region, whatever the bases: after a NULL return the list is `D`
and the old list, after a success the new region, `D` and the old list, and a
list sorted by ascending base before the call is sorted after it exactly when
no region linked has a base above a base behind it.  `vm_unmap` does keep the
order: it links a split successor directly behind the region it splits, so on
an address space that is not the global one or finds a descriptor on the free
list, and whose regions are pairwise disjoint, page-aligned, in bounds and of
positive length, a region list sorted by ascending base before `vm_unmap` is
sorted by ascending base after it. -/
theorem vm_regions_sorted (s : vm_state) (as : Nat)
    (hsorted : regions_sorted (s.address_spaces as)) :
    (∀ (hint len : Nat) (prot : vm_protection_t) (cache : Nat) (flags : vm_flags_t)
        (type : vm_region_type_t) (phys B : Nat) (s' : vm_state),
      map_common s as hint len prot cache flags type phys = .ok (B, s') →
      ∃ D : List vm_region_t,
        (D = [] ∨ (as = s.g_vm_global_address_space ∧ s.g_free_regions = [] ∧ ∃ A0,
          find_space (s.address_spaces s.g_vm_global_address_space) 0 ARCH_PAGE_GRANULARITY =
            some A0 ∧
          D = [descriptor_page_region s.g_vm_global_address_space A0])) ∧
        (as ≠ s.g_vm_global_address_space ∨ s.g_free_regions ≠ [] → D = []) ∧
        (B = 0 →
          (s'.address_spaces as).regions = D ++ (s.address_spaces as).regions ∧
          (regions_sorted (s'.address_spaces as) ↔
            ∀ d ∈ D, ∀ r ∈ (s.address_spaces as).regions, d.base ≤ r.base)) ∧
        (B ≠ 0 →
          (∃ region : vm_region_t, region.base = B ∧
            (s'.address_spaces as).regions = region :: (D ++ (s.address_spaces as).regions)) ∧
          (regions_sorted (s'.address_spaces as) ↔
            (∀ r ∈ D ++ (s.address_spaces as).regions, B ≤ r.base) ∧
            ∀ d ∈ D, ∀ r ∈ (s.address_spaces as).regions, d.base ≤ r.base))) ∧
    (as ≠ s.g_vm_global_address_space ∨ s.g_free_regions ≠ [] →
      regions_disjoint (s.address_spaces as) → regions_aligned (s.address_spaces as) →
      regions_in_bounds (s.address_spaces as) → regions_nonempty (s.address_spaces as) →
      (s.address_spaces as).end_ < UINTPTR_SIZE →
      ∀ (A L : Nat) (s' : vm_state), vm_unmap s as A L = .ok s' →
        regions_sorted (s'.address_spaces as)) := by
  have hDsorted : ∀ D : List vm_region_t, (D = [] ∨ ∃ d, D = [d]) →
      ((D ++ (s.address_spaces as).regions).Pairwise (fun a b => a.base ≤ b.base) ↔
        ∀ d ∈ D, ∀ r ∈ (s.address_spaces as).regions, d.base ≤ r.base) := by
    intro D hD
    rw [List.pairwise_append]
    constructor
    · exact fun h => h.2.2
    · intro h
      refine ⟨?_, hsorted, h⟩
      rcases hD with hD | ⟨d, hD⟩ <;> rw [hD] <;> simp
  constructor
  · intro hint len prot cache flags type phys B s' hmap
    have hkey : ∃ D : List vm_region_t,
        (D = [] ∨ (as = s.g_vm_global_address_space ∧ s.g_free_regions = [] ∧ ∃ A0,
          find_space (s.address_spaces s.g_vm_global_address_space) 0 ARCH_PAGE_GRANULARITY =
            some A0 ∧
          D = [descriptor_page_region s.g_vm_global_address_space A0])) ∧
        (B = 0 → (s'.address_spaces as).regions = D ++ (s.address_spaces as).regions) ∧
        (B ≠ 0 → ∃ region : vm_region_t, region.base = B ∧
          (s'.address_spaces as).regions = region :: (D ++ (s.address_spaces as).regions)) := by
      have hshape : ∀ {region : vm_region_t} {s1 : vm_state},
          region_alloc s false = .ok (region, s1) →
          ∃ D : List vm_region_t,
            (D = [] ∨ (as = s.g_vm_global_address_space ∧ s.g_free_regions = [] ∧ ∃ A0,
              find_space (s.address_spaces s.g_vm_global_address_space) 0
                ARCH_PAGE_GRANULARITY = some A0 ∧
              D = [descriptor_page_region s.g_vm_global_address_space A0])) ∧
            (s1.address_spaces as).regions = D ++ (s.address_spaces as).regions := by
        intro region s1 halloc
        obtain ⟨D0, hD0, _, hreg⟩ := region_alloc_regions halloc
        by_cases hg : as = s.g_vm_global_address_space
        · refine ⟨D0, ?_, ?_⟩
          · rcases hD0 with hD0 | ⟨hf, A0, hA0, hD0⟩
            · exact Or.inl hD0
            · exact Or.inr ⟨hg, hf, A0, hA0, hD0⟩
          · rw [hreg as, if_pos hg]
        · refine ⟨[], Or.inl rfl, ?_⟩
          rw [hreg as, if_neg hg]
      by_cases hB : B = 0
      · rcases map_common_cases hmap with h | ⟨region, s1, halloc, h⟩ | h
        · exact ⟨[], Or.inl rfl, fun _ => by rw [h]; rfl, fun h' => absurd hB h'⟩
        · obtain ⟨D, hD, hregs⟩ := hshape halloc
          refine ⟨D, hD, fun _ => ?_, fun h' => absurd hB h'⟩
          rw [h, ← hregs]
          rfl
        · exact absurd hB h
      · obtain ⟨_, _, _, region, s1, halloc, _, _, _, _, s2, hs2, hs'⟩ := map_common_inv hmap hB
        obtain ⟨D, hD, hregs⟩ := hshape halloc
        have h21 : s2.address_spaces = s1.address_spaces := by
          split at hs2
          · exact (region_map_frame hs2).1
          · cases hs2; rfl
        refine ⟨D, hD, fun h' => absurd h' hB, fun _ => ?_⟩
        refine ⟨map_common_region region as type B len prot cache flags phys, rfl, ?_⟩
        rw [hs', set_regions_same, h21, hregs]
    obtain ⟨D, hD, h0, h1⟩ := hkey
    have hD' : D = [] ∨ ∃ d, D = [d] := by
      rcases hD with hD | ⟨_, _, A0, _, hD⟩
      · exact Or.inl hD
      · exact Or.inr ⟨_, hD⟩
    refine ⟨D, hD, ?_, ?_, ?_⟩
    · intro hfree
      rcases hD with hD | ⟨hg, hf, _⟩
      · exact hD
      · rcases hfree with hfree | hfree
        · exact absurd hg hfree
        · exact absurd hf hfree
    · intro hB
      refine ⟨h0 hB, ?_⟩
      unfold regions_sorted
      rw [h0 hB]
      exact hDsorted D hD'
    · intro hB
      obtain ⟨region, hb, hregs⟩ := h1 hB
      refine ⟨⟨region, hb, hregs⟩, ?_⟩
      unfold regions_sorted
      rw [hregs, List.pairwise_cons, hb, hDsorted D hD']
  · intro hfree hdis hal hin hne he A L s' hrun
    by_cases hL0 : L = 0
    · unfold vm_unmap at hrun
      rw [if_pos hL0] at hrun
      cases hrun
      exact hsorted
    obtain ⟨hA, hL, hsib, hloop⟩ := vm_unmap_inv hrun hL0
    obtain ⟨hs, _, hAL⟩ := (segment_in_bounds_iff he).mp hsib
    have hstrict := vm_unmap_loop_sorted as A L hA hL _ s s' A hdis hal hin he hs hAL hA
      (Nat.le_refl _) (by omega) hfree (sorted_strict hsorted hdis hne) hloop
    unfold regions_sorted
    exact hstrict.imp (fun h => Nat.le_of_lt h)

theorem vm_regions_sorted_witness :
    (∃ D : List vm_region_t,
      (D = [] ∨ ((0 : Nat) = kernel_three_page_state.g_vm_global_address_space ∧
        kernel_three_page_state.g_free_regions = [] ∧ ∃ A0,
        find_space (kernel_three_page_state.address_spaces
          kernel_three_page_state.g_vm_global_address_space) 0 ARCH_PAGE_GRANULARITY = some A0 ∧
        D = [descriptor_page_region kernel_three_page_state.g_vm_global_address_space A0])) ∧
      ((0 : Nat) ≠ kernel_three_page_state.g_vm_global_address_space ∨
        kernel_three_page_state.g_free_regions ≠ [] → D = []) ∧
      ((0x5000 : Nat) = 0 →
        ((state_after (map_common kernel_three_page_state 0 0 0x1000 prot_rw VM_CACHE_STANDARD
            VM_FLAG_NONE .VM_REGION_TYPE_ANON 0) kernel_three_page_state).address_spaces
          0).regions = D ++ (kernel_three_page_state.address_spaces 0).regions ∧
        (regions_sorted ((state_after (map_common kernel_three_page_state 0 0 0x1000 prot_rw
            VM_CACHE_STANDARD VM_FLAG_NONE .VM_REGION_TYPE_ANON 0)
            kernel_three_page_state).address_spaces 0) ↔
          ∀ d ∈ D, ∀ r ∈ (kernel_three_page_state.address_spaces 0).regions,
            d.base ≤ r.base)) ∧
      ((0x5000 : Nat) ≠ 0 →
        (∃ region : vm_region_t, region.base = 0x5000 ∧
          ((state_after (map_common kernel_three_page_state 0 0 0x1000 prot_rw VM_CACHE_STANDARD
              VM_FLAG_NONE .VM_REGION_TYPE_ANON 0) kernel_three_page_state).address_spaces
            0).regions = region :: (D ++ (kernel_three_page_state.address_spaces 0).regions)) ∧
        (regions_sorted ((state_after (map_common kernel_three_page_state 0 0 0x1000 prot_rw
            VM_CACHE_STANDARD VM_FLAG_NONE .VM_REGION_TYPE_ANON 0)
            kernel_three_page_state).address_spaces 0) ↔
          (∀ r ∈ D ++ (kernel_three_page_state.address_spaces 0).regions, 0x5000 ≤ r.base) ∧
          ∀ d ∈ D, ∀ r ∈ (kernel_three_page_state.address_spaces 0).regions,
            d.base ≤ r.base))) ∧
    aborted (vm_unmap four_page_state 1 0x11000 0x2000) = none ∧
    regions_sorted ((state_of (vm_unmap four_page_state 1 0x11000 0x2000)
      four_page_state).address_spaces 1) :=
  ⟨(vm_regions_sorted kernel_three_page_state 0 (by decide)).1 0 0x1000 prot_rw
      VM_CACHE_STANDARD VM_FLAG_NONE .VM_REGION_TYPE_ANON 0 0x5000
      (state_after (map_common kernel_three_page_state 0 0 0x1000 prot_rw VM_CACHE_STANDARD
        VM_FLAG_NONE .VM_REGION_TYPE_ANON 0) kernel_three_page_state) rfl,
   by decide,
   (vm_regions_sorted four_page_state 1 (by decide)).2 (Or.inl (by decide)) (by decide)
    (by decide) (by decide) (by decide) (by decide) 0x11000 0x2000 _
    (state_of_eq (by decide))⟩

/-- The map of the witness, evaluated: on the global address space with an
empty descriptor free list the call returns `0x5000` and leaves the list
`[0x5000, 0x1000, 0x2000]`: the new region, the descriptor page region, the old
region. -/
theorem vm_regions_sorted_refill_example :
    returned (map_common kernel_three_page_state 0 0 0x1000 prot_rw VM_CACHE_STANDARD
      VM_FLAG_NONE .VM_REGION_TYPE_ANON 0) = some 0x5000 ∧
    ((state_after (map_common kernel_three_page_state 0 0 0x1000 prot_rw VM_CACHE_STANDARD
        VM_FLAG_NONE .VM_REGION_TYPE_ANON 0) kernel_three_page_state).address_spaces
      0).regions.map (fun r => r.base) = [0x5000, 0x1000, 0x2000] := by
  decide

/-- C20 as stated fails for a map: address space `1` holds the regions at
`0x10000` and `0x30000`, sorted by base; `vm_map_anon` FIXED at `0x20000`
succeeds and links the new region at the head of the list, in front of the
region at `0x10000`. -/
theorem vm_regions_sorted_counterexample :
    regions_sorted (two_region_state.address_spaces 1) ∧
    returned (vm_map_anon two_region_state 1 0x20000 0x1000 prot_rw VM_CACHE_STANDARD
      { fixed := true, zero := false, no_demand := false }) = some 0x20000 ∧
    ((state_after (vm_map_anon two_region_state 1 0x20000 0x1000 prot_rw VM_CACHE_STANDARD
        { fixed := true, zero := false, no_demand := false })
      two_region_state).address_spaces 1).regions.map (fun r => r.base) =
      [0x20000, 0x10000, 0x30000] ∧
    ¬ regions_sorted ((state_after (vm_map_anon two_region_state 1 0x20000 0x1000 prot_rw
        VM_CACHE_STANDARD { fixed := true, zero := false, no_demand := false })
      two_region_state).address_spaces 1) := by
  decide

/-! ## `find_space`: termination and first fit -/

/-- The starting address of `find_space` lies at or above the base of the
address space. -/
theorem find_space_start_ge (as : vm_address_space_t) (a len : Nat) :
    as.start ≤ find_space_start as a len := by
  unfold find_space_start
  split
  · exact Nat.le_refl _
  · rename_i h
    exact (not_not.mp h).1.1

/-- The result of `find_space`, specified through the test it applies. -/
theorem find_space_passes_spec (as : vm_address_space_t) (a len : Nat)
    (he : as.end_ < UINTPTR_SIZE) :
    ∃ res, find_space as a len = some res ∧
      ((res = 0 ∧ ∀ a', find_space_start as a len ≤ a' → ¬ passes_find_space as a' len) ∨
       (find_space_start as a len ≤ res ∧ passes_find_space as res len ∧
          ∀ a', find_space_start as a len ≤ a' → a' < res → ¬ passes_find_space as a' len)) :=
  find_space_loop_spec as len he (as.regions.length + 1) (find_space_start as a len)
    (find_space_start_ge as a len)
    (by have := regions_above_le as (find_space_start as a len); omega)

/-- C28: `find_space` terminates.  For every address space (its end a machine
address) with finitely many regions the loop, started by `find_space`, returns
within `number of regions + 1` iterations (one unit of fuel is one iteration),
because on every iteration that does not return the candidate address strictly
increases, to the end of the region found, and the number of regions ending
above the candidate drops.  Positive lengths and ends that do not overflow are
not needed: the loop only moves to a region end that lies above the
candidate. -/
theorem find_space_terminates (as : vm_address_space_t) (a len : Nat)
    (he : as.end_ < UINTPTR_SIZE) :
    (∃ res, find_space_loop (as.regions.length + 1) as (find_space_start as a len) len =
        some res ∧ find_space as a len = some res) ∧
    (∀ fuel a1 r, SEGMENT_IN_BOUNDS a1 len as.start as.end_ →
      as.regions.find?
        (fun region => decide (SEGMENT_INTERSECTS a1 len region.base region.length)) = some r →
      a1 < uadd r.base r.length ∧
      regions_above as (uadd r.base r.length) < regions_above as a1 ∧
      find_space_loop (fuel + 1) as a1 len =
        find_space_loop fuel as (uadd r.base r.length) len) := by
  constructor
  · obtain ⟨res, h, _⟩ := find_space_passes_spec as a len he
    exact ⟨res, h, h⟩
  · intro fuel a1 r hsib hfind
    have hint : SEGMENT_INTERSECTS a1 len r.base r.length := by
      have := List.find?_some hfind
      simpa using this
    refine ⟨hint.1, regions_above_lt as a1 r (List.mem_of_find?_eq_some hfind) hint.1, ?_⟩
    conv_lhs => unfold find_space_loop
    rw [if_neg (not_not.mpr hsib), hfind]

theorem find_space_terminates_witness :
    ∃ res, find_space_loop ((crowded_space.regions.length) + 1) crowded_space
        (find_space_start crowded_space 0x2000 0x1000) 0x1000 = some res ∧
      find_space crowded_space 0x2000 0x1000 = some res :=
  (find_space_terminates crowded_space 0x2000 0x1000 (by decide)).1

/-- C25, as the code has it: `find_space` is a first-fit search independent of
the list order.  For every address space (its end a machine address), every
address `a` and length `len`, with `a0 = a` when `[a, a + len)` is within
bounds and `a0 = start` otherwise: `find_space` returns, and it returns either
the lowest address `a' >= a0` whose range passes the test of the code
(`SEGMENT_IN_BOUNDS`, and `SEGMENT_INTERSECTS` with no region), or `0` when no
address at or above `a0` passes.  The result `0` means that no such address
exists whenever the address space does not start at 0; on an address space that
starts at 0 the lowest passing address can be 0 itself.  The result is the same
for every order of the region list.  For a positive length and regions whose
ends do not overflow, passing the test is being a gap within the bounds. -/
theorem find_space_first_fit (as : vm_address_space_t) (a len : Nat)
    (he : as.end_ < UINTPTR_SIZE) :
    ∃ res, find_space as a len = some res ∧
      ((res = 0 ∧ ∀ a', find_space_start as a len ≤ a' → ¬ passes_find_space as a' len) ∨
       (find_space_start as a len ≤ res ∧ passes_find_space as res len ∧
          ∀ a', find_space_start as a len ≤ a' → a' < res → ¬ passes_find_space as a' len)) ∧
      (as.start ≠ 0 →
        (res = 0 ↔ ∀ a', find_space_start as a len ≤ a' → ¬ passes_find_space as a' len)) ∧
      (∀ regions : List vm_region_t, regions.Perm as.regions →
        find_space { as with regions := regions } a len = some res) ∧
      (0 < len → (∀ r ∈ as.regions, r.base + r.length < UINTPTR_SIZE) →
        ∀ a', passes_find_space as a' len ↔ range_free as a' len) := by
  obtain ⟨res, hres, hspec⟩ := find_space_passes_spec as a len he
  refine ⟨res, hres, hspec, ?_, ?_, ?_⟩
  · intro hs0
    constructor
    · intro h0
      rcases hspec with ⟨_, hnone⟩ | ⟨hle, _, _⟩
      · exact hnone
      · have := find_space_start_ge as a len
        omega
    · intro hnone
      rcases hspec with ⟨h0, _⟩ | ⟨hle, hpass, _⟩
      · exact h0
      · exact absurd hpass (hnone res hle)
  · intro regions hperm
    obtain ⟨res', hres', hspec'⟩ :=
      find_space_passes_spec { as with regions := regions } a len he
    have hstart : find_space_start { as with regions := regions } a len =
        find_space_start as a len := rfl
    have hpass : ∀ a', passes_find_space { as with regions := regions } a' len ↔
        passes_find_space as a' len := by
      intro a'
      unfold passes_find_space
      simp only [hperm.mem_iff]
    rw [hstart] at hspec'
    simp only [hpass] at hspec'
    rw [hres']
    congr 1
    rcases hspec with ⟨h0, hnone⟩ | ⟨hle, hp, hmin⟩
    · rcases hspec' with ⟨h0', _⟩ | ⟨hle', hp', _⟩
      · rw [h0, h0']
      · exact absurd hp' (hnone res' hle')
    · rcases hspec' with ⟨_, hnone'⟩ | ⟨hle', hp', hmin'⟩
      · exact absurd hp (hnone' res hle)
      · have h1 : ¬ res < res' := fun h => hmin' res hle h hp
        have h2 : ¬ res' < res := fun h => hmin res' hle' h hp'
        omega
  · intro hlen hwrap a'
    exact passes_find_space_iff as a' len he hlen hwrap

theorem find_space_first_fit_witness :
    ∃ res, find_space crowded_space 0x2000 0x1000 = some res ∧
      ((res = 0 ∧ ∀ a', find_space_start crowded_space 0x2000 0x1000 ≤ a' →
          ¬ passes_find_space crowded_space a' 0x1000) ∨
       (find_space_start crowded_space 0x2000 0x1000 ≤ res ∧
          passes_find_space crowded_space res 0x1000 ∧
          ∀ a', find_space_start crowded_space 0x2000 0x1000 ≤ a' → a' < res →
            ¬ passes_find_space crowded_space a' 0x1000)) := by
  obtain ⟨res, h1, h2, _⟩ := find_space_first_fit crowded_space 0x2000 0x1000 (by decide)
  exact ⟨res, h1, h2⟩

/-- C25 as stated fails on an address space that starts at 0: in `[0, 0x2000)`
with the upper page reserved, the page at 0 is within bounds and intersects no
region, so a lowest fitting address exists (it is 0), and `find_space` returns
0, the value it returns when nothing fits. -/
theorem find_space_first_fit_counterexample :
    regions_aligned zero_start_space ∧ regions_in_bounds zero_start_space ∧
    range_free zero_start_space 0 0x1000 ∧ passes_find_space zero_start_space 0 0x1000 ∧
    find_space zero_start_space 0 0x1000 = some 0 := by
  decide

/-! ## The assertions of `map_common` -/

/-- The end of a page-aligned region is page-aligned, also as a machine
address. -/
theorem regions_aligned_end {as : vm_address_space_t} (hal : regions_aligned as) :
    ∀ r ∈ as.regions, uadd r.base r.length % ARCH_PAGE_GRANULARITY = 0 := by
  intro r hr
  have := hal r hr
  unfold uadd
  simp only [ARCH_PAGE_GRANULARITY, UINTPTR_SIZE] at *
  omega

/-- The regions of an address space stay page-aligned over `region_alloc` when
the base of the address space is page-aligned. -/
theorem region_alloc_aligned {s s1 : vm_state} {b : Bool} {rc : vm_region_t} (as : Nat)
    (h : region_alloc s b = .ok (rc, s1))
    (hs : (s.address_spaces as).start % ARCH_PAGE_GRANULARITY = 0)
    (hal : regions_aligned (s.address_spaces as)) :
    regions_aligned (s1.address_spaces as) := by
  obtain ⟨D, hD, _, hregs⟩ := region_alloc_regions h
  intro r hr
  rw [hregs as] at hr
  rcases List.mem_append.mp hr with hr | hr
  · by_cases hg : as = s.g_vm_global_address_space
    · rw [if_pos hg] at hr
      rcases hD with hD | ⟨_, A0, hfs, hD⟩
      · rw [hD] at hr; cases hr
      · rw [hD, List.mem_singleton] at hr
        subst hr
        rw [← hg] at hfs
        have hA0 := find_space_aligned _ _ _ _ hs (by decide) (regions_aligned_end hal) hfs
        exact ⟨hA0, by simp [descriptor_page_region, ARCH_PAGE_GRANULARITY]⟩
    · rw [if_neg hg] at hr; cases hr
  · exact hal r hr

/-- The assertion of `region_alloc` cannot fail: after a refill the free list
holds the remaining slots of the descriptor page. -/
theorem region_alloc_no_assert (s : vm_state) (b : Bool) :
    aborted (region_alloc s b) ≠ some .assertion_failed := by
  unfold region_alloc
  cases hf : s.g_free_regions with
  | cons r rest => simp [hf, aborted]
  | nil =>
    simp only [List.isEmpty_nil, if_true]
    unfold region_alloc_refill
    cases hp : pmm_alloc_page s.pmm PMM_ZONE_NORMAL { zero := true } with
    | none => simp [aborted]
    | some pr =>
      obtain ⟨page, pmm⟩ := pr
      simp only
      cases hfs : find_space (s.address_spaces s.g_vm_global_address_space) 0
          ARCH_PAGE_GRANULARITY with
      | none => simp [aborted]
      | some A0 =>
        simp only
        have : List.replicate (ARCH_PAGE_GRANULARITY / SIZEOF_VM_REGION - 1) zeroed_region =
            zeroed_region :: List.replicate 62 zeroed_region := by decide
        rw [this]
        simp [aborted]

/-- The loop of `region_map` fails no assertion. -/
theorem region_map_loop_no_assert (region : vm_region_t) (address length : Nat) :
    ∀ (fuel : Nat) (s : vm_state) (i : Nat),
      aborted (region_map_loop fuel s region address length i) ≠ some .assertion_failed := by
  intro fuel
  induction fuel with
  | zero =>
    intro s i
    unfold region_map_loop
    split <;> simp [aborted]
  | succ n ih =>
    intro s i
    unfold region_map_loop
    split
    · simp only
      split
      · split
        · simp [aborted]
        · exact ih _ _
      · exact ih _ _
    · simp [aborted]

/-- C27: the assertions in `map_common` cannot fail.  For every address space
whose start is page-aligned and whose regions all have a page-aligned base and
length, and for every hint, flag set and page-multiple length that `map_common`
does not reject: whenever `find_space`, called as `map_common` calls it (after
`region_alloc`, with the hint rounded up to a page), returns a non-zero
address, that address is page-aligned and its range lies within the bounds of
the address space, so both `ASSERT`s before the region is filled in hold.  When
the end of the address space is a machine address, no other assertion on the
path (in `region_alloc`, in `region_map`) fails either. -/
theorem map_common_asserts_hold (s : vm_state) (as hint len : Nat) (prot : vm_protection_t)
    (cache : Nat) (flags : vm_flags_t) (type : vm_region_type_t) (phys : Nat)
    (hs : (s.address_spaces as).start % ARCH_PAGE_GRANULARITY = 0)
    (hal : regions_aligned (s.address_spaces as)) :
    (∀ region s1 B, len % ARCH_PAGE_GRANULARITY = 0 →
      region_alloc s false = .ok (region, s1) →
      find_space (s1.address_spaces as) (rounded_hint hint) len = some B → B ≠ 0 →
      SEGMENT_IN_BOUNDS B len (s1.address_spaces as).start (s1.address_spaces as).end_ ∧
      (B % ARCH_PAGE_GRANULARITY = 0 ∧ len % ARCH_PAGE_GRANULARITY = 0)) ∧
    ((s.address_spaces as).end_ < UINTPTR_SIZE →
      aborted (map_common s as hint len prot cache flags type phys) ≠
        some .assertion_failed) := by
  have key : ∀ region s1 B, len % ARCH_PAGE_GRANULARITY = 0 →
      region_alloc s false = .ok (region, s1) →
      find_space (s1.address_spaces as) (rounded_hint hint) len = some B → B ≠ 0 →
      SEGMENT_IN_BOUNDS B len (s1.address_spaces as).start (s1.address_spaces as).end_ ∧
      (B % ARCH_PAGE_GRANULARITY = 0 ∧ len % ARCH_PAGE_GRANULARITY = 0) := by
    intro region s1 B hlen halloc hfind hB
    obtain ⟨_, _, hbnd, _, _⟩ := region_alloc_frame halloc
    have hal1 := region_alloc_aligned as halloc hs hal
    refine ⟨find_space_in_bounds hfind hB, ?_, hlen⟩
    exact find_space_aligned _ _ _ _ (by rw [(hbnd as).1]; exact hs) (rounded_hint_aligned hint)
      (regions_aligned_end hal1) hfind
  refine ⟨key, ?_⟩
  intro he
  by_cases hl : len = 0 ∨ len % ARCH_PAGE_GRANULARITY ≠ 0
  · unfold map_common
    rw [if_pos hl]
    simp [aborted]
  have hl0 : len ≠ 0 := fun h => hl (Or.inl h)
  have hlm : len % ARCH_PAGE_GRANULARITY = 0 := by
    by_contra h; exact hl (Or.inr h)
  by_cases hh : hint % ARCH_PAGE_GRANULARITY ≠ 0 ∧ flags.fixed = true
  · unfold map_common
    rw [if_neg hl, if_pos hh]
    simp [aborted]
  cases halloc : region_alloc s false with
  | error e =>
    have hna := region_alloc_no_assert s false
    rw [halloc] at hna
    unfold map_common
    rw [if_neg hl, if_neg hh]
    simp only [halloc]
    exact hna
  | ok pr =>
    obtain ⟨region, s1⟩ := pr
    cases hfind : find_space (s1.address_spaces as) (rounded_hint hint) len with
    | none =>
      unfold map_common
      rw [if_neg hl, if_neg hh]
      simp [halloc, hfind, aborted]
    | some B =>
      rw [map_common_placed hl0 hlm hh halloc hfind]
      by_cases hB : B = 0 ∨ (hint ≠ B ∧ flags.fixed = true)
      · rw [if_pos hB]
        simp [aborted]
      · rw [if_neg hB]
        have hB0 : B ≠ 0 := fun h => hB (Or.inl h)
        obtain ⟨hsib, hBal, _⟩ := key region s1 B hlm halloc hfind hB0
        rw [if_neg (not_not.mpr hsib), if_neg (by simp [hBal, hlm])]
        cases hnd : flags.no_demand with
        | false => simp [aborted]
        | true =>
          simp only [if_true]
          obtain ⟨_, _, hbnd, _, _⟩ := region_alloc_frame halloc
          have he1 : (s1.address_spaces as).end_ < UINTPTR_SIZE := by
            rw [(hbnd as).2]; exact he
          have hsum := (segment_in_bounds_iff he1).mp hsib
          have hmap : aborted (region_map s1
              (map_common_region region as type B len prot cache flags phys) B len) ≠
              some .assertion_failed := by
            unfold region_map
            rw [if_neg (by simp [hBal, hlm])]
            rw [if_neg (by
              rw [not_not, map_common_region_base, uadd_eq (by omega)]
              right; omega)]
            exact region_map_loop_no_assert _ _ _ _ _ _
          cases hrm : region_map s1
              (map_common_region region as type B len prot cache flags phys) B len with
          | error e =>
            rw [hrm] at hmap
            simpa [aborted] using hmap
          | ok s2 => simp [aborted]

theorem map_common_asserts_hold_witness :
    aborted (map_common boot_state 0 0x10001 0x2000 prot_rw VM_CACHE_STANDARD
      { fixed := false, zero := false, no_demand := true } .VM_REGION_TYPE_ANON 0) ≠
        some .assertion_failed :=
  (map_common_asserts_hold boot_state 0 0x10001 0x2000 prot_rw VM_CACHE_STANDARD
    { fixed := false, zero := false, no_demand := true } .VM_REGION_TYPE_ANON 0
    (by decide) (by decide)).2 (by decide)

/-! ## The successor region of a split -/

/-- C21, the code at the failing input: address space `1` holds the two-page
ANON region at `0x10000` mapped with ZERO (`back_zeroed` set);
`vm_unmap(as 1, 0x10000, 1 page)` leaves the successor `[0x11000, 0x12000)`
with the type and protection of the original, and with `back_zeroed` clear: the
value the recycled descriptor held, since the ANON case of the `switch` assigns
nothing. -/
theorem vm_unmap_successor_anon_data :
    (zero_backed_state.address_spaces 1).regions.map
      (fun r => (r.base, r.length, r.type, r.protection, r.type_data.anon_back_zeroed)) =
      [(0x10000, 0x2000, .VM_REGION_TYPE_ANON, prot_rw, true)] ∧
    aborted (vm_unmap zero_backed_state 1 0x10000 0x1000) = none ∧
    ((state_of (vm_unmap zero_backed_state 1 0x10000 0x1000)
        zero_backed_state).address_spaces 1).regions.map
      (fun r => (r.base, r.length, r.type, r.protection, r.type_data.anon_back_zeroed)) =
      [(0x11000, 0x1000, .VM_REGION_TYPE_ANON, prot_rw, false)] := by
  decide

/-- C26, the code at the failing input: the global address space holds the
three-page DIRECT region at `0x10000` with physical base `0x300000`, so
`0x12000` translates to `0x302000`.  After `vm_unmap(global, 0x10000, 1 page)`
the successor `[0x11000, 0x13000)` still carries the physical base `0x300000`:
`0x12000` now translates to `0x301000`, and that is the frame a fault on
`0x12000` installs. -/
theorem vm_unmap_successor_direct_translation :
    direct_translation (direct_mapped_state.address_spaces 0) 0x12000 = some 0x302000 ∧
    aborted (vm_unmap direct_mapped_state 0 0x10000 0x1000) = none ∧
    direct_translation ((state_of (vm_unmap direct_mapped_state 0 0x10000 0x1000)
      direct_mapped_state).address_spaces 0) 0x12000 = some 0x301000 ∧
    ((state_after (vm_fault (state_of (vm_unmap direct_mapped_state 0 0x10000 0x1000)
        direct_mapped_state) 0x12000 .VM_FAULT_NOT_PRESENT)
      direct_mapped_state).page_tables 0 0x12000).map (fun leaf => leaf.physical_address) =
      some 0x301000 := by
  decide

/-- C29, the code at the failing input `argv = {"a", "b"}`, `envp = {"x", "y"}`:
`arch_sched_stack_setup` returns `sp = 0x8F50`, the slot of `argc = 2`.  The
copies of `"a"`, `"b"` are at `0x8FEC`, `0x8FEE` and those of `"x"`, `"y"` at
`0x8FE8`, `0x8FEA`.  The slot at `sp + 8` is written with the address of the
copy of `argv[1]`, the slot at `sp + 16` with that of `argv[0]`; the slot at
`sp + 24` holds NULL; the slots at `sp + 32` and `sp + 40` are written with the
addresses of the copies of `envp[1]` and `envp[0]`: both pointer arrays are in
reverse order, since the loops run forward while the stack grows down. -/
theorem arch_sched_stack_setup_order :
    outcome_value (arch_sched_stack_setup sched_boot_state 0x5000 [[0x61], [0x62]]
      [[0x78], [0x79]] { entry := 0x401000, phdr := 0x400040, phent := 56, phnum := 9 }) =
      some 0x8F50 ∧
    [0x8F50, 0x8F58, 0x8F60, 0x8F68, 0x8F70, 0x8F78, 0x8F80].map (fun slot =>
      qword_of_bytes (read_bytes (outcome_state (arch_sched_stack_setup sched_boot_state 0x5000
        [[0x61], [0x62]] [[0x78], [0x79]]
        { entry := 0x401000, phdr := 0x400040, phent := 56, phnum := 9 }) sched_boot_state)
        1 slot)) = [2, 0x8FEE, 0x8FEC, 0, 0x8FEA, 0x8FE8, 0] ∧
    [0x8FE8, 0x8FE9, 0x8FEA, 0x8FEB, 0x8FEC, 0x8FED, 0x8FEE, 0x8FEF].map (fun address =>
      (outcome_state (arch_sched_stack_setup sched_boot_state 0x5000
        [[0x61], [0x62]] [[0x78], [0x79]]
        { entry := 0x401000, phdr := 0x400040, phent := 56, phnum := 9 })
        sched_boot_state).memory 1 address) = [0x78, 0, 0x79, 0, 0x61, 0, 0x62, 0] := by
  decide

/-! # The lock order of `vm.c` -/

theorem held_after_append (lock : lock_t) (t1 t2 : List lock_event_t) :
    ∀ held, held_after lock held (t1 ++ t2) = held_after lock (held_after lock held t1) t2 := by
  induction t1 with
  | nil => intro held; rfl
  | cons e rest ih =>
    intro held
    cases e with
    | spinlock_acquire l => simp only [List.cons_append, held_after]; exact ih _
    | spinlock_release l => simp only [List.cons_append, held_after]; exact ih _

theorem lock_is_leaf_append (lock : lock_t) (t1 t2 : List lock_event_t) :
    ∀ held, lock_is_leaf lock held (t1 ++ t2) =
      (lock_is_leaf lock held t1 && lock_is_leaf lock (held_after lock held t1) t2) := by
  induction t1 with
  | nil => intro held; simp [lock_is_leaf, held_after]
  | cons e rest ih =>
    intro held
    cases e with
    | spinlock_acquire l =>
      simp only [List.cons_append, lock_is_leaf, held_after]
      by_cases hl : l = lock
      · simp only [hl, if_true]; exact ih _
      · simp only [hl, if_false]
        have := ih held
        rw [Bool.and_assoc, ← this]
        rfl
    | spinlock_release l =>
      simp only [List.cons_append, lock_is_leaf, held_after]
      exact ih _

/-- Two traces that each leave `lock` a leaf and released do so together. -/
theorem leaf_closed_append {lock : lock_t} {t1 t2 : List lock_event_t}
    (h1 : lock_is_leaf lock false t1 = true ∧ held_after lock false t1 = false)
    (h2 : lock_is_leaf lock false t2 = true ∧ held_after lock false t2 = false) :
    lock_is_leaf lock false (t1 ++ t2) = true ∧ held_after lock false (t1 ++ t2) = false := by
  rw [lock_is_leaf_append, held_after_append, h1.1, h1.2, h2.1, h2.2]
  exact ⟨rfl, rfl⟩

theorem leaf_closed_nil (lock : lock_t) :
    lock_is_leaf lock false [] = true ∧ held_after lock false [] = false := ⟨rfl, rfl⟩

/-- The loop of `region_map` only takes the mutex of a PMM zone. -/
theorem region_map_loop_locks_closed (region : vm_region_t) (address length : Nat) :
    ∀ (fuel : Nat) (s : vm_state) (i : Nat),
      lock_is_leaf .g_free_regions_lock false
          (region_map_loop_locks fuel s region address length i) = true ∧
        held_after .g_free_regions_lock false
          (region_map_loop_locks fuel s region address length i) = false := by
  intro fuel
  induction fuel with
  | zero => intro s i; exact leaf_closed_nil _
  | succ n ih =>
    intro s i
    unfold region_map_loop_locks
    split
    · split
      · apply leaf_closed_append
        · exact ⟨by decide, by decide⟩
        · split
          · exact leaf_closed_nil _
          · exact ih _ _
      · exact ih _ _
    · exact leaf_closed_nil _

theorem region_map_locks_closed (s : vm_state) (region : vm_region_t) (address length : Nat) :
    lock_is_leaf .g_free_regions_lock false (region_map_locks s region address length) = true ∧
      held_after .g_free_regions_lock false (region_map_locks s region address length) =
        false := by
  unfold region_map_locks
  split
  · exact leaf_closed_nil _
  · split
    · exact leaf_closed_nil _
    · exact region_map_loop_locks_closed _ _ _ _ _ _

/-- With a descriptor on the free list `region_alloc` takes and releases
`g_free_regions_lock` and nothing else. -/
theorem region_alloc_locks_of_cons {s : vm_state} (b : Bool) (h : s.g_free_regions ≠ []) :
    region_alloc_locks s b =
      [.spinlock_acquire .g_free_regions_lock, .spinlock_release .g_free_regions_lock] := by
  cases hf : s.g_free_regions with
  | nil => exact absurd hf h
  | cons r rest =>
    unfold region_alloc_locks
    rw [region_alloc_of_cons hf]
    simp [hf]

/-- With an empty free list `region_alloc` takes the mutex of zone NORMAL, and
the lock of the global address space unless `global_lock_acquired`, while it
holds `g_free_regions_lock`. -/
theorem region_alloc_locks_of_nil {s : vm_state} (b : Bool) (h : s.g_free_regions = []) :
    ∃ rest, region_alloc_locks s b =
      [.spinlock_acquire .g_free_regions_lock,
       .spinlock_acquire (.pmm_zone_lock PMM_ZONE_NORMAL),
       .spinlock_release (.pmm_zone_lock PMM_ZONE_NORMAL)] ++
      (if b = false then
        [.spinlock_acquire (.address_space_lock s.g_vm_global_address_space)] else []) ++
      rest := by
  unfold region_alloc_locks
  simp only [h, List.isEmpty_nil, if_true, pmm_alloc_page_locks]
  cases b <;> simp

theorem region_alloc_locks_not_leaf {s : vm_state} (b : Bool) (h : s.g_free_regions = []) :
    lock_is_leaf .g_free_regions_lock false (region_alloc_locks s b) = false := by
  obtain ⟨rest, hr⟩ := region_alloc_locks_of_nil (s := s) b h
  rw [hr]
  simp [lock_is_leaf]

/-- With a descriptor on the free list, `g_free_regions_lock` is a leaf on the
path of `map_common`, and released at its end. -/
theorem map_common_locks_closed (s : vm_state) (as hint len : Nat) (prot : vm_protection_t)
    (cache : Nat) (flags : vm_flags_t) (type : vm_region_type_t) (phys : Nat)
    (h : s.g_free_regions ≠ []) :
    lock_is_leaf .g_free_regions_lock false
        (map_common_locks s as hint len prot cache flags type phys) = true ∧
      held_after .g_free_regions_lock false
        (map_common_locks s as hint len prot cache flags type phys) = false := by
  unfold map_common_locks
  split
  · exact leaf_closed_nil _
  split
  · exact leaf_closed_nil _
  rw [region_alloc_locks_of_cons false h]
  apply leaf_closed_append ⟨by decide, by decide⟩
  split
  · exact leaf_closed_nil _
  · apply @leaf_closed_append _ [_] _ ⟨by simp [lock_is_leaf], by simp [held_after]⟩
    split
    · exact leaf_closed_nil _
    · split
      · exact ⟨by simp [region_free_locks, lock_is_leaf], by simp [region_free_locks, held_after]⟩
      · split
        · exact leaf_closed_nil _
        · split
          · exact leaf_closed_nil _
          · simp only
            split
            · apply leaf_closed_append (region_map_locks_closed _ _ _ _)
              split
              · exact leaf_closed_nil _
              · exact ⟨by simp [lock_is_leaf], by simp [held_after]⟩
            · exact ⟨by simp [lock_is_leaf], by simp [held_after]⟩

theorem vm_unmap_loop_locks_exit (fuel : Nat) (s : vm_state) (as A L sb : Nat)
    (hAL : A + L < UINTPTR_SIZE) (h : A + L ≤ sb) :
    vm_unmap_loop_locks fuel s as A L sb = [] := by
  cases fuel with
  | zero => rfl
  | succ n =>
    unfold vm_unmap_loop_locks
    rw [uadd_eq hAL, if_pos (by omega)]

theorem vm_unmap_loop_locks_gap (fuel : Nat) (s : vm_state) (as A L sb : Nat)
    (hAL : A + L < UINTPTR_SIZE) (h : sb < A + L)
    (hL : (A + L) % ARCH_PAGE_GRANULARITY = 0) (hsb : sb % ARCH_PAGE_GRANULARITY = 0)
    (hnone : addr_to_region (s.address_spaces as) sb = none) :
    vm_unmap_loop_locks (fuel + 1) s as A L sb =
      vm_unmap_loop_locks fuel s as A L (sb + ARCH_PAGE_GRANULARITY) := by
  conv_lhs => rw [vm_unmap_loop_locks]
  rw [uadd_eq hAL, if_neg (by omega)]
  simp only [hnone]
  rw [uadd_eq (by simp only [ARCH_PAGE_GRANULARITY] at *; omega)]

/-- The lock operations of one iteration of the outer loop of `vm_unmap` that
finds a region `r` at `sb`. -/
theorem vm_unmap_loop_locks_hit (fuel : Nat) (s s1 : vm_state) (as A L sb i : Nat)
    (r : vm_region_t)
    (hA : A % ARCH_PAGE_GRANULARITY = 0) (hL : L % ARCH_PAGE_GRANULARITY = 0)
    (hsb : sb % ARCH_PAGE_GRANULARITY = 0)
    (he : (s.address_spaces as).end_ < UINTPTR_SIZE)
    (hs : (s.address_spaces as).start ≤ A) (hAL : A + L ≤ (s.address_spaces as).end_)
    (hlo : A ≤ sb) (hhi : sb < A + L)
    (hrb : r.base % ARCH_PAGE_GRANULARITY = 0) (hrl : r.length % ARCH_PAGE_GRANULARITY = 0)
    (hrw : r.base + r.length < UINTPTR_SIZE)
    (hrc : r.base ≤ sb ∧ sb < r.base + r.length)
    (haddr : addr_to_region (s.address_spaces as) sb = some (i, r))
    (hs1 : region_unmap s r sb (min (r.base + r.length) (A + L) - sb) = .ok s1) :
    (∀ e, vm_unmap_successor s1 as i r sb (min (r.base + r.length) (A + L) - sb) = .error e →
      vm_unmap_loop_locks (fuel + 1) s as A L sb =
        vm_unmap_successor_locks s1 as r sb (min (r.base + r.length) (A + L) - sb)) ∧
    (∀ i1 s2,
      vm_unmap_successor s1 as i r sb (min (r.base + r.length) (A + L) - sb) = .ok (i1, s2) →
      vm_unmap_loop_locks (fuel + 1) s as A L sb =
        vm_unmap_successor_locks s1 as r sb (min (r.base + r.length) (A + L) - sb) ++
        (vm_unmap_truncate_locks r sb ++
          vm_unmap_loop_locks fuel (vm_unmap_truncate s2 as i1 r sb) as A L
            (sb + (min (r.base + r.length) (A + L) - sb)))) := by
  have hext := vm_unmap_extend_first r A L sb hrw (by omega) hrb hrl hA hL hsb hrc ⟨hlo, hhi⟩
  have hslal : (min (r.base + r.length) (A + L) - sb) % ARCH_PAGE_GRANULARITY = 0 := by
    simp only [ARCH_PAGE_GRANULARITY] at *; omega
  have hsib : SEGMENT_IN_BOUNDS sb (min (r.base + r.length) (A + L) - sb)
      (s.address_spaces as).start (s.address_spaces as).end_ :=
    (segment_in_bounds_iff he).mpr (by omega)
  constructor
  · intro e hres
    conv_lhs => rw [vm_unmap_loop_locks]
    rw [uadd_eq (by omega), if_neg (by omega)]
    simp only [haddr, hext]
    rw [if_neg (not_not.mpr hsib), if_neg (by simp [hsb, hslal])]
    simp only [hs1, hres, List.append_nil]
  · intro i1 s2 hres
    conv_lhs => rw [vm_unmap_loop_locks]
    rw [uadd_eq (by omega), if_neg (by omega)]
    simp only [haddr, hext]
    rw [if_neg (not_not.mpr hsib), if_neg (by simp [hsb, hslal])]
    simp only [hs1, hres]
    rw [uadd_eq (by omega)]

/-- With a descriptor on the free list and page-aligned, in-bounds regions,
`g_free_regions_lock` is a leaf on the path of the outer loop of `vm_unmap`,
and released at its end. -/
theorem vm_unmap_loop_locks_closed (as A L : Nat) (hA : A % ARCH_PAGE_GRANULARITY = 0)
    (hL : L % ARCH_PAGE_GRANULARITY = 0) :
    ∀ (fuel : Nat) (s : vm_state) (sb : Nat),
      regions_aligned (s.address_spaces as) → regions_in_bounds (s.address_spaces as) →
      (s.address_spaces as).end_ < UINTPTR_SIZE → (s.address_spaces as).start ≤ A →
      A + L ≤ (s.address_spaces as).end_ →
      sb % ARCH_PAGE_GRANULARITY = 0 → A ≤ sb → sb ≤ A + L →
      s.g_free_regions ≠ [] →
      lock_is_leaf .g_free_regions_lock false (vm_unmap_loop_locks fuel s as A L sb) = true ∧
        held_after .g_free_regions_lock false (vm_unmap_loop_locks fuel s as A L sb) =
          false := by
  have hp := page_pos
  intro fuel
  induction fuel with
  | zero => intro s sb _ _ _ _ _ _ _ _ _; exact leaf_closed_nil _
  | succ n ih =>
    intro s sb hal hin he hs hAL hsb hlo hhi hfree
    by_cases hx : sb < A + L
    swap
    · rw [vm_unmap_loop_locks_exit (n + 1) s as A L sb (by omega) (by omega)]
      exact leaf_closed_nil _
    have hALal : (A + L) % ARCH_PAGE_GRANULARITY = 0 := by
      simp only [ARCH_PAGE_GRANULARITY] at *; omega
    cases haddr : addr_to_region (s.address_spaces as) sb with
    | none =>
      rw [vm_unmap_loop_locks_gap n s as A L sb (by omega) hx hALal hsb haddr]
      exact ih s (sb + ARCH_PAGE_GRANULARITY) hal hin he hs hAL
        (by simp only [ARCH_PAGE_GRANULARITY] at *; omega) (by omega)
        (by simp only [ARCH_PAGE_GRANULARITY] at *; omega) hfree
    | some pr =>
      obtain ⟨i, r⟩ := pr
      obtain ⟨_, hget, hseg, _⟩ := addr_to_region_some haddr
      have hmem : r ∈ (s.address_spaces as).regions := List.get?_mem hget
      have hrin := hin r hmem
      have hral := hal r hmem
      have hrw : r.base + r.length < UINTPTR_SIZE := by omega
      have hrc : region_contains r sb := (address_in_segment_iff hrw).mp hseg
      unfold region_contains at hrc
      obtain ⟨s1, hs1, has1, hfr1, hg1, _, _⟩ := vm_unmap_loop_hit n s as A L sb i r hA hL hsb
        he hs hAL hlo hx hral.1 hral.2 hrw hrc haddr
      obtain ⟨hlerr, hlok⟩ := vm_unmap_loop_locks_hit n s s1 as A L sb i r hA hL hsb he hs hAL
        hlo hx hral.1 hral.2 hrw hrc haddr hs1
      generalize hsl : min (r.base + r.length) (A + L) - sb = sl at hs1 hlerr hlok
      have hslpos : 0 < sl := by omega
      have hsle : sb + sl ≤ r.base + r.length := by omega
      have hsle' : sb + sl ≤ A + L := by omega
      have hslal : sl % ARCH_PAGE_GRANULARITY = 0 := by
        simp only [ARCH_PAGE_GRANULARITY] at *; omega
      have hfree1 : s1.g_free_regions ≠ [] := by rw [hfr1]; exact hfree
      have hsuccl : lock_is_leaf .g_free_regions_lock false
            (vm_unmap_successor_locks s1 as r sb sl) = true ∧
          held_after .g_free_regions_lock false
            (vm_unmap_successor_locks s1 as r sb sl) = false := by
        unfold vm_unmap_successor_locks
        split
        · rw [region_alloc_locks_of_cons _ hfree1]
          exact ⟨by decide, by decide⟩
        · exact leaf_closed_nil _
      cases hsucc : vm_unmap_successor s1 as i r sb sl with
      | error e =>
        rw [hlerr e hsucc]
        exact hsuccl
      | ok pr2 =>
        obtain ⟨i1, s2⟩ := pr2
        rw [hlok i1 s2 hsucc]
        apply leaf_closed_append hsuccl
        apply leaf_closed_append
        · unfold vm_unmap_truncate_locks
          split
          · exact leaf_closed_nil _
          · exact ⟨by decide, by decide⟩
        have hget1 : (s1.address_spaces as).regions.get? i = some r := by rw [has1]; exact hget
        obtain ⟨D1, rc, hD1, hD1f, hregs3, hother3, hbnd3, hg3, hcut⟩ :=
          vm_unmap_hit hget1 hrw (by omega) hrc.1 hsucc
        simp only [has1, hg1, hfr1] at hregs3 hother3 hbnd3 hg3 hD1 hD1f hcut
        by_cases hc : r.base + r.length > sb + sl
        · rw [vm_unmap_loop_locks_exit n _ as A L (sb + sl) (by omega) (by omega)]
          exact leaf_closed_nil _
        · obtain ⟨hD10, hfree3, hsame3⟩ := hcut hc
          subst hD10
          simp only [ite_self, List.nil_append] at hregs3 hother3
          obtain ⟨hsplit, _⟩ := list_split_at hget
          generalize hpre : (s.address_spaces as).regions.take i = pre at hsplit hregs3
          generalize hpost : (s.address_spaces as).regions.drop (i + 1) = post at hsplit hregs3
          obtain ⟨hsb1, hsb2, hsb3, hsb4⟩ := successor_region_props rc r as sb sl hrw hsle
          obtain ⟨hpsub, hppair⟩ := @split_pieces_props r (successor_region rc r as sb sl) sb sl
            hrc.1 hsle hsb1 hsb2
          have hpal := @split_pieces_aligned r (successor_region rc r as sb sl) sb sl
            hsb1 hsb2 hral hsb hslal
          generalize hs3 : vm_unmap_truncate s2 as i1 r sb = s3 at hregs3 hbnd3 hg3 hfree3
          have hmem3 : ∀ q ∈ (s3.address_spaces as).regions,
              q ∈ (s.address_spaces as).regions ∨
              q ∈ split_pieces r (successor_region rc r as sb sl) sb sl := by
            intro q hq
            rw [hregs3] at hq
            rw [hsplit]
            rcases List.mem_append.mp hq with hq | hq
            · rcases List.mem_append.mp hq with hq | hq
              · exact Or.inl (List.mem_append_left _ hq)
              · exact Or.inr hq
            · exact Or.inl (List.mem_append_right _ (List.mem_cons_of_mem _ hq))
          have hal3 : regions_aligned (s3.address_spaces as) := by
            intro q hq
            rcases hmem3 q hq with h | h
            · exact hal q h
            · exact hpal q h
          have hin3 : regions_in_bounds (s3.address_spaces as) := by
            intro q hq
            rw [(hbnd3 as).1, (hbnd3 as).2]
            rcases hmem3 q hq with h | h
            · exact hin q h
            · have := hpsub q h
              omega
          exact ih s3 (sb + sl) hal3 hin3
            (by rw [(hbnd3 as).2]; exact he) (by rw [(hbnd3 as).1]; exact hs)
            (by rw [(hbnd3 as).2]; exact hAL)
            (by simp only [ARCH_PAGE_GRANULARITY] at *; omega) (by omega) (by omega)
            (hfree3 hfree)

/-- C23, as the code has it: `g_free_regions_lock` is a leaf of the lock order
exactly as long as `region_alloc` finds a descriptor on the free list.  Then
`region_alloc` takes and releases `g_free_regions_lock` and nothing else, and
on the path of `vm_map_anon` / `vm_map_direct` (`map_common` at either type),
and of `vm_unmap` on an address space with page-aligned, in-bounds regions, no
other lock is acquired while `g_free_regions_lock` is held.  With an empty free
list `region_alloc`, holding `g_free_regions_lock`, calls `pmm_alloc_page`
(which takes the mutex of zone NORMAL) and then, unless its caller passed
`global_lock_acquired`, acquires the lock of the global address space.
`region_free` acquires nothing while it holds the lock. -/
theorem free_regions_lock_order (s : vm_state) :
    (s.g_free_regions ≠ [] →
      (∀ b, region_alloc_locks s b =
        [.spinlock_acquire .g_free_regions_lock, .spinlock_release .g_free_regions_lock]) ∧
      (∀ (as hint len : Nat) (prot : vm_protection_t) (cache : Nat) (flags : vm_flags_t)
          (type : vm_region_type_t) (phys : Nat),
        lock_is_leaf .g_free_regions_lock false
          (map_common_locks s as hint len prot cache flags type phys) = true) ∧
      (∀ as A L, unmap_well_formed s as →
        lock_is_leaf .g_free_regions_lock false (vm_unmap_locks s as A L) = true)) ∧
    (s.g_free_regions = [] → ∀ b,
      lock_is_leaf .g_free_regions_lock false (region_alloc_locks s b) = false ∧
      ∃ rest, region_alloc_locks s b =
        [.spinlock_acquire .g_free_regions_lock,
         .spinlock_acquire (.pmm_zone_lock PMM_ZONE_NORMAL),
         .spinlock_release (.pmm_zone_lock PMM_ZONE_NORMAL)] ++
        (if b = false then
          [.spinlock_acquire (.address_space_lock s.g_vm_global_address_space)] else []) ++
        rest) ∧
    lock_is_leaf .g_free_regions_lock false region_free_locks = true := by
  refine ⟨?_, ?_, by decide⟩
  · intro hfree
    refine ⟨fun b => region_alloc_locks_of_cons b hfree, ?_, ?_⟩
    · intro as hint len prot cache flags type phys
      exact (map_common_locks_closed s as hint len prot cache flags type phys hfree).1
    · intro as A L hwf
      obtain ⟨hal, hin, he⟩ := hwf
      unfold vm_unmap_locks
      split
      · rfl
      split
      · rfl
      rename_i hal2
      split
      · rfl
      rename_i hsib
      obtain ⟨hA, hL⟩ := not_not.mp hal2
      obtain ⟨hs, _, hAL⟩ := (segment_in_bounds_iff he).mp (not_not.mp hsib)
      have hloop := vm_unmap_loop_locks_closed as A L hA hL (L / ARCH_PAGE_GRANULARITY + 1) s A
        hal hin he hs hAL hA (Nat.le_refl _) (by omega) hfree
      have h1 : lock_is_leaf .g_free_regions_lock false
            [lock_event_t.spinlock_acquire (.address_space_lock as)] = true ∧
          held_after .g_free_regions_lock false
            [lock_event_t.spinlock_acquire (.address_space_lock as)] = false :=
        ⟨by simp [lock_is_leaf], by simp [held_after]⟩
      rw [List.append_assoc]
      refine (leaf_closed_append h1 (leaf_closed_append hloop ?_)).1
      split
      · exact leaf_closed_nil _
      · exact ⟨by simp [lock_is_leaf], by simp [held_after]⟩
  · intro hnil b
    exact ⟨region_alloc_locks_not_leaf b hnil, region_alloc_locks_of_nil b hnil⟩

theorem free_regions_lock_order_witness :
    lock_is_leaf .g_free_regions_lock false
      (map_common_locks seeded_state 1 0x10000 0x1000 prot_rw VM_CACHE_STANDARD
        { fixed := false, zero := false, no_demand := true } .VM_REGION_TYPE_ANON 0) = true ∧
    lock_is_leaf .g_free_regions_lock false (vm_unmap_locks four_page_state 1 0x11000 0x2000) =
      true :=
  ⟨((free_regions_lock_order seeded_state).1 (by decide)).2.1 1 0x10000 0x1000 prot_rw
      VM_CACHE_STANDARD { fixed := false, zero := false, no_demand := true }
      .VM_REGION_TYPE_ANON 0,
   ((free_regions_lock_order four_page_state).1 (by decide)).2.2 1 0x11000 0x2000
      (by decide)⟩

/-- C23 as stated fails on the first map after boot: the descriptor free list
is empty, so `region_alloc`, called by `vm_map_anon`, holds
`g_free_regions_lock` while `pmm_alloc_page` takes the mutex of zone NORMAL and
while it acquires the lock of the global address space (address space `0`). -/
theorem free_regions_lock_order_counterexample :
    returned (vm_map_anon boot_state 1 0x10000 0x1000 prot_rw VM_CACHE_STANDARD
      VM_FLAG_NONE) = some 0x10000 ∧
    map_common_locks boot_state 1 0x10000 0x1000 prot_rw VM_CACHE_STANDARD VM_FLAG_NONE
      .VM_REGION_TYPE_ANON 0 =
      [.spinlock_acquire .g_free_regions_lock,
       .spinlock_acquire (.pmm_zone_lock PMM_ZONE_NORMAL),
       .spinlock_release (.pmm_zone_lock PMM_ZONE_NORMAL),
       .spinlock_acquire (.address_space_lock 0),
       .spinlock_release (.address_space_lock 0),
       .spinlock_release .g_free_regions_lock,
       .spinlock_acquire (.address_space_lock 1),
       .spinlock_release (.address_space_lock 1)] ∧
    lock_is_leaf .g_free_regions_lock false
      (map_common_locks boot_state 1 0x10000 0x1000 prot_rw VM_CACHE_STANDARD VM_FLAG_NONE
        .VM_REGION_TYPE_ANON 0) = false := by
  decide

/-! ## The initial frame of a kernel thread -/

/-- What `create_thread` leaves alone, and the fields it fills in. -/
theorem create_thread_frame {s s1 : sched_state} {proc rsp thread : Nat} {kernel_stack : stack_t}
    (h : create_thread s proc kernel_stack rsp = .ok (thread, s1)) :
    (s1.threads thread).common.state = .THREAD_STATE_READY ∧
    (s1.threads thread).rsp = rsp ∧ (s1.threads thread).kernel_stack = kernel_stack ∧
    s1.memory = s.memory ∧ s1.kernel_stacks = s.kernel_stacks := by
  unfold create_thread at h
  split at h
  · cases h
  · split at h
    · cases h
    · dsimp only at h
      split at h
      · cases h
      · split at h
        · cases h
        · simp only [Except.ok.injEq, Prod.mk.injEq] at h
          obtain ⟨h1, h2⟩ := h
          subst h1
          subst h2
          refine ⟨?_, ?_, ?_, rfl, rfl⟩ <;>
            simp only [g_x86_64_fpu_save, g_x86_64_fpu_restore, set_thread, if_true]

/-- The function `create_thread` returns when the heap serves its two
allocations. -/
theorem create_thread_ok (s : sched_state) (proc rsp : Nat) (kernel_stack : stack_t)
    {thread fpu_area : Nat} {heap1 heap2 : heap_t}
    (hh1 : heap_alloc s.heap SIZEOF_X86_64_THREAD = some (thread, heap1)) (ht : thread ≠ 0)
    (hh2 : heap_alloc_align heap1 s.g_x86_64_fpu_area_size 64 = some (fpu_area, heap2))
    (hf : fpu_area ≠ 0) :
    ∃ s1, create_thread s proc kernel_stack rsp = .ok (thread, s1) := by
  unfold create_thread
  simp only [hh1, if_neg ht, hh2, if_neg hf]
  exact ⟨_, rfl⟩

/-- A block of 16 pages is taken from the head of the zone. -/
theorem pmm_alloc_pages_stack_ok (pmm : pmm_t) (zone : Nat) (flags : pmm_flags_t) {P : Nat}
    {frames : List Nat} (h : pmm.free zone = P :: frames) (hlen : 15 ≤ frames.length) :
    ∃ pmm1, pmm_alloc_pages pmm zone KERNEL_STACK_SIZE_PG flags = some ({ paddr := P }, pmm1) := by
  unfold pmm_alloc_pages
  rw [pmm_pages_order_stack]
  simp only [h, List.length_cons]
  rw [if_neg (by omega)]
  exact ⟨_, rfl⟩

/-- What a store of a quadword through a kernel pointer changes. -/
theorem store_qword_memory (s : sched_state) (address value : Nat) (a v : Nat) :
    (store_qword s address value).memory a v =
      if a = s.vm.g_vm_global_address_space ∧ address ≤ v ∧ v < address + 8 then
        (qword_bytes (value % UINTPTR_SIZE)).getD (v - address) 0
      else s.memory a v := rfl

/-- C24: `arch_sched_thread_create_kernel(fn)`, given a block of 16 frames at
the head of zone NORMAL (at `P`, its direct-map image not wrapping) and a heap
that serves the descriptor and the FPU area, yields a thread in state READY
with no process.  Its kernel stack is the block of exactly 16 pages, requested
zeroed, of order `⌈log2 16⌉ = 4` (within `PMM_MAX_ORDER = 7`); the recorded top
is `HHDM(P + 16 pages)` and the recorded size is 16 pages; the saved `rsp` is
that top minus the size of `init_stack_kernel_t`.  The frame lies wholly inside
the stack; its field `thread_init` holds `common_thread_init`,
`thread_init_kernel` holds `kernel_thread_init`, `entry` holds `fn`, and every
other byte of the stack, `r12, r13, r14, r15, rbp, rbx` among them, is 0. -/
theorem arch_sched_thread_create_kernel_frame (s : sched_state) (func P : Nat)
    (frames : List Nat) (thread fpu_area : Nat) (heap1 heap2 : heap_t)
    (hpmm : s.vm.pmm.free PMM_ZONE_NORMAL = P :: frames) (hlen : 15 ≤ frames.length)
    (hwrap : P + KERNEL_STACK_SIZE_PG * ARCH_PAGE_GRANULARITY + s.g_hhdm_offset < UINTPTR_SIZE)
    (hfunc : func < UINTPTR_SIZE)
    (hh1 : heap_alloc s.heap SIZEOF_X86_64_THREAD = some (thread, heap1)) (ht : thread ≠ 0)
    (hh2 : heap_alloc_align heap1 s.g_x86_64_fpu_area_size 64 = some (fpu_area, heap2))
    (hf : fpu_area ≠ 0) :
    ∃ s1 top, arch_sched_thread_create_kernel s func = .ok (thread, s1) ∧
      (s1.threads thread).common.state = .THREAD_STATE_READY ∧
      (s1.threads thread).common.proc = 0 ∧
      pmm_pages_order KERNEL_STACK_SIZE_PG = some 4 ∧ 4 ≤ PMM_MAX_ORDER ∧
      2 ^ 4 = KERNEL_STACK_SIZE_PG ∧
      s1.vm.pmm.taken = (((P :: frames).take 16).map
        (fun p => { zone := PMM_ZONE_NORMAL, flags := { zero := true }, paddr := p })).reverse ++
          s.vm.pmm.taken ∧
      top = HHDM s (P + KERNEL_STACK_SIZE_PG * ARCH_PAGE_GRANULARITY) ∧
      top = HHDM s P + KERNEL_STACK_SIZE_PG * ARCH_PAGE_GRANULARITY ∧
      (s1.threads thread).kernel_stack =
        { base := top, size := KERNEL_STACK_SIZE_PG * ARCH_PAGE_GRANULARITY } ∧
      (s1.threads thread).rsp = top - SIZEOF_INIT_STACK_KERNEL ∧
      HHDM s P ≤ (s1.threads thread).rsp ∧
      (s1.threads thread).rsp + SIZEOF_INIT_STACK_KERNEL = top ∧
      (∀ i, i < 8 →
        s1.memory s.vm.g_vm_global_address_space
            ((s1.threads thread).rsp + OFFSETOF_THREAD_INIT + i) =
          (qword_bytes COMMON_THREAD_INIT).getD i 0 ∧
        s1.memory s.vm.g_vm_global_address_space
            ((s1.threads thread).rsp + OFFSETOF_THREAD_INIT_KIND + i) =
          (qword_bytes KERNEL_THREAD_INIT).getD i 0 ∧
        s1.memory s.vm.g_vm_global_address_space
            ((s1.threads thread).rsp + OFFSETOF_ENTRY + i) =
          (qword_bytes func).getD i 0) ∧
      (∀ v, HHDM s P ≤ v → v < top →
        ¬ ((s1.threads thread).rsp + OFFSETOF_THREAD_INIT ≤ v ∧
           v < (s1.threads thread).rsp + OFFSETOF_ENTRY + 8) →
        s1.memory s.vm.g_vm_global_address_space v = 0) ∧
      s1.kernel_stacks (s1.threads thread).rsp = .init_stack_kernel func := by
  obtain ⟨pmm1, hp⟩ := pmm_alloc_pages_stack_ok s.vm.pmm PMM_ZONE_NORMAL { zero := true } hpmm hlen
  obtain ⟨_, _, p3⟩ := pmm_alloc_pages_stack hp
  have hK : KERNEL_STACK_SIZE_PG * ARCH_PAGE_GRANULARITY = 65536 := by decide
  rw [hK] at hwrap ⊢
  have htop1 : uadd P 65536 = P + 65536 := uadd_eq (by omega)
  have htop : HHDM s (P + 65536) = P + 65536 + s.g_hhdm_offset := uadd_eq (by omega)
  have hbase : HHDM s P = P + s.g_hhdm_offset := uadd_eq (by omega)
  have hfm : func % UINTPTR_SIZE = func := Nat.mod_eq_of_lt hfunc
  have hcm : COMMON_THREAD_INIT % UINTPTR_SIZE = COMMON_THREAD_INIT := by decide
  have hkm : KERNEL_THREAD_INIT % UINTPTR_SIZE = KERNEL_THREAD_INIT := by decide
  have hok : ∃ s1, arch_sched_thread_create_kernel s func = .ok (thread, s1) := by
    unfold arch_sched_thread_create_kernel
    simp only [hp]
    exact create_thread_ok _ _ _ _ hh1 ht hh2 hf
  obtain ⟨s1, hs1⟩ := hok
  have h := hs1
  unfold arch_sched_thread_create_kernel at h
  simp only [hp] at h
  rw [hK, htop1] at h
  have hrsp : usub (HHDM
      (pmm_zero_block { s with vm := { s.vm with pmm := pmm1 } } P KERNEL_STACK_SIZE_PG)
      (P + 65536)) SIZEOF_INIT_STACK_KERNEL = P + 65536 + s.g_hhdm_offset - 88 := by
    show usub (HHDM s (P + 65536)) 88 = _
    rw [htop, usub_eq (by omega) (by simp only [UINTPTR_SIZE] at *; omega)]
  rw [hrsp] at h
  have ho1 : uadd (P + 65536 + s.g_hhdm_offset - 88) OFFSETOF_ENTRY =
      P + 65536 + s.g_hhdm_offset - 88 + 64 :=
    uadd_eq (by simp only [OFFSETOF_ENTRY, UINTPTR_SIZE] at *; omega)
  have ho2 : uadd (P + 65536 + s.g_hhdm_offset - 88) OFFSETOF_THREAD_INIT =
      P + 65536 + s.g_hhdm_offset - 88 + 48 :=
    uadd_eq (by simp only [OFFSETOF_THREAD_INIT, UINTPTR_SIZE] at *; omega)
  have ho3 : uadd (P + 65536 + s.g_hhdm_offset - 88) OFFSETOF_THREAD_INIT_KIND =
      P + 65536 + s.g_hhdm_offset - 88 + 56 :=
    uadd_eq (by simp only [OFFSETOF_THREAD_INIT_KIND, UINTPTR_SIZE] at *; omega)
  rw [ho1, ho2, ho3] at h
  generalize hrspv : P + 65536 + s.g_hhdm_offset - 88 = rsp at h
  obtain ⟨_, _, _, c4, _, _, c7, _⟩ := create_thread_spec h
  obtain ⟨d1, d2, d3, d4, d5⟩ := create_thread_frame h
  refine ⟨s1, HHDM s (P + 65536), hs1, d1, c7, pmm_pages_order_stack, by decide, by decide, ?_,
    rfl, ?_, ?_, ?_, ?_, ?_, ?_, ?_, ?_⟩
  · rw [c4]
    show pmm1.taken = _
    rw [p3, hpmm]
  · rw [htop, hbase]; omega
  · rw [d3]; rfl
  · rw [d2, htop, ← hrspv]; rfl
  · rw [d2, hbase]; omega
  · rw [d2, htop]
    show rsp + 88 = _
    omega
  · intro i hi
    rw [d2, d4]
    simp only [store_qword_memory, OFFSETOF_THREAD_INIT, OFFSETOF_THREAD_INIT_KIND,
      OFFSETOF_ENTRY, hfm, hcm, hkm]
    have e1 : rsp + 48 + i - (rsp + 48) = i := by omega
    have e2 : rsp + 56 + i - (rsp + 56) = i := by omega
    have e3 : rsp + 64 + i - (rsp + 64) = i := by omega
    refine ⟨?_, ?_, ?_⟩
    · rw [if_neg (by omega), if_pos ⟨rfl, by omega, by omega⟩, e1]
    · rw [if_pos ⟨rfl, by omega, by omega⟩, e2]
    · rw [if_neg (by omega), if_neg (by omega), if_pos ⟨rfl, by omega, by omega⟩, e3]
  · intro v hv1 hv2 hout
    rw [d2] at hout
    rw [d4]
    simp only [store_qword_memory, OFFSETOF_THREAD_INIT, OFFSETOF_ENTRY] at hout ⊢
    rw [if_neg (by omega), if_neg (by omega), if_neg (by omega)]
    show (if _ then 0 else _) = 0
    rw [if_pos]
    refine ⟨rfl, hv1, ?_⟩
    rw [htop] at hv2
    show v < HHDM s P + KERNEL_STACK_SIZE_PG * ARCH_PAGE_GRANULARITY
    rw [hK, hbase]
    omega
  · rw [d5, d2]
    simp

theorem arch_sched_thread_create_kernel_frame_witness :
    ∃ s1, arch_sched_thread_create_kernel sched_boot_state 0x1000 = .ok (0xA000, s1) ∧
      (s1.threads 0xA000).common.state = .THREAD_STATE_READY ∧
      (s1.threads 0xA000).common.proc = 0 ∧
      (s1.threads 0xA000).rsp + SIZEOF_INIT_STACK_KERNEL = HHDM sched_boot_state 0x410000 := by
  obtain ⟨s1, top, h1, h2, h3, _, _, _, _, h8, _, _, _, _, h13, _⟩ :=
    arch_sched_thread_create_kernel_frame sched_boot_state 0x1000 0x400000 sched_frames.tail
      0xA000 0xA400 _ _ (by decide) (by decide) (by decide) (by decide) rfl (by decide) rfl
      (by decide)
  exact ⟨s1, h1, h2, h3, by rw [h13, h8]; rfl⟩

/-- The kernel thread created first after boot, with `fn = 0x1000`: the stack
is the block `[0x400000, 0x410000)` seen through the direct map, `rsp` is its
top minus 88, and the eleven quadwords of the frame are six zeros,
`common_thread_init`, `kernel_thread_init`, `fn` and the two zeros of
`invalid_stack_frame`. -/
theorem arch_sched_thread_create_kernel_example :
    outcome_value (arch_sched_thread_create_kernel sched_boot_state 0x1000) = some 0xA000 ∧
    ((outcome_state (arch_sched_thread_create_kernel sched_boot_state 0x1000)
      sched_boot_state).threads 0xA000).kernel_stack =
      { base := 0xFFFF800000410000, size := 0x10000 } ∧
    ((outcome_state (arch_sched_thread_create_kernel sched_boot_state 0x1000)
      sched_boot_state).threads 0xA000).rsp = 0xFFFF80000040FFA8 ∧
    (List.range 11).map (fun k =>
      qword_of_bytes (read_bytes
        (outcome_state (arch_sched_thread_create_kernel sched_boot_state 0x1000)
          sched_boot_state) 0 (0xFFFF80000040FFA8 + 8 * k))) =
      [0, 0, 0, 0, 0, 0, COMMON_THREAD_INIT, KERNEL_THREAD_INIT, 0x1000, 0, 0] := by
  decide

/-! # Leaf mappings lie inside regions -/

/-- The state the calls of `boot_calls` leave: the descriptor page and the
first page of the mapping are backed, each inside a region, and the unmapped
middle page is neither backed nor reserved. -/
theorem boot_calls_example :
    ((state_of (vm_calls boot_calls boot_state) boot_state).address_spaces 0).regions.map
      (fun r => (r.base, r.length)) = [(0x2000, 0x1000), (0x4000, 0x1000), (0x1000, 0x1000)] ∧
    [0x1000, 0x2000, 0x3000, 0x4000].map (fun va =>
      ((state_of (vm_calls boot_calls boot_state) boot_state).page_tables 0 va).isSome) =
      [true, true, false, false] := by
  decide

/-! # The page loop of `elf_load` -/

theorem elf_alignment_offset (x : Nat) : x &&& (ARCH_PAGE_SIZE - 1) = x % ARCH_PAGE_SIZE := by
  have h : ARCH_PAGE_SIZE - 1 = 2 ^ 12 - 1 := by decide
  rw [h, Nat.and_pow_two_sub_one_eq_mod]
  rfl

theorem elf_page_flags :
    (PMM_GENERAL ||| PMM_AF_ZERO) &&& PMM_ZONE_AF_MASK = PMM_ZONE_NORMAL ∧
    (PMM_GENERAL ||| PMM_AF_ZERO) &&& PMM_AF_ZERO ≠ 0 := by
  decide

/-- The protection computed for a segment: the user bit, the write bit exactly
when `PF_W` is set, the exec bit exactly when `PF_X` is set, and no other bit. -/
theorem elf_load_prot_bits (flags : Nat) :
    elf_load_prot flags &&& VMM_PROT_USER ≠ 0 ∧
    (elf_load_prot flags &&& VMM_PROT_WRITE ≠ 0 ↔ flags &&& PF_W ≠ 0) ∧
    (elf_load_prot flags &&& VMM_PROT_EXEC ≠ 0 ↔ flags &&& PF_X ≠ 0) ∧
    elf_load_prot flags < 8 := by
  unfold elf_load_prot
  by_cases hw : flags &&& PF_W ≠ 0 <;> by_cases hx : flags &&& PF_X ≠ 0 <;>
    simp only [hw, hx, if_true, if_false, not_false_eq_true, not_true_eq_false, ne_eq,
      iff_true, iff_false, true_and, and_true] <;> decide

/-- One iteration of the page loop at `count < memsz`, with the frame `f` at
the head of the free list: the frame is zeroed, the bytes of the file that fall
into the page are copied to it from `alignment_offset` on, the page of
`vaddr + count` is mapped to it, and the loop goes on at the next page
boundary. -/
theorem elf_load_page_loop_step (fuel : Nat) (s : elf_state) (file : List Nat)
    (phdr : elf_phdr_t) (prot count f : Nat) (rest : List Nat)
    (hc : count < phdr.memsz)
    (hread : phdr.offset + phdr.filesz ≤ file.length) (hlen : file.length < UINTPTR_SIZE)
    (hwrap : phdr.vaddr + phdr.memsz + ARCH_PAGE_SIZE ≤ UINTPTR_SIZE)
    (hfree : s.pmm.free PMM_ZONE_NORMAL = f :: rest)
    (hf : f % ARCH_PAGE_SIZE = 0 ∧ f < UINTPTR_SIZE) :
    ∃ s3 : elf_state,
      elf_load_page_loop (fuel + 1) s file phdr prot count =
        elf_load_page_loop fuel s3 file phdr prot
          (count + (ARCH_PAGE_SIZE - (phdr.vaddr + count) % ARCH_PAGE_SIZE)) ∧
      s3.pmm.free PMM_ZONE_NORMAL = rest ∧
      (∀ v, s3.page_table v =
        if v = phdr.vaddr + count - (phdr.vaddr + count) % ARCH_PAGE_SIZE then some (f, prot)
        else s.page_table v) ∧
      s3.map_calls = s.map_calls ++
        [{ vaddr := phdr.vaddr + count - (phdr.vaddr + count) % ARCH_PAGE_SIZE,
           paddr := f, prot := prot }] ∧
      (∀ p, s3.memory p =
        if f + (phdr.vaddr + count) % ARCH_PAGE_SIZE ≤ p ∧
            p < f + (phdr.vaddr + count) % ARCH_PAGE_SIZE +
              min (phdr.filesz - count)
                (ARCH_PAGE_SIZE - (phdr.vaddr + count) % ARCH_PAGE_SIZE) then
          file.getD (phdr.offset + count + (p - (f + (phdr.vaddr + count) % ARCH_PAGE_SIZE))) 0
        else if f ≤ p ∧ p < f + ARCH_PAGE_SIZE then 0
        else s.memory p) := by
  have hP : ARCH_PAGE_SIZE = 4096 := rfl
  have hU : UINTPTR_SIZE = 2 ^ 64 := rfl
  have hf4 : f % 4096 = 0 := hf.1
  have hao := Nat.mod_lt (phdr.vaddr + count) (show 0 < ARCH_PAGE_SIZE by decide)
  have hle := Nat.mod_le (phdr.vaddr + count) ARCH_PAGE_SIZE
  generalize hgen : (phdr.vaddr + count) % ARCH_PAGE_SIZE = ao at hao hle ⊢
  have e1 : uadd phdr.vaddr count = phdr.vaddr + count := uadd_eq (by omega)
  have e2 : uadd count (ARCH_PAGE_SIZE - ao) = count + (ARCH_PAGE_SIZE - ao) :=
    uadd_eq (by omega)
  have e3 : usub (phdr.vaddr + count) ao = phdr.vaddr + count - ao := usub_eq hle (by omega)
  have e4 : uadd f ao = f + ao := uadd_eq (by omega)
  have halloc : elf_pmm_alloc_page s (PMM_GENERAL ||| PMM_AF_ZERO) =
      some ({ paddr := f },
        { s with
          pmm := { free := fun z => if z = PMM_ZONE_NORMAL then rest else s.pmm.free z,
                   taken := { zone := PMM_ZONE_NORMAL, flags := { zero := true },
                              paddr := f } :: s.pmm.taken },
          memory := fun p => if f ≤ p ∧ p < f + ARCH_PAGE_SIZE then 0 else s.memory p }) := by
    unfold elf_pmm_alloc_page pmm_alloc_page
    rw [elf_page_flags.1, hfree]
    simp [elf_page_flags.2]
  by_cases hfc : phdr.filesz > count
  · have e5 : usub phdr.filesz count = phdr.filesz - count :=
      usub_eq (Nat.le_of_lt hfc) (by omega)
    have e6 : uadd phdr.offset count = phdr.offset + count := uadd_eq (by omega)
    have e7 : (if phdr.filesz - count > ARCH_PAGE_SIZE - ao then ARCH_PAGE_SIZE - ao
        else phdr.filesz - count) = min (phdr.filesz - count) (ARCH_PAGE_SIZE - ao) := by
      split <;> omega
    have e8 : min (min (phdr.filesz - count) (ARCH_PAGE_SIZE - ao))
        (file.length - (phdr.offset + count)) =
        min (phdr.filesz - count) (ARCH_PAGE_SIZE - ao) := by omega
    refine ⟨?w, ?h1, ?h2, ?h3, ?h4, ?h5⟩
    case h1 =>
      conv_lhs => rw [elf_load_page_loop]
      rw [if_neg (not_not.mpr hc)]
      simp only [halloc, e1, elf_alignment_offset, hgen, e2, e3, e4, if_pos hfc, e5, e6, e7,
        vfs_rw_read, e8, ne_eq, not_true_eq_false, if_false]
      exact rfl
    case h2 => simp [arch_vmm_map]
    case h3 => intro v; rfl
    case h4 => rfl
    case h5 => intro p; rfl
  · refine ⟨?wb, ?h1b, ?h2b, ?h3b, ?h4b, ?h5b⟩
    case h1b =>
      conv_lhs => rw [elf_load_page_loop]
      rw [if_neg (not_not.mpr hc)]
      simp only [halloc, e1, elf_alignment_offset, hgen, e2, e3, e4, if_neg hfc]
      exact rfl
    case h2b => simp [arch_vmm_map]
    case h3b => intro v; rfl
    case h4b => rfl
    case h5b =>
      intro p
      have hz : min (phdr.filesz - count) (ARCH_PAGE_SIZE - ao) = 0 := by omega
      rw [hz]
      have hn : ¬ (f + ao ≤ p ∧ p < f + ao + 0) := by omega
      simp only [arch_vmm_map, if_neg hn]

/-- The page loop from `count`, with enough fuel and enough distinct,
page-aligned frames on the free list: it returns; it leaves the pages below the
page of `vaddr + count` and the memory outside the free frames alone; every
byte `vaddr + i` with `count ≤ i < memsz` lies in a mapped page and holds the
file byte `offset + i` when `i < filesz` and `0` otherwise; the pages mapped,
in ascending order, are the pages that hold such a byte. -/
theorem elf_load_page_loop_spec (file : List Nat) (phdr : elf_phdr_t) (prot : Nat)
    (hread : phdr.offset + phdr.filesz ≤ file.length) (hlen : file.length < UINTPTR_SIZE)
    (hwrap : phdr.vaddr + phdr.memsz + ARCH_PAGE_SIZE ≤ UINTPTR_SIZE) :
    ∀ (n : Nat) (s : elf_state) (c : Nat),
      phdr.vaddr + phdr.memsz ≤
        phdr.vaddr + c - (phdr.vaddr + c) % ARCH_PAGE_SIZE + n * ARCH_PAGE_SIZE →
      phdr.vaddr + phdr.memsz ≤
        phdr.vaddr + c - (phdr.vaddr + c) % ARCH_PAGE_SIZE +
          (s.pmm.free PMM_ZONE_NORMAL).length * ARCH_PAGE_SIZE →
      (s.pmm.free PMM_ZONE_NORMAL).Nodup →
      (∀ f ∈ s.pmm.free PMM_ZONE_NORMAL, f % ARCH_PAGE_SIZE = 0 ∧ f < UINTPTR_SIZE) →
      ∃ (s' : elf_state) (calls : List vmm_map_call_t),
        elf_load_page_loop (n + 1) s file phdr prot c = .ok s' ∧
        (∀ v, v < phdr.vaddr + c - (phdr.vaddr + c) % ARCH_PAGE_SIZE →
          s'.page_table v = s.page_table v) ∧
        (∀ p, (∀ f ∈ s.pmm.free PMM_ZONE_NORMAL, ¬ (f ≤ p ∧ p < f + ARCH_PAGE_SIZE)) →
          s'.memory p = s.memory p) ∧
        (∀ i, c ≤ i → i < phdr.memsz →
          ∃ paddr,
            s'.page_table (phdr.vaddr + i - (phdr.vaddr + i) % ARCH_PAGE_SIZE) =
              some (paddr, prot) ∧
            s'.memory (paddr + (phdr.vaddr + i) % ARCH_PAGE_SIZE) =
              if i < phdr.filesz then file.getD (phdr.offset + i) 0 else 0) ∧
        s'.map_calls = s.map_calls ++ calls ∧
        (calls.map (fun x => x.vaddr)).Pairwise (fun a b => a < b) ∧
        (∀ v, v ∈ calls.map (fun x => x.vaddr) ↔
          v % ARCH_PAGE_SIZE = 0 ∧
          ∃ i, c ≤ i ∧ i < phdr.memsz ∧ v ≤ phdr.vaddr + i ∧
            phdr.vaddr + i < v + ARCH_PAGE_SIZE) ∧
        (∀ x ∈ calls, x.prot = prot) := by
  have hexit : ∀ (n : Nat) (s : elf_state) (c : Nat), ¬ (c < phdr.memsz) →
      ∃ (s' : elf_state) (calls : List vmm_map_call_t),
        elf_load_page_loop (n + 1) s file phdr prot c = .ok s' ∧
        (∀ v, v < phdr.vaddr + c - (phdr.vaddr + c) % ARCH_PAGE_SIZE →
          s'.page_table v = s.page_table v) ∧
        (∀ p, (∀ f ∈ s.pmm.free PMM_ZONE_NORMAL, ¬ (f ≤ p ∧ p < f + ARCH_PAGE_SIZE)) →
          s'.memory p = s.memory p) ∧
        (∀ i, c ≤ i → i < phdr.memsz →
          ∃ paddr,
            s'.page_table (phdr.vaddr + i - (phdr.vaddr + i) % ARCH_PAGE_SIZE) =
              some (paddr, prot) ∧
            s'.memory (paddr + (phdr.vaddr + i) % ARCH_PAGE_SIZE) =
              if i < phdr.filesz then file.getD (phdr.offset + i) 0 else 0) ∧
        s'.map_calls = s.map_calls ++ calls ∧
        (calls.map (fun x => x.vaddr)).Pairwise (fun a b => a < b) ∧
        (∀ v, v ∈ calls.map (fun x => x.vaddr) ↔
          v % ARCH_PAGE_SIZE = 0 ∧
          ∃ i, c ≤ i ∧ i < phdr.memsz ∧ v ≤ phdr.vaddr + i ∧
            phdr.vaddr + i < v + ARCH_PAGE_SIZE) ∧
        (∀ x ∈ calls, x.prot = prot) := by
    intro n s c hc
    refine ⟨s, [], ?_, fun _ _ => rfl, fun _ _ => rfl, ?_, by simp, by simp, ?_, ?_⟩
    · rw [elf_load_page_loop, if_pos hc]
    · intro i h1 h2
      omega
    · intro v
      simp only [List.map_nil, List.not_mem_nil, false_iff, not_and, not_exists]
      intro _ i h1 h2
      omega
    · intro x hx
      cases hx
  intro n
  induction n with
  | zero =>
    intro s c hn _ _ _
    apply hexit
    have := Nat.mod_le (phdr.vaddr + c) ARCH_PAGE_SIZE
    omega
  | succ n ih =>
    intro s c hn hframes hnodup hal
    by_cases hc : c < phdr.memsz
    swap
    · exact hexit _ s c hc
    have hao := Nat.mod_lt (phdr.vaddr + c) (show 0 < ARCH_PAGE_SIZE by decide)
    have hle := Nat.mod_le (phdr.vaddr + c) ARCH_PAGE_SIZE
    cases hfree : s.pmm.free PMM_ZONE_NORMAL with
    | nil =>
      rw [hfree] at hframes
      simp only [List.length_nil, Nat.zero_mul] at hframes
      omega
    | cons f rest =>
      rw [hfree] at hframes hnodup hal
      have hf := hal f (List.mem_cons_self _ _)
      obtain ⟨hfnot, hnodup'⟩ := List.nodup_cons.mp hnodup
      obtain ⟨s3, hstep, hfree3, hpt3, hcalls3, hmem3⟩ :=
        elf_load_page_loop_step (n + 1) s file phdr prot c f rest hc hread hlen hwrap hfree hf
      have hmod' : (phdr.vaddr + (c + (ARCH_PAGE_SIZE - (phdr.vaddr + c) % ARCH_PAGE_SIZE))) %
          ARCH_PAGE_SIZE = 0 := by
        simp only [ARCH_PAGE_SIZE] at *; omega
      obtain ⟨s', calls, hrun, hF1, hF2, hP, hL1, hL2, hL3, hL4⟩ :=
        ih s3 (c + (ARCH_PAGE_SIZE - (phdr.vaddr + c) % ARCH_PAGE_SIZE))
          (by rw [hmod']; simp only [ARCH_PAGE_SIZE] at *; omega)
          (by rw [hmod', hfree3]
              simp only [List.length_cons, ARCH_PAGE_SIZE] at *; omega)
          (by rw [hfree3]; exact hnodup')
          (by rw [hfree3]; exact fun g hg => hal g (List.mem_cons_of_mem _ hg))
      rw [hmod'] at hF1
      rw [hfree3] at hF2
      generalize hgen : (phdr.vaddr + c) % ARCH_PAGE_SIZE = ao at *
      generalize hc' : c + (ARCH_PAGE_SIZE - ao) = c' at *
      have hrest : ∀ g ∈ rest, g % ARCH_PAGE_SIZE = 0 ∧ g ≠ f := by
        intro g hg
        refine ⟨(hal g (List.mem_cons_of_mem _ hg)).1, ?_⟩
        rintro rfl
        exact hfnot hg
      refine ⟨s', { vaddr := phdr.vaddr + c - ao, paddr := f, prot := prot } :: calls,
        ?_, ?_, ?_, ?_, ?_, ?_, ?_, ?_⟩
      · rw [hstep]; exact hrun
      · intro v hv
        rw [hF1 v (by simp only [ARCH_PAGE_SIZE] at *; omega), hpt3 v, if_neg (by omega)]
      · intro p hp
        have hpf := hp f (List.mem_cons_self _ _)
        rw [hF2 p (fun g hg => hp g (List.mem_cons_of_mem _ hg)), hmem3 p,
          if_neg (by simp only [ARCH_PAGE_SIZE] at *; omega), if_neg hpf]
      · intro i hi1 hi2
        by_cases hic : i < c'
        · have hoff : (phdr.vaddr + i) % ARCH_PAGE_SIZE = ao + (i - c) := by
            simp only [ARCH_PAGE_SIZE] at *; omega
          have hpage : phdr.vaddr + i - (phdr.vaddr + i) % ARCH_PAGE_SIZE =
              phdr.vaddr + c - ao := by
            rw [hoff]; omega
          refine ⟨f, ?_, ?_⟩
          · rw [hpage, hF1 _ (by simp only [ARCH_PAGE_SIZE] at *; omega), hpt3, if_pos rfl]
          · rw [hoff, hF2, hmem3]
            · by_cases hif : i < phdr.filesz
              · rw [if_pos hif, if_pos (by simp only [ARCH_PAGE_SIZE] at *; omega)]
                have hidx : phdr.offset + c + (f + (ao + (i - c)) - (f + ao)) =
                    phdr.offset + i := by omega
                rw [hidx]
              · rw [if_neg hif, if_neg (by simp only [ARCH_PAGE_SIZE] at *; omega),
                  if_pos (by simp only [ARCH_PAGE_SIZE] at *; omega)]
            · intro g hg
              obtain ⟨hg1, hg2⟩ := hrest g hg
              have hf1 := hf.1
              simp only [ARCH_PAGE_SIZE] at *
              omega
        · exact hP i (by omega) hi2
      · rw [hL1, hcalls3, List.append_assoc]
        rfl
      · rw [List.map_cons, List.pairwise_cons]
        refine ⟨?_, hL2⟩
        intro v hv
        obtain ⟨hv1, i, hi1, _, _, hi4⟩ := (hL3 v).mp hv
        simp only [ARCH_PAGE_SIZE] at *
        omega
      · intro v
        rw [List.map_cons, List.mem_cons, hL3 v]
        constructor
        · rintro (hv | ⟨hv1, i, hi1, hi2, hi3, hi4⟩)
          · have hv' : v = phdr.vaddr + c - ao := hv
            subst hv'
            refine ⟨by simp only [ARCH_PAGE_SIZE] at *; omega, c, Nat.le_refl _, hc, by omega,
              by simp only [ARCH_PAGE_SIZE] at *; omega⟩
          · exact ⟨hv1, i, by omega, hi2, hi3, hi4⟩
        · rintro ⟨hv1, i, hi1, hi2, hi3, hi4⟩
          by_cases hic : i < c'
          · left
            simp only [ARCH_PAGE_SIZE] at *
            omega
          · right
            exact ⟨hv1, i, by omega, hi2, hi3, hi4⟩
      · intro x hx
        rcases List.mem_cons.mp hx with hx | hx
        · rw [hx]
        · exact hL4 x hx

/-- C30: for a `PT_LOAD` program header with `filesz ≤ memsz` whose file range
`[offset, offset + filesz)` lies inside the file (so every read returns the
bytes asked for), whose memory range ends at least a page below `2^64`, and
with as many distinct page-aligned frames on the free list as the range spans
pages, the page loop of `elf_load` returns.  Afterwards every virtual address
`vaddr + i` with `i < memsz` lies in a page mapped with the protection of the
segment to a frame in which that byte is the file byte `offset + i` when
`i < filesz` and `0` otherwise; the calls of `arch_vmm_map` the loop made map
exactly the pages that hold a byte of `[vaddr, vaddr + memsz)`, each once, with
that protection: the user bit, the write bit iff `PF_W`, the exec bit iff
`PF_X`, and nothing else. -/
theorem elf_load_pt_load_spec (s : elf_state) (file : List Nat) (phdr : elf_phdr_t)
    (hfs : phdr.filesz ≤ phdr.memsz)
    (hread : phdr.offset + phdr.filesz ≤ file.length) (hlen : file.length < UINTPTR_SIZE)
    (hwrap : phdr.vaddr + phdr.memsz + ARCH_PAGE_SIZE ≤ UINTPTR_SIZE)
    (hframes : phdr.vaddr % ARCH_PAGE_SIZE + phdr.memsz ≤
      (s.pmm.free PMM_ZONE_NORMAL).length * ARCH_PAGE_SIZE)
    (hnodup : (s.pmm.free PMM_ZONE_NORMAL).Nodup)
    (hal : ∀ f ∈ s.pmm.free PMM_ZONE_NORMAL, f % ARCH_PAGE_SIZE = 0 ∧ f < UINTPTR_SIZE) :
    ∃ (s' : elf_state) (calls : List vmm_map_call_t),
      elf_load_pt_load s file phdr = .ok s' ∧
      (∀ i, i < phdr.memsz →
        ∃ paddr,
          s'.page_table (phdr.vaddr + i - (phdr.vaddr + i) % ARCH_PAGE_SIZE) =
            some (paddr, elf_load_prot phdr.flags) ∧
          s'.memory (paddr + (phdr.vaddr + i) % ARCH_PAGE_SIZE) =
            if i < phdr.filesz then file.getD (phdr.offset + i) 0 else 0) ∧
      s'.map_calls = s.map_calls ++ calls ∧
      (calls.map (fun x => x.vaddr)).Nodup ∧
      (∀ v, v ∈ calls.map (fun x => x.vaddr) ↔
        v % ARCH_PAGE_SIZE = 0 ∧
        ∃ i, i < phdr.memsz ∧ v ≤ phdr.vaddr + i ∧ phdr.vaddr + i < v + ARCH_PAGE_SIZE) ∧
      (∀ x ∈ calls, x.prot = elf_load_prot phdr.flags) ∧
      elf_load_prot phdr.flags &&& VMM_PROT_USER ≠ 0 ∧
      (elf_load_prot phdr.flags &&& VMM_PROT_WRITE ≠ 0 ↔ phdr.flags &&& PF_W ≠ 0) ∧
      (elf_load_prot phdr.flags &&& VMM_PROT_EXEC ≠ 0 ↔ phdr.flags &&& PF_X ≠ 0) ∧
      elf_load_prot phdr.flags < 8 := by
  obtain ⟨s', calls, hrun, _, _, hP, hL1, hL2, hL3, hL4⟩ :=
    elf_load_page_loop_spec file phdr (elf_load_prot phdr.flags) hread hlen hwrap
      (phdr.memsz / ARCH_PAGE_SIZE + 2) s 0
      (by simp only [ARCH_PAGE_SIZE] at *; omega)
      (by simp only [ARCH_PAGE_SIZE] at *; omega) hnodup hal
  refine ⟨s', calls, ?_, ?_, hL1, ?_, ?_, hL4, elf_load_prot_bits phdr.flags⟩
  · unfold elf_load_pt_load
    rw [if_neg (by omega)]
    exact hrun
  · intro i hi
    exact hP i (Nat.zero_le _) hi
  · exact hL2.imp (fun h => Nat.ne_of_lt h)
  · intro v
    rw [hL3 v]
    constructor
    · rintro ⟨h1, i, _, h2, h3, h4⟩
      exact ⟨h1, i, h2, h3, h4⟩
    · rintro ⟨h1, i, h2, h3, h4⟩
      exact ⟨h1, i, Nat.zero_le _, h2, h3, h4⟩

theorem elf_load_pt_load_spec_witness :
    elf_example_phdr.filesz ≤ elf_example_phdr.memsz ∧
    elf_example_phdr.offset + elf_example_phdr.filesz ≤ elf_example_file.length ∧
    ∃ (s' : elf_state) (calls : List vmm_map_call_t),
      elf_load_pt_load elf_example_state elf_example_file elf_example_phdr = .ok s' ∧
      (∀ i, i < elf_example_phdr.memsz →
        ∃ paddr,
          s'.page_table (elf_example_phdr.vaddr + i -
              (elf_example_phdr.vaddr + i) % ARCH_PAGE_SIZE) =
            some (paddr, elf_load_prot elf_example_phdr.flags) ∧
          s'.memory (paddr + (elf_example_phdr.vaddr + i) % ARCH_PAGE_SIZE) =
            if i < elf_example_phdr.filesz then
              elf_example_file.getD (elf_example_phdr.offset + i) 0
            else 0) ∧
      s'.map_calls = elf_example_state.map_calls ++ calls ∧
      (calls.map (fun x => x.vaddr)).Nodup ∧
      (∀ v, v ∈ calls.map (fun x => x.vaddr) ↔
        v % ARCH_PAGE_SIZE = 0 ∧
        ∃ i, i < elf_example_phdr.memsz ∧ v ≤ elf_example_phdr.vaddr + i ∧
          elf_example_phdr.vaddr + i < v + ARCH_PAGE_SIZE) ∧
      (∀ x ∈ calls, x.prot = elf_load_prot elf_example_phdr.flags) ∧
      elf_load_prot elf_example_phdr.flags &&& VMM_PROT_USER ≠ 0 ∧
      (elf_load_prot elf_example_phdr.flags &&& VMM_PROT_WRITE ≠ 0 ↔
        elf_example_phdr.flags &&& PF_W ≠ 0) ∧
      (elf_load_prot elf_example_phdr.flags &&& VMM_PROT_EXEC ≠ 0 ↔
        elf_example_phdr.flags &&& PF_X ≠ 0) ∧
      elf_load_prot elf_example_phdr.flags < 8 :=
  ⟨by decide, by decide,
   elf_load_pt_load_spec elf_example_state elf_example_file elf_example_phdr (by decide)
    (by decide) (by decide) (by decide) (by decide) (by decide) (by decide)⟩

/-- The example segment, evaluated: three pages are mapped user and writable,
in ascending order, to the three frames; the last 16 bytes of the first page
and the first 16 bytes of the second hold the file bytes `0x10 .. 0x2F` (values
`0x11 .. 0x30`), and the bytes after them are zero. -/
theorem elf_load_pt_load_example :
    (elf_state_of (elf_load_pt_load elf_example_state elf_example_file elf_example_phdr)
      elf_example_state).map_calls =
      [{ vaddr := 0x400000, paddr := 0x200000, prot := 5 },
       { vaddr := 0x401000, paddr := 0x201000, prot := 5 },
       { vaddr := 0x402000, paddr := 0x202000, prot := 5 }] ∧
    [0x200FEF, 0x200FF0, 0x200FFF, 0x201000, 0x20100F, 0x201010, 0x202000, 0x20201F].map
      (elf_state_of (elf_load_pt_load elf_example_state elf_example_file elf_example_phdr)
        elf_example_state).memory =
      [0, 0x11, 0x20, 0x21, 0x30, 0, 0, 0] := by
  decide

end Elysium
